import Mathlib

/-!
# Battle simulator (`CPP/Battle/Lab.cpp`): shallow embedding and verified properties

Conventions of the embedding.

* C++ `int` is modelled by `Int`; the type bound `INT_MAX` is stated as an explicit
  hypothesis wherever a property depends on it (signed overflow is undefined in C++):
  the embedding is exact where the `int` operations of the source do not overflow
  (`HeightsFit`, `DamageFits` for the height arithmetic, `InputFits`, `TimeFits` for
  the sizes, the heights and the times that the driver reads).
* `std::map<std::string, V>` is an association list kept in increasing key order
  (`map_find`, `map_contains`, `map_at`, `map_emplace`, `map_erase`, `map_next`).
* `std::vector<std::vector<T>>` is a list of rows, indexed by a `Vec2i`.
* Code that can throw returns `Except Err _`; an out-of-range `operator[]`
  (undefined behaviour in C++) is reported as `Err.undefined_behaviour`.
* `std::unique_ptr<Unit>&` references into a tile are modelled by reading the unit
  and writing the modified unit back into the tile.
* Loops whose length is not bounded by a list carry fuel; the fuel handed over by the
  caller is proved sufficient (`Err.out_of_fuel` is never returned).

The file has three parts: the embedding of the source, the specification-side
definitions (paths, invariants, reachable states, closed forms), and the theorems.
The variant `CPP/Battle/VectorCopy.cpp` (namespace `Battle.VectorCopy`) and the board
of `CPP/Snake/Board.hpp` (namespace `Snake`) are embedded after `Lab.cpp`.
-/

deriving instance DecidableEq for Except

namespace Battle

/-! ## Overloaded operators -/

/-- The type `Vec2i = std::array<int, 2>`. -/
abbrev Vec2i := Int × Int

/-- The largest value of a C++ `int`. -/
def INT_MAX : Int := 2147483647

/-- The `operator+` on `Vec2i`. -/
def Vec2i.add (first second : Vec2i) : Vec2i := (first.1 + second.1, first.2 + second.2)

/-- The `operator*` of a `Vec2i` with an `int`. -/
def Vec2i.mul (first : Vec2i) (second : Int) : Vec2i := (first.1 * second, first.2 * second)

/-- Errors: the exceptions thrown by the code, undefined behaviour, and loop fuel. -/
inductive Err where
  | runtime_error (msg : String)
  | out_of_range
  | undefined_behaviour
  | out_of_fuel
  deriving DecidableEq

/-! ## `std::map<std::string, V>` -/

/-- Key order of `std::string`: lexicographic on the characters. -/
def key_lt (a b : String) : Prop := a.toList < b.toList

instance (a b : String) : Decidable (key_lt a b) :=
  inferInstanceAs (Decidable (a.toList < b.toList))

/-- Method `map.find(k)`: the value stored under `k`, if any. -/
def map_find {V : Type} : List (String × V) → String → Option V
  | [], _ => none
  | (k', v) :: m, k => if k = k' then some v else map_find m k

/-- Method `map.contains(k)`. -/
def map_contains {V : Type} (m : List (String × V)) (k : String) : Bool :=
  (map_find m k).isSome

/-- Method `map.at(k)`: throws `std::out_of_range` when the key is absent. -/
def map_at {V : Type} (m : List (String × V)) (k : String) : Except Err V :=
  match map_find m k with
  | some v => .ok v
  | none => .error .out_of_range

/-- Method `map.emplace(k, v)`: ordered insertion; an existing key keeps its value. -/
def map_emplace {V : Type} : List (String × V) → String → V → List (String × V)
  | [], k, v => [(k, v)]
  | (k', v') :: m, k, v =>
    if k = k' then (k', v') :: m
    else if key_lt k k' then (k, v) :: (k', v') :: m
    else (k', v') :: map_emplace m k v

/-- Method `map.erase(k)`. -/
def map_erase {V : Type} (m : List (String × V)) (k : String) : List (String × V) :=
  m.filter (fun p => p.1 ≠ k)

/-! ## `std::vector<std::vector<T>>` -/

/-- Reads `g[c[0]][c[1]]`; `none` when an index is out of range. -/
def gridGet {α : Type} (g : List (List α)) (c : Vec2i) : Option α :=
  if 0 ≤ c.1 ∧ 0 ≤ c.2 then
    match g[c.1.toNat]? with
    | some row => row[c.2.toNat]?
    | none => none
  else none

/-- Writes `g[c[0]][c[1]] = a`; the grid is returned unchanged when an index is out of range. -/
def gridSet {α : Type} (g : List (List α)) (c : Vec2i) (a : α) : List (List α) :=
  if 0 ≤ c.1 ∧ 0 ≤ c.2 then
    match g[c.1.toNat]? with
    | some row => g.set c.1.toNat (row.set c.2.toNat a)
    | none => g
  else g

/-! ## Effects -/

/-- The `class Effect` with its only subclass `DeadInside` (field `_dmg`). -/
structure Effect where
  type : String
  timer : Int
  dmg : Int
  deriving DecidableEq

/-- Method `Effect::is_done`. -/
def Effect.is_done (e : Effect) : Bool := decide (e.timer ≤ 0)

/-- Method `Effect::decrement_timer`. -/
def Effect.decrement_timer (e : Effect) (factor : Int) : Effect :=
  { e with timer := e.timer - factor }

/-- Constructor `DeadInside(int dmg = 1)`. -/
def DeadInside (dmg : Int) : Effect := { type := "dead_inside", timer := INT_MAX, dmg := dmg }

/-! ## Units -/

/-- The `class Unit`. -/
structure Unit where
  id : String
  type : String
  coor : Vec2i
  hp : Int
  max_hp : Int
  max_move : Int
  max_step : Int
  attack_dmg : Int
  attack_distance : Int
  attack_range : Int
  move_directions : List (String × Vec2i)
  attack_directions : List (String × Vec2i)
  active_effects : List Effect
  max_active : List (String × Int)
  deriving DecidableEq

/-- The default direction map `{up, down, left, right}`, in key order. -/
def default_directions : List (String × Vec2i) :=
  [("down", (1, 0)), ("left", (0, -1)), ("right", (0, 1)), ("up", (-1, 0))]

/-- The default effect caps `{ {"dead_inside", 1} }`. -/
def default_max_active : List (String × Int) := [("dead_inside", 1)]

/-- Constructor `Unit::Unit` with the default directions, effects and caps. -/
def Unit.new (id type : String) (coor : Vec2i)
    (hp max_move max_step attack_dmg attack_distance attack_range : Int) : Unit :=
  { id := id, type := type, coor := coor, hp := hp, max_hp := hp, max_move := max_move,
    max_step := max_step, attack_dmg := attack_dmg, attack_distance := attack_distance,
    attack_range := attack_range, move_directions := default_directions,
    attack_directions := default_directions, active_effects := [],
    max_active := default_max_active }

/-- Method `Unit::set_coor`. -/
def Unit.set_coor (u : Unit) (new_coor : Vec2i) : Unit := { u with coor := new_coor }

/-- Method `Unit::set_hp`. -/
def Unit.set_hp (u : Unit) (new_hp : Int) : Unit := { u with hp := new_hp }

/-- Method `Unit::take_damage`. -/
def Unit.take_damage (u : Unit) (dmg : Int) : Unit := u.set_hp (u.hp - dmg)

/-- Method `Unit::take_hp`. -/
def Unit.take_hp (u : Unit) (heal : Int) : Unit := u.set_hp (min (u.hp + heal) u.max_hp)

/-- Method `Unit::max_effect_count`: `_max_active.at(type)`. -/
def Unit.max_effect_count (u : Unit) (type : String) : Except Err Int :=
  map_at u.max_active type

/-- Method `Unit::active_effect_count`. -/
def Unit.active_effect_count (u : Unit) (type : String) : Except Err Int := do
  let sum : Int := u.active_effects.foldl (fun s e => if e.type = type then s + 1 else s) 0
  let cap ← u.max_effect_count type
  if cap < sum then
    .error (.runtime_error ("Overflow of active effects of type " ++ type))
  else pure sum

/-- Method `Unit::is_effect_full`. -/
def Unit.is_effect_full (u : Unit) (type : String) : Except Err Bool := do
  let count ← u.active_effect_count type
  let cap ← u.max_effect_count type
  pure (decide (count ≥ cap))

/-- Method `Unit::add_effect`. -/
def Unit.add_effect (u : Unit) (effect : Effect) : Unit :=
  { u with active_effects := u.active_effects ++ [effect] }

/-- Method `Unit::remove_overdue_effects`. -/
def Unit.remove_overdue_effects (u : Unit) : Unit :=
  { u with active_effects := u.active_effects.filter (fun e => !e.is_done) }

/-- The `class Footman`. -/
def Footman (id : String) (coor : Vec2i) : Unit := Unit.new id "footman" coor 20 1 1 1 1 0

/-- The `class Knight`. -/
def Knight (id : String) (coor : Vec2i) : Unit := Unit.new id "knight" coor 50 5 1 5 1 1

/-- The `class Rifleman`. -/
def Rifleman (id : String) (coor : Vec2i) : Unit :=
  Unit.new id "rifleman" coor 10 2 2 3 INT_MAX INT_MAX

/-- Method `DeadInside::apply`: damages the unit and decrements the effect's own timer. -/
def Effect.apply (e : Effect) (p_unit : Unit) (time_diff : Int) : Effect × Unit :=
  (e.decrement_timer time_diff, p_unit.take_damage (e.dmg * time_diff))

/-- The loop `for (effect : p_unit->effects()) effect->apply(p_unit, time_diff)`. -/
def apply_all : List Effect → Unit → Int → List Effect × Unit
  | [], p_unit, _ => ([], p_unit)
  | e :: es, p_unit, time_diff =>
    let r := e.apply p_unit time_diff
    let rs := apply_all es r.2 time_diff
    (r.1 :: rs.1, rs.2)

/-- The unit after all of its effects have been applied for `time_diff`. -/
def Unit.apply_effects (u : Unit) (time_diff : Int) : Unit :=
  let r := apply_all u.active_effects u time_diff
  { r.2 with active_effects := r.1 }

/-! ## Tile -/

/-- The `class Tile`: a height and at most one unit. -/
structure Tile where
  height : Int
  unit : Option Unit
  deriving DecidableEq

/-- Method `Tile::is_tile_empty`. -/
def Tile.is_tile_empty (t : Tile) : Bool := t.unit.isNone

/-- Method `Tile::add_unit`. -/
def Tile.add_unit (t : Tile) (unit : Unit) : Except Err Tile :=
  if t.unit.isSome then .error (.runtime_error "Replacing unit!")
  else .ok { t with unit := some unit }

/-- Method `Tile::find_unit`. -/
def Tile.find_unit (t : Tile) : Except Err Unit :=
  match t.unit with
  | none => .error (.runtime_error "Trying to access empty tile!")
  | some u => .ok u

/-- Method `Tile::remove_unit`: the removed unit and the emptied tile. -/
def Tile.remove_unit (t : Tile) : Except Err (Unit × Tile) :=
  match t.unit with
  | none => .error (.runtime_error "Trying to access empty tile!")
  | some u => .ok (u, { t with unit := none })

/-! ## BattleField -/

/-- The `class BattleField`. -/
structure BattleField where
  M : Int
  N : Int
  time : Int
  field : List (List Tile)
  coordinates : List (String × Vec2i)
  deriving DecidableEq

/-- Constructor `BattleField(M, N)`: the heights are read row by row from the input;
    the time starts at `0`.  The embedding is that of a call with `0 ≤ M` (for a
    negative `M` the `resize` of the source throws `std::length_error`) on an input
    that holds all the `M * N` heights (the embedding reads a missing value as `0`,
    the source leaves the `int` as it is). -/
def BattleField.new (M N : Int) (input : List Int) : BattleField :=
  { M := M, N := N, time := 0,
    field := (List.range M.toNat).map (fun i =>
      (List.range N.toNat).map (fun j =>
        ({ height := input.getD (i * N.toNat + j) 0, unit := none } : Tile))),
    coordinates := [] }

/-- Method `BattleField::set_time`. -/
def BattleField.set_time (bf : BattleField) (t : Int) : BattleField := { bf with time := t }

/-- Method `BattleField::is_inside_field`. -/
def is_inside_field (bf : BattleField) (coor : Vec2i) : Bool :=
  if coor.1 < 0 ∨ coor.1 ≥ bf.M ∨ coor.2 < 0 ∨ coor.2 ≥ bf.N then false else true

/-- Method `BattleField::find_tile`: `_field[coor.at(0)][coor.at(1)]`. -/
def find_tile (bf : BattleField) (coor : Vec2i) : Except Err Tile :=
  match gridGet bf.field coor with
  | some t => .ok t
  | none => .error .undefined_behaviour

/-- Writing through the reference returned by `find_tile`. -/
def set_tile (bf : BattleField) (coor : Vec2i) (t : Tile) : BattleField :=
  { bf with field := gridSet bf.field coor t }

/-- The tile read by `find_tile` at a coordinate that the caller has already checked
    with `is_inside_field` (used inside `BFS`, where every read is guarded): on a
    field of `M` rows of `N` tiles `find_tile` returns this tile at every coordinate
    inside the field (theorem `find_tile_inside`). -/
def tileD (bf : BattleField) (coor : Vec2i) : Tile :=
  (gridGet bf.field coor).getD { height := 0, unit := none }

/-- Method `BattleField::calculate_height_diff`: the `int` subtraction of the source,
    exact where the difference fits an `int` (`HeightsFit`). -/
def calculate_height_diff (tile1 tile2 : Tile) : Int := tile1.height - tile2.height

/-- Method `BattleField::tile_contains_id`. -/
def tile_contains_id (bf : BattleField) (id : String) (target : Vec2i) : Except Err Bool := do
  let t ← find_tile bf target
  if !t.is_tile_empty then do
    let u ← t.find_unit
    pure (decide (u.id = id))
  else pure false

/-! ## Reachability search -/

/-- Reads `visited[c[0]][c[1]]` for a coordinate already checked with `is_inside_field`. -/
def visitedAt (visited : List (List Bool)) (c : Vec2i) : Bool :=
  gridGet visited c == some true

/-- The body of the loop over `dirs` in `BFS`, for one direction entry: when the
    neighbour passes every test it is marked visited and enqueued. -/
def BFS_visit (bf : BattleField) (max_move max_step : Int) (pair : Vec2i × Int)
    (st : List (List Bool) × List (Vec2i × Int)) (d : String × Vec2i) :
    List (List Bool) × List (Vec2i × Int) :=
  let coor := pair.1.add d.2
  if is_inside_field bf coor &&
      !visitedAt st.1 coor &&
      decide (pair.2 + 1 ≤ max_move) &&
      decide (|calculate_height_diff (tileD bf pair.1) (tileD bf coor)| ≤ max_step) &&
      (tileD bf coor).is_tile_empty then
    (gridSet st.1 coor true, st.2 ++ [(coor, pair.2 + 1)])
  else st

/-- The `while (!queue.empty())` loop of `BFS`; one unit of fuel per dequeued pair. -/
def BFS_loop (bf : BattleField) (target : Vec2i) (max_move max_step : Int)
    (dirs : List (String × Vec2i)) :
    Nat → List (List Bool) → List (Vec2i × Int) → Except Err Bool
  | _, _, [] => .ok false
  | 0, _, _ :: _ => .error .out_of_fuel
  | fuel + 1, visited, pair :: queue =>
    if pair.1 = target then .ok true
    else
      let st := dirs.foldl (BFS_visit bf max_move max_step pair) (visited, queue)
      BFS_loop bf target max_move max_step dirs fuel st.1 st.2

/-- Method `BattleField::BFS`.  The fuel `M * N` bounds the number of dequeued pairs, since
    every cell is enqueued at most once. -/
def BFS (bf : BattleField) (coor target : Vec2i) (max_move max_step : Int)
    (dirs : List (String × Vec2i)) : Except Err Bool :=
  if is_inside_field bf coor then
    BFS_loop bf target max_move max_step dirs (bf.M.toNat * bf.N.toNat)
      (gridSet (List.replicate bf.M.toNat (List.replicate bf.N.toNat false)) coor true)
      [(coor, 0)]
  else .error .undefined_behaviour

/-! ## Operations of the battle field -/

/-- Method `BattleField::create_unit`. -/
def create_unit (type id : String) (coor : Vec2i) : Except Err Unit :=
  if type = "footman" then .ok (Footman id coor)
  else if type = "knight" then .ok (Knight id coor)
  else if type = "rifleman" then .ok (Rifleman id coor)
  else .error (.runtime_error "Unsupported unit!")

/-- Method `BattleField::spawn_unit`. -/
def spawn_unit (bf : BattleField) (type id : String) (x y : Int) : Except Err BattleField :=
  let coor : Vec2i := (x, y)
  if !is_inside_field bf coor then .ok bf
  else do
    let t ← find_tile bf coor
    if !t.is_tile_empty || map_contains bf.coordinates id then pure bf
    else do
      let p_unit ← create_unit type id coor
      let coordinates := map_emplace bf.coordinates id p_unit.coor
      let t' ← t.add_unit p_unit
      pure { bf with coordinates := coordinates, field := gridSet bf.field coor t' }

/-- Method `BattleField::remove_unit`: the removed unit and the battle field without it. -/
def remove_unit (bf : BattleField) (id : String) : Except Err (Unit × BattleField) := do
  let coor ← map_at bf.coordinates id
  let t ← find_tile bf coor
  let r ← t.remove_unit
  pure (r.1, { bf with field := gridSet bf.field coor r.2,
                       coordinates := map_erase bf.coordinates id })

/-- Method `BattleField::initialize_attack`: whether the attack was carried out, and the
    battle field afterwards.  The `int` operations `h_diff` and `attack_dmg + h_diff`
    are exact where their values fit an `int` (`HeightsFit`, `DamageFits`). -/
def initialize_attack (bf : BattleField) (id : String) (dir : Vec2i) :
    Except Err (Bool × BattleField) := do
  let c ← map_at bf.coordinates id
  let tv ← find_tile bf (c.add dir)
  if tv.is_tile_empty then pure (false, bf)
  else do
    let p_victim ← tv.find_unit
    let ta ← find_tile bf c
    let p_attacker ← ta.find_unit
    let h_diff := calculate_height_diff ta tv
    if |h_diff| > p_attacker.attack_range then pure (false, bf)
    else do
      let damage := p_attacker.attack_dmg + h_diff
      let damage := if damage < 0 then 0 else damage
      let victim := p_victim.take_damage damage
      let bf1 := set_tile bf (c.add dir) { tv with unit := some victim }
      if victim.hp ≤ 0 then do
        let r ← remove_unit bf1 victim.id
        pure (true, r.2)
      else pure (true, bf1)

/-- The loop `for (int i = 1; i <= p_attacker->attack_distance(); ++i)` of
    `attack_unit`; the first argument counts the iterations that remain.  The battle
    field does not change while the loop goes on (it only changes in the iteration
    that returns), so the attacker read before the loop is the attacker that every
    iteration reads through the reference `p_attacker`. -/
def attack_loop (id dir : String) (p_attacker : Unit) :
    Nat → Int → BattleField → Except Err BattleField
  | 0, _, bf => .ok bf
  | n + 1, i, bf => do
    let c ← map_at bf.coordinates id
    let v ← map_at p_attacker.attack_directions dir
    if !is_inside_field bf (c.add (v.mul i)) then pure bf
    else do
      let r ← initialize_attack bf id (v.mul i)
      if r.1 then pure r.2
      else attack_loop id dir p_attacker n (i + 1) r.2

/-- Method `BattleField::attack_unit`. -/
def attack_unit (bf : BattleField) (id dir : String) : Except Err BattleField :=
  if !map_contains bf.coordinates id then .ok bf
  else do
    let c ← map_at bf.coordinates id
    let t ← find_tile bf c
    let p_attacker ← t.find_unit
    attack_loop id dir p_attacker p_attacker.attack_distance.toNat 1 bf

/-- Method `BattleField::is_move_successful`. -/
def is_move_successful (bf : BattleField) (id : String) (target : Vec2i) :
    Except Err Bool := do
  let c ← map_at bf.coordinates id
  let t ← find_tile bf c
  let p_unit ← t.find_unit
  if !is_inside_field bf target then pure false
  else do
    let tt ← find_tile bf target
    let occupied ← (if !tt.is_tile_empty then do
        let own ← tile_contains_id bf id target
        pure (!own)
      else pure false)
    if occupied then pure false
    else do
      let r ← BFS bf c target p_unit.max_move p_unit.max_step p_unit.move_directions
      pure r

/-- Method `BattleField::move_unit`. -/
def move_unit (bf : BattleField) (id : String) (x y : Int) : Except Err BattleField := do
  let target : Vec2i := (x, y)
  let result ← is_move_successful bf id target
  let c ← map_at bf.coordinates id
  let t ← find_tile bf c
  let u ← t.find_unit
  let bf1 := set_tile bf c { t with unit := some (u.set_coor target) }
  if result then do
    let r ← remove_unit bf1 id
    let coordinates := map_emplace r.2.coordinates id r.1.coor
    let tt ← find_tile r.2 (x, y)
    let tt' ← tt.add_unit r.1
    pure { r.2 with coordinates := coordinates, field := gridSet r.2.field (x, y) tt' }
  else do
    let c1 ← map_at bf1.coordinates id
    let t1 ← find_tile bf1 c1
    let unit ← t1.find_unit
    let full ← unit.is_effect_full "dead_inside"
    if !full then
      pure (set_tile bf1 c1 { t1 with unit := some (unit.add_effect (DeadInside 1)) })
    else pure bf1

/-- One iteration of the loop over `_coordinates` in `update_tick`, for the registry
    entry `entry`. -/
def tick_unit (new_time : Int) (bf : BattleField) (entry : String × Vec2i) :
    Except Err BattleField := do
  let t ← find_tile bf entry.2
  let p_unit ← t.find_unit
  let p_unit1 := p_unit.apply_effects (new_time - bf.time)
  let bf1 := set_tile bf entry.2 { t with unit := some p_unit1 }
  if p_unit1.hp ≤ 0 then do
    let r ← remove_unit bf1 entry.1
    pure r.2
  else
    pure (set_tile bf1 entry.2 { t with unit := some p_unit1.remove_overdue_effects })

/-- The iterator step `++it` of `std::map`, for an iterator that points to the entry
    with key `k`: the entry that follows it in key order, `none` for `cend()`. -/
def map_next {V : Type} : List (String × V) → String → Option (String × V)
  | [], _ => none
  | (k', _) :: m, k => if k' = k then m.head? else map_next m k

/-- The loop `for (itr = cbegin(), next_it = itr; itr != cend(); itr = next_it)` of
    `update_tick`.  An iterator is the entry it points to (`none` for `cend()`);
    `next_it` is advanced in the registry as it is before the body runs, and the body
    may erase the entry of `itr`.  One unit of fuel per visited entry. -/
def update_tick_loop (new_time : Int) :
    Nat → BattleField → Option (String × Vec2i) → Except Err BattleField
  | _, bf, none => .ok bf
  | 0, _, some _ => .error .out_of_fuel
  | fuel + 1, bf, some entry => do
    let next_it := map_next bf.coordinates entry.1
    let bf1 ← tick_unit new_time bf entry
    update_tick_loop new_time fuel bf1 next_it

/-- Method `BattleField::update_tick`.  The fuel is the number of registered units:
    every entry is visited at most once. -/
def update_tick (bf : BattleField) (new_time : Int) : Except Err BattleField := do
  let bf1 ← update_tick_loop new_time bf.coordinates.length bf bf.coordinates.head?
  pure (bf1.set_time new_time)

/-- Function `check_lowercase`, with `isalpha` and `islower` of the "C" locale. -/
def check_lowercase (id : String) : Bool :=
  id.toList.all (fun ch => ch.isAlpha && ch.isLower)

/-- The `spawn` branch of `execute_commands`: coordinates are 1-based in the command. -/
def execute_spawn (bf : BattleField) (type id : String) (x y : Int) :
    Except Err BattleField :=
  if check_lowercase id then spawn_unit bf type id (x - 1) (y - 1) else .ok bf

/-! ## Specification-side definitions -/

/-- One admissible step of a walk: `b` is `a` plus a direction vector of the set, lies
    inside the field, is empty, and differs in height from `a` by at most `max_step`. -/
def Step (bf : BattleField) (max_step : Int) (dirs : List (String × Vec2i))
    (a b : Vec2i) : Prop :=
  (∃ d ∈ dirs, b = a.add d.2) ∧ is_inside_field bf b = true ∧
    (tileD bf b).is_tile_empty = true ∧
    |(tileD bf a).height - (tileD bf b).height| ≤ max_step

/-- Walks of exactly `k` admissible steps starting at `origin`. -/
inductive Reach (bf : BattleField) (max_step : Int) (dirs : List (String × Vec2i))
    (origin : Vec2i) : Nat → Vec2i → Prop where
  | zero : Reach bf max_step dirs origin 0 origin
  | step {k : Nat} {a b : Vec2i} :
      Reach bf max_step dirs origin k a → Step bf max_step dirs a b →
      Reach bf max_step dirs origin (k + 1) b

/-- The field has `M` rows of `N` tiles each, as built by the constructor. -/
def WF (bf : BattleField) : Prop :=
  bf.field.length = bf.M.toNat ∧ ∀ row ∈ bf.field, row.length = bf.N.toNat

instance (bf : BattleField) : Decidable (WF bf) :=
  inferInstanceAs (Decidable (_ ∧ _))

/-- The height differences that `calculate_height_diff` computes on this field fit a
    C++ `int` (the subtraction does not overflow). -/
def HeightsFit (bf : BattleField) : Prop :=
  ∀ row ∈ bf.field, ∀ t ∈ row, ∀ row' ∈ bf.field, ∀ t' ∈ row',
    |calculate_height_diff t t'| ≤ INT_MAX

instance (bf : BattleField) : Decidable (HeightsFit bf) :=
  inferInstanceAs (Decidable (∀ row ∈ bf.field, _))

/-- The sums `attack_dmg + h_diff` that `initialize_attack` computes for an attacker of
    attack damage `dmg` standing on the tile `ta` fit a C++ `int` (the addition does not
    overflow), whatever tile of the field the victim stands on. -/
def DamageFits (bf : BattleField) (dmg : Int) (ta : Tile) : Prop :=
  ∀ row ∈ bf.field, ∀ t ∈ row, |dmg + calculate_height_diff ta t| ≤ INT_MAX

instance (bf : BattleField) (dmg : Int) (ta : Tile) : Decidable (DamageFits bf dmg ta) :=
  inferInstanceAs (Decidable (∀ row ∈ bf.field, _))

/-- Number of cells of the `visited` matrix that are still `false`. -/
def countFalse (visited : List (List Bool)) : Nat :=
  (visited.map (fun row => row.count false)).sum

/-- The `visited` matrix covers every coordinate inside the field. -/
def VDims (bf : BattleField) (visited : List (List Bool)) : Prop :=
  ∀ c, is_inside_field bf c = true → (gridGet visited c).isSome = true

/-- Loop invariant of `BFS` used for completeness: `Q` is the queue and `C` the list
    of pairs that have already been dequeued. -/
structure BFSInv (bf : BattleField) (target : Vec2i) (B S : Int)
    (dirs : List (String × Vec2i)) (origin : Vec2i)
    (V : List (List Bool)) (Q C : List (Vec2i × Int)) : Prop where
  vd : VDims bf V
  recorded : ∀ x, visitedAt V x = true → ∃ dx, (x, dx) ∈ C ∨ (x, dx) ∈ Q
  notTarget : ∀ e ∈ C, e.1 ≠ target
  sorted : Q.Pairwise (fun a b => a.2 ≤ b.2)
  within : ∀ e ∈ Q, ∀ e' ∈ Q, e'.2 ≤ e.2 + 1
  closedLe : ∀ e ∈ C, ∀ e' ∈ Q, e.2 ≤ e'.2
  closedSucc : ∀ e ∈ C, ∀ x, Step bf S dirs e.1 x → e.2 + 1 ≤ B →
    ∃ dx, ((x, dx) ∈ C ∨ (x, dx) ∈ Q) ∧ dx ≤ e.2 + 1
  start : ∃ d0, ((origin, d0) ∈ C ∨ (origin, d0) ∈ Q) ∧ d0 ≤ 0

/-- The unit standing on the tile at `c`, if the coordinate is valid and the tile is
    occupied. -/
def unitAt (bf : BattleField) (c : Vec2i) : Option Unit :=
  match gridGet bf.field c with
  | some t => t.unit
  | none => none

/-- The tile at `c` holds a unit whose identifier is `id`. -/
def holds (bf : BattleField) (c : Vec2i) (id : String) : Bool :=
  match unitAt bf c with
  | some u => decide (u.id = id)
  | none => false

/-- The unit on the tile at `c`, if any, is registered under its identifier at `c`. -/
def registered (bf : BattleField) (c : Vec2i) : Bool :=
  match unitAt bf c with
  | some u => decide (map_find bf.coordinates u.id = some c)
  | none => true

/-- Registry and grid agree: the registry is a `std::map` (strictly increasing keys),
    every registry entry points to a tile holding a unit of that identifier, and every
    unit on a tile is registered at that tile. -/
def Consistent (bf : BattleField) : Prop :=
  (bf.coordinates.map Prod.fst).Pairwise key_lt ∧
  (∀ e ∈ bf.coordinates, holds bf e.2 e.1 = true) ∧
  (∀ i ∈ List.range bf.M.toNat, ∀ j ∈ List.range bf.N.toNat,
    registered bf ((i : Int), (j : Int)) = true)

instance (bf : BattleField) : Decidable (Consistent bf) :=
  inferInstanceAs (Decidable (_ ∧ _ ∧ _))

/-- The battle field with the occupant of the tile at `c` replaced by `ou`. -/
def putUnit (bf : BattleField) (c : Vec2i) (ou : Option Unit) : BattleField :=
  { bf with field := gridSet bf.field c { height := (tileD bf c).height, unit := ou } }

/-- Number of `dead_inside` effects of a unit. -/
def deadInsideCount (u : Unit) : Nat :=
  (u.active_effects.filter (fun e => e.type = "dead_inside")).length

/-- Properties of a unit that stands on a battle field whose current time is `time`:
    it is alive and within its maximal hp, has the default caps, and holds at most one
    effect, which is a `dead_inside` effect of damage `1` created at a time `≥ 0`. -/
def UnitOk (time : Int) (u : Unit) : Prop :=
  0 < u.hp ∧ u.hp ≤ u.max_hp ∧ u.max_active = default_max_active ∧
  deadInsideCount u ≤ 1 ∧
  ∀ e ∈ u.active_effects, e.type = "dead_inside" ∧ e.dmg = 1 ∧ INT_MAX ≤ e.timer + time

instance (time : Int) (u : Unit) : Decidable (UnitOk time u) :=
  inferInstanceAs (Decidable (_ ∧ _ ∧ _ ∧ _ ∧ _))

/-- Every unit on the field satisfies `UnitOk`. -/
def UnitsOk (bf : BattleField) : Prop :=
  ∀ i ∈ List.range bf.M.toNat, ∀ j ∈ List.range bf.N.toNat,
    ∀ u ∈ unitAt bf ((i : Int), (j : Int)), UnitOk bf.time u

instance (bf : BattleField) : Decidable (UnitsOk bf) :=
  inferInstanceAs (Decidable (∀ i ∈ List.range bf.M.toNat, _))

/-- The invariant of the battle field. -/
structure Inv (bf : BattleField) : Prop where
  wf : WF bf
  cons : Consistent bf
  time_nonneg : 0 ≤ bf.time
  units : UnitsOk bf

/-- States reachable from a freshly constructed battle field through the public
    operations, with strictly increasing tick times that fit a C++ `int`. -/
inductive Reachable : BattleField → Prop where
  | init (M N : Int) (input : List Int) : Reachable (BattleField.new M N input)
  | spawn {bf bf' : BattleField} (type id : String) (x y : Int) :
      Reachable bf → spawn_unit bf type id x y = .ok bf' → Reachable bf'
  | move {bf bf' : BattleField} (id : String) (x y : Int) :
      Reachable bf → move_unit bf id x y = .ok bf' → Reachable bf'
  | attack {bf bf' : BattleField} (id dir : String) :
      Reachable bf → attack_unit bf id dir = .ok bf' → Reachable bf'
  | tick {bf bf' : BattleField} (new_time : Int) :
      Reachable bf → bf.time < new_time → new_time ≤ INT_MAX →
      update_tick bf new_time = .ok bf' → Reachable bf'

/-- Attack damage as the specification states it:
    `max(0, attack_dmg + (attacker_height - target_height))`. -/
def attack_damage (attack_dmg attacker_height target_height : Int) : Int :=
  max 0 (attack_dmg + (attacker_height - target_height))

/-- The cell probed by `attack_unit` at multiple `i` of the direction vector `v`. -/
def probe (c v : Vec2i) (i : Int) : Vec2i := c.add (v.mul i)

/-- The battle field after the unit `v` standing at `c` has taken `dmg` damage: it is
    removed from tile and registry when its hp drops to `0` or below. -/
def damaged (bf : BattleField) (c : Vec2i) (v : Unit) (dmg : Int) : BattleField :=
  if v.hp - dmg ≤ 0 then
    { putUnit bf c none with coordinates := map_erase bf.coordinates v.id }
  else putUnit bf c (some (v.take_damage dmg))

/-- Total hp lost by a unit over `dt` time units: `magnitude * dt` for each of its
    active effects. -/
def effects_damage (u : Unit) (dt : Int) : Int :=
  (u.active_effects.map (fun e => e.dmg * dt)).sum

/-- What a tick of `dt` time units makes of a unit: `none` when its hp drops to `0` or
    below, otherwise the unit with the reduced hp, its effect timers decremented and
    the effects whose timer is `≤ 0` purged. -/
def tick_result (u : Unit) (dt : Int) : Option Unit :=
  if u.hp - effects_damage u dt ≤ 0 then none
  else some { u with
    hp := u.hp - effects_damage u dt
    active_effects :=
      (u.active_effects.map (fun e => e.decrement_timer dt)).filter (fun e => !e.is_done) }

/-- The battle field after the tick of the unit registered as `id` at `c`. -/
def ticked (bf : BattleField) (id : String) (c : Vec2i) (r : Option Unit) : BattleField :=
  match r with
  | none => { putUnit bf c none with coordinates := map_erase bf.coordinates id }
  | some u => putUnit bf c (some u)

/-- Feasibility of moving the unit `u`, registered at `c`, to `target`, as the
    specification states it: the target is inside the field, the target tile is empty
    or holds this very unit, and the reachability search from `c` succeeds with the
    unit's own budget, step limit and move directions. -/
def MoveFeasible (bf : BattleField) (c : Vec2i) (u : Unit) (target : Vec2i) : Prop :=
  is_inside_field bf target = true ∧
  (unitAt bf target = none ∨ unitAt bf target = some u) ∧
  BFS bf c target u.max_move u.max_step u.move_directions = .ok true

instance (bf : BattleField) (c : Vec2i) (u : Unit) (target : Vec2i) :
    Decidable (MoveFeasible bf c u target) :=
  inferInstanceAs (Decidable (_ ∧ _ ∧ _))

/-! ### Example battle fields -/

/-- A fresh `1 x 3` field of height `0`. -/
def exField : BattleField := BattleField.new 1 3 [0, 0, 0]

/-- The field `exField` after `spawn footman a 1 1`. -/
def exOne : BattleField :=
  { M := 1, N := 3, time := 0,
    field := [[{ height := 0, unit := some (Footman "a" (0, 0)) },
               { height := 0, unit := none }, { height := 0, unit := none }]],
    coordinates := [("a", (0, 0))] }

/-- The field `exOne` after `spawn footman b 1 3`. -/
def exTwo : BattleField :=
  { M := 1, N := 3, time := 0,
    field := [[{ height := 0, unit := some (Footman "a" (0, 0)) },
               { height := 0, unit := none },
               { height := 0, unit := some (Footman "b" (0, 2)) }]],
    coordinates := [("a", (0, 0)), ("b", (0, 2))] }

/-- The field `exTwo` after the failed `move a 1 3`: `a` stays at `(0, 0)`, stores the target as
    its coordinate and holds one `dead_inside` effect. -/
def exPenalty : BattleField :=
  { M := 1, N := 3, time := 0,
    field := [[{ height := 0,
                 unit := some (((Footman "a" (0, 0)).set_coor (0, 2)).add_effect
                   (DeadInside 1)) },
               { height := 0, unit := none },
               { height := 0, unit := some (Footman "b" (0, 2)) }]],
    coordinates := [("a", (0, 0)), ("b", (0, 2))] }

/-- A `1 x 3` field of height `0` with a rifleman at `(0, 0)` and a footman at
    `(0, 2)`. -/
def exRifle : BattleField :=
  { M := 1, N := 3, time := 0,
    field := [[{ height := 0, unit := some (Rifleman "a" (0, 0)) },
               { height := 0, unit := none },
               { height := 0, unit := some (Footman "b" (0, 2)) }]],
    coordinates := [("a", (0, 0)), ("b", (0, 2))] }

/-- An attacker with attack distance `2` and attack height-range `0`. -/
def exLancer : Unit := Unit.new "a" "lancer" (0, 0) 20 1 1 1 2 0

/-- A `1 x 3` field of heights `0, 5, 0` with `exLancer` at `(0, 0)` and footmen at
    `(0, 1)` and `(0, 2)`. -/
def exSkip : BattleField :=
  { M := 1, N := 3, time := 0,
    field := [[{ height := 0, unit := some exLancer },
               { height := 5, unit := some (Footman "b" (0, 1)) },
               { height := 0, unit := some (Footman "c" (0, 2)) }]],
    coordinates := [("a", (0, 0)), ("b", (0, 1)), ("c", (0, 2))] }

/-! ## Snapshot, commands and driver -/

/-- Function `flip_pair`. -/
def flip_pair (p : String × Vec2i) : Vec2i × String := (p.2, p.1)

/-- Key order of `std::multimap<Vec2i, std::string>`: `operator<` of
    `std::array<int, 2>`, which is lexicographic. -/
def vec_lt (a b : Vec2i) : Prop := a.1 < b.1 ∨ (a.1 = b.1 ∧ a.2 < b.2)

instance (a b : Vec2i) : Decidable (vec_lt a b) :=
  inferInstanceAs (Decidable (_ ∨ _))

/-- Method `multimap::insert(hint, value)`: the value is inserted in key order, among
    equal keys as close as possible to the position `hint`; returned are the
    container and the position after the inserted element, which is the hint that
    `std::insert_iterator` uses next. -/
def multimap_insert (dst : List (Vec2i × String)) (hint : Nat) (value : Vec2i × String) :
    List (Vec2i × String) × Nat :=
  let lower := (dst.takeWhile (fun q => decide (vec_lt q.1 value.1))).length
  let upper := (dst.takeWhile (fun q => !decide (vec_lt value.1 q.1))).length
  let pos := max lower (min hint upper)
  (dst.take pos ++ value :: dst.drop pos, pos + 1)

/-- Function `flip_map`: `std::transform` of the registry through `flip_pair` into an
    `std::inserter(dst, dst.begin())`. -/
def flip_map (src : List (String × Vec2i)) : List (Vec2i × String) :=
  (src.foldl (fun st p => multimap_insert st.1 st.2 (flip_pair p)) ([], 0)).1

/-- The loop of `state` over `flipped_coordinates`: one printed line per entry. -/
def state_lines (bf : BattleField) : List (Vec2i × String) → Except Err (List String)
  | [] => .ok []
  | (coor, id) :: rest => do
    let t ← find_tile bf coor
    let p_unit ← t.find_unit
    let lines ← state_lines bf rest
    pure ((id ++ " " ++ p_unit.type ++ " (" ++ toString (coor.1 + 1) ++ ", " ++
      toString (coor.2 + 1) ++ ") " ++ toString p_unit.hp) :: lines)

/-- Method `BattleField::state`: the lines written to the output. -/
def state (bf : BattleField) : Except Err (List String) := do
  let flipped_coordinates := flip_map bf.coordinates
  let lines ← state_lines bf flipped_coordinates
  pure (lines ++ ["---"])

/-- One parsed command of the command stream read by `execute_commands`. -/
inductive Command where
  | spawn (type id : String) (x y : Int)
  | move (id : String) (x y : Int)
  | attack (id dir : String)
  | state
  | new_command
  | unsupported (cmd : String)
  deriving DecidableEq

/-- One branch of the loop of `execute_commands`; the output written so far is
    threaded through. -/
def execute_command (bf : BattleField) (out : List String) :
    Command → Except Err (BattleField × List String)
  | .spawn type id x y => do
    let bf1 ← execute_spawn bf type id x y
    pure (bf1, out)
  | .move id x y => do
    let bf1 ← move_unit bf id (x - 1) (y - 1)
    pure (bf1, out)
  | .attack id dir => do
    let bf1 ← attack_unit bf id dir
    pure (bf1, out)
  | .state => do
    let lines ← state bf
    pure (bf, out ++ lines)
  | .new_command => pure (bf, out)
  | .unsupported _ => .error (.runtime_error "Unsupported command!")

/-- Function `execute_commands`, on the parsed commands of one segment. -/
def execute_commands :
    List Command → BattleField × List String → Except Err (BattleField × List String)
  | [], st => .ok st
  | cmd :: rest, st => do
    let st1 ← execute_command st.1 st.2 cmd
    execute_commands rest st1

/-- One non-blank input line of `main`: the leading tick time and the commands of its
    segments, from left to right.  The time is the value of the numeral that `std::stoi`
    parses; `std::stoi` returns it when it fits an `int` (`TimeFits`) and throws
    `std::out_of_range` otherwise. -/
structure Line where
  time : Int
  commands : List Command
  deriving DecidableEq

/-- The leading time of the line fits a C++ `int`, so that `std::stoi` returns it. -/
def TimeFits (l : Line) : Prop := -INT_MAX - 1 ≤ l.time ∧ l.time ≤ INT_MAX

instance (l : Line) : Decidable (TimeFits l) :=
  inferInstanceAs (Decidable (_ ∧ _))

/-- The sizes and the heights at the head of the input are read without a failure and
    the constructor does not throw: the sizes and the heights fit a C++ `int`, `M` is
    not negative (the `resize` to a negative size throws `std::length_error`), and the
    input holds all the `M * N` heights. -/
def InputFits (M N : Int) (input : List Int) : Prop :=
  0 ≤ M ∧ M ≤ INT_MAX ∧ -INT_MAX - 1 ≤ N ∧ N ≤ INT_MAX ∧
  M.toNat * N.toNat ≤ input.length ∧ ∀ h ∈ input, -INT_MAX - 1 ≤ h ∧ h ≤ INT_MAX

instance (M N : Int) (input : List Int) : Decidable (InputFits M N input) :=
  inferInstanceAs (Decidable (_ ∧ _ ∧ _ ∧ _ ∧ _ ∧ _))

/-- How a run of `main` ends: it returns an exit status (with the battle field and the
    output at that point) or terminates on an uncaught exception. -/
inductive Outcome where
  | exit (status : Int) (bf : BattleField) (out : List String)
  | terminate (e : Err)
  deriving DecidableEq

/-- The loop `while (getline(std::cin, line))` of `main`. -/
def main_loop : List Line → BattleField → List String → Outcome
  | [], bf, out => .exit 0 bf out
  | line :: rest, bf, out =>
    if bf.time ≥ line.time then .exit 1 bf out
    else
      match update_tick bf line.time with
      | .error e => .terminate e
      | .ok bf1 =>
        match execute_commands line.commands (bf1, out) with
        | .error e => .terminate e
        | .ok st => main_loop rest st.1 st.2

/-- Function `main` on the sizes, the heights and the parsed input lines, for sizes,
    heights and lines on which neither the constructor nor `std::stoi` throws
    (`InputFits`, and `TimeFits` for every line that is read). -/
def main (M N : Int) (input : List Int) (lines : List Line) : Outcome :=
  main_loop lines (BattleField.new M N input) []

/-! ### Specification-side definitions for the snapshot and the catalog -/

/-- The snapshot line `<id> <kind> (<row+1>, <col+1>) <hp>` of a unit registered at
    `(row, col)`. -/
def snapshot_line (id kind : String) (row col hp : Int) : String :=
  id ++ " " ++ kind ++ " (" ++ toString (row + 1) ++ ", " ++ toString (col + 1) ++ ") " ++
    toString hp

/-- The snapshot line of the registry entry `e` (coordinate and id): kind and hp are
    those of the unit on the tile at the coordinate. -/
def entry_line (bf : BattleField) (e : Vec2i × String) : String :=
  match unitAt bf e.1 with
  | some u => snapshot_line e.2 u.type e.1.1 e.1.2 u.hp
  | none => ""

/-- Base hp of the three archetypes (`Footman`, `Knight`, `Rifleman`). -/
def base_hp (kind : String) : Int :=
  if kind = "footman" then 20 else if kind = "knight" then 50 else 10

/-- The internal invariant-violation errors of the engine. -/
def internal_error (e : Err) : Prop :=
  e = .runtime_error "Replacing unit!" ∨ e = .runtime_error "Trying to access empty tile!" ∨
  ∃ type, e = .runtime_error ("Overflow of active effects of type " ++ type)

/-- The errors that the commands raise on valid states: `std::out_of_range` of a map
    lookup, the unknown kind of a spawn, the unknown command word. -/
def command_error (e : Err) : Prop :=
  e = .out_of_range ∨ e = .runtime_error "Unsupported unit!" ∨
  e = .runtime_error "Unsupported command!"

/-! ### Further example states -/

/-- A `1 x 3` field of heights `0, 0, 0` on which the registry order differs from the
    coordinate order: the knight `a` stands at `(0, 2)`, the footman `b` at `(0, 0)`. -/
def exCross : BattleField :=
  { M := 1, N := 3, time := 0,
    field := [[{ height := 0, unit := some (Footman "b" (0, 0)) },
               { height := 0, unit := none },
               { height := 0, unit := some (Knight "a" (0, 2)) }]],
    coordinates := [("a", (0, 2)), ("b", (0, 0))] }

/-- The field `exTwo` at time `1` after the successful `move a 1 2`. -/
def exMoved : BattleField :=
  { M := 1, N := 3, time := 1,
    field := [[{ height := 0, unit := none },
               { height := 0, unit := some ((Footman "a" (0, 0)).set_coor (0, 1)) },
               { height := 0, unit := some (Footman "b" (0, 2)) }]],
    coordinates := [("a", (0, 1)), ("b", (0, 2))] }

/-- The field `exMoved` at time `2` after `attack a right`: `b` has lost one hp. -/
def exFinal : BattleField :=
  { M := 1, N := 3, time := 2,
    field := [[{ height := 0, unit := none },
               { height := 0, unit := some ((Footman "a" (0, 0)).set_coor (0, 1)) },
               { height := 0, unit := some ((Footman "b" (0, 2)).set_hp 19) }]],
    coordinates := [("a", (0, 1)), ("b", (0, 2))] }

/-! ## The search with its log -/

/-- One public operation that returns: `bf'` is the battle field after a spawn, a move,
    an attack or a tick (to a greater time that fits a C++ `int`) on `bf`. -/
inductive Transition : BattleField → BattleField → Prop where
  | spawn {bf bf' : BattleField} (type id : String) (x y : Int) :
      spawn_unit bf type id x y = .ok bf' → Transition bf bf'
  | move {bf bf' : BattleField} (id : String) (x y : Int) :
      move_unit bf id x y = .ok bf' → Transition bf bf'
  | attack {bf bf' : BattleField} (id dir : String) :
      attack_unit bf id dir = .ok bf' → Transition bf bf'
  | tick {bf bf' : BattleField} (new_time : Int) :
      bf.time < new_time → new_time ≤ INT_MAX →
      update_tick bf new_time = .ok bf' → Transition bf bf'

/-- What one operation can make of a unit that stays on the field, `dt` being the time
    that the operation lets pass: nothing, a new stored coordinate, a new stored
    coordinate and a first `dead_inside` effect, a loss of hp that it survives, or the
    outcome of a tick. -/
inductive UnitStep (dt : Int) : Unit → Unit → Prop where
  | same (u : Unit) : UnitStep dt u u
  | moved (u : Unit) (target : Vec2i) : UnitStep dt u (u.set_coor target)
  | penalty (u : Unit) (target : Vec2i) : deadInsideCount u = 0 →
      UnitStep dt u ((u.set_coor target).add_effect (DeadInside 1))
  | hit (u : Unit) (dmg : Int) : 0 ≤ dmg → 0 < u.hp - dmg → UnitStep dt u (u.take_damage dmg)
  | tick (u u' : Unit) : 0 < dt → tick_result u dt = some u' → UnitStep dt u u'

/-- What one operation from `bf` to `bf'` does to the units: the size of the field
    stays; a registered unit is either removed from registry and tile or stays
    registered, changed by one `UnitStep`; and a unit registered under an id that was
    not registered before is a unit just created under that id at its coordinate. -/
structure StepFacts (bf bf' : BattleField) : Prop where
  M_eq : bf'.M = bf.M
  N_eq : bf'.N = bf.N
  forward : ∀ id c u, map_find bf.coordinates id = some c → unitAt bf c = some u →
    (map_find bf'.coordinates id = none ∧ unitAt bf' c = none) ∨
    (∃ c' u', map_find bf'.coordinates id = some c' ∧ unitAt bf' c' = some u' ∧
      UnitStep (bf'.time - bf.time) u u')
  fresh : ∀ id c' u', map_find bf.coordinates id = none →
    map_find bf'.coordinates id = some c' → unitAt bf' c' = some u' →
    ∃ type, create_unit type id c' = .ok u'

/-- The unit registered as `id` holds a `dead_inside` effect. -/
def penalised (bf : BattleField) (id : String) : Prop :=
  ∃ c u, map_find bf.coordinates id = some c ∧ unitAt bf c = some u ∧ deadInsideCount u = 1

/-- A run of operations from `bf` to `bf'` after each of which `id` is registered: the
    unit registered as `id` stays alive all along. -/
inductive AliveChain (id : String) : BattleField → BattleField → Prop where
  | refl (bf : BattleField) : AliveChain id bf bf
  | step {bf bf1 bf2 : BattleField} : AliveChain id bf bf1 → Transition bf1 bf2 →
      map_contains bf2.coordinates id = true → AliveChain id bf bf2

/-- Bound that links the hp of a unit to the age of its effects: a unit of the catalog
    has at most `50` hp, and an effect whose timer has gone down by `a` has cost the
    unit at least `a` hp. -/
def UnitAged (u : Unit) : Prop :=
  u.max_hp ≤ 50 ∧ ∀ e ∈ u.active_effects, u.hp + (INT_MAX - e.timer) ≤ u.max_hp

instance (u : Unit) : Decidable (UnitAged u) :=
  inferInstanceAs (Decidable (_ ∧ _))

/-! ## Specification-side definitions: a tick in a given order -/

/-- The units are visited in the order of the list `order` of ids: each registered id of
    the list gets the loop body of `update_tick` (`tick_unit`). -/
def tick_in_order (new_time : Int) : List String → BattleField → Except Err BattleField
  | [], bf => .ok bf
  | id :: order, bf =>
    match map_find bf.coordinates id with
    | some c => do
      let bf1 ← tick_unit new_time bf (id, c)
      tick_in_order new_time order bf1
    | none => tick_in_order new_time order bf

/-- A tick that visits the units in the order `order` (the spawn order, in the words of
    the specification) and then sets the time. -/
def update_tick_in_order (bf : BattleField) (new_time : Int) (order : List String) :
    Except Err BattleField := do
  let bf1 ← tick_in_order new_time order bf
  pure (bf1.set_time new_time)

/-! ### Further example states -/

/-- The field `exPenalty` after the tick to time `3`: the unit `a` has lost `3` hp and
    the timer of its effect has gone down by `3`. -/
def exPenalty3 : BattleField :=
  { M := 1, N := 3, time := 3,
    field := [[{ height := 0,
                 unit := some { (Footman "a" (0, 0)) with
                   coor := (0, 2)
                   hp := 17
                   active_effects := [{ type := "dead_inside", timer := INT_MAX - 3, dmg := 1 }] } },
               { height := 0, unit := none },
               { height := 0, unit := some (Footman "b" (0, 2)) }]],
    coordinates := [("a", (0, 0)), ("b", (0, 2))] }

/-- The field `exPenalty` after the tick to time `25`: the unit `a` has died of its
    effect and is gone from tile and registry. -/
def exGone : BattleField :=
  { M := 1, N := 3, time := 25,
    field := [[{ height := 0, unit := none },
               { height := 0, unit := none },
               { height := 0, unit := some (Footman "b" (0, 2)) }]],
    coordinates := [("b", (0, 2))] }

/-! # The variant `CPP/Battle/VectorCopy.cpp`

A tile holds a vector of units, and units, tiles and battle fields can be copied.  The
classes `Effect`, `DeadInside`, `Unit`, `Footman`, `Knight`, `Rifleman`, the overloaded
operators, `flip_map` and `create_unit` are those of `Lab.cpp` word for word, apart from
the `clone` methods; their embedding is shared. -/

/-- Method `DeadInside::clone`: `std::make_unique<DeadInside>(*this)`, the copy
    constructor copies the three fields. -/
def Effect.clone (e : Effect) : Effect := { type := e.type, timer := e.timer, dmg := e.dmg }

/-- Method `Footman::clone`. -/
def Footman.clone (u : Unit) : Unit :=
  let p_u := Footman u.id u.coor
  let p_u := u.active_effects.foldl (fun p p_e => p.add_effect p_e.clone) p_u
  { p_u with
    hp := u.hp, max_hp := u.max_hp, max_move := u.max_move, max_step := u.max_step,
    attack_dmg := u.attack_dmg, attack_distance := u.attack_distance,
    attack_range := u.attack_range, move_directions := u.move_directions,
    attack_directions := u.attack_directions, max_active := u.max_active }

/-- Method `Knight::clone`. -/
def Knight.clone (u : Unit) : Unit :=
  let p_u := Knight u.id u.coor
  let p_u := u.active_effects.foldl (fun p p_e => p.add_effect p_e.clone) p_u
  { p_u with
    hp := u.hp, max_hp := u.max_hp, max_move := u.max_move, max_step := u.max_step,
    attack_dmg := u.attack_dmg, attack_distance := u.attack_distance,
    attack_range := u.attack_range, move_directions := u.move_directions,
    attack_directions := u.attack_directions, max_active := u.max_active }

/-- Method `Rifleman::clone`. -/
def Rifleman.clone (u : Unit) : Unit :=
  let p_u := Rifleman u.id u.coor
  let p_u := u.active_effects.foldl (fun p p_e => p.add_effect p_e.clone) p_u
  { p_u with
    hp := u.hp, max_hp := u.max_hp, max_move := u.max_move, max_step := u.max_step,
    attack_dmg := u.attack_dmg, attack_distance := u.attack_distance,
    attack_range := u.attack_range, move_directions := u.move_directions,
    attack_directions := u.attack_directions, max_active := u.max_active }

/-- The virtual call `p_u->clone()`.  The class of the object is the one whose
    constructor wrote its `type`; `Unit` itself is abstract, so an object of no
    subclass does not exist (calling the pure virtual method is undefined). -/
def Unit.clone (u : Unit) : Except Err Unit :=
  if u.type = "footman" then .ok (Footman.clone u)
  else if u.type = "knight" then .ok (Knight.clone u)
  else if u.type = "rifleman" then .ok (Rifleman.clone u)
  else .error .undefined_behaviour

namespace VectorCopy

/-! ## Tile -/

/-- The `class Tile`: a height and a vector of units. -/
structure Tile where
  height : Int
  units : List Unit
  deriving DecidableEq

/-- Method `Tile::is_tile_empty`. -/
def Tile.is_tile_empty (t : Tile) : Bool := t.units.isEmpty

/-- Method `Tile::add_unit`: `_units.push_back`. -/
def Tile.add_unit (t : Tile) (unit : Unit) : Tile := { t with units := t.units ++ [unit] }

/-- The loop `for (p_u : tile._units) add_unit(p_u->clone())` of the copy constructor of
    `Tile`, `dst` being the units added so far. -/
def clone_units : List Unit → List Unit → Except Err (List Unit)
  | [], dst => .ok dst
  | p_u :: rest, dst => do
    let c ← p_u.clone
    clone_units rest (dst ++ [c])

/-- The copy constructor `Tile(const Tile&)`. -/
def Tile.copy (tile : Tile) : Except Err Tile := do
  let units ← clone_units tile.units []
  pure { height := tile.height, units := units }

/-- The loop of `find_one_unit` and of `remove_one_unit`: position and value of the first
    unit whose id is `id`. -/
def find_one : List Unit → String → Option (Nat × Unit)
  | [], _ => none
  | u :: us, id =>
    if u.id = id then some (0, u) else (find_one us id).map (fun r => (r.1 + 1, r.2))

/-- Method `Tile::find_all_units`. -/
def Tile.find_all_units (t : Tile) : List Unit := t.units

/-- Method `Tile::find_first_unit`. -/
def Tile.find_first_unit (t : Tile) : Except Err Unit :=
  match t.units with
  | [] => .error (.runtime_error "There is no unit!")
  | u :: _ => .ok u

/-- Method `Tile::find_one_unit`: the position of the unit in `_units` stands for the
    reference that the method returns. -/
def Tile.find_one_unit (t : Tile) (id : String) : Except Err (Nat × Unit) :=
  match find_one t.units id with
  | some r => .ok r
  | none => .error (.runtime_error "No such unit!")

/-- Writing through a reference to `_units[i]`. -/
def Tile.set_unit (t : Tile) (i : Nat) (unit : Unit) : Tile :=
  { t with units := t.units.set i unit }

/-- Method `Tile::remove_all_units`. -/
def Tile.remove_all_units (t : Tile) : List Unit × Tile := (t.units, { t with units := [] })

/-- Method `Tile::remove_one_unit`: the removed unit and the tile without it. -/
def Tile.remove_one_unit (t : Tile) (id : String) : Except Err (Unit × Tile) :=
  match find_one t.units id with
  | some r => .ok (r.2, { t with units := t.units.eraseIdx r.1 })
  | none => .error (.runtime_error "No such unit!")

/-! ## BattleField -/

/-- The `class BattleField`. -/
structure BattleField where
  M : Int
  N : Int
  time : Int
  field : List (List Tile)
  coordinates : List (String × Vec2i)
  deriving DecidableEq

/-- Constructor `BattleField(M, N)`: the heights are read row by row from the input
    (a missing value is read as `0`); the time starts at `0`. -/
def BattleField.new (M N : Int) (input : List Int) : BattleField :=
  { M := M, N := N, time := 0,
    field := (List.range M.toNat).map (fun i =>
      (List.range N.toNat).map (fun j =>
        ({ height := input.getD (i * N.toNat + j) 0, units := [] } : Tile))),
    coordinates := [] }

/-- Copying a `std::vector<Tile>`: every tile is copy-constructed. -/
def copy_row : List Tile → Except Err (List Tile)
  | [] => .ok []
  | t :: rest => do
    let t1 ← t.copy
    let rest1 ← copy_row rest
    pure (t1 :: rest1)

/-- Copying the `std::vector<std::vector<Tile>>` in `_field = bf._field`. -/
def copy_field : List (List Tile) → Except Err (List (List Tile))
  | [] => .ok []
  | row :: rest => do
    let row1 ← copy_row row
    let rest1 ← copy_field rest
    pure (row1 :: rest1)

/-- The copy constructor `BattleField(const BattleField&)`. -/
def BattleField.copy (bf : BattleField) : Except Err BattleField := do
  let field ← copy_field bf.field
  pure { M := bf.M, N := bf.N, time := bf.time, coordinates := bf.coordinates,
         field := field }

/-- Method `BattleField::set_time`. -/
def BattleField.set_time (bf : BattleField) (t : Int) : BattleField := { bf with time := t }

/-- Method `BattleField::is_inside_field`. -/
def is_inside_field (bf : BattleField) (coor : Vec2i) : Bool :=
  if coor.1 < 0 ∨ coor.1 ≥ bf.M ∨ coor.2 < 0 ∨ coor.2 ≥ bf.N then false else true

/-- Method `BattleField::find_tile`: `_field[coor.at(0)][coor.at(1)]`. -/
def find_tile (bf : BattleField) (coor : Vec2i) : Except Err Tile :=
  match gridGet bf.field coor with
  | some t => .ok t
  | none => .error .undefined_behaviour

/-- Writing through the reference returned by `find_tile`. -/
def set_tile (bf : BattleField) (coor : Vec2i) (t : Tile) : BattleField :=
  { bf with field := gridSet bf.field coor t }

/-- The tile read by `find_tile` at a coordinate that the caller has already checked
    with `is_inside_field` (used inside `BFS`, where every read is guarded). -/
def tileD (bf : BattleField) (coor : Vec2i) : Tile :=
  (gridGet bf.field coor).getD { height := 0, units := [] }

/-- Method `BattleField::calculate_height_diff`. -/
def calculate_height_diff (tile1 tile2 : Tile) : Int := tile1.height - tile2.height

/-- Method `BattleField::tile_contains_id`. -/
def tile_contains_id (bf : BattleField) (id : String) (target : Vec2i) : Except Err Bool := do
  let t ← find_tile bf target
  pure (t.find_all_units.any (fun u => decide (u.id = id)))

/-- The body of the loop over `dirs` in `BFS`, for one direction entry. -/
def BFS_visit (bf : BattleField) (max_move max_step : Int) (pair : Vec2i × Int)
    (st : List (List Bool) × List (Vec2i × Int)) (d : String × Vec2i) :
    List (List Bool) × List (Vec2i × Int) :=
  let coor := pair.1.add d.2
  if is_inside_field bf coor &&
      !visitedAt st.1 coor &&
      decide (pair.2 + 1 ≤ max_move) &&
      decide (|calculate_height_diff (tileD bf pair.1) (tileD bf coor)| ≤ max_step) &&
      (tileD bf coor).is_tile_empty then
    (gridSet st.1 coor true, st.2 ++ [(coor, pair.2 + 1)])
  else st

/-- The `while (!queue.empty())` loop of `BFS`; one unit of fuel per dequeued pair. -/
def BFS_loop (bf : BattleField) (target : Vec2i) (max_move max_step : Int)
    (dirs : List (String × Vec2i)) :
    Nat → List (List Bool) → List (Vec2i × Int) → Except Err Bool
  | _, _, [] => .ok false
  | 0, _, _ :: _ => .error .out_of_fuel
  | fuel + 1, visited, pair :: queue =>
    if pair.1 = target then .ok true
    else
      let st := dirs.foldl (BFS_visit bf max_move max_step pair) (visited, queue)
      BFS_loop bf target max_move max_step dirs fuel st.1 st.2

/-- Method `BattleField::BFS`, with the fuel `M * N`. -/
def BFS (bf : BattleField) (coor target : Vec2i) (max_move max_step : Int)
    (dirs : List (String × Vec2i)) : Except Err Bool :=
  if is_inside_field bf coor then
    BFS_loop bf target max_move max_step dirs (bf.M.toNat * bf.N.toNat)
      (gridSet (List.replicate bf.M.toNat (List.replicate bf.N.toNat false)) coor true)
      [(coor, 0)]
  else .error .undefined_behaviour

/-- Method `BattleField::spawn_unit`. -/
def spawn_unit (bf : BattleField) (type id : String) (x y : Int) : Except Err BattleField :=
  let coor : Vec2i := (x, y)
  if !is_inside_field bf coor then .ok bf
  else do
    let t ← find_tile bf coor
    if !t.is_tile_empty || map_contains bf.coordinates id then pure bf
    else do
      let p_unit ← create_unit type id coor
      let coordinates := map_emplace bf.coordinates id p_unit.coor
      pure { bf with coordinates := coordinates,
                     field := gridSet bf.field coor (t.add_unit p_unit) }

/-- Method `BattleField::remove_unit`: the removed unit and the battle field without it. -/
def remove_unit (bf : BattleField) (id : String) : Except Err (Unit × BattleField) := do
  let coor ← map_at bf.coordinates id
  let t ← find_tile bf coor
  let r ← t.remove_one_unit id
  pure (r.1, { bf with field := gridSet bf.field coor r.2,
                       coordinates := map_erase bf.coordinates id })

/-- The loop `for (auto& v : p_victims)` of `initialize_attack` over the units of the
    tile at `target`.  The range-based `for` fixes the end of the range before the
    first iteration: the body runs once for each slot `i` of the vector as it was
    (the first argument counts the slots that remain), also after `remove_unit` has
    erased an element; a slot that the vector has lost by then holds no unit, and
    reading it is undefined. -/
def attack_victims (target : Vec2i) (damage : Int) :
    Nat → Nat → BattleField → Except Err BattleField
  | 0, _, bf => .ok bf
  | n + 1, i, bf => do
    let t ← find_tile bf target
    match t.units[i]? with
    | none => .error .undefined_behaviour
    | some v =>
      let v1 := v.take_damage damage
      let bf1 := set_tile bf target (t.set_unit i v1)
      if v1.hp ≤ 0 then do
        let r ← remove_unit bf1 v1.id
        attack_victims target damage n (i + 1) r.2
      else attack_victims target damage n (i + 1) bf1

/-- Method `BattleField::initialize_attack`: whether the attack was carried out, and the
    battle field afterwards. -/
def initialize_attack (bf : BattleField) (id : String) (dir : Vec2i) :
    Except Err (Bool × BattleField) := do
  let c ← map_at bf.coordinates id
  let tv ← find_tile bf (c.add dir)
  if tv.is_tile_empty then pure (false, bf)
  else do
    let p_victims := tv.find_all_units
    let ta ← find_tile bf c
    let p_attacker ← ta.find_one_unit id
    let h_diff := calculate_height_diff ta tv
    if |h_diff| > p_attacker.2.attack_range then pure (false, bf)
    else do
      let damage := p_attacker.2.attack_dmg + h_diff
      let damage := if damage < 0 then 0 else damage
      let bf1 ← attack_victims (c.add dir) damage p_victims.length 0 bf
      pure (true, bf1)

/-- The loop `for (int i = 1; i <= p_attacker->attack_distance(); ++i)` of
    `attack_unit`; the first argument counts the iterations that remain.  The battle
    field does not change while the loop goes on, so the attacker read before the loop
    is the attacker that every iteration reads through the reference `p_attacker`. -/
def attack_loop (id dir : String) (p_attacker : Unit) :
    Nat → Int → BattleField → Except Err BattleField
  | 0, _, bf => .ok bf
  | n + 1, i, bf => do
    let c ← map_at bf.coordinates id
    let v ← map_at p_attacker.attack_directions dir
    if !is_inside_field bf (c.add (v.mul i)) then pure bf
    else do
      let r ← initialize_attack bf id (v.mul i)
      if r.1 then pure r.2
      else attack_loop id dir p_attacker n (i + 1) r.2

/-- Method `BattleField::attack_unit`. -/
def attack_unit (bf : BattleField) (id dir : String) : Except Err BattleField :=
  if !map_contains bf.coordinates id then .ok bf
  else do
    let c ← map_at bf.coordinates id
    let t ← find_tile bf c
    let p_attacker ← t.find_one_unit id
    attack_loop id dir p_attacker.2 p_attacker.2.attack_distance.toNat 1 bf

/-- Method `BattleField::is_move_successful`. -/
def is_move_successful (bf : BattleField) (id : String) (target : Vec2i) :
    Except Err Bool := do
  let c ← map_at bf.coordinates id
  let t ← find_tile bf c
  let p_unit ← t.find_one_unit id
  if !is_inside_field bf target then pure false
  else do
    let tt ← find_tile bf target
    let occupied ← (if !tt.is_tile_empty then do
        let own ← tile_contains_id bf id target
        pure (!own)
      else pure false)
    if occupied then pure false
    else do
      let r ← BFS bf c target p_unit.2.max_move p_unit.2.max_step p_unit.2.move_directions
      pure r

/-- Method `BattleField::move_unit`. -/
def move_unit (bf : BattleField) (id : String) (x y : Int) : Except Err BattleField := do
  let target : Vec2i := (x, y)
  let result ← is_move_successful bf id target
  let c ← map_at bf.coordinates id
  let t ← find_tile bf c
  let u ← t.find_one_unit id
  let bf1 := set_tile bf c (t.set_unit u.1 (u.2.set_coor target))
  if result then do
    let r ← remove_unit bf1 id
    let coordinates := map_emplace r.2.coordinates id r.1.coor
    let tt ← find_tile r.2 (x, y)
    pure { r.2 with coordinates := coordinates,
                    field := gridSet r.2.field (x, y) (tt.add_unit r.1) }
  else do
    let c1 ← map_at bf1.coordinates id
    let t1 ← find_tile bf1 c1
    let unit ← t1.find_one_unit id
    let full ← unit.2.is_effect_full "dead_inside"
    if !full then
      pure (set_tile bf1 c1 (t1.set_unit unit.1 (unit.2.add_effect (DeadInside 1))))
    else pure bf1

/-- The loop of `state` over `flipped_coordinates`: one printed line per entry. -/
def state_lines (bf : BattleField) : List (Vec2i × String) → Except Err (List String)
  | [] => .ok []
  | (coor, id) :: rest => do
    let t ← find_tile bf coor
    let p_unit ← t.find_one_unit id
    let lines ← state_lines bf rest
    pure ((id ++ " " ++ p_unit.2.type ++ " (" ++ toString (coor.1 + 1) ++ ", " ++
      toString (coor.2 + 1) ++ ") " ++ toString p_unit.2.hp) :: lines)

/-- Method `BattleField::state`: the lines written to the output. -/
def state (bf : BattleField) : Except Err (List String) := do
  let flipped_coordinates := flip_map bf.coordinates
  let lines ← state_lines bf flipped_coordinates
  pure (lines ++ ["---"])

/-- One iteration of the loop over `_coordinates` in `update_tick`, for the registry
    entry `entry`. -/
def tick_unit (new_time : Int) (bf : BattleField) (entry : String × Vec2i) :
    Except Err BattleField := do
  let t ← find_tile bf entry.2
  let p_unit ← t.find_one_unit entry.1
  let p_unit1 := p_unit.2.apply_effects (new_time - bf.time)
  let bf1 := set_tile bf entry.2 (t.set_unit p_unit.1 p_unit1)
  if p_unit1.hp ≤ 0 then do
    let r ← remove_unit bf1 entry.1
    pure r.2
  else
    pure (set_tile bf1 entry.2 (t.set_unit p_unit.1 p_unit1.remove_overdue_effects))

/-- The loop of `update_tick` over `_coordinates` (see `Battle.update_tick_loop`). -/
def update_tick_loop (new_time : Int) :
    Nat → BattleField → Option (String × Vec2i) → Except Err BattleField
  | _, bf, none => .ok bf
  | 0, _, some _ => .error .out_of_fuel
  | fuel + 1, bf, some entry => do
    let next_it := map_next bf.coordinates entry.1
    let bf1 ← tick_unit new_time bf entry
    update_tick_loop new_time fuel bf1 next_it

/-- Method `BattleField::update_tick`. -/
def update_tick (bf : BattleField) (new_time : Int) : Except Err BattleField := do
  let bf1 ← update_tick_loop new_time bf.coordinates.length bf bf.coordinates.head?
  pure (bf1.set_time new_time)

/-! ## Specification-side definitions for the variant -/

/-- States reachable from a freshly constructed battle field through any sequence of
    the operations spawn, move, attack and tick that return. -/
inductive Reachable : BattleField → Prop where
  | init (M N : Int) (input : List Int) : Reachable (BattleField.new M N input)
  | spawn {bf bf' : BattleField} (type id : String) (x y : Int) :
      Reachable bf → spawn_unit bf type id x y = .ok bf' → Reachable bf'
  | move {bf bf' : BattleField} (id : String) (x y : Int) :
      Reachable bf → move_unit bf id x y = .ok bf' → Reachable bf'
  | attack {bf bf' : BattleField} (id dir : String) :
      Reachable bf → attack_unit bf id dir = .ok bf' → Reachable bf'
  | tick {bf bf' : BattleField} (new_time : Int) :
      Reachable bf → update_tick bf new_time = .ok bf' → Reachable bf'

/-- Every tile holds at most one unit, and a unit on a tile is registered under its id
    at the coordinate of that tile. -/
def Single (bf : BattleField) : Prop :=
  ∀ c t, gridGet bf.field c = some t →
    t.units.length ≤ 1 ∧ ∀ u ∈ t.units, map_find bf.coordinates u.id = some c

/-- Every unit on the field is an object of one of the three classes. -/
def Concrete (bf : BattleField) : Prop :=
  ∀ row ∈ bf.field, ∀ t ∈ row, ∀ u ∈ t.units,
    u.type = "footman" ∨ u.type = "knight" ∨ u.type = "rifleman"

instance (bf : BattleField) : Decidable (Concrete bf) :=
  inferInstanceAs (Decidable (∀ row ∈ bf.field, _))

/-- A `1 x 3` field of height `0` with a penalised footman `a` at `(0, 0)` and a knight
    `b` at `(0, 2)`. -/
def exCopy : BattleField :=
  { M := 1, N := 3, time := 4,
    field := [[{ height := 0,
                 units := [((Footman "a" (0, 0)).set_coor (0, 2)).add_effect (DeadInside 1)] },
               { height := 0, units := [] },
               { height := 0, units := [(Knight "b" (0, 2)).set_hp 31] }]],
    coordinates := [("a", (0, 0)), ("b", (0, 2))] }

/-- A `1 x 3` field of height `0` with the footman `a` at `(0, 0)`. -/
def exShared1 : BattleField :=
  { M := 1, N := 3, time := 0,
    field := [[{ height := 0, units := [Footman "a" (0, 0)] },
               { height := 0, units := [] },
               { height := 0, units := [] }]],
    coordinates := [("a", (0, 0))] }

/-- The field `exShared1` with the knight `b` at `(0, 2)`. -/
def exShared2 : BattleField :=
  { M := 1, N := 3, time := 0,
    field := [[{ height := 0, units := [Footman "a" (0, 0)] },
               { height := 0, units := [] },
               { height := 0, units := [Knight "b" (0, 2)] }]],
    coordinates := [("a", (0, 0)), ("b", (0, 2))] }

/-- The field `exShared2` after the rejected `move a` to the tile of `b`. -/
def exShared3 : BattleField :=
  { M := 1, N := 3, time := 0,
    field := [[{ height := 0,
                 units := [((Footman "a" (0, 0)).set_coor (0, 2)).add_effect (DeadInside 1)] },
               { height := 0, units := [] },
               { height := 0, units := [Knight "b" (0, 2)] }]],
    coordinates := [("a", (0, 0)), ("b", (0, 2))] }

end VectorCopy

/-! ## Specification-side definitions: the catalog, distances -/

/-- The constant part of a unit is that of one of the classes `Footman`, `Knight`,
    `Rifleman`: the default direction maps and the statistics of the class. -/
def Catalog (u : Unit) : Prop :=
  u.move_directions = default_directions ∧ u.attack_directions = default_directions ∧
  ((u.type = "footman" ∧ u.max_hp = 20 ∧ u.max_move = 1 ∧ u.max_step = 1 ∧
      u.attack_dmg = 1 ∧ u.attack_distance = 1 ∧ u.attack_range = 0) ∨
   (u.type = "knight" ∧ u.max_hp = 50 ∧ u.max_move = 5 ∧ u.max_step = 1 ∧
      u.attack_dmg = 5 ∧ u.attack_distance = 1 ∧ u.attack_range = 1) ∨
   (u.type = "rifleman" ∧ u.max_hp = 10 ∧ u.max_move = 2 ∧ u.max_step = 2 ∧
      u.attack_dmg = 3 ∧ u.attack_distance = INT_MAX ∧ u.attack_range = INT_MAX))

instance (u : Unit) : Decidable (Catalog u) :=
  inferInstanceAs (Decidable (_ ∧ _ ∧ _))

/-- Manhattan distance of two coordinates: row difference plus column difference. -/
def manhattan (a b : Vec2i) : Int := |a.1 - b.1| + |a.2 - b.2|

/-! ## The battle field at the exit of a call

The methods below are the methods of the same name once more, now with the battle
field as the call leaves it also when it is left by an exception: every assignment
made before the `throw` is kept. -/

/-- How a call leaves the battle field: the battle field when the call is left, by
    `return` or by an exception, and the exception if there is one. -/
structure Exit where
  bf : BattleField
  thrown : Option Err
  deriving DecidableEq

/-- Method `BattleField::spawn_unit`, with the battle field at the exit. -/
def spawn_unit_exit (bf : BattleField) (type id : String) (x y : Int) : Exit :=
  let coor : Vec2i := (x, y)
  if !is_inside_field bf coor then { bf := bf, thrown := none }
  else
    match find_tile bf coor with
    | .error e => { bf := bf, thrown := some e }
    | .ok t =>
      if !t.is_tile_empty || map_contains bf.coordinates id then { bf := bf, thrown := none }
      else
        match create_unit type id coor with
        | .error e => { bf := bf, thrown := some e }
        | .ok p_unit =>
          let bf1 := { bf with coordinates := map_emplace bf.coordinates id p_unit.coor }
          match t.add_unit p_unit with
          | .error e => { bf := bf1, thrown := some e }
          | .ok t' => { bf := { bf1 with field := gridSet bf1.field coor t' }, thrown := none }

/-- The `spawn` branch of `execute_commands`, with the battle field at the exit. -/
def execute_spawn_exit (bf : BattleField) (type id : String) (x y : Int) : Exit :=
  if check_lowercase id then spawn_unit_exit bf type id (x - 1) (y - 1)
  else { bf := bf, thrown := none }

/-- Method `BattleField::remove_unit`, with the battle field at the exit. -/
def remove_unit_exit (bf : BattleField) (id : String) : BattleField × Except Err Unit :=
  match map_at bf.coordinates id with
  | .error e => (bf, .error e)
  | .ok coor =>
    match find_tile bf coor with
    | .error e => (bf, .error e)
    | .ok t =>
      match t.remove_unit with
      | .error e => (bf, .error e)
      | .ok r =>
        ({ bf with field := gridSet bf.field coor r.2,
                   coordinates := map_erase bf.coordinates id }, .ok r.1)

/-- Method `BattleField::initialize_attack`, with the battle field at the exit. -/
def initialize_attack_exit (bf : BattleField) (id : String) (dir : Vec2i) :
    BattleField × Except Err Bool :=
  match map_at bf.coordinates id with
  | .error e => (bf, .error e)
  | .ok c =>
    match find_tile bf (c.add dir) with
    | .error e => (bf, .error e)
    | .ok tv =>
      if tv.is_tile_empty then (bf, .ok false)
      else
        match tv.find_unit with
        | .error e => (bf, .error e)
        | .ok p_victim =>
          match find_tile bf c with
          | .error e => (bf, .error e)
          | .ok ta =>
            match ta.find_unit with
            | .error e => (bf, .error e)
            | .ok p_attacker =>
              let h_diff := calculate_height_diff ta tv
              if |h_diff| > p_attacker.attack_range then (bf, .ok false)
              else
                let damage := p_attacker.attack_dmg + h_diff
                let damage := if damage < 0 then 0 else damage
                let victim := p_victim.take_damage damage
                let bf1 := set_tile bf (c.add dir) { tv with unit := some victim }
                if victim.hp ≤ 0 then
                  match remove_unit_exit bf1 victim.id with
                  | (bf2, .error e) => (bf2, .error e)
                  | (bf2, .ok _) => (bf2, .ok true)
                else (bf1, .ok true)

/-- How a call of `attack_unit` ends: the battle field at the exit, the exception if
    there is one, and the number of probes, that is of cells
    `position + i * direction` that the loop has computed. -/
structure AttackTrace where
  bf : BattleField
  thrown : Option Err
  probes : Nat
  deriving DecidableEq

/-- The loop of `attack_unit` (`attack_loop`) with the battle field at the exit and the
    number of probes; `k` probes have been made before. -/
def attack_loop_trace (id dir : String) (p_attacker : Unit) :
    Nat → Int → Nat → BattleField → AttackTrace
  | 0, _, k, bf => { bf := bf, thrown := none, probes := k }
  | n + 1, i, k, bf =>
    match map_at bf.coordinates id with
    | .error e => { bf := bf, thrown := some e, probes := k }
    | .ok c =>
      match map_at p_attacker.attack_directions dir with
      | .error e => { bf := bf, thrown := some e, probes := k }
      | .ok v =>
        if !is_inside_field bf (c.add (v.mul i)) then
          { bf := bf, thrown := none, probes := k + 1 }
        else
          match initialize_attack_exit bf id (v.mul i) with
          | (bf1, .error e) => { bf := bf1, thrown := some e, probes := k + 1 }
          | (bf1, .ok true) => { bf := bf1, thrown := none, probes := k + 1 }
          | (bf1, .ok false) => attack_loop_trace id dir p_attacker n (i + 1) (k + 1) bf1

/-- Method `BattleField::attack_unit`, with the battle field at the exit and the number
    of probes. -/
def attack_unit_trace (bf : BattleField) (id dir : String) : AttackTrace :=
  if !map_contains bf.coordinates id then { bf := bf, thrown := none, probes := 0 }
  else
    match map_at bf.coordinates id with
    | .error e => { bf := bf, thrown := some e, probes := 0 }
    | .ok c =>
      match find_tile bf c with
      | .error e => { bf := bf, thrown := some e, probes := 0 }
      | .ok t =>
        match t.find_unit with
        | .error e => { bf := bf, thrown := some e, probes := 0 }
        | .ok p_attacker =>
          attack_loop_trace id dir p_attacker p_attacker.attack_distance.toNat 1 0 bf

/-- What the state-passing embedding returns for an exit. -/
def exit_result (bf : BattleField) (thrown : Option Err) : Except Err BattleField :=
  match thrown with
  | none => .ok bf
  | some e => .error e

/-! ## Specification-side definitions: the two variants side by side -/

/-- The tile of `VectorCopy.cpp` with the same height and the same occupant. -/
def Tile.toShared (t : Tile) : VectorCopy.Tile :=
  { height := t.height, units := t.unit.toList }

/-- The battle field of `VectorCopy.cpp` with the same sizes, time, registry, heights
    and occupants. -/
def BattleField.toShared (bf : BattleField) : VectorCopy.BattleField :=
  { M := bf.M, N := bf.N, time := bf.time,
    field := bf.field.map (fun row => row.map Tile.toShared),
    coordinates := bf.coordinates }

/-- One call of a public method of the engine. -/
inductive Op where
  | spawn (type id : String) (x y : Int)
  | move (id : String) (x y : Int)
  | attack (id dir : String)
  | tick (new_time : Int)
  | state
  deriving DecidableEq

/-- One call on the battle field of `Lab.cpp`; the output written so far is threaded
    through. -/
def apply_op (st : BattleField × List String) : Op → Except Err (BattleField × List String)
  | .spawn type id x y => do
    let bf1 ← spawn_unit st.1 type id x y
    pure (bf1, st.2)
  | .move id x y => do
    let bf1 ← move_unit st.1 id x y
    pure (bf1, st.2)
  | .attack id dir => do
    let bf1 ← attack_unit st.1 id dir
    pure (bf1, st.2)
  | .tick new_time => do
    let bf1 ← update_tick st.1 new_time
    pure (bf1, st.2)
  | .state => do
    let lines ← state st.1
    pure (st.1, st.2 ++ lines)

/-- A sequence of calls on the battle field of `Lab.cpp`; an exception ends the run. -/
def run_ops : List Op → BattleField × List String → Except Err (BattleField × List String)
  | [], st => .ok st
  | op :: ops, st => do
    let st1 ← apply_op st op
    run_ops ops st1

namespace VectorCopy

/-- One call on the battle field of `VectorCopy.cpp`. -/
def apply_op (st : BattleField × List String) : Op → Except Err (BattleField × List String)
  | .spawn type id x y => do
    let bf1 ← spawn_unit st.1 type id x y
    pure (bf1, st.2)
  | .move id x y => do
    let bf1 ← move_unit st.1 id x y
    pure (bf1, st.2)
  | .attack id dir => do
    let bf1 ← attack_unit st.1 id dir
    pure (bf1, st.2)
  | .tick new_time => do
    let bf1 ← update_tick st.1 new_time
    pure (bf1, st.2)
  | .state => do
    let lines ← state st.1
    pure (st.1, st.2 ++ lines)

/-- A sequence of calls on the battle field of `VectorCopy.cpp`; an exception ends the
    run. -/
def run_ops : List Op → BattleField × List String → Except Err (BattleField × List String)
  | [], st => .ok st
  | op :: ops, st => do
    let st1 ← apply_op st op
    run_ops ops st1

end VectorCopy

end Battle

/-! # Snake board (`CPP/Snake/Board.hpp`)

`IntT` is `int`, modelled by `Int`; a `VecIntT` is a list.  Of `class Board` the members
that `is_inside`, `shift` and the win check of `autoPilotStep` read are embedded. -/

namespace Snake

/-- The fields `_size` and `_snake` of `class Board`. -/
structure Board where
  size : Int
  snake : List Int
  deriving DecidableEq

/-- Constructor `Board(IntT s, IntT len)` as far as `_size` goes: `_size(s + 2)`; the
    snake, which the constructor builds with `init_snake(len)`, is passed in. -/
def Board.new (s : Int) (snake : List Int) : Board := { size := s + 2, snake := snake }

/-- Method `Board::is_inside`; the operator `%` of C++ truncates (`Int.tmod`). -/
def Board.is_inside (b : Board) (tile : Int) : Bool :=
  decide (tile > b.size) && decide (tile < b.size * (b.size - 1)) &&
    decide (Int.tmod tile b.size ≠ 0) && decide (Int.tmod tile b.size ≠ b.size - 1)

/-- Method `std::vector::resize(n)`: the first `n` elements, filled up with
    value-initialised elements (`0`) when the vector is shorter. -/
def resize (v : List Int) (n : Nat) : List Int :=
  v.take n ++ List.replicate (n - v.length) 0

/-- Method `Board::shift(path, snake, consumed_item, cut_first)`; `none` when
    `path.begin() + cut_first` lies behind `path.end()` (undefined behaviour). -/
def shift (path snake : List Int) (consumed_item cut_first : Bool) : Option (List Int) :=
  if cut_first && path.isEmpty then none
  else
    let concatenatedVector := path.drop (if cut_first then 1 else 0)
    let concatenatedVector := concatenatedVector.reverse
    let concatenatedVector := concatenatedVector ++ snake
    some (resize concatenatedVector (snake.length + (if consumed_item then 1 else 0)))

/-- Method `Board::shift(IntT path, snake, consumed)`: the overload that moves the snake
    by one tile, `shift(VecIntT(1, path), snake, consumed, false)`. -/
def shift_tile (path : Int) (snake : List Int) (consumed : Bool) : Option (List Int) :=
  shift (List.replicate 1 path) snake consumed false

/-- The win check of `Board::autoPilotStep`:
    `(IntT)_snake.size() + 1 == (_size * _size - 4 * (_size - 1))`. -/
def Board.is_last_item (b : Board) : Bool :=
  decide ((b.snake.length : Int) + 1 = b.size * b.size - 4 * (b.size - 1))

end Snake

namespace Battle

/-! ## Lemmas on grids -/

theorem list_set_of_getElem? {α : Type} (l : List α) (i : Nat) (a : α)
    (h : l[i]? = some a) : l.set i a = l := by
  apply List.ext_getElem?
  intro j
  rw [List.getElem?_set]
  by_cases hij : i = j
  · subst hij
    rcases List.getElem?_eq_some_iff.mp h with ⟨hl, _⟩
    simp [hl, h]
  · simp [hij]

theorem gridGet_gridSet {α : Type} (g : List (List α)) (c c' : Vec2i) (a : α) :
    gridGet (gridSet g c a) c' =
      if c' = c ∧ (gridGet g c).isSome = true then some a else gridGet g c' := by
  obtain ⟨x, y⟩ := c
  obtain ⟨x', y'⟩ := c'
  by_cases h : 0 ≤ x ∧ 0 ≤ y
  · by_cases h' : 0 ≤ x' ∧ 0 ≤ y'
    · cases hr : g[x.toNat]? with
      | none => simp [gridSet, gridGet, h, hr]
      | some row =>
        rcases List.getElem?_eq_some_iff.mp hr with ⟨hlt, _⟩
        by_cases hx : x' = x
        · subst hx
          by_cases hy : y' = y
          · subst hy
            by_cases hl2 : y'.toNat < row.length
            · simp [gridSet, gridGet, h, hr, hlt, hl2]
            · have hn : row[y'.toNat]? = none := List.getElem?_eq_none (by omega)
              simp [gridSet, gridGet, h, hr, hlt, hn]
              omega
          · have hy' : ¬ y.toNat = y'.toNat := by omega
            simp [gridSet, gridGet, h, h', hr, hlt, hy, List.getElem?_set, hy']
        · have hx' : ¬ x.toNat = x'.toNat := by omega
          simp [gridSet, gridGet, h, h', hr, hx, List.getElem?_set, hx']
    · have hne : ¬ ((x', y') = (x, y)) := by
        intro he
        simp only [Prod.mk.injEq] at he
        omega
      simp [gridGet, h', hne]
  · have hn : gridGet g (x, y) = none := by simp [gridGet, h]
    simp [gridSet, h, hn]

theorem gridGet_gridSet_same {α : Type} (g : List (List α)) (c : Vec2i) (a : α)
    (h : (gridGet g c).isSome = true) : gridGet (gridSet g c a) c = some a := by
  rw [gridGet_gridSet]; simp [h]

theorem gridGet_gridSet_ne {α : Type} (g : List (List α)) (c c' : Vec2i) (a : α)
    (h : c' ≠ c) : gridGet (gridSet g c a) c' = gridGet g c' := by
  rw [gridGet_gridSet]; simp [h]

theorem gridGet_gridSet_isSome {α : Type} (g : List (List α)) (c c' : Vec2i) (a : α) :
    (gridGet (gridSet g c a) c').isSome = (gridGet g c').isSome := by
  rw [gridGet_gridSet]
  by_cases h : c' = c ∧ (gridGet g c).isSome = true
  · rw [if_pos h]; obtain ⟨h1, h2⟩ := h; subst h1; simp [h2]
  · rw [if_neg h]

theorem gridSet_of_none {α : Type} (g : List (List α)) (c : Vec2i) (a : α)
    (h : gridGet g c = none) : gridSet g c a = g := by
  obtain ⟨x, y⟩ := c
  by_cases hc : 0 ≤ x ∧ 0 ≤ y
  · cases hr : g[x.toNat]? with
    | none => simp [gridSet, hr]
    | some row =>
      have hl : row.length ≤ y.toNat := by
        simpa [gridGet, hc, hr] using h
      simp only [gridSet, hc, hr, and_self, if_true]
      rw [List.set_eq_of_length_le hl]
      exact list_set_of_getElem? g _ _ hr
  · simp [gridSet, hc]

theorem gridSet_gridGet_self {α : Type} (g : List (List α)) (c : Vec2i) (a : α)
    (h : gridGet g c = some a) : gridSet g c a = g := by
  obtain ⟨x, y⟩ := c
  by_cases hc : 0 ≤ x ∧ 0 ≤ y
  · cases hr : g[x.toNat]? with
    | none => simp [gridSet, hr]
    | some row =>
      have hl : row[y.toNat]? = some a := by
        simpa [gridGet, hc, hr] using h
      simp only [gridSet, hc, hr, and_self, if_true]
      rw [list_set_of_getElem? row _ _ hl]
      exact list_set_of_getElem? g _ _ hr
  · simp [gridSet, hc]

theorem gridSet_gridSet_same {α : Type} (g : List (List α)) (c : Vec2i) (a b : α) :
    gridSet (gridSet g c a) c b = gridSet g c b := by
  obtain ⟨x, y⟩ := c
  by_cases hc : 0 ≤ x ∧ 0 ≤ y
  · cases hr : g[x.toNat]? with
    | none => simp [gridSet, hr]
    | some row =>
      rcases List.getElem?_eq_some_iff.mp hr with ⟨hl', he'⟩
      simp [gridSet, hc, hr, List.getElem?_set, hl', List.set_set]
  · simp [gridSet, hc]

theorem gridSet_length {α : Type} (g : List (List α)) (c : Vec2i) (a : α) :
    (gridSet g c a).length = g.length := by
  unfold gridSet
  split
  · split <;> simp
  · rfl

theorem gridSet_row_length {α : Type} (g : List (List α)) (c : Vec2i) (a : α) (n : Nat)
    (h : ∀ row ∈ g, row.length = n) : ∀ row ∈ gridSet g c a, row.length = n := by
  unfold gridSet
  split
  · split
    · rename_i row hr
      intro r hm
      rcases List.mem_or_eq_of_mem_set hm with h1 | h1
      · exact h r h1
      · rw [h1, List.length_set]
        exact h row (List.getElem?_mem hr)
    · exact h
  · exact h

theorem gridGet_isSome_iff {α : Type} (g : List (List α)) (m n : Nat)
    (hlen : g.length = m) (hrow : ∀ row ∈ g, row.length = n) (c : Vec2i) :
    (gridGet g c).isSome = true ↔ (0 ≤ c.1 ∧ c.1 < m ∧ 0 ≤ c.2 ∧ c.2 < n) := by
  obtain ⟨x, y⟩ := c
  show (gridGet g (x, y)).isSome = true ↔ (0 ≤ x ∧ x < (m : Int) ∧ 0 ≤ y ∧ y < (n : Int))
  by_cases hc : 0 ≤ x ∧ 0 ≤ y
  · cases hr : g[x.toNat]? with
    | none =>
      have hl : g.length ≤ x.toNat := List.getElem?_eq_none_iff.mp hr
      have hg : gridGet g (x, y) = none := by simp [gridGet, hc, hr]
      rw [hg]
      constructor
      · intro h; simp at h
      · intro h; omega
    | some row =>
      rcases List.getElem?_eq_some_iff.mp hr with ⟨hl', he'⟩
      have hn : row.length = n := hrow row (List.getElem?_mem hr)
      have hg : gridGet g (x, y) = row[y.toNat]? := by simp [gridGet, hc, hr]
      rw [hg, Option.isSome_iff_exists]
      constructor
      · rintro ⟨a, ha⟩
        rcases List.getElem?_eq_some_iff.mp ha with ⟨hl2, _⟩
        omega
      · intro hh
        have : y.toNat < row.length := by omega
        exact ⟨row[y.toNat], List.getElem?_eq_getElem this⟩
  · have hg : gridGet g (x, y) = none := by simp [gridGet, hc]
    rw [hg]
    constructor
    · intro h; simp at h
    · intro h; exact absurd ⟨h.1, h.2.2.1⟩ hc

/-! ## Reachability search: termination and correctness -/

theorem is_inside_field_iff (bf : BattleField) (c : Vec2i) :
    is_inside_field bf c = true ↔ (0 ≤ c.1 ∧ c.1 < bf.M ∧ 0 ≤ c.2 ∧ c.2 < bf.N) := by
  unfold is_inside_field
  split
  · rename_i h
    constructor
    · intro h'; simp at h'
    · intro h'; omega
  · rename_i h
    constructor
    · intro _; omega
    · intro _; rfl

theorem list_count_set_false (l : List Bool) (j : Nat) (h : l[j]? = some false) :
    (l.set j true).count false + 1 = l.count false := by
  induction l generalizing j with
  | nil => simp at h
  | cons a l ih =>
    cases j with
    | zero =>
      simp at h
      subst h
      simp
    | succ j =>
      simp at h
      have := ih j h
      simp only [List.set_cons_succ, List.count_cons]
      omega

theorem countFalse_set (g : List (List Bool)) (i : Nat) (row row' : List Bool)
    (h : g[i]? = some row) (hc : row'.count false + 1 = row.count false) :
    countFalse (g.set i row') + 1 = countFalse g := by
  induction g generalizing i with
  | nil => simp at h
  | cons a g ih =>
    cases i with
    | zero =>
      simp at h
      subst h
      simp only [countFalse, List.set_cons_zero, List.map_cons, List.sum_cons]
      omega
    | succ i =>
      simp at h
      have := ih i h
      simp only [countFalse, List.set_cons_succ, List.map_cons, List.sum_cons] at this ⊢
      omega

theorem countFalse_gridSet (V : List (List Bool)) (c : Vec2i)
    (h : gridGet V c = some false) : countFalse (gridSet V c true) + 1 = countFalse V := by
  obtain ⟨x, y⟩ := c
  by_cases hc : 0 ≤ x ∧ 0 ≤ y
  · cases hr : V[x.toNat]? with
    | none => simp [gridGet, hc, hr] at h
    | some row =>
      have hl : row[y.toNat]? = some false := by
        simpa [gridGet, hc, hr] using h
      simp only [gridSet, hc, hr, and_self, if_true]
      exact countFalse_set V _ row _ hr (list_count_set_false row _ hl)
  · simp [gridGet, hc] at h

theorem countFalse_replicate (m n : Nat) :
    countFalse (List.replicate m (List.replicate n false)) = m * n := by
  simp [countFalse, List.count_replicate_self]

theorem VDims_replicate (bf : BattleField) :
    VDims bf (List.replicate bf.M.toNat (List.replicate bf.N.toNat false)) := by
  intro c hc
  rw [is_inside_field_iff] at hc
  rw [gridGet_isSome_iff _ bf.M.toNat bf.N.toNat (by simp)
    (by intro row hr; rw [List.eq_of_mem_replicate hr]; simp)]
  omega

theorem VDims_gridSet (bf : BattleField) (V : List (List Bool)) (c : Vec2i) (b : Bool)
    (h : VDims bf V) : VDims bf (gridSet V c b) := by
  intro c' hc'
  rw [gridGet_gridSet_isSome]
  exact h c' hc'

theorem visitedAt_gridSet (V : List (List Bool)) (c x : Vec2i)
    (h : (gridGet V c).isSome = true) :
    visitedAt (gridSet V c true) x = true ↔ (x = c ∨ visitedAt V x = true) := by
  unfold visitedAt
  rw [gridGet_gridSet]
  by_cases hx : x = c
  · simp [hx, h]
  · simp [hx]

theorem Step_mono {bf : BattleField} {S : Int} {ds ds' : List (String × Vec2i)}
    {a b : Vec2i} (hsub : ∀ d ∈ ds, d ∈ ds') (h : Step bf S ds a b) : Step bf S ds' a b := by
  obtain ⟨⟨d, hd, he⟩, h2⟩ := h
  exact ⟨⟨d, hsub d hd, he⟩, h2⟩

theorem BFS_visit_eq (bf : BattleField) (B S : Int) (u : Vec2i) (du : Int)
    (V : List (List Bool)) (Q : List (Vec2i × Int)) (d : String × Vec2i) :
    BFS_visit bf B S (u, du) (V, Q) d =
      if (is_inside_field bf (u.add d.2) = true ∧ visitedAt V (u.add d.2) = false ∧
          du + 1 ≤ B ∧ |(tileD bf u).height - (tileD bf (u.add d.2)).height| ≤ S ∧
          (tileD bf (u.add d.2)).is_tile_empty = true)
      then (gridSet V (u.add d.2) true, Q ++ [(u.add d.2, du + 1)]) else (V, Q) := by
  unfold BFS_visit calculate_height_diff
  simp only [Bool.and_eq_true, Bool.not_eq_true', decide_eq_true_eq, and_assoc]

/-- Effect of the loop over the directions on the `visited` matrix and the queue. -/
theorem BFS_fold_spec (bf : BattleField) (B S : Int) (u : Vec2i) (du : Int) :
    ∀ (ds : List (String × Vec2i)) (V : List (List Bool)) (Q : List (Vec2i × Int)),
      VDims bf V →
      ∃ P : List (Vec2i × Int),
        (ds.foldl (BFS_visit bf B S (u, du)) (V, Q)).2 = Q ++ P ∧
        VDims bf (ds.foldl (BFS_visit bf B S (u, du)) (V, Q)).1 ∧
        countFalse (ds.foldl (BFS_visit bf B S (u, du)) (V, Q)).1 + P.length = countFalse V ∧
        (∀ e ∈ P, e.2 = du + 1 ∧ du + 1 ≤ B ∧ Step bf S ds u e.1) ∧
        (∀ x, visitedAt (ds.foldl (BFS_visit bf B S (u, du)) (V, Q)).1 x = true ↔
          (visitedAt V x = true ∨ ∃ e ∈ P, e.1 = x)) ∧
        (∀ x, Step bf S ds u x → du + 1 ≤ B →
          visitedAt (ds.foldl (BFS_visit bf B S (u, du)) (V, Q)).1 x = true) := by
  intro ds
  induction ds with
  | nil =>
    intro V Q hV
    refine ⟨[], by simp, by simpa using hV, by simp, by simp, by simp, ?_⟩
    intro x hx
    obtain ⟨⟨d, hd, _⟩, _⟩ := hx
    simp at hd
  | cons d ds ih =>
    intro V Q hV
    rw [List.foldl_cons, BFS_visit_eq]
    by_cases hc : (is_inside_field bf (u.add d.2) = true ∧ visitedAt V (u.add d.2) = false ∧
          du + 1 ≤ B ∧ |(tileD bf u).height - (tileD bf (u.add d.2)).height| ≤ S ∧
          (tileD bf (u.add d.2)).is_tile_empty = true)
    · rw [if_pos hc]
      obtain ⟨hin, hnv, hB, hh, hemp⟩ := hc
      have hsome : (gridGet V (u.add d.2)).isSome = true := hV _ hin
      have hfalse : gridGet V (u.add d.2) = some false := by
        unfold visitedAt at hnv
        cases hg : gridGet V (u.add d.2) with
        | none => rw [hg] at hsome; simp at hsome
        | some b =>
          cases b with
          | false => rfl
          | true => rw [hg] at hnv; simp at hnv
      obtain ⟨P, h1, h2, h3, h4, h5, h6⟩ :=
        ih (gridSet V (u.add d.2) true) (Q ++ [(u.add d.2, du + 1)])
          (VDims_gridSet bf V _ true hV)
      have hstep : Step bf S (d :: ds) u (u.add d.2) :=
        ⟨⟨d, List.mem_cons_self _ _, rfl⟩, hin, hemp, hh⟩
      refine ⟨(u.add d.2, du + 1) :: P, ?_, h2, ?_, ?_, ?_, ?_⟩
      · rw [h1]; simp
      · have := countFalse_gridSet V _ hfalse
        simp only [List.length_cons]
        omega
      · intro e he
        rcases List.mem_cons.mp he with he | he
        · subst he
          exact ⟨rfl, hB, hstep⟩
        · obtain ⟨a1, a2, a3⟩ := h4 e he
          exact ⟨a1, a2, Step_mono (fun d' hd' => List.mem_cons_of_mem _ hd') a3⟩
      · intro x
        rw [h5 x, visitedAt_gridSet V _ x hsome]
        constructor
        · rintro ((h | h) | ⟨e, he, hx⟩)
          · exact Or.inr ⟨_, List.mem_cons_self _ _, h.symm⟩
          · exact Or.inl h
          · exact Or.inr ⟨e, List.mem_cons_of_mem _ he, hx⟩
        · rintro (h | ⟨e, he, hx⟩)
          · exact Or.inl (Or.inr h)
          · rcases List.mem_cons.mp he with he | he
            · subst he; exact Or.inl (Or.inl hx.symm)
            · exact Or.inr ⟨e, he, hx⟩
      · intro x hx hB'
        obtain ⟨⟨d', hd', hxe⟩, hx2⟩ := hx
        rcases List.mem_cons.mp hd' with hd' | hd'
        · subst hd'
          rw [h5 x, visitedAt_gridSet V _ x hsome]
          exact Or.inl (Or.inl hxe)
        · exact h6 x ⟨⟨d', hd', hxe⟩, hx2⟩ hB'
    · rw [if_neg hc]
      obtain ⟨P, h1, h2, h3, h4, h5, h6⟩ := ih V Q hV
      refine ⟨P, h1, h2, h3, ?_, h5, ?_⟩
      · intro e he
        obtain ⟨a1, a2, a3⟩ := h4 e he
        exact ⟨a1, a2, Step_mono (fun d' hd' => List.mem_cons_of_mem _ hd') a3⟩
      · intro x hx hB'
        obtain ⟨⟨d', hd', hxe⟩, hx2⟩ := hx
        rcases List.mem_cons.mp hd' with hd' | hd'
        · subst hd'
          rw [h5 x]
          left
          by_contra hnv
          apply hc
          subst hxe
          refine ⟨hx2.1, ?_, hB', hx2.2.2, hx2.2.1⟩
          simpa using hnv
        · exact h6 x ⟨⟨d', hd', hxe⟩, hx2⟩ hB'

theorem BFS_loop_terminates (bf : BattleField) (target : Vec2i) (B S : Int)
    (dirs : List (String × Vec2i)) :
    ∀ (fuel : Nat) (V : List (List Bool)) (Q : List (Vec2i × Int)),
      VDims bf V → countFalse V + Q.length ≤ fuel →
      ∃ b, BFS_loop bf target B S dirs fuel V Q = .ok b := by
  intro fuel
  induction fuel with
  | zero =>
    intro V Q _ hle
    cases Q with
    | nil => exact ⟨false, by simp [BFS_loop]⟩
    | cons p Q => simp at hle
  | succ f ih =>
    intro V Q hV hle
    cases Q with
    | nil => exact ⟨false, by simp [BFS_loop]⟩
    | cons p Q =>
      obtain ⟨u, du⟩ := p
      by_cases ht : u = target
      · exact ⟨true, by simp [BFS_loop, ht]⟩
      · obtain ⟨P, h1, h2, h3, -, -, -⟩ := BFS_fold_spec bf B S u du dirs V Q hV
        have : BFS_loop bf target B S dirs (f + 1) V ((u, du) :: Q) =
            BFS_loop bf target B S dirs f
              (dirs.foldl (BFS_visit bf B S (u, du)) (V, Q)).1
              (dirs.foldl (BFS_visit bf B S (u, du)) (V, Q)).2 := by
          simp [BFS_loop, ht]
        rw [this]
        apply ih _ _ h2
        rw [h1, List.length_append]
        simp only [List.length_cons] at hle
        omega

theorem BFS_loop_sound (bf : BattleField) (target : Vec2i) (B S : Int)
    (dirs : List (String × Vec2i)) (origin : Vec2i) :
    ∀ (fuel : Nat) (V : List (List Bool)) (Q : List (Vec2i × Int)),
      VDims bf V →
      (∀ e ∈ Q, e.2 ≤ B ∧ ∃ k : Nat, (k : Int) = e.2 ∧ Reach bf S dirs origin k e.1) →
      BFS_loop bf target B S dirs fuel V Q = .ok true →
      ∃ k : Nat, (k : Int) ≤ B ∧ Reach bf S dirs origin k target := by
  intro fuel
  induction fuel with
  | zero =>
    intro V Q _ _ hr
    cases Q with
    | nil => simp [BFS_loop] at hr
    | cons p Q => simp [BFS_loop] at hr
  | succ f ih =>
    intro V Q hV hQ hr
    cases Q with
    | nil => simp [BFS_loop] at hr
    | cons p Q =>
      obtain ⟨u, du⟩ := p
      by_cases ht : u = target
      · obtain ⟨hle, k, hk, hreach⟩ := hQ (u, du) (List.mem_cons_self _ _)
        subst ht
        exact ⟨k, by simpa [hk] using hle, hreach⟩
      · obtain ⟨P, h1, h2, -, h4, -, -⟩ := BFS_fold_spec bf B S u du dirs V Q hV
        have heq : BFS_loop bf target B S dirs (f + 1) V ((u, du) :: Q) =
            BFS_loop bf target B S dirs f
              (dirs.foldl (BFS_visit bf B S (u, du)) (V, Q)).1
              (dirs.foldl (BFS_visit bf B S (u, du)) (V, Q)).2 := by
          simp [BFS_loop, ht]
        rw [heq] at hr
        refine ih _ _ h2 ?_ hr
        rw [h1]
        intro e he
        rcases List.mem_append.mp he with he | he
        · exact hQ e (List.mem_cons_of_mem _ he)
        · obtain ⟨a1, a2, a3⟩ := h4 e he
          obtain ⟨-, k, hk, hreach⟩ := hQ (u, du) (List.mem_cons_self _ _)
          refine ⟨by omega, k + 1, ?_, Reach.step hreach a3⟩
          simp only at hk
          rw [a1]; push_cast; omega

theorem BFSInv_final (bf : BattleField) (target : Vec2i) (B S : Int)
    (dirs : List (String × Vec2i)) (origin : Vec2i) (V : List (List Bool))
    (C : List (Vec2i × Int)) (h : BFSInv bf target B S dirs origin V [] C) :
    ∀ (k : Nat) (x : Vec2i), Reach bf S dirs origin k x → (k : Int) ≤ B →
      ∃ dx, (x, dx) ∈ C ∧ dx ≤ k := by
  intro k x hr
  induction hr with
  | zero =>
    intro _
    obtain ⟨d0, hd, hle⟩ := h.start
    rcases hd with hd | hd
    · exact ⟨d0, hd, by simpa using hle⟩
    · simp at hd
  | step hreach hstep ih =>
    rename_i k a b
    intro hk
    obtain ⟨da, hda, hle⟩ := ih (by push_cast at hk; omega)
    obtain ⟨dx, hdx, hle'⟩ := h.closedSucc (a, da) hda b hstep (by
      simp only; push_cast at hk; omega)
    rcases hdx with hdx | hdx
    · exact ⟨dx, hdx, by simp only at hle'; push_cast; omega⟩
    · simp at hdx

theorem BFSInv_step (bf : BattleField) (target : Vec2i) (B S : Int)
    (dirs : List (String × Vec2i)) (origin : Vec2i) (V : List (List Bool))
    (u : Vec2i) (du : Int) (Q C : List (Vec2i × Int))
    (h : BFSInv bf target B S dirs origin V ((u, du) :: Q) C) (ht : u ≠ target) :
    BFSInv bf target B S dirs origin
      (dirs.foldl (BFS_visit bf B S (u, du)) (V, Q)).1
      (dirs.foldl (BFS_visit bf B S (u, du)) (V, Q)).2 ((u, du) :: C) := by
  obtain ⟨P, h1, h2, -, h4, h5, h6⟩ := BFS_fold_spec bf B S u du dirs V Q h.vd
  have hsorted := List.pairwise_cons.mp h.sorted
  have hrest_lo : ∀ e ∈ Q, du ≤ e.2 := fun e he => hsorted.1 e he
  have hrest_hi : ∀ e ∈ Q, e.2 ≤ du + 1 := fun e he =>
    h.within (u, du) (List.mem_cons_self _ _) e (List.mem_cons_of_mem _ he)
  have hC_le : ∀ e ∈ C, e.2 ≤ du := fun e he =>
    h.closedLe e he (u, du) (List.mem_cons_self _ _)
  have hP : ∀ e ∈ P, e.2 = du + 1 := fun e he => (h4 e he).1
  -- every recorded depth is at most `du + 1`
  have hbound : ∀ x dx, ((x, dx) ∈ (u, du) :: C ∨ (x, dx) ∈ Q ++ P) → dx ≤ du + 1 := by
    intro x dx hx
    rcases hx with hx | hx
    · rcases List.mem_cons.mp hx with hx | hx
      · have : dx = du := by simpa using congrArg Prod.snd hx
        omega
      · have := hC_le _ hx
        simp only at this; omega
    · rcases List.mem_append.mp hx with hx | hx
      · exact hrest_hi _ hx
      · have := hP _ hx
        simp only at this; omega
  have hrec : ∀ x, visitedAt (dirs.foldl (BFS_visit bf B S (u, du)) (V, Q)).1 x = true →
      ∃ dx, (x, dx) ∈ (u, du) :: C ∨ (x, dx) ∈ Q ++ P := by
    intro x hx
    rcases (h5 x).mp hx with hx | ⟨e, he, hx⟩
    · obtain ⟨dx, hdx⟩ := h.recorded x hx
      rcases hdx with hdx | hdx
      · exact ⟨dx, Or.inl (List.mem_cons_of_mem _ hdx)⟩
      · rcases List.mem_cons.mp hdx with hdx | hdx
        · exact ⟨dx, Or.inl (by rw [hdx]; exact List.mem_cons_self _ _)⟩
        · exact ⟨dx, Or.inr (List.mem_append_left _ hdx)⟩
    · refine ⟨e.2, Or.inr (List.mem_append_right _ ?_)⟩
      rw [← hx]; exact he
  rw [h1]
  refine ⟨h2, hrec, ?_, ?_, ?_, ?_, ?_, ?_⟩
  · intro e he
    rcases List.mem_cons.mp he with he | he
    · subst he; exact ht
    · exact h.notTarget e he
  · rw [List.pairwise_append]
    refine ⟨hsorted.2, ?_, ?_⟩
    · rw [List.pairwise_iff_forall_sublist]
      intro a b hab
      have ha := hP a (hab.subset (List.mem_cons_self _ _))
      have hb := hP b (hab.subset (List.mem_cons_of_mem _ (List.mem_singleton_self _)))
      omega
    · intro a ha b hb
      have := hrest_hi a ha
      have := hP b hb
      omega
  · intro e he e' he'
    have lo : ∀ e ∈ Q ++ P, du ≤ e.2 := by
      intro e he
      rcases List.mem_append.mp he with he | he
      · exact hrest_lo e he
      · have := hP e he; omega
    have hi : ∀ e ∈ Q ++ P, e.2 ≤ du + 1 := by
      intro e he
      rcases List.mem_append.mp he with he | he
      · exact hrest_hi e he
      · have := hP e he; omega
    have := lo e he
    have := hi e' he'
    omega
  · intro e he e' he'
    have lo : du ≤ e'.2 := by
      rcases List.mem_append.mp he' with he' | he'
      · exact hrest_lo e' he'
      · have := hP e' he'; omega
    rcases List.mem_cons.mp he with he | he
    · subst he; exact lo
    · have := hC_le e he; omega
  · intro e he x hstep hB
    rcases List.mem_cons.mp he with he | he
    · subst he
      have hv := h6 x hstep hB
      obtain ⟨dx, hdx⟩ := hrec x hv
      exact ⟨dx, hdx, hbound x dx hdx⟩
    · obtain ⟨dx, hdx, hle⟩ := h.closedSucc e he x hstep hB
      refine ⟨dx, ?_, hle⟩
      rcases hdx with hdx | hdx
      · exact Or.inl (List.mem_cons_of_mem _ hdx)
      · rcases List.mem_cons.mp hdx with hdx | hdx
        · exact Or.inl (by rw [hdx]; exact List.mem_cons_self _ _)
        · exact Or.inr (List.mem_append_left _ hdx)
  · obtain ⟨d0, hd, hle⟩ := h.start
    refine ⟨d0, ?_, hle⟩
    rcases hd with hd | hd
    · exact Or.inl (List.mem_cons_of_mem _ hd)
    · rcases List.mem_cons.mp hd with hd | hd
      · exact Or.inl (by rw [hd]; exact List.mem_cons_self _ _)
      · exact Or.inr (List.mem_append_left _ hd)

theorem BFS_loop_complete (bf : BattleField) (target : Vec2i) (B S : Int)
    (dirs : List (String × Vec2i)) (origin : Vec2i) :
    ∀ (fuel : Nat) (V : List (List Bool)) (Q C : List (Vec2i × Int)),
      BFSInv bf target B S dirs origin V Q C →
      BFS_loop bf target B S dirs fuel V Q = .ok false →
      ∀ k : Nat, (k : Int) ≤ B → ¬ Reach bf S dirs origin k target := by
  intro fuel
  induction fuel with
  | zero =>
    intro V Q C hinv hr k hk hreach
    cases Q with
    | nil =>
      obtain ⟨dx, hdx, _⟩ := BFSInv_final bf target B S dirs origin V C hinv k target hreach hk
      exact hinv.notTarget _ hdx rfl
    | cons p Q => simp [BFS_loop] at hr
  | succ f ih =>
    intro V Q C hinv hr k hk hreach
    cases Q with
    | nil =>
      obtain ⟨dx, hdx, _⟩ := BFSInv_final bf target B S dirs origin V C hinv k target hreach hk
      exact hinv.notTarget _ hdx rfl
    | cons p Q =>
      obtain ⟨u, du⟩ := p
      by_cases ht : u = target
      · simp [BFS_loop, ht] at hr
      · have heq : BFS_loop bf target B S dirs (f + 1) V ((u, du) :: Q) =
            BFS_loop bf target B S dirs f
              (dirs.foldl (BFS_visit bf B S (u, du)) (V, Q)).1
              (dirs.foldl (BFS_visit bf B S (u, du)) (V, Q)).2 := by
          simp [BFS_loop, ht]
        rw [heq] at hr
        exact ih _ _ _ (BFSInv_step bf target B S dirs origin V u du Q C hinv ht) hr k hk hreach

theorem visitedAt_replicate (m n : Nat) (x : Vec2i) :
    visitedAt (List.replicate m (List.replicate n false)) x = false := by
  obtain ⟨a, b⟩ := x
  unfold visitedAt gridGet
  by_cases hc : 0 ≤ a ∧ 0 ≤ b
  · simp only [hc, and_self, if_true]
    cases hr : (List.replicate m (List.replicate n false))[a.toNat]? with
    | none => simp
    | some row =>
      have hrow : row = List.replicate n false := List.eq_of_mem_replicate (List.getElem?_mem hr)
      subst hrow
      simp only
      cases hb : (List.replicate n false)[b.toNat]? with
      | none => simp
      | some v =>
        have : v = false := List.eq_of_mem_replicate (List.getElem?_mem hb)
        subst this
        simp
  · simp [hc]

/-! ## Lemmas on the registry map -/

theorem map_find_mem {V : Type} (m : List (String × V)) (k : String) (v : V)
    (h : map_find m k = some v) : (k, v) ∈ m := by
  induction m with
  | nil => simp [map_find] at h
  | cons p m ih =>
    obtain ⟨k', v'⟩ := p
    unfold map_find at h
    by_cases hk : k = k'
    · simp only [hk, if_true, Option.some.injEq] at h
      subst h; subst hk
      exact List.mem_cons_self _ _
    · simp only [hk, if_false] at h
      exact List.mem_cons_of_mem _ (ih h)

theorem map_find_isSome_of_mem {V : Type} (m : List (String × V)) (k : String) (v : V)
    (h : (k, v) ∈ m) : (map_find m k).isSome = true := by
  induction m with
  | nil => simp at h
  | cons p m ih =>
    obtain ⟨k', v'⟩ := p
    unfold map_find
    by_cases hk : k = k'
    · simp [hk]
    · simp only [hk, if_false]
      rcases List.mem_cons.mp h with h | h
      · simp only [Prod.mk.injEq] at h
        exact absurd h.1 hk
      · exact ih h

theorem map_contains_eq_false {V : Type} (m : List (String × V)) (k : String) :
    map_contains m k = false ↔ map_find m k = none := by
  unfold map_contains
  cases map_find m k <;> simp

theorem map_contains_eq_true {V : Type} (m : List (String × V)) (k : String) :
    map_contains m k = true ↔ ∃ v, map_find m k = some v := by
  unfold map_contains
  cases map_find m k <;> simp

theorem map_at_of_find {V : Type} (m : List (String × V)) (k : String) (v : V)
    (h : map_find m k = some v) : map_at m k = .ok v := by
  simp [map_at, h]

theorem map_at_of_find_none {V : Type} (m : List (String × V)) (k : String)
    (h : map_find m k = none) : map_at m k = .error .out_of_range := by
  simp [map_at, h]

theorem mem_map_erase {V : Type} (m : List (String × V)) (k : String) (e : String × V) :
    e ∈ map_erase m k ↔ e ∈ m ∧ e.1 ≠ k := by
  simp [map_erase]

theorem map_find_erase {V : Type} (m : List (String × V)) (k k' : String) :
    map_find (map_erase m k) k' = if k' = k then none else map_find m k' := by
  induction m with
  | nil => simp [map_erase, map_find]
  | cons p m ih =>
    obtain ⟨k0, v0⟩ := p
    unfold map_erase at ih ⊢
    by_cases h0 : k0 = k
    · subst h0
      simp only [List.filter_cons, ne_eq, not_true_eq_false, decide_False]
      simp only [Bool.false_eq_true, if_false]
      rw [ih]
      by_cases hk : k' = k0
      · simp [hk]
      · simp [hk, map_find]
    · simp only [List.filter_cons, ne_eq, h0, not_false_eq_true, decide_True, if_true]
      unfold map_find
      by_cases hk : k' = k0
      · have : ¬ k' = k := by rw [hk]; exact h0
        simp [hk, h0]
      · simp only [hk, if_false]
        exact ih

theorem mem_map_emplace {V : Type} (m : List (String × V)) (k : String) (v : V)
    (h : map_find m k = none) (e : String × V) :
    e ∈ map_emplace m k v ↔ (e = (k, v) ∨ e ∈ m) := by
  induction m with
  | nil => simp [map_emplace]
  | cons p m ih =>
    obtain ⟨k0, v0⟩ := p
    unfold map_find at h
    by_cases hk : k = k0
    · simp [hk] at h
    · simp only [hk, if_false] at h
      unfold map_emplace
      simp only [hk, if_false]
      by_cases hlt : key_lt k k0
      · simp [hlt]
      · simp only [hlt, if_false, List.mem_cons, ih h]
        tauto

theorem map_find_emplace {V : Type} (m : List (String × V)) (k : String) (v : V)
    (h : map_find m k = none) (k' : String) :
    map_find (map_emplace m k v) k' = if k' = k then some v else map_find m k' := by
  induction m with
  | nil => simp [map_emplace, map_find]
  | cons p m ih =>
    obtain ⟨k0, v0⟩ := p
    unfold map_find at h
    by_cases hk : k = k0
    · simp [hk] at h
    · simp only [hk, if_false] at h
      unfold map_emplace
      simp only [hk, if_false]
      by_cases hlt : key_lt k k0
      · simp only [hlt, if_true]
        by_cases hk' : k' = k
        · simp [map_find, hk']
        · simp [map_find, hk']
      · simp only [hlt, if_false]
        by_cases hk0 : k' = k0
        · have : ¬ k' = k := by rw [hk0]; exact fun h => hk h.symm
          have hk0' : ¬ k0 = k := fun h => hk h.symm
          simp [map_find, hk0, hk0']
        · simp only [map_find, hk0, if_false]
          exact ih h

/-! ## Lemmas on tiles and units of the field -/

theorem is_inside_iff_gridGet (bf : BattleField) (hwf : WF bf) (c : Vec2i) :
    is_inside_field bf c = true ↔ (gridGet bf.field c).isSome = true := by
  rw [is_inside_field_iff, gridGet_isSome_iff bf.field bf.M.toNat bf.N.toNat hwf.1 hwf.2]
  omega

theorem gridGet_tileD (bf : BattleField) (hwf : WF bf) (c : Vec2i)
    (h : is_inside_field bf c = true) : gridGet bf.field c = some (tileD bf c) := by
  have := (is_inside_iff_gridGet bf hwf c).mp h
  unfold tileD
  cases hg : gridGet bf.field c with
  | none => rw [hg] at this; simp at this
  | some t => simp

theorem find_tile_inside (bf : BattleField) (hwf : WF bf) (c : Vec2i)
    (h : is_inside_field bf c = true) : find_tile bf c = .ok (tileD bf c) := by
  simp [find_tile, gridGet_tileD bf hwf c h]

theorem unitAt_eq_tileD (bf : BattleField) (c : Vec2i) : unitAt bf c = (tileD bf c).unit := by
  unfold unitAt tileD
  cases gridGet bf.field c <;> simp

theorem inside_of_unitAt (bf : BattleField) (hwf : WF bf) (c : Vec2i) (u : Unit)
    (h : unitAt bf c = some u) : is_inside_field bf c = true := by
  rw [is_inside_iff_gridGet bf hwf]
  unfold unitAt at h
  cases hg : gridGet bf.field c with
  | none => rw [hg] at h; simp at h
  | some t => simp

theorem tile_eta (t : Tile) : ({ height := t.height, unit := t.unit } : Tile) = t := by
  cases t; rfl

/-! ### `putUnit` -/

@[simp] theorem putUnit_M (bf : BattleField) (c : Vec2i) (ou : Option Unit) :
    (putUnit bf c ou).M = bf.M := rfl

@[simp] theorem putUnit_N (bf : BattleField) (c : Vec2i) (ou : Option Unit) :
    (putUnit bf c ou).N = bf.N := rfl

@[simp] theorem putUnit_time (bf : BattleField) (c : Vec2i) (ou : Option Unit) :
    (putUnit bf c ou).time = bf.time := rfl

@[simp] theorem putUnit_coordinates (bf : BattleField) (c : Vec2i) (ou : Option Unit) :
    (putUnit bf c ou).coordinates = bf.coordinates := rfl

theorem WF_of_field (bf bf' : BattleField) (hM : bf'.M = bf.M) (hN : bf'.N = bf.N)
    (c : Vec2i) (t : Tile) (hf : bf'.field = gridSet bf.field c t) (hwf : WF bf) : WF bf' := by
  unfold WF
  rw [hf, hM, hN, gridSet_length]
  exact ⟨hwf.1, gridSet_row_length _ _ _ _ hwf.2⟩

theorem WF_putUnit (bf : BattleField) (c : Vec2i) (ou : Option Unit) (hwf : WF bf) :
    WF (putUnit bf c ou) :=
  WF_of_field bf _ rfl rfl c _ rfl hwf

theorem is_inside_putUnit (bf : BattleField) (c c' : Vec2i) (ou : Option Unit) :
    is_inside_field (putUnit bf c ou) c' = is_inside_field bf c' := rfl

theorem unitAt_putUnit (bf : BattleField) (hwf : WF bf) (c c' : Vec2i) (ou : Option Unit)
    (hc : is_inside_field bf c = true) :
    unitAt (putUnit bf c ou) c' = if c' = c then ou else unitAt bf c' := by
  have hs := (is_inside_iff_gridGet bf hwf c).mp hc
  unfold unitAt putUnit
  simp only [gridGet_gridSet, hs, and_true]
  by_cases h : c' = c
  · simp [h]
  · simp [h]

theorem height_putUnit (bf : BattleField) (c c' : Vec2i) (ou : Option Unit) :
    (tileD (putUnit bf c ou) c').height = (tileD bf c').height := by
  unfold tileD putUnit
  simp only [gridGet_gridSet]
  by_cases h : c' = c ∧ (gridGet bf.field c).isSome = true
  · rw [if_pos h]
    obtain ⟨h1, h2⟩ := h
    subst h1
    simp [tileD]
  · rw [if_neg h]

theorem putUnit_putUnit (bf : BattleField) (c : Vec2i) (a b : Option Unit) :
    putUnit (putUnit bf c a) c b = putUnit bf c b := by
  have hh := height_putUnit bf c c a
  unfold putUnit at hh ⊢
  simp only [hh, gridSet_gridSet_same]

theorem putUnit_self (bf : BattleField) (c : Vec2i) :
    putUnit bf c (unitAt bf c) = bf := by
  unfold putUnit
  cases hg : gridGet bf.field c with
  | none => rw [gridSet_of_none _ _ _ hg]
  | some t =>
    have : ({ height := (tileD bf c).height, unit := unitAt bf c } : Tile) = t := by
      simp [tileD, unitAt, hg, tile_eta]
    rw [this, gridSet_gridGet_self _ _ _ hg]

theorem set_tile_eq_putUnit (bf : BattleField) (c : Vec2i) (t : Tile) (ou : Option Unit)
    (ht : gridGet bf.field c = some t) :
    set_tile bf c { t with unit := ou } = putUnit bf c ou := by
  unfold set_tile putUnit tileD
  simp [ht]

/-! ## The invariants in pointwise form -/

theorem forall_cells_iff (bf : BattleField) (P : Vec2i → Prop) :
    (∀ i ∈ List.range bf.M.toNat, ∀ j ∈ List.range bf.N.toNat, P ((i : Int), (j : Int))) ↔
      ∀ c, is_inside_field bf c = true → P c := by
  constructor
  · intro h c hc
    rw [is_inside_field_iff] at hc
    obtain ⟨x, y⟩ := c
    simp only at hc
    have := h x.toNat (List.mem_range.mpr (by omega)) y.toNat (List.mem_range.mpr (by omega))
    have hx : ((x.toNat : Nat) : Int) = x := Int.toNat_of_nonneg hc.1
    have hy : ((y.toNat : Nat) : Int) = y := Int.toNat_of_nonneg hc.2.2.1
    rw [hx, hy] at this
    exact this
  · intro h i hi j hj
    apply h
    rw [is_inside_field_iff]
    have := List.mem_range.mp hi
    have := List.mem_range.mp hj
    simp only
    omega

theorem key_lt_iff (a b : String) : key_lt a b ↔ a < b :=
  String.lt_iff_toList_lt.symm

theorem keys_nodup_of_sorted {V : Type} (m : List (String × V))
    (h : (m.map Prod.fst).Pairwise key_lt) : (m.map Prod.fst).Nodup := by
  refine List.Pairwise.imp ?_ h
  intro a b hab he
  rw [key_lt_iff] at hab
  exact absurd he (ne_of_lt hab)

theorem sorted_map_erase {V : Type} (m : List (String × V)) (k : String)
    (h : (m.map Prod.fst).Pairwise key_lt) :
    ((map_erase m k).map Prod.fst).Pairwise key_lt := by
  unfold map_erase
  rw [List.pairwise_map] at h ⊢
  exact h.filter _

theorem mem_map_emplace_imp {V : Type} (m : List (String × V)) (k : String) (v : V)
    (e : String × V) (h : e ∈ map_emplace m k v) : e = (k, v) ∨ e ∈ m := by
  induction m with
  | nil => simpa [map_emplace] using h
  | cons p m ih =>
    obtain ⟨k0, v0⟩ := p
    unfold map_emplace at h
    by_cases hk : k = k0
    · simp only [hk, if_true] at h
      exact Or.inr h
    · simp only [hk, if_false] at h
      by_cases hlt : key_lt k k0
      · simp only [hlt, if_true] at h
        rcases List.mem_cons.mp h with h | h
        · exact Or.inl h
        · exact Or.inr h
      · simp only [hlt, if_false] at h
        rcases List.mem_cons.mp h with h | h
        · exact Or.inr (by rw [h]; exact List.mem_cons_self _ _)
        · rcases ih h with h | h
          · exact Or.inl h
          · exact Or.inr (List.mem_cons_of_mem _ h)

theorem sorted_map_emplace {V : Type} (m : List (String × V)) (k : String) (v : V)
    (h : (m.map Prod.fst).Pairwise key_lt) :
    ((map_emplace m k v).map Prod.fst).Pairwise key_lt := by
  induction m with
  | nil => simp [map_emplace]
  | cons p m ih =>
    obtain ⟨k0, v0⟩ := p
    simp only [List.map_cons, List.pairwise_cons] at h
    unfold map_emplace
    by_cases hk : k = k0
    · simp only [hk, if_true, List.map_cons, List.pairwise_cons]
      exact h
    · simp only [hk, if_false]
      by_cases hlt : key_lt k k0
      · simp only [hlt, if_true, List.map_cons, List.pairwise_cons]
        refine ⟨?_, h⟩
        intro a ha
        rcases List.mem_cons.mp ha with ha | ha
        · rw [ha]; exact hlt
        · have := h.1 a ha
          rw [key_lt_iff] at this hlt ⊢
          exact lt_trans hlt this
      · simp only [hlt, if_false, List.map_cons, List.pairwise_cons]
        refine ⟨?_, ih h.2⟩
        intro a ha
        rw [List.mem_map] at ha
        obtain ⟨e, he, hea⟩ := ha
        rcases mem_map_emplace_imp m k v e he with he | he
        · subst he
          simp only at hea
          subst hea
          rw [key_lt_iff] at hlt ⊢
          rcases lt_trichotomy k0 k with h1 | h1 | h1
          · exact h1
          · exact absurd h1.symm hk
          · exact absurd h1 hlt
        · exact h.1 a (List.mem_map.mpr ⟨e, he, hea⟩)

theorem map_find_of_mem_nodup {V : Type} (m : List (String × V)) (k : String) (v : V)
    (hnd : (m.map Prod.fst).Nodup) (h : (k, v) ∈ m) : map_find m k = some v := by
  induction m with
  | nil => simp at h
  | cons p m ih =>
    obtain ⟨k0, v0⟩ := p
    simp only [List.map_cons, List.nodup_cons] at hnd
    unfold map_find
    rcases List.mem_cons.mp h with h | h
    · simp only [Prod.mk.injEq] at h
      simp [h.1, h.2]
    · have hne : ¬ k = k0 := by
        intro he
        apply hnd.1
        rw [← he]
        exact List.mem_map.mpr ⟨(k, v), h, rfl⟩
      simp only [hne, if_false]
      exact ih hnd.2 h

/-- Pointwise form of `Consistent`. -/
theorem Consistent_iff (bf : BattleField) (hwf : WF bf) :
    Consistent bf ↔
      ((bf.coordinates.map Prod.fst).Pairwise key_lt ∧
       (∀ id c, map_find bf.coordinates id = some c → ∃ u, unitAt bf c = some u ∧ u.id = id) ∧
       (∀ c u, unitAt bf c = some u → map_find bf.coordinates u.id = some c)) := by
  unfold Consistent
  rw [forall_cells_iff bf (fun c => registered bf c = true)]
  constructor
  · rintro ⟨h0, h1, h2⟩
    refine ⟨h0, ?_, ?_⟩
    · intro id c hf
      have := h1 (id, c) (map_find_mem _ _ _ hf)
      unfold holds at this
      simp only at this
      cases hu : unitAt bf c with
      | none => rw [hu] at this; simp at this
      | some u =>
        rw [hu] at this
        exact ⟨u, rfl, by simpa using this⟩
    · intro c u hu
      have := h2 c (inside_of_unitAt bf hwf c u hu)
      unfold registered at this
      rw [hu] at this
      simpa using this
  · rintro ⟨h0, h1, h2⟩
    refine ⟨h0, ?_, ?_⟩
    · intro e he
      obtain ⟨id, c⟩ := e
      have hf := map_find_of_mem_nodup _ _ _ (keys_nodup_of_sorted _ h0) he
      obtain ⟨u, hu, hid⟩ := h1 id c hf
      unfold holds
      simp [hu, hid]
    · intro c _
      unfold registered
      cases hu : unitAt bf c with
      | none => rfl
      | some u => simpa using h2 c u hu

/-- Pointwise form of `UnitsOk`. -/
theorem UnitsOk_iff (bf : BattleField) (hwf : WF bf) :
    UnitsOk bf ↔ ∀ c u, unitAt bf c = some u → UnitOk bf.time u := by
  unfold UnitsOk
  rw [forall_cells_iff bf (fun c => ∀ u ∈ unitAt bf c, UnitOk bf.time u)]
  constructor
  · intro h c u hu
    exact h c (inside_of_unitAt bf hwf c u hu) u hu
  · intro h c _ u hu
    exact h c u hu

/-! ## The operations in closed form -/

theorem find_tile_unit (bf : BattleField) (hwf : WF bf) (c : Vec2i) (u : Unit)
    (hu : unitAt bf c = some u) :
    find_tile bf c = .ok (tileD bf c) ∧ (tileD bf c).unit = some u ∧
      gridGet bf.field c = some (tileD bf c) := by
  have hin := inside_of_unitAt bf hwf c u hu
  refine ⟨find_tile_inside bf hwf c hin, ?_, gridGet_tileD bf hwf c hin⟩
  rw [← unitAt_eq_tileD]; exact hu

theorem remove_unit_eq (bf : BattleField) (hwf : WF bf) (id : String) (c : Vec2i) (u : Unit)
    (hf : map_find bf.coordinates id = some c) (hu : unitAt bf c = some u) :
    remove_unit bf id =
      .ok (u, { putUnit bf c none with coordinates := map_erase bf.coordinates id }) := by
  obtain ⟨h1, h2, h3⟩ := find_tile_unit bf hwf c u hu
  simp [remove_unit, map_at, hf, h1, Tile.remove_unit, h2, bind, Except.bind, pure,
    Except.pure, putUnit]

theorem spawn_unit_noop (bf : BattleField) (hwf : WF bf) (type id : String) (x y : Int)
    (h : is_inside_field bf (x, y) = false ∨ (unitAt bf (x, y)).isSome = true ∨
      map_contains bf.coordinates id = true) :
    spawn_unit bf type id x y = .ok bf := by
  unfold spawn_unit
  by_cases hin : is_inside_field bf (x, y) = true
  · have h1 := find_tile_inside bf hwf (x, y) hin
    have h2 := unitAt_eq_tileD bf (x, y)
    simp only [hin, Bool.not_true, Bool.false_eq_true, if_false, h1, bind, Except.bind]
    rcases h with h | h | h
    · rw [hin] at h; simp at h
    · rw [h2] at h
      simp [Tile.is_tile_empty, h, pure, Except.pure]
    · simp [h, pure, Except.pure]
  · simp [hin]

theorem spawn_unit_eq (bf : BattleField) (hwf : WF bf) (type id : String) (x y : Int)
    (hin : is_inside_field bf (x, y) = true) (hemp : unitAt bf (x, y) = none)
    (hid : map_contains bf.coordinates id = false) :
    spawn_unit bf type id x y =
      match create_unit type id (x, y) with
      | .ok u => .ok { putUnit bf (x, y) (some u) with
                       coordinates := map_emplace bf.coordinates id u.coor }
      | .error e => .error e := by
  unfold spawn_unit
  have h1 := find_tile_inside bf hwf (x, y) hin
  have h2 := unitAt_eq_tileD bf (x, y)
  rw [hemp] at h2
  simp only [hin, Bool.not_true, Bool.false_eq_true, if_false, h1, bind, Except.bind]
  cases hc : create_unit type id (x, y) with
  | error e => simp [Tile.is_tile_empty, ← h2, hid]
  | ok u =>
    simp [Tile.is_tile_empty, ← h2, hid, Tile.add_unit, pure, Except.pure, putUnit]

theorem tile_contains_id_eq (bf : BattleField) (hwf : WF bf) (id : String) (target : Vec2i)
    (hin : is_inside_field bf target = true) :
    tile_contains_id bf id target =
      .ok (match unitAt bf target with
           | some v => decide (v.id = id)
           | none => false) := by
  have h1 := find_tile_inside bf hwf target hin
  have h2 := unitAt_eq_tileD bf target
  unfold tile_contains_id
  simp only [h1, bind, Except.bind]
  cases hu : (tileD bf target).unit with
  | none => simp [Tile.is_tile_empty, hu, h2, pure, Except.pure]
  | some v => simp [Tile.is_tile_empty, hu, h2, Tile.find_unit, pure, Except.pure]

theorem is_move_successful_eq (bf : BattleField) (hwf : WF bf) (id : String) (c : Vec2i)
    (u : Unit) (hf : map_find bf.coordinates id = some c) (hu : unitAt bf c = some u)
    (target : Vec2i) :
    is_move_successful bf id target =
      if is_inside_field bf target = true then
        (match unitAt bf target with
         | some v =>
           if v.id = id then BFS bf c target u.max_move u.max_step u.move_directions
           else .ok false
         | none => BFS bf c target u.max_move u.max_step u.move_directions)
      else .ok false := by
  obtain ⟨h1, h2, h3⟩ := find_tile_unit bf hwf c u hu
  unfold is_move_successful
  simp only [map_at, hf, h1, Tile.find_unit, h2, bind, Except.bind]
  by_cases hin : is_inside_field bf target = true
  · have h4 := find_tile_inside bf hwf target hin
    have h5 := unitAt_eq_tileD bf target
    simp only [hin, Bool.not_true, Bool.false_eq_true, if_false, if_true, h4,
      tile_contains_id_eq bf hwf id target hin]
    cases hv : unitAt bf target with
    | none =>
      rw [hv] at h5
      simp only [Tile.is_tile_empty, ← h5]
      cases BFS bf c target u.max_move u.max_step u.move_directions <;>
        simp [pure, Except.pure]
    | some v =>
      rw [hv] at h5
      simp only [Tile.is_tile_empty, ← h5]
      by_cases hid : v.id = id
      · simp only [hid, if_true]
        cases BFS bf c target u.max_move u.max_step u.move_directions <;>
          simp [pure, Except.pure, bind, Except.bind]
      · simp [hid, pure, Except.pure, bind, Except.bind]
  · simp [hin, pure, Except.pure]

theorem foldl_count_effects (type : String) (es : List Effect) (s : Int) :
    es.foldl (fun s e => if e.type = type then s + 1 else s) s =
      s + ((es.filter (fun e => e.type = type)).length : Int) := by
  induction es generalizing s with
  | nil => simp
  | cons e es ih =>
    simp only [List.foldl_cons, List.filter_cons]
    rw [ih]
    by_cases h : e.type = type
    · simp [h]; omega
    · simp [h]

theorem is_effect_full_eq (u : Unit) (hcap : u.max_active = default_max_active)
    (hcount : deadInsideCount u ≤ 1) :
    u.is_effect_full "dead_inside" = .ok (decide (1 ≤ deadInsideCount u)) := by
  unfold Unit.is_effect_full Unit.active_effect_count Unit.max_effect_count
  rw [foldl_count_effects]
  have hfind : map_at u.max_active "dead_inside" = .ok 1 := by
    rw [hcap]; rfl
  unfold deadInsideCount at hcount ⊢
  have hlt : ¬ ((1 : Int) < 0 + ((u.active_effects.filter
      (fun e => e.type = "dead_inside")).length : Int)) := by omega
  simp only [hfind, bind, Except.bind, hlt, if_false, pure, Except.pure]
  congr 1
  simp only [ge_iff_le, decide_eq_decide]
  omega

theorem move_unit_success (bf : BattleField) (hwf : WF bf) (id : String) (c : Vec2i)
    (u : Unit) (hf : map_find bf.coordinates id = some c) (hu : unitAt bf c = some u)
    (x y : Int) (hs : is_move_successful bf id (x, y) = .ok true)
    (hin : is_inside_field bf (x, y) = true)
    (hfree : (x, y) ≠ c → unitAt bf (x, y) = none) :
    move_unit bf id x y =
      .ok { putUnit (putUnit bf c none) (x, y) (some (u.set_coor (x, y))) with
            coordinates := map_emplace (map_erase bf.coordinates id) id (x, y) } := by
  obtain ⟨h1, h2, h3⟩ := find_tile_unit bf hwf c u hu
  have hcin := inside_of_unitAt bf hwf c u hu
  have hcoor : (u.set_coor (x, y)).coor = (x, y) := rfl
  obtain ⟨u1, hu1def⟩ : ∃ u1, u1 = u.set_coor (x, y) := ⟨_, rfl⟩
  rw [← hu1def] at hcoor ⊢
  have hset : set_tile bf c { tileD bf c with unit := some u1 } =
      putUnit bf c (some u1) := set_tile_eq_putUnit bf c _ _ h3
  have hwf1 : WF (putUnit bf c (some u1)) := WF_putUnit bf c _ hwf
  have hu1 : unitAt (putUnit bf c (some u1)) c = some u1 := by
    rw [unitAt_putUnit bf hwf c c _ hcin]; simp
  have hrem := remove_unit_eq _ hwf1 id c u1 hf hu1
  rw [putUnit_putUnit] at hrem
  obtain ⟨bf2, hbf2⟩ : ∃ b : BattleField, b = { putUnit bf c none with
      coordinates := map_erase bf.coordinates id } := ⟨_, rfl⟩
  have hbf2' : ({ putUnit bf c none with
      coordinates := map_erase (putUnit bf c (some u1)).coordinates id } : BattleField)
      = bf2 := by rw [hbf2]; rfl
  rw [hbf2'] at hrem
  have hwf2 : WF bf2 := by rw [hbf2]; exact WF_putUnit bf c _ hwf
  have hin2 : is_inside_field bf2 (x, y) = true := by rw [hbf2]; exact hin
  have h4 := find_tile_inside _ hwf2 (x, y) hin2
  have h5 : (tileD bf2 (x, y)).unit = none := by
    rw [← unitAt_eq_tileD, hbf2]
    show unitAt (putUnit bf c none) (x, y) = none
    rw [unitAt_putUnit bf hwf c (x, y) _ hcin]
    by_cases hxy : (x, y) = c
    · simp [hxy]
    · simp [hxy, hfree hxy]
  have hfin : ({ bf2 with
      coordinates := (map_emplace bf2.coordinates id (x, y))
      field := (gridSet bf2.field (x, y) { tileD bf2 (x, y) with unit := some u1 }) }
      : BattleField) = { putUnit (putUnit bf c none) (x, y) (some u1) with
            coordinates := map_emplace (map_erase bf.coordinates id) id (x, y) } := by
    rw [hbf2]; rfl
  unfold move_unit
  simp only [hs, map_at, hf, h1, Tile.find_unit, h2, bind, Except.bind, if_true,
    ← hu1def, hset, hrem, hcoor, h4, Tile.add_unit, h5, Option.isSome_none,
    Bool.false_eq_true, if_false, pure, Except.pure]
  rw [hfin]

theorem move_unit_failure (bf : BattleField) (hwf : WF bf) (id : String) (c : Vec2i)
    (u : Unit) (hf : map_find bf.coordinates id = some c) (hu : unitAt bf c = some u)
    (x y : Int) (hs : is_move_successful bf id (x, y) = .ok false)
    (hcap : u.max_active = default_max_active) (hcount : deadInsideCount u ≤ 1) :
    move_unit bf id x y =
      .ok (if deadInsideCount u = 0
           then putUnit bf c (some ((u.set_coor (x, y)).add_effect (DeadInside 1)))
           else putUnit bf c (some (u.set_coor (x, y)))) := by
  obtain ⟨h1, h2, h3⟩ := find_tile_unit bf hwf c u hu
  have hcin := inside_of_unitAt bf hwf c u hu
  unfold move_unit
  simp only [hs, map_at, hf, h1, Tile.find_unit, h2, bind, Except.bind]
  have hset : set_tile bf c { tileD bf c with unit := some (u.set_coor (x, y)) } =
      putUnit bf c (some (u.set_coor (x, y))) := set_tile_eq_putUnit bf c _ _ h3
  rw [hset]
  have hwf1 : WF (putUnit bf c (some (u.set_coor (x, y)))) := WF_putUnit bf c _ hwf
  have hu1 : unitAt (putUnit bf c (some (u.set_coor (x, y)))) c = some (u.set_coor (x, y)) := by
    rw [unitAt_putUnit bf hwf c c _ hcin]; simp
  obtain ⟨g1, g2, g3⟩ := find_tile_unit _ hwf1 c _ hu1
  simp only [putUnit_coordinates, hf, g1, g2, Bool.false_eq_true, if_false]
  have hfull := is_effect_full_eq (u.set_coor (x, y)) hcap hcount
  rw [hfull]
  have hset2 : ∀ ou, set_tile (putUnit bf c (some (u.set_coor (x, y)))) c
      { tileD (putUnit bf c (some (u.set_coor (x, y)))) c with unit := ou } =
      putUnit bf c ou := by
    intro ou
    rw [set_tile_eq_putUnit _ c _ _ g3, putUnit_putUnit]
  have hdc : deadInsideCount (u.set_coor (x, y)) = deadInsideCount u := rfl
  rw [hdc]
  by_cases h0 : deadInsideCount u = 0
  · simp [h0, hset2, pure, Except.pure]
  · have : 1 ≤ deadInsideCount u := by omega
    simp [h0, this, pure, Except.pure]

theorem initialize_attack_empty (bf : BattleField) (hwf : WF bf) (id : String) (c : Vec2i)
    (hf : map_find bf.coordinates id = some c) (dir : Vec2i)
    (hin : is_inside_field bf (c.add dir) = true) (hv : unitAt bf (c.add dir) = none) :
    initialize_attack bf id dir = .ok (false, bf) := by
  have h1 := find_tile_inside bf hwf _ hin
  have h2 := unitAt_eq_tileD bf (c.add dir)
  rw [hv] at h2
  unfold initialize_attack
  simp [map_at, hf, h1, Tile.is_tile_empty, ← h2, bind, Except.bind, pure, Except.pure]

theorem initialize_attack_out_of_range (bf : BattleField) (hwf : WF bf) (id : String)
    (c : Vec2i) (a : Unit) (hf : map_find bf.coordinates id = some c)
    (ha : unitAt bf c = some a) (dir : Vec2i) (v : Unit)
    (hv : unitAt bf (c.add dir) = some v)
    (hr : |(tileD bf c).height - (tileD bf (c.add dir)).height| > a.attack_range) :
    initialize_attack bf id dir = .ok (false, bf) := by
  obtain ⟨h1, h2, -⟩ := find_tile_unit bf hwf c a ha
  obtain ⟨g1, g2, -⟩ := find_tile_unit bf hwf _ v hv
  unfold initialize_attack
  simp [map_at, hf, h1, h2, g1, g2, Tile.is_tile_empty, Tile.find_unit, bind, Except.bind,
    pure, Except.pure, calculate_height_diff, hr]

theorem initialize_attack_hit (bf : BattleField) (hwf : WF bf) (hcons : Consistent bf)
    (id : String) (c : Vec2i) (a : Unit) (hf : map_find bf.coordinates id = some c)
    (ha : unitAt bf c = some a) (dir : Vec2i) (v : Unit)
    (hv : unitAt bf (c.add dir) = some v)
    (hr : |(tileD bf c).height - (tileD bf (c.add dir)).height| ≤ a.attack_range) :
    initialize_attack bf id dir =
      .ok (true, damaged bf (c.add dir) v
        (attack_damage a.attack_dmg (tileD bf c).height (tileD bf (c.add dir)).height)) := by
  obtain ⟨h1, h2, -⟩ := find_tile_unit bf hwf c a ha
  obtain ⟨g1, g2, g3⟩ := find_tile_unit bf hwf _ v hv
  have hin := inside_of_unitAt bf hwf _ v hv
  have hreg : map_find bf.coordinates v.id = some (c.add dir) :=
    ((Consistent_iff bf hwf).mp hcons).2.2 _ v hv
  have hnr : ¬ (|(tileD bf c).height - (tileD bf (c.add dir)).height| > a.attack_range) := by
    omega
  obtain ⟨dmg, hdmg⟩ : ∃ d, d =
      attack_damage a.attack_dmg (tileD bf c).height (tileD bf (c.add dir)).height := ⟨_, rfl⟩
  have hdmg' : (if a.attack_dmg + ((tileD bf c).height - (tileD bf (c.add dir)).height) < 0
      then 0 else a.attack_dmg + ((tileD bf c).height - (tileD bf (c.add dir)).height)) = dmg := by
    rw [hdmg]; unfold attack_damage
    split
    · rw [max_eq_left]; omega
    · rw [max_eq_right]; omega
  obtain ⟨v1, hv1⟩ : ∃ v1, v1 = v.take_damage dmg := ⟨_, rfl⟩
  have hv1id : v1.id = v.id := by rw [hv1]; rfl
  have hv1hp : v1.hp = v.hp - dmg := by rw [hv1]; rfl
  have hset : set_tile bf (c.add dir) { tileD bf (c.add dir) with unit := some v1 } =
      putUnit bf (c.add dir) (some v1) := set_tile_eq_putUnit bf _ _ _ g3
  have hwf1 : WF (putUnit bf (c.add dir) (some v1)) := WF_putUnit bf _ _ hwf
  have hu1 : unitAt (putUnit bf (c.add dir) (some v1)) (c.add dir) = some v1 := by
    rw [unitAt_putUnit bf hwf _ _ _ hin]; simp
  have hrem := remove_unit_eq _ hwf1 v.id (c.add dir) v1 hreg hu1
  rw [putUnit_putUnit] at hrem
  unfold initialize_attack
  simp only [map_at, hf, h1, h2, g1, g2, Tile.is_tile_empty, Tile.find_unit, bind,
    Except.bind, pure, Except.pure, calculate_height_diff, hnr, Option.isNone_some,
    Bool.false_eq_true, if_false, hdmg', ← hv1, hset, hv1id, hv1hp]
  rw [← hdmg]
  unfold damaged
  by_cases hdead : v.hp - dmg ≤ 0
  · simp only [hdead, if_true, hrem]
    rfl
  · simp only [hdead, if_false, hv1]

/-- A probed cell that does not stop the attack: it lies inside the field and is empty
    or holds a unit whose tile is out of the attacker's height range. -/
theorem attack_loop_pass (bf : BattleField) (hwf : WF bf) (id dir : String) (c : Vec2i)
    (a : Unit) (v : Vec2i) (hf : map_find bf.coordinates id = some c)
    (ha : unitAt bf c = some a) (hdir : map_find a.attack_directions dir = some v)
    (n : Nat) (i : Int) (hin : is_inside_field bf (probe c v i) = true)
    (hpass : unitAt bf (probe c v i) = none ∨
      |(tileD bf c).height - (tileD bf (probe c v i)).height| > a.attack_range) :
    attack_loop id dir a (n + 1) i bf = attack_loop id dir a n (i + 1) bf := by
  have hinit : initialize_attack bf id (v.mul i) = .ok (false, bf) := by
    cases hu : unitAt bf (probe c v i) with
    | none => exact initialize_attack_empty bf hwf id c hf _ hin hu
    | some w =>
      rcases hpass with hp | hp
      · rw [hu] at hp; simp at hp
      · exact initialize_attack_out_of_range bf hwf id c a hf ha _ w hu hp
  unfold probe at hin
  rw [attack_loop]
  simp [map_at, hf, hdir, hin, hinit, bind, Except.bind]

theorem attack_loop_outside (bf : BattleField) (id dir : String) (c : Vec2i)
    (a : Unit) (v : Vec2i) (hf : map_find bf.coordinates id = some c)
    (hdir : map_find a.attack_directions dir = some v)
    (n : Nat) (i : Int) (hout : is_inside_field bf (probe c v i) = false) :
    attack_loop id dir a (n + 1) i bf = .ok bf := by
  unfold probe at hout
  rw [attack_loop]
  simp [map_at, hf, hdir, hout, bind, Except.bind, pure, Except.pure]

theorem attack_loop_hit (bf : BattleField) (hwf : WF bf) (hcons : Consistent bf)
    (id dir : String) (c : Vec2i)
    (a : Unit) (v : Vec2i) (hf : map_find bf.coordinates id = some c)
    (ha : unitAt bf c = some a) (hdir : map_find a.attack_directions dir = some v)
    (n : Nat) (i : Int) (w : Unit) (hw : unitAt bf (probe c v i) = some w)
    (hr : |(tileD bf c).height - (tileD bf (probe c v i)).height| ≤ a.attack_range) :
    attack_loop id dir a (n + 1) i bf =
      .ok (damaged bf (probe c v i) w
        (attack_damage a.attack_dmg (tileD bf c).height (tileD bf (probe c v i)).height)) := by
  have hin := inside_of_unitAt bf hwf _ w hw
  have hinit := initialize_attack_hit bf hwf hcons id c a hf ha (v.mul i) w hw hr
  unfold probe at hin
  rw [attack_loop]
  simp only [map_at, hf, hdir, hin, hinit, bind, Except.bind, Bool.not_true,
    Bool.false_eq_true, if_false, if_true, pure, Except.pure]
  rfl

/-- Probes `i, i + 1, ..., i + m - 1` that do not stop the attack are passed over. -/
theorem attack_loop_skip (bf : BattleField) (hwf : WF bf) (id dir : String) (c : Vec2i)
    (a : Unit) (v : Vec2i) (hf : map_find bf.coordinates id = some c)
    (ha : unitAt bf c = some a) (hdir : map_find a.attack_directions dir = some v) :
    ∀ (m n : Nat) (i : Int),
      (∀ j : Nat, j < m → is_inside_field bf (probe c v (i + j)) = true ∧
        (unitAt bf (probe c v (i + j)) = none ∨
          |(tileD bf c).height - (tileD bf (probe c v (i + j))).height| > a.attack_range)) →
      attack_loop id dir a (n + m) i bf = attack_loop id dir a n (i + m) bf := by
  intro m
  induction m with
  | zero => intro n i _; simp
  | succ m ih =>
    intro n i h
    have h0 := h 0 (Nat.succ_pos m)
    simp only [Nat.cast_zero, add_zero] at h0
    have hstep : attack_loop id dir a (n + m + 1) i bf =
        attack_loop id dir a (n + m) (i + 1) bf :=
      attack_loop_pass bf hwf id dir c a v hf ha hdir (n + m) i h0.1 h0.2
    have hrest := ih n (i + 1) (by
      intro j hj
      have := h (j + 1) (Nat.succ_lt_succ hj)
      have he : i + ((j + 1 : Nat) : Int) = i + 1 + (j : Int) := by push_cast; ring
      rw [he] at this
      exact this)
    have he2 : i + 1 + (m : Int) = i + ((m + 1 : Nat) : Int) := by push_cast; ring
    rw [show n + (m + 1) = n + m + 1 from rfl, hstep, hrest, he2]

theorem attack_unit_eq (bf : BattleField) (hwf : WF bf) (id dir : String) (c : Vec2i)
    (a : Unit) (hf : map_find bf.coordinates id = some c) (ha : unitAt bf c = some a) :
    attack_unit bf id dir = attack_loop id dir a a.attack_distance.toNat 1 bf := by
  obtain ⟨h1, h2, -⟩ := find_tile_unit bf hwf c a ha
  have hc : map_contains bf.coordinates id = true := by
    simp [map_contains, hf]
  unfold attack_unit
  simp [hc, map_at, hf, h1, Tile.find_unit, h2, bind, Except.bind]

theorem attack_unit_unknown (bf : BattleField) (id dir : String)
    (h : map_contains bf.coordinates id = false) : attack_unit bf id dir = .ok bf := by
  unfold attack_unit
  simp [h]

theorem apply_all_eq (es : List Effect) (u : Unit) (dt : Int) :
    apply_all es u dt =
      (es.map (fun e => e.decrement_timer dt),
       { u with hp := u.hp - (es.map (fun e => e.dmg * dt)).sum }) := by
  induction es generalizing u with
  | nil => simp [apply_all]
  | cons e es ih =>
    simp only [apply_all, Effect.apply, ih, List.map_cons, List.sum_cons, Unit.take_damage,
      Unit.set_hp]
    congr 2
    ring

theorem apply_effects_eq (u : Unit) (dt : Int) :
    u.apply_effects dt =
      { u with hp := u.hp - effects_damage u dt,
               active_effects := u.active_effects.map (fun e => e.decrement_timer dt) } := by
  unfold Unit.apply_effects effects_damage
  rw [apply_all_eq]

theorem tick_unit_eq (bf : BattleField) (hwf : WF bf) (id : String) (c : Vec2i) (u : Unit)
    (hf : map_find bf.coordinates id = some c) (hu : unitAt bf c = some u) (nt : Int) :
    tick_unit nt bf (id, c) = .ok (ticked bf id c (tick_result u (nt - bf.time))) := by
  obtain ⟨h1, h2, h3⟩ := find_tile_unit bf hwf c u hu
  have hcin := inside_of_unitAt bf hwf c u hu
  obtain ⟨u1, hu1⟩ : ∃ u1, u1 = u.apply_effects (nt - bf.time) := ⟨_, rfl⟩
  have hhp : u1.hp = u.hp - effects_damage u (nt - bf.time) := by
    rw [hu1, apply_effects_eq]
  have hset : ∀ ou, set_tile bf c { tileD bf c with unit := ou } = putUnit bf c ou :=
    fun ou => set_tile_eq_putUnit bf c _ _ h3
  have hwf1 : WF (putUnit bf c (some u1)) := WF_putUnit bf c _ hwf
  have hu1' : unitAt (putUnit bf c (some u1)) c = some u1 := by
    rw [unitAt_putUnit bf hwf c c _ hcin]; simp
  have hrem := remove_unit_eq _ hwf1 id c u1 hf hu1'
  rw [putUnit_putUnit] at hrem
  have hset2 : ∀ ou, set_tile (putUnit bf c (some u1)) c { tileD bf c with unit := ou } =
      putUnit bf c ou := by
    intro ou
    have hg : gridGet (putUnit bf c (some u1)).field c =
        some { height := (tileD bf c).height, unit := some u1 } := by
      unfold putUnit
      exact gridGet_gridSet_same _ _ _ (by rw [h3]; rfl)
    have := set_tile_eq_putUnit (putUnit bf c (some u1)) c _ ou hg
    rw [putUnit_putUnit] at this
    exact this
  unfold tick_unit
  simp only [h1, Tile.find_unit, h2, bind, Except.bind, ← hu1, hset, hrem, hset2]
  unfold tick_result ticked
  by_cases hdead : u.hp - effects_damage u (nt - bf.time) ≤ 0
  · have : u1.hp ≤ 0 := by rw [hhp]; exact hdead
    simp only [this, hdead, if_true, pure, Except.pure]
    rfl
  · have : ¬ u1.hp ≤ 0 := by rw [hhp]; exact hdead
    simp only [this, hdead, if_false, pure, Except.pure]
    rw [hu1, apply_effects_eq]
    rfl

theorem WF_ticked (bf : BattleField) (hwf : WF bf) (id : String) (c : Vec2i)
    (r : Option Unit) : WF (ticked bf id c r) := by
  cases r with
  | none => exact WF_putUnit bf c _ hwf
  | some u => exact WF_putUnit bf c _ hwf

theorem ticked_M (bf : BattleField) (id : String) (c : Vec2i) (r : Option Unit) :
    (ticked bf id c r).M = bf.M := by cases r <;> rfl

theorem ticked_N (bf : BattleField) (id : String) (c : Vec2i) (r : Option Unit) :
    (ticked bf id c r).N = bf.N := by cases r <;> rfl

theorem ticked_time (bf : BattleField) (id : String) (c : Vec2i) (r : Option Unit) :
    (ticked bf id c r).time = bf.time := by cases r <;> rfl

theorem height_ticked (bf : BattleField) (id : String) (c c' : Vec2i) (r : Option Unit) :
    (tileD (ticked bf id c r) c').height = (tileD bf c').height := by
  cases r with
  | none => exact height_putUnit bf c c' none
  | some u => exact height_putUnit bf c c' (some u)

theorem unitAt_ticked (bf : BattleField) (hwf : WF bf) (id : String) (c c' : Vec2i)
    (r : Option Unit) (hc : is_inside_field bf c = true) :
    unitAt (ticked bf id c r) c' = if c' = c then r else unitAt bf c' := by
  cases r with
  | none => exact unitAt_putUnit bf hwf c c' none hc
  | some u => exact unitAt_putUnit bf hwf c c' (some u) hc

theorem map_erase_middle {V : Type} (Pre R : List (String × V)) (k : String) (v : V)
    (hnd : ((Pre ++ (k, v) :: R).map Prod.fst).Nodup) :
    map_erase (Pre ++ (k, v) :: R) k = Pre ++ R := by
  unfold map_erase
  rw [List.filter_append, List.filter_cons]
  simp only [ne_eq, not_true_eq_false, decide_False, Bool.false_eq_true, if_false]
  rw [List.map_append, List.map_cons, List.nodup_append] at hnd
  obtain ⟨-, h2, h3⟩ := hnd
  rw [List.nodup_cons] at h2
  have hpre : Pre.filter (fun p => decide ¬p.1 = k) = Pre := by
    rw [List.filter_eq_self]
    intro e he
    simp only [decide_eq_true_eq]
    intro hk
    exact h3 (List.mem_map.mpr ⟨e, he, hk⟩) (List.mem_cons_self _ _)
  have hR : R.filter (fun p => decide ¬p.1 = k) = R := by
    rw [List.filter_eq_self]
    intro e he
    simp only [decide_eq_true_eq]
    intro hk
    exact h2.1 (List.mem_map.mpr ⟨e, he, hk⟩)
  rw [hpre, hR]

theorem map_next_middle {V : Type} (Pre R : List (String × V)) (k : String) (v : V)
    (hnd : ((Pre ++ (k, v) :: R).map Prod.fst).Nodup) :
    map_next (Pre ++ (k, v) :: R) k = R.head? := by
  induction Pre with
  | nil => simp [map_next]
  | cons p Pre ih =>
    obtain ⟨k0, v0⟩ := p
    simp only [List.cons_append, List.map_cons, List.nodup_cons] at hnd
    have hne : ¬ k0 = k := by
      intro he
      apply hnd.1
      rw [he]
      simp
    simp only [List.cons_append, map_next, hne, if_false]
    exact ih hnd.2

/-- The loop of `update_tick` with the iterator at the head of the registry entries `R`
    that remain to be visited: it visits exactly the entries of `R`, each once. -/
theorem tick_fold (nt : Int) :
    ∀ (R : List (String × Vec2i)) (b : BattleField) (Pre : List (String × Vec2i))
      (fuel : Nat), R.length ≤ fuel →
      WF b → b.coordinates = Pre ++ R → ((Pre ++ R).map Prod.fst).Nodup →
      (R.map Prod.snd).Nodup → (∀ e ∈ R, (unitAt b e.2).isSome = true) →
      ∃ b', update_tick_loop nt fuel b R.head? = .ok b' ∧ WF b' ∧ b'.M = b.M ∧ b'.N = b.N ∧
        b'.time = b.time ∧ (∀ c, (tileD b' c).height = (tileD b c).height) ∧
        b'.coordinates = Pre ++ R.filter (fun e =>
          ((unitAt b e.2).bind (fun u => tick_result u (nt - b.time))).isSome) ∧
        (∀ c, unitAt b' c =
          if c ∈ R.map Prod.snd then
            (unitAt b c).bind (fun u => tick_result u (nt - b.time))
          else unitAt b c) := by
  intro R
  induction R with
  | nil =>
    intro b Pre fuel _ hwf hco _ _ _
    refine ⟨b, ?_, hwf, rfl, rfl, rfl, fun _ => rfl, by simpa using hco, by simp⟩
    cases fuel <;> simp [update_tick_loop]
  | cons e R ih =>
    intro b Pre fuel hfuel hwf hco hnd hcd hocc
    obtain ⟨id, c⟩ := e
    obtain ⟨f, hf0⟩ : ∃ f, fuel = f + 1 := ⟨fuel - 1, by
      simp only [List.length_cons] at hfuel; omega⟩
    subst hf0
    have hfuel' : R.length ≤ f := by
      simp only [List.length_cons] at hfuel; omega
    have hnext : map_next b.coordinates id = R.head? := by
      rw [hco]
      exact map_next_middle Pre R id c hnd
    have hsome := hocc (id, c) (List.mem_cons_self _ _)
    obtain ⟨u, hu⟩ := Option.isSome_iff_exists.mp hsome
    simp only at hu
    have hcin := inside_of_unitAt b hwf c u hu
    have hf : map_find b.coordinates id = some c := by
      rw [hco]
      exact map_find_of_mem_nodup _ _ _ hnd (by simp)
    have hstep := tick_unit_eq b hwf id c u hf hu nt
    obtain ⟨r, hr⟩ : ∃ r, r = tick_result u (nt - b.time) := ⟨_, rfl⟩
    rw [← hr] at hstep
    obtain ⟨b1, hb1⟩ : ∃ b1, b1 = ticked b id c r := ⟨_, rfl⟩
    rw [← hb1] at hstep
    have hwf1 : WF b1 := by rw [hb1]; exact WF_ticked b hwf id c r
    have htime1 : b1.time = b.time := by rw [hb1]; exact ticked_time b id c r
    have hunit1 : ∀ c', unitAt b1 c' = if c' = c then r else unitAt b c' := by
      intro c'; rw [hb1]; exact unitAt_ticked b hwf id c c' r hcin
    simp only [List.map_cons, List.nodup_cons] at hcd
    have hne : ∀ e' ∈ R, e'.2 ≠ c := by
      intro e' he' heq
      exact hcd.1 (List.mem_map.mpr ⟨e', he', heq⟩)
    have hocc1 : ∀ e' ∈ R, (unitAt b1 e'.2).isSome = true := by
      intro e' he'
      rw [hunit1, if_neg (hne e' he')]
      exact hocc e' (List.mem_cons_of_mem _ he')
    have hfilter : R.filter (fun e =>
          ((unitAt b1 e.2).bind (fun u => tick_result u (nt - b1.time))).isSome) =
        R.filter (fun e =>
          ((unitAt b e.2).bind (fun u => tick_result u (nt - b.time))).isSome) := by
      apply List.filter_congr
      intro e' he'
      rw [hunit1, if_neg (hne e' he'), htime1]
    have hfin : ∀ (Pre' : List (String × Vec2i)), b1.coordinates = Pre' ++ R →
        ((Pre' ++ R).map Prod.fst).Nodup →
        Pre' ++ R.filter (fun e =>
          ((unitAt b e.2).bind (fun u => tick_result u (nt - b.time))).isSome) =
        Pre ++ ((id, c) :: R).filter (fun e =>
          ((unitAt b e.2).bind (fun u => tick_result u (nt - b.time))).isSome) →
        ∃ b', update_tick_loop nt (f + 1) b ((id, c) :: R).head? = .ok b' ∧ WF b' ∧
          b'.M = b.M ∧
          b'.N = b.N ∧ b'.time = b.time ∧
          (∀ c, (tileD b' c).height = (tileD b c).height) ∧
          b'.coordinates = Pre ++ ((id, c) :: R).filter (fun e =>
            ((unitAt b e.2).bind (fun u => tick_result u (nt - b.time))).isSome) ∧
          (∀ c', unitAt b' c' =
            if c' ∈ ((id, c) :: R).map Prod.snd then
              (unitAt b c').bind (fun u => tick_result u (nt - b.time))
            else unitAt b c') := by
      intro Pre' hco1 hnd1 hpre
      obtain ⟨b', h1, h2, h3, h4, h5, h6, h7, h8⟩ :=
        ih b1 Pre' f hfuel' hwf1 hco1 hnd1 hcd.2 hocc1
      refine ⟨b', ?_, h2, ?_, ?_, ?_, ?_, ?_, ?_⟩
      · simp only [List.head?_cons, update_tick_loop, hnext, hstep, bind, Except.bind]
        exact h1
      · rw [h3, hb1]; exact ticked_M b id c r
      · rw [h4, hb1]; exact ticked_N b id c r
      · rw [h5, htime1]
      · intro c'; rw [h6, hb1]; exact height_ticked b id c c' r
      · rw [h7, hfilter, hpre]
      · intro c'
        rw [h8, hunit1, htime1]
        simp only [List.map_cons, List.mem_cons]
        by_cases hc' : c' = c
        · subst hc'
          have hnot : ¬ c' ∈ R.map Prod.snd := hcd.1
          simp [hnot, hu, hr]
        · by_cases hmem : c' ∈ R.map Prod.snd
          · simp [hc', hmem]
          · simp [hc', hmem]
    cases hrc : r with
    | none =>
      have hco1 : b1.coordinates = Pre ++ R := by
        rw [hb1, hrc]
        show map_erase b.coordinates id = Pre ++ R
        rw [hco]
        exact map_erase_middle Pre R id c hnd
      have hnd1 : ((Pre ++ R).map Prod.fst).Nodup := by
        refine List.Nodup.sublist ?_ hnd
        apply List.Sublist.map
        exact List.Sublist.append_left (List.sublist_cons_self _ _) _
      apply hfin Pre hco1 hnd1
      rw [List.filter_cons]
      simp [hu, ← hr, hrc]
    | some u' =>
      have hco1 : b1.coordinates = (Pre ++ [(id, c)]) ++ R := by
        rw [hb1, hrc]
        show b.coordinates = (Pre ++ [(id, c)]) ++ R
        rw [hco]; simp
      have hnd1 : (((Pre ++ [(id, c)]) ++ R).map Prod.fst).Nodup := by
        simpa using hnd
      apply hfin (Pre ++ [(id, c)]) hco1 hnd1
      rw [List.filter_cons]
      simp [hu, ← hr, hrc]

theorem holds_iff (bf : BattleField) (c : Vec2i) (id : String) :
    holds bf c id = true ↔ ∃ u, unitAt bf c = some u ∧ u.id = id := by
  unfold holds
  cases unitAt bf c with
  | none => simp
  | some u => simp

theorem coords_nodup (bf : BattleField) (hcons : Consistent bf) :
    (bf.coordinates.map Prod.snd).Nodup := by
  obtain ⟨h0, h1, -⟩ := hcons
  have hk := keys_nodup_of_sorted _ h0
  refine List.Nodup.map_on ?_ (List.Nodup.of_map _ hk)
  intro e1 he1 e2 he2 heq
  obtain ⟨u1, hu1, hid1⟩ := (holds_iff bf _ _).mp (h1 e1 he1)
  obtain ⟨u2, hu2, hid2⟩ := (holds_iff bf _ _).mp (h1 e2 he2)
  rw [heq, hu2] at hu1
  simp only [Option.some.injEq] at hu1
  subst hu1
  exact Prod.ext (by rw [← hid1, ← hid2]) heq

/-- Closed form of `update_tick` on a consistent battle field: it never throws, every
    unit is replaced by its `tick_result`, and the registry keeps the survivors. -/
theorem update_tick_spec (bf : BattleField) (hwf : WF bf) (hcons : Consistent bf) (nt : Int) :
    ∃ bf', update_tick bf nt = .ok bf' ∧ WF bf' ∧ bf'.M = bf.M ∧ bf'.N = bf.N ∧
      bf'.time = nt ∧ (∀ c, (tileD bf' c).height = (tileD bf c).height) ∧
      bf'.coordinates = bf.coordinates.filter (fun e =>
        ((unitAt bf e.2).bind (fun u => tick_result u (nt - bf.time))).isSome) ∧
      (∀ c, unitAt bf' c = (unitAt bf c).bind (fun u => tick_result u (nt - bf.time))) := by
  have hp := (Consistent_iff bf hwf).mp hcons
  have hocc : ∀ e ∈ bf.coordinates, (unitAt bf e.2).isSome = true := by
    intro e he
    obtain ⟨u, hu, -⟩ := (holds_iff bf _ _).mp (hcons.2.1 e he)
    simp [hu]
  obtain ⟨b', h1, h2, h3, h4, h5, h6, h7, h8⟩ :=
    tick_fold nt bf.coordinates bf [] bf.coordinates.length (le_refl _) hwf (by simp)
      (by simpa using keys_nodup_of_sorted _ hp.1) (coords_nodup bf hcons) hocc
  refine ⟨b'.set_time nt, ?_, h2, h3, h4, rfl, h6, by simpa using h7, ?_⟩
  · unfold update_tick
    simp [h1, bind, Except.bind, pure, Except.pure]
  · intro c
    show unitAt b' c = _
    rw [h8]
    by_cases hmem : c ∈ bf.coordinates.map Prod.snd
    · simp [hmem]
    · simp only [hmem, if_false]
      cases hu : unitAt bf c with
      | none => rfl
      | some u =>
        exfalso
        apply hmem
        have := hp.2.2 c u hu
        exact List.mem_map.mpr ⟨(u.id, c), map_find_mem _ _ _ this, rfl⟩

/-- Two well-formed fields of the same size with the same tiles are equal. -/
theorem grid_ext {α : Type} (g1 g2 : List (List α)) (m n : Nat)
    (hl1 : g1.length = m) (hl2 : g2.length = m)
    (hr1 : ∀ row ∈ g1, row.length = n) (hr2 : ∀ row ∈ g2, row.length = n)
    (h : ∀ c, gridGet g1 c = gridGet g2 c) : g1 = g2 := by
  apply List.ext_getElem (by rw [hl1, hl2])
  intro i hi1 hi2
  apply List.ext_getElem
  · rw [hr1 _ (List.getElem_mem _), hr2 _ (List.getElem_mem _)]
  · intro j hj1 hj2
    have := h ((i : Int), (j : Int))
    unfold gridGet at this
    simp only [Int.toNat_ofNat, Nat.cast_nonneg, and_self, if_true,
      List.getElem?_eq_getElem hi1, List.getElem?_eq_getElem hi2,
      List.getElem?_eq_getElem hj1, List.getElem?_eq_getElem hj2, Option.some.injEq] at this
    exact this

theorem tile_ext (t1 t2 : Tile) (hh : t1.height = t2.height) (hu : t1.unit = t2.unit) :
    t1 = t2 := by
  cases t1; cases t2; simp_all

theorem battlefield_ext (b1 b2 : BattleField) (hwf1 : WF b1) (hwf2 : WF b2)
    (hM : b1.M = b2.M) (hN : b1.N = b2.N) (ht : b1.time = b2.time)
    (hc : b1.coordinates = b2.coordinates)
    (hh : ∀ c, (tileD b1 c).height = (tileD b2 c).height)
    (hu : ∀ c, unitAt b1 c = unitAt b2 c) : b1 = b2 := by
  have hfield : b1.field = b2.field := by
    apply grid_ext b1.field b2.field b1.M.toNat b1.N.toNat hwf1.1 (by rw [hM]; exact hwf2.1)
      hwf1.2 (by rw [hN]; exact hwf2.2)
    intro c
    by_cases hin : is_inside_field b1 c = true
    · have hin2 : is_inside_field b2 c = true := by
        rw [is_inside_field_iff] at hin ⊢
        rw [← hM, ← hN]; exact hin
      rw [gridGet_tileD b1 hwf1 c hin, gridGet_tileD b2 hwf2 c hin2]
      congr 1
      apply tile_ext _ _ (hh c)
      rw [← unitAt_eq_tileD, ← unitAt_eq_tileD]
      exact hu c
    · have hin2 : ¬ is_inside_field b2 c = true := by
        rw [is_inside_field_iff] at hin ⊢
        rw [← hM, ← hN]; exact hin
      rw [is_inside_iff_gridGet b1 hwf1] at hin
      rw [is_inside_iff_gridGet b2 hwf2] at hin2
      simp only [Bool.not_eq_true, Option.not_isSome, Option.isNone_iff_eq_none] at hin hin2
      rw [hin, hin2]
  cases b1; cases b2
  simp only at hM hN ht hc hfield
  subst hM; subst hN; subst ht; subst hc; subst hfield
  rfl

/-! ## Preservation of the invariant -/

theorem Inv_intro (bf : BattleField) (hwf : WF bf)
    (hs : (bf.coordinates.map Prod.fst).Pairwise key_lt)
    (hA : ∀ id c, map_find bf.coordinates id = some c →
      ∃ u, unitAt bf c = some u ∧ u.id = id)
    (hB : ∀ c u, unitAt bf c = some u → map_find bf.coordinates u.id = some c)
    (ht : 0 ≤ bf.time) (hU : ∀ c u, unitAt bf c = some u → UnitOk bf.time u) : Inv bf :=
  ⟨hwf, (Consistent_iff bf hwf).mpr ⟨hs, hA, hB⟩, ht, (UnitsOk_iff bf hwf).mpr hU⟩

theorem Inv.sorted {bf : BattleField} (h : Inv bf) :
    (bf.coordinates.map Prod.fst).Pairwise key_lt := h.cons.1

theorem Inv.entry {bf : BattleField} (h : Inv bf) (id : String) (c : Vec2i)
    (hf : map_find bf.coordinates id = some c) : ∃ u, unitAt bf c = some u ∧ u.id = id :=
  ((Consistent_iff bf h.wf).mp h.cons).2.1 id c hf

theorem Inv.reg {bf : BattleField} (h : Inv bf) (c : Vec2i) (u : Unit)
    (hu : unitAt bf c = some u) : map_find bf.coordinates u.id = some c :=
  ((Consistent_iff bf h.wf).mp h.cons).2.2 c u hu

theorem Inv.unit {bf : BattleField} (h : Inv bf) (c : Vec2i) (u : Unit)
    (hu : unitAt bf c = some u) : UnitOk bf.time u :=
  (UnitsOk_iff bf h.wf).mp h.units c u hu

theorem Consistent_put_same_id (bf : BattleField) (hwf : WF bf) (hcons : Consistent bf)
    (c : Vec2i) (u u' : Unit) (hu : unitAt bf c = some u) (hid : u'.id = u.id) :
    Consistent (putUnit bf c (some u')) := by
  have hcin := inside_of_unitAt bf hwf c u hu
  obtain ⟨hs, hA, hB⟩ := (Consistent_iff bf hwf).mp hcons
  rw [Consistent_iff _ (WF_putUnit bf c _ hwf)]
  refine ⟨hs, ?_, ?_⟩
  · intro id c' hf
    obtain ⟨w, hw, hwid⟩ := hA id c' hf
    rw [unitAt_putUnit bf hwf c c' _ hcin]
    by_cases hc : c' = c
    · subst hc
      rw [hu] at hw
      simp only [Option.some.injEq] at hw
      subst hw
      exact ⟨u', by simp, by rw [hid, hwid]⟩
    · exact ⟨w, by simp [hc, hw], hwid⟩
  · intro c' w hw
    rw [unitAt_putUnit bf hwf c c' _ hcin] at hw
    by_cases hc : c' = c
    · subst hc
      simp only [if_true, Option.some.injEq] at hw
      subst hw
      show map_find bf.coordinates u'.id = some c'
      rw [hid]
      exact hB c' u hu
    · simp only [hc, if_false] at hw
      exact hB c' w hw

theorem Inv_put_same_id (bf : BattleField) (h : Inv bf) (c : Vec2i) (u u' : Unit)
    (hu : unitAt bf c = some u) (hid : u'.id = u.id) (hok : UnitOk bf.time u') :
    Inv (putUnit bf c (some u')) := by
  have hcin := inside_of_unitAt bf h.wf c u hu
  refine ⟨WF_putUnit bf c _ h.wf, Consistent_put_same_id bf h.wf h.cons c u u' hu hid,
    h.time_nonneg, ?_⟩
  rw [UnitsOk_iff _ (WF_putUnit bf c _ h.wf)]
  intro c' w hw
  rw [unitAt_putUnit bf h.wf c c' _ hcin] at hw
  by_cases hc : c' = c
  · simp only [hc, if_true, Option.some.injEq] at hw
    subst hw
    exact hok
  · simp only [hc, if_false] at hw
    exact h.unit c' w hw

theorem Consistent_remove (bf : BattleField) (hwf : WF bf) (hcons : Consistent bf)
    (c : Vec2i) (u : Unit) (hu : unitAt bf c = some u) :
    Consistent ({ putUnit bf c none with
      coordinates := map_erase bf.coordinates u.id } : BattleField) := by
  have hcin := inside_of_unitAt bf hwf c u hu
  obtain ⟨hs, hA, hB⟩ := (Consistent_iff bf hwf).mp hcons
  have hwf' : WF ({ putUnit bf c none with
      coordinates := map_erase bf.coordinates u.id } : BattleField) := WF_putUnit bf c _ hwf
  have hunit : ∀ c', unitAt ({ putUnit bf c none with
      coordinates := map_erase bf.coordinates u.id } : BattleField) c' =
      if c' = c then none else unitAt bf c' :=
    fun c' => unitAt_putUnit bf hwf c c' none hcin
  rw [Consistent_iff _ hwf']
  refine ⟨sorted_map_erase _ _ hs, ?_, ?_⟩
  · intro id c' hf
    simp only [map_find_erase] at hf
    by_cases hid : id = u.id
    · simp [hid] at hf
    · simp only [hid, if_false] at hf
      obtain ⟨w, hw, hwid⟩ := hA id c' hf
      have hc : c' ≠ c := by
        intro hc
        subst hc
        rw [hu] at hw
        simp only [Option.some.injEq] at hw
        subst hw
        exact hid hwid.symm
      exact ⟨w, by rw [hunit]; simp [hc, hw], hwid⟩
  · intro c' w hw
    rw [hunit] at hw
    by_cases hc : c' = c
    · simp [hc] at hw
    · simp only [hc, if_false] at hw
      simp only [map_find_erase]
      have hreg := hB c' w hw
      have hne : w.id ≠ u.id := by
        intro he
        rw [he, hB c u hu] at hreg
        simp only [Option.some.injEq] at hreg
        exact hc hreg.symm
      simp [hne, hreg]

theorem Inv_remove (bf : BattleField) (h : Inv bf) (c : Vec2i) (u : Unit)
    (hu : unitAt bf c = some u) :
    Inv ({ putUnit bf c none with
      coordinates := map_erase bf.coordinates u.id } : BattleField) := by
  have hcin := inside_of_unitAt bf h.wf c u hu
  have hwf' : WF ({ putUnit bf c none with
      coordinates := map_erase bf.coordinates u.id } : BattleField) := WF_putUnit bf c _ h.wf
  refine ⟨hwf', Consistent_remove bf h.wf h.cons c u hu, h.time_nonneg, ?_⟩
  rw [UnitsOk_iff _ hwf']
  intro c' w hw
  have hunit : unitAt ({ putUnit bf c none with
      coordinates := map_erase bf.coordinates u.id } : BattleField) c' =
      if c' = c then none else unitAt bf c' := unitAt_putUnit bf h.wf c c' none hcin
  rw [hunit] at hw
  by_cases hc : c' = c
  · simp [hc] at hw
  · simp only [hc, if_false] at hw
    exact h.unit c' w hw

theorem Consistent_add (bf : BattleField) (hwf : WF bf) (hcons : Consistent bf)
    (c : Vec2i) (u : Unit) (hcin : is_inside_field bf c = true)
    (hemp : unitAt bf c = none) (hnew : map_find bf.coordinates u.id = none) :
    Consistent ({ putUnit bf c (some u) with
      coordinates := map_emplace bf.coordinates u.id c } : BattleField) := by
  obtain ⟨hs, hA, hB⟩ := (Consistent_iff bf hwf).mp hcons
  have hwf' : WF ({ putUnit bf c (some u) with
      coordinates := map_emplace bf.coordinates u.id c } : BattleField) :=
    WF_putUnit bf c _ hwf
  have hunit : ∀ c', unitAt ({ putUnit bf c (some u) with
      coordinates := map_emplace bf.coordinates u.id c } : BattleField) c' =
      if c' = c then some u else unitAt bf c' :=
    fun c' => unitAt_putUnit bf hwf c c' _ hcin
  rw [Consistent_iff _ hwf']
  refine ⟨sorted_map_emplace _ _ _ hs, ?_, ?_⟩
  · intro id c' hf
    simp only [map_find_emplace _ _ _ hnew] at hf
    by_cases hid : id = u.id
    · simp only [hid, if_true, Option.some.injEq] at hf
      subst hf
      exact ⟨u, by rw [hunit]; simp, hid.symm⟩
    · simp only [hid, if_false] at hf
      obtain ⟨w, hw, hwid⟩ := hA id c' hf
      have hc : c' ≠ c := by
        intro hc
        subst hc
        rw [hemp] at hw
        simp at hw
      exact ⟨w, by rw [hunit]; simp [hc, hw], hwid⟩
  · intro c' w hw
    rw [hunit] at hw
    simp only [map_find_emplace _ _ _ hnew]
    by_cases hc : c' = c
    · simp only [hc, if_true, Option.some.injEq] at hw
      subst hw
      simp [hc]
    · simp only [hc, if_false] at hw
      have hreg := hB c' w hw
      have hne : w.id ≠ u.id := by
        intro he
        rw [he, hnew] at hreg
        simp at hreg
      simp [hne, hreg]

theorem Inv_add (bf : BattleField) (h : Inv bf) (c : Vec2i) (u : Unit)
    (hcin : is_inside_field bf c = true) (hemp : unitAt bf c = none)
    (hnew : map_find bf.coordinates u.id = none) (hok : UnitOk bf.time u) :
    Inv ({ putUnit bf c (some u) with
      coordinates := map_emplace bf.coordinates u.id c } : BattleField) := by
  have hwf' : WF ({ putUnit bf c (some u) with
      coordinates := map_emplace bf.coordinates u.id c } : BattleField) :=
    WF_putUnit bf c _ h.wf
  refine ⟨hwf', Consistent_add bf h.wf h.cons c u hcin hemp hnew, h.time_nonneg, ?_⟩
  rw [UnitsOk_iff _ hwf']
  intro c' w hw
  have hunit : unitAt ({ putUnit bf c (some u) with
      coordinates := map_emplace bf.coordinates u.id c } : BattleField) c' =
      if c' = c then some u else unitAt bf c' := unitAt_putUnit bf h.wf c c' _ hcin
  rw [hunit] at hw
  by_cases hc : c' = c
  · simp only [hc, if_true, Option.some.injEq] at hw
    subst hw
    exact hok
  · simp only [hc, if_false] at hw
    exact h.unit c' w hw

theorem unitAt_new (M N : Int) (input : List Int) (c : Vec2i) :
    unitAt (BattleField.new M N input) c = none := by
  unfold unitAt
  cases hg : gridGet (BattleField.new M N input).field c with
  | none => rfl
  | some t =>
    simp only
    unfold gridGet at hg
    split at hg
    · cases hr : (BattleField.new M N input).field[c.1.toNat]? with
      | none => rw [hr] at hg; simp at hg
      | some row =>
        rw [hr] at hg
        simp only at hg
        have hrow := List.getElem?_mem hr
        have ht := List.getElem?_mem hg
        simp only [BattleField.new, List.mem_map] at hrow
        obtain ⟨i, -, hi⟩ := hrow
        rw [← hi, List.mem_map] at ht
        obtain ⟨j, -, hj⟩ := ht
        rw [← hj]
    · simp at hg

theorem WF_new (M N : Int) (input : List Int) : WF (BattleField.new M N input) := by
  constructor
  · simp [BattleField.new]
  · intro row hrow
    simp only [BattleField.new, List.mem_map] at hrow
    obtain ⟨i, -, hi⟩ := hrow
    rw [← hi]
    simp [BattleField.new]

theorem Inv_new (M N : Int) (input : List Int) : Inv (BattleField.new M N input) := by
  apply Inv_intro _ (WF_new M N input)
  · simp [BattleField.new]
  · intro id c hf
    simp [BattleField.new, map_find] at hf
  · intro c u hu
    rw [unitAt_new] at hu
    simp at hu
  · simp [BattleField.new]
  · intro c u hu
    rw [unitAt_new] at hu
    simp at hu

theorem UnitOk_new (time : Int) (id type : String) (coor : Vec2i)
    (hp a b c d e : Int) (hhp : 0 < hp) : UnitOk time (Unit.new id type coor hp a b c d e) := by
  refine ⟨hhp, le_refl _, rfl, ?_, ?_⟩
  · simp [deadInsideCount, Unit.new]
  · intro e he
    simp [Unit.new] at he

theorem create_unit_ok (type id : String) (coor : Vec2i) (u : Unit)
    (h : create_unit type id coor = .ok u) :
    u.id = id ∧ u.coor = coor ∧ ∀ time, UnitOk time u := by
  unfold create_unit at h
  split at h
  · simp only [Except.ok.injEq] at h
    subst h
    exact ⟨rfl, rfl, fun t => UnitOk_new t _ _ _ _ _ _ _ _ _ (by decide)⟩
  · split at h
    · simp only [Except.ok.injEq] at h
      subst h
      exact ⟨rfl, rfl, fun t => UnitOk_new t _ _ _ _ _ _ _ _ _ (by decide)⟩
    · split at h
      · simp only [Except.ok.injEq] at h
        subst h
        exact ⟨rfl, rfl, fun t => UnitOk_new t _ _ _ _ _ _ _ _ _ (by decide)⟩
      · simp at h

theorem Inv_spawn (bf bf' : BattleField) (type id : String) (x y : Int) (h : Inv bf)
    (hs : spawn_unit bf type id x y = .ok bf') : Inv bf' := by
  by_cases hnoop : is_inside_field bf (x, y) = false ∨ (unitAt bf (x, y)).isSome = true ∨
      map_contains bf.coordinates id = true
  · rw [spawn_unit_noop bf h.wf type id x y hnoop] at hs
    simp only [Except.ok.injEq] at hs
    subst hs
    exact h
  · simp only [not_or, Bool.not_eq_false, Bool.not_eq_true, Option.not_isSome,
      Option.isNone_iff_eq_none] at hnoop
    obtain ⟨hin, hemp, hid⟩ := hnoop
    rw [spawn_unit_eq bf h.wf type id x y hin hemp hid] at hs
    cases hc : create_unit type id (x, y) with
    | error e => rw [hc] at hs; simp at hs
    | ok u =>
      rw [hc] at hs
      simp only [Except.ok.injEq] at hs
      obtain ⟨huid, hucoor, huok⟩ := create_unit_ok type id (x, y) u hc
      subst hs
      rw [hucoor, ← huid]
      apply Inv_add bf h (x, y) u hin hemp _ (huok _)
      rw [huid]
      exact (map_contains_eq_false _ _).mp hid

theorem move_unit_unknown (bf : BattleField) (id : String) (x y : Int)
    (h : map_find bf.coordinates id = none) :
    move_unit bf id x y = .error .out_of_range := by
  unfold move_unit is_move_successful
  simp [map_at, h, bind, Except.bind]

/-- The result of `is_move_successful` for a registered unit. -/
theorem is_move_successful_cases (bf : BattleField) (hwf : WF bf) (hcons : Consistent bf)
    (id : String) (c : Vec2i) (u : Unit) (hf : map_find bf.coordinates id = some c)
    (hu : unitAt bf c = some u) (target : Vec2i) :
    (is_move_successful bf id target = .ok true ∧ is_inside_field bf target = true ∧
      (target ≠ c → unitAt bf target = none) ∧
      BFS bf c target u.max_move u.max_step u.move_directions = .ok true) ∨
    (is_move_successful bf id target = .ok false ∧
      ¬ (is_inside_field bf target = true ∧
        (unitAt bf target = none ∨ unitAt bf target = some u) ∧
        BFS bf c target u.max_move u.max_step u.move_directions = .ok true)) := by
  obtain ⟨hs, hA, hB⟩ := (Consistent_iff bf hwf).mp hcons
  have hcin := inside_of_unitAt bf hwf c u hu
  have hidu : u.id = id := by
    obtain ⟨w, hw, hwid⟩ := hA id c hf
    rw [hu] at hw
    simp only [Option.some.injEq] at hw
    rw [hw]; exact hwid
  rw [is_move_successful_eq bf hwf id c u hf hu target]
  by_cases hin : is_inside_field bf target = true
  · simp only [hin, if_true, true_and]
    obtain ⟨b, hb⟩ : ∃ b, BFS bf c target u.max_move u.max_step u.move_directions = .ok b := by
      unfold BFS
      rw [if_pos hcin]
      exact BFS_loop_terminates bf target _ _ _ _ _ _
        (VDims_gridSet bf _ c true (VDims_replicate bf)) (by
          have hfalse : gridGet (List.replicate bf.M.toNat (List.replicate bf.N.toNat false)) c
              = some false := by
            have hv := visitedAt_replicate bf.M.toNat bf.N.toNat c
            have hsome := VDims_replicate bf c hcin
            unfold visitedAt at hv
            cases hg : gridGet (List.replicate bf.M.toNat
                (List.replicate bf.N.toNat false)) c with
            | none => rw [hg] at hsome; simp at hsome
            | some b =>
              cases b with
              | false => rfl
              | true => rw [hg] at hv; simp at hv
          have hcount := countFalse_gridSet _ c hfalse
          rw [countFalse_replicate] at hcount
          simp only [List.length_singleton]
          omega)
    cases hv : unitAt bf target with
    | none =>
      simp only
      cases b with
      | true => left; exact ⟨hb, fun _ => trivial, hb⟩
      | false =>
        right
        refine ⟨hb, ?_⟩
        rintro ⟨-, hbfs⟩
        rw [hb] at hbfs
        simp at hbfs
    | some v =>
      simp only
      by_cases hid : v.id = id
      · simp only [hid, if_true]
        have htc : target = c := by
          have := hB target v hv
          rw [hid, hf] at this
          simp only [Option.some.injEq] at this
          exact this.symm
        cases b with
        | true =>
          left
          exact ⟨hb, fun hne => absurd htc hne, hb⟩
        | false =>
          right
          refine ⟨hb, ?_⟩
          rintro ⟨-, hbfs⟩
          rw [hb] at hbfs
          simp at hbfs
      · simp only [hid, if_false]
        right
        refine ⟨trivial, ?_⟩
        rintro ⟨h1, -⟩
        rcases h1 with h1 | h1
        · simp at h1
        · simp only [Option.some.injEq] at h1
          rw [h1] at hid
          exact hid hidu
  · simp only [hin, if_false]
    right
    simp

theorem UnitOk_set_coor (time : Int) (u : Unit) (c : Vec2i) (h : UnitOk time u) :
    UnitOk time (u.set_coor c) := h

theorem UnitOk_add_effect (time : Int) (u : Unit) (h : UnitOk time u) (ht : 0 ≤ time)
    (h0 : deadInsideCount u = 0) : UnitOk time (u.add_effect (DeadInside 1)) := by
  obtain ⟨h1, h2, h3, h4, h5⟩ := h
  refine ⟨h1, h2, h3, ?_, ?_⟩
  · unfold deadInsideCount at h0 ⊢
    simp only [Unit.add_effect, List.filter_append, List.length_append, h0]
    simp [DeadInside]
  · intro e he
    simp only [Unit.add_effect, List.mem_append, List.mem_singleton] at he
    rcases he with he | he
    · exact h5 e he
    · subst he
      refine ⟨rfl, rfl, ?_⟩
      simp only [DeadInside]
      omega

theorem Inv_move (bf bf' : BattleField) (id : String) (x y : Int) (h : Inv bf)
    (hs : move_unit bf id x y = .ok bf') : Inv bf' := by
  cases hf : map_find bf.coordinates id with
  | none =>
    rw [move_unit_unknown bf id x y hf] at hs
    simp at hs
  | some c =>
    obtain ⟨u, hu, huid⟩ := h.entry id c hf
    have hok := h.unit c u hu
    rcases is_move_successful_cases bf h.wf h.cons id c u hf hu (x, y) with
      ⟨h1, h2, h3, -⟩ | ⟨h1, -⟩
    · rw [move_unit_success bf h.wf id c u hf hu x y h1 h2 h3] at hs
      simp only [Except.ok.injEq] at hs
      subst hs
      have hA := Inv_remove bf h c u hu
      rw [huid] at hA
      have hcin := inside_of_unitAt bf h.wf c u hu
      have := Inv_add _ hA (x, y) (u.set_coor (x, y)) h2 (by
          show unitAt (putUnit bf c none) (x, y) = none
          rw [unitAt_putUnit bf h.wf c (x, y) _ hcin]
          by_cases hxy : (x, y) = c
          · simp [hxy]
          · simp [hxy, h3 hxy])
        (by
          show map_find (map_erase bf.coordinates id) u.id = none
          rw [map_find_erase, huid]; simp)
        (UnitOk_set_coor _ u _ hok)
      have hid2 : (u.set_coor (x, y)).id = id := huid
      rw [hid2] at this
      exact this
    · rw [move_unit_failure bf h.wf id c u hf hu x y h1 hok.2.2.1 hok.2.2.2.1] at hs
      simp only [Except.ok.injEq] at hs
      subst hs
      by_cases h0 : deadInsideCount u = 0
      · rw [if_pos h0]
        exact Inv_put_same_id bf h c u _ hu rfl
          (UnitOk_add_effect _ _ (UnitOk_set_coor _ u _ hok) h.time_nonneg h0)
      · rw [if_neg h0]
        exact Inv_put_same_id bf h c u _ hu rfl (UnitOk_set_coor _ u _ hok)

theorem attack_damage_nonneg (d h1 h2 : Int) : 0 ≤ attack_damage d h1 h2 := by
  unfold attack_damage
  exact le_max_left _ _

theorem Inv_damaged (bf : BattleField) (h : Inv bf) (c : Vec2i) (w : Unit) (dmg : Int)
    (hw : unitAt bf c = some w) (hd : 0 ≤ dmg) : Inv (damaged bf c w dmg) := by
  unfold damaged
  by_cases hdead : w.hp - dmg ≤ 0
  · rw [if_pos hdead]
    exact Inv_remove bf h c w hw
  · rw [if_neg hdead]
    obtain ⟨h1, h2, h3, h4, h5⟩ := h.unit c w hw
    refine Inv_put_same_id bf h c w _ hw rfl ⟨?_, ?_, h3, h4, h5⟩
    · show 0 < w.hp - dmg
      omega
    · show w.hp - dmg ≤ w.max_hp
      omega

/-- The loop `attack_loop` leaves the battle field unchanged or damages the unit of one probed
    cell. -/
theorem attack_loop_result (id dir : String) (c : Vec2i) (a : Unit) :
    ∀ (n : Nat) (i : Int) (bf bf' : BattleField), WF bf → Consistent bf →
      map_find bf.coordinates id = some c → unitAt bf c = some a →
      attack_loop id dir a n i bf = .ok bf' →
      bf' = bf ∨ ∃ (v : Vec2i) (k : Int) (w : Unit),
        map_find a.attack_directions dir = some v ∧ i ≤ k ∧ k < i + n ∧
        unitAt bf (probe c v k) = some w ∧
        |(tileD bf c).height - (tileD bf (probe c v k)).height| ≤ a.attack_range ∧
        bf' = damaged bf (probe c v k) w
          (attack_damage a.attack_dmg (tileD bf c).height (tileD bf (probe c v k)).height) := by
  intro n
  induction n with
  | zero =>
    intro i bf bf' _ _ _ _ hr
    simp only [attack_loop, Except.ok.injEq] at hr
    exact Or.inl hr.symm
  | succ n ih =>
    intro i bf bf' hwf hcons hf ha hr
    cases hdir : map_find a.attack_directions dir with
    | none =>
      rw [attack_loop] at hr
      simp [map_at, hf, hdir, bind, Except.bind] at hr
    | some v =>
      by_cases hin : is_inside_field bf (probe c v i) = true
      · cases hw : unitAt bf (probe c v i) with
        | none =>
          rw [attack_loop_pass bf hwf id dir c a v hf ha hdir n i hin (Or.inl hw)] at hr
          rcases ih (i + 1) bf bf' hwf hcons hf ha hr with h | ⟨v', k, w, h1, h2, h3, h4⟩
          · exact Or.inl h
          · exact Or.inr ⟨v', k, w, by rw [← hdir]; exact h1, by omega,
              by push_cast; omega, h4⟩
        | some w =>
          by_cases hrange :
              |(tileD bf c).height - (tileD bf (probe c v i)).height| ≤ a.attack_range
          · rw [attack_loop_hit bf hwf hcons id dir c a v hf ha hdir n i w hw hrange] at hr
            simp only [Except.ok.injEq] at hr
            exact Or.inr ⟨v, i, w, rfl, le_refl _, by push_cast; omega, hw, hrange, hr.symm⟩
          · rw [attack_loop_pass bf hwf id dir c a v hf ha hdir n i hin
              (Or.inr (by omega))] at hr
            rcases ih (i + 1) bf bf' hwf hcons hf ha hr with h | ⟨v', k, w', h1, h2, h3, h4⟩
            · exact Or.inl h
            · exact Or.inr ⟨v', k, w', by rw [← hdir]; exact h1, by omega,
                by push_cast; omega, h4⟩
      · rw [attack_loop_outside bf id dir c a v hf hdir n i (by simpa using hin)] at hr
        simp only [Except.ok.injEq] at hr
        exact Or.inl hr.symm

theorem Inv_attack (bf bf' : BattleField) (id dir : String) (h : Inv bf)
    (hs : attack_unit bf id dir = .ok bf') : Inv bf' := by
  cases hf : map_find bf.coordinates id with
  | none =>
    rw [attack_unit_unknown bf id dir ((map_contains_eq_false _ _).mpr hf)] at hs
    simp only [Except.ok.injEq] at hs
    subst hs
    exact h
  | some c =>
    obtain ⟨a, ha, -⟩ := h.entry id c hf
    rw [attack_unit_eq bf h.wf id dir c a hf ha] at hs
    rcases attack_loop_result id dir c a _ _ bf bf' h.wf h.cons hf ha hs with
      h1 | ⟨v, k, w, -, -, -, hw, -, h1⟩
    · rw [h1]; exact h
    · rw [h1]
      exact Inv_damaged bf h _ w _ hw (attack_damage_nonneg _ _ _)

theorem effects_damage_eq (u : Unit) (dt : Int)
    (h : ∀ e ∈ u.active_effects, e.dmg = 1) :
    effects_damage u dt = (u.active_effects.length : Int) * dt := by
  unfold effects_damage
  generalize u.active_effects = es at h
  induction es with
  | nil => simp
  | cons e es ih =>
    simp only [List.map_cons, List.sum_cons, List.length_cons]
    rw [ih (fun e' he' => h e' (List.mem_cons_of_mem _ he')), h e (List.mem_cons_self _ _)]
    push_cast
    ring

theorem UnitOk_tick (time nt : Int) (u u' : Unit) (h : UnitOk time u) (hlt : time < nt)
    (hr : tick_result u (nt - time) = some u') : UnitOk nt u' := by
  obtain ⟨h1, h2, h3, h4, h5⟩ := h
  unfold tick_result at hr
  split at hr
  · simp at hr
  · rename_i halive
    simp only [Option.some.injEq] at hr
    subst hr
    have hdmg := effects_damage_eq u (nt - time) (fun e he => (h5 e he).2.1)
    have hnn : 0 ≤ effects_damage u (nt - time) := by
      rw [hdmg]
      apply mul_nonneg
      · exact Int.natCast_nonneg _
      · omega
    refine ⟨by simpa using halive, ?_, h3, ?_, ?_⟩
    · show u.hp - effects_damage u (nt - time) ≤ u.max_hp
      omega
    · unfold deadInsideCount at h4 ⊢
      simp only
      refine le_trans ?_ h4
      rw [List.filter_filter]
      have : (List.filter (fun a => ((!a.is_done) && decide (a.type = "dead_inside")))
          (u.active_effects.map (fun e => e.decrement_timer (nt - time)))).length ≤
          (List.filter (fun a => decide (a.type = "dead_inside"))
          (u.active_effects.map (fun e => e.decrement_timer (nt - time)))).length := by
        apply List.Sublist.length_le
        apply List.monotone_filter_right
        intro a ha
        simp only [Bool.and_eq_true] at ha
        exact ha.2
      refine le_trans ?_ (le_trans this ?_)
      · apply le_of_eq
        congr 1
        apply List.filter_congr
        intro x _
        simp [Bool.and_comm]
      · rw [List.filter_map]
        simp only [List.length_map]
        apply le_of_eq
        congr 1
    · intro e he
      simp only [List.mem_filter, List.mem_map] at he
      obtain ⟨⟨e0, he0, hee⟩, -⟩ := he
      obtain ⟨a1, a2, a3⟩ := h5 e0 he0
      subst hee
      refine ⟨a1, a2, ?_⟩
      simp only [Effect.decrement_timer]
      omega

theorem Inv_tick (bf bf' : BattleField) (nt : Int) (h : Inv bf) (hlt : bf.time < nt)
    (hs : update_tick bf nt = .ok bf') : Inv bf' := by
  obtain ⟨b, h1, h2, h3, h4, h5, h6, h7, h8⟩ := update_tick_spec bf h.wf h.cons nt
  rw [h1] at hs
  simp only [Except.ok.injEq] at hs
  subst hs
  have hnd := keys_nodup_of_sorted _ h.sorted
  apply Inv_intro b h2
  · rw [h7, List.pairwise_map]
    have := h.sorted
    rw [List.pairwise_map] at this
    exact this.filter _
  · intro id c hf
    have hmem := map_find_mem _ _ _ hf
    rw [h7, List.mem_filter] at hmem
    obtain ⟨hm1, hm2⟩ := hmem
    have hfind := map_find_of_mem_nodup _ _ _ hnd hm1
    obtain ⟨u, hu, huid⟩ := h.entry id c hfind
    simp only [hu, Option.some_bind] at hm2
    obtain ⟨u', hu'⟩ := Option.isSome_iff_exists.mp hm2
    refine ⟨u', by rw [h8, hu]; simpa using hu', ?_⟩
    unfold tick_result at hu'
    split at hu'
    · simp at hu'
    · simp only [Option.some.injEq] at hu'
      rw [← hu']
      exact huid
  · intro c u' hu'
    rw [h8] at hu'
    cases hu : unitAt bf c with
    | none => rw [hu] at hu'; simp at hu'
    | some u =>
      rw [hu] at hu'
      simp only [Option.some_bind] at hu'
      have hid : u'.id = u.id := by
        unfold tick_result at hu'
        split at hu'
        · simp at hu'
        · simp only [Option.some.injEq] at hu'
          rw [← hu']
      rw [hid, h7]
      have hreg := h.reg c u hu
      apply map_find_of_mem_nodup
      · refine List.Nodup.sublist ?_ hnd
        exact List.Sublist.map _ (List.filter_sublist _)
      · rw [List.mem_filter]
        refine ⟨map_find_mem _ _ _ hreg, ?_⟩
        simp [hu, hu']
  · rw [h5]
    have := h.time_nonneg
    omega
  · intro c u' hu'
    rw [h8] at hu'
    cases hu : unitAt bf c with
    | none => rw [hu] at hu'; simp at hu'
    | some u =>
      rw [hu] at hu'
      simp only [Option.some_bind] at hu'
      rw [h5]
      exact UnitOk_tick bf.time nt u u' (h.unit c u hu) hlt hu'

/-- Every reachable battle field satisfies the invariant. -/
theorem Reachable_Inv (bf : BattleField) (h : Reachable bf) : Inv bf := by
  induction h with
  | init M N input => exact Inv_new M N input
  | spawn type id x y _ hs ih => exact Inv_spawn _ _ type id x y ih hs
  | move id x y _ hs ih => exact Inv_move _ _ id x y ih hs
  | attack id dir _ hs ih => exact Inv_attack _ _ id dir ih hs
  | tick nt _ hlt _ hs ih => exact Inv_tick _ _ nt ih hlt hs

/-! ## Example states are reachable -/

theorem exOne_reachable : Reachable exOne :=
  Reachable.spawn "footman" "a" 0 0 (Reachable.init 1 3 [0, 0, 0]) (by decide)

theorem exTwo_reachable : Reachable exTwo :=
  Reachable.spawn "footman" "b" 0 2 exOne_reachable (by decide)

theorem exPenalty_reachable : Reachable exPenalty :=
  Reachable.move "a" 0 2 exTwo_reachable (by decide)

/-- The search from a cell to itself succeeds at once, whatever the budget. -/
theorem BFS_self (bf : BattleField) (c : Vec2i) (B S : Int) (dirs : List (String × Vec2i))
    (hcin : is_inside_field bf c = true) : BFS bf c c B S dirs = .ok true := by
  unfold BFS
  rw [if_pos hcin]
  rw [is_inside_field_iff] at hcin
  cases hm : bf.M.toNat * bf.N.toNat with
  | zero =>
    exfalso
    rcases Nat.mul_eq_zero.mp hm with h | h <;> omega
  | succ n => simp [BFS_loop]

theorem gridGet_mem {α : Type} (g : List (List α)) (c : Vec2i) (a : α)
    (h : gridGet g c = some a) : ∃ row ∈ g, a ∈ row := by
  unfold gridGet at h
  split_ifs at h
  cases hrow : g[c.1.toNat]? with
  | none => rw [hrow] at h; cases h
  | some row =>
    rw [hrow] at h
    exact ⟨row, List.getElem?_mem hrow, List.getElem?_mem h⟩

theorem HeightsFit_inside (bf : BattleField) (hwf : WF bf) (hfit : HeightsFit bf)
    (c c' : Vec2i) (hc : is_inside_field bf c = true) (hc' : is_inside_field bf c' = true) :
    |(tileD bf c).height - (tileD bf c').height| ≤ INT_MAX := by
  obtain ⟨row, hrow, ht⟩ := gridGet_mem _ _ _ (gridGet_tileD bf hwf c hc)
  obtain ⟨row', hrow', ht'⟩ := gridGet_mem _ _ _ (gridGet_tileD bf hwf c' hc')
  exact hfit row hrow _ ht row' hrow' _ ht'

theorem DamageFits_inside (bf : BattleField) (hwf : WF bf) (dmg : Int) (ta : Tile)
    (hsum : DamageFits bf dmg ta) (c' : Vec2i) (hc' : is_inside_field bf c' = true) :
    |dmg + (ta.height - (tileD bf c').height)| ≤ INT_MAX := by
  obtain ⟨row', hrow', ht'⟩ := gridGet_mem _ _ _ (gridGet_tileD bf hwf c' hc')
  exact hsum row' hrow' _ ht'

/-! ## Claims -/

/-- C2: in every reachable battle field, for a registered unit `id` (registered at
    `c`, unit `u`) and every target, `move_unit` returns, and it relocates the unit
    (afterwards the registry maps `id` to the target and the target tile holds a unit
    of that id) if and only if the move is feasible; when it is feasible the target
    tile holds the unit with nothing but its stored coordinate changed (same hp and
    effects), and the previous tile, if different, is empty. -/
theorem C2_move_relocates_iff_feasible (bf : BattleField) (hreach : Reachable bf)
    (id : String) (c : Vec2i) (u : Unit)
    (hf : map_find bf.coordinates id = some c) (hu : unitAt bf c = some u) (x y : Int) :
    ∃ bf', move_unit bf id x y = .ok bf' ∧
      ((map_find bf'.coordinates id = some (x, y) ∧
          ∃ u', unitAt bf' (x, y) = some u' ∧ u'.id = id) ↔ MoveFeasible bf c u (x, y)) ∧
      (MoveFeasible bf c u (x, y) →
        map_find bf'.coordinates id = some (x, y) ∧
        unitAt bf' (x, y) = some (u.set_coor (x, y)) ∧
        (u.set_coor (x, y)).hp = u.hp ∧
        (u.set_coor (x, y)).active_effects = u.active_effects ∧
        ((x, y) ≠ c → unitAt bf' c = none)) := by
  have hinv := Reachable_Inv bf hreach
  have hwf := hinv.wf
  have hcons := hinv.cons
  have hcin := inside_of_unitAt bf hwf c u hu
  obtain ⟨-, hA, hB⟩ := (Consistent_iff bf hwf).mp hcons
  have huid : u.id = id := by
    obtain ⟨w, hw, hwid⟩ := hA id c hf
    rw [hu] at hw
    simp only [Option.some.injEq] at hw
    rw [hw]; exact hwid
  rcases is_move_successful_cases bf hwf hcons id c u hf hu (x, y) with
    ⟨h1, h2, h3, h4⟩ | ⟨h1, hnot⟩
  · have hfeas : MoveFeasible bf c u (x, y) := by
      refine ⟨h2, ?_, h4⟩
      by_cases hxy : (x, y) = c
      · right; rw [hxy]; exact hu
      · left; exact h3 hxy
    refine ⟨_, move_unit_success bf hwf id c u hf hu x y h1 h2 h3, ?_⟩
    have hreg : map_find (map_emplace (map_erase bf.coordinates id) id (x, y)) id
        = some (x, y) := by
      rw [map_find_emplace _ _ _ (by rw [map_find_erase]; simp)]
      simp
    have hwf1 : WF (putUnit bf c none) := WF_putUnit bf c _ hwf
    have hat : ∀ c', unitAt ({ putUnit (putUnit bf c none) (x, y) (some (u.set_coor (x, y)))
        with coordinates := map_emplace (map_erase bf.coordinates id) id (x, y) }
        : BattleField) c' =
        if c' = (x, y) then some (u.set_coor (x, y))
        else if c' = c then none else unitAt bf c' := by
      intro c'
      show unitAt (putUnit (putUnit bf c none) (x, y) (some (u.set_coor (x, y)))) c' = _
      rw [unitAt_putUnit _ hwf1 (x, y) c' _ h2, unitAt_putUnit bf hwf c c' _ hcin]
    have htarget := hat (x, y)
    simp only [if_true] at htarget
    refine ⟨⟨fun _ => hfeas, fun _ => ⟨hreg, _, htarget, huid⟩⟩, fun _ =>
      ⟨hreg, htarget, rfl, rfl, ?_⟩⟩
    intro hxy
    rw [hat c]
    have : ¬ c = (x, y) := fun h => hxy h.symm
    simp [this]
  · have hok := hinv.unit c u hu
    have hfail := move_unit_failure bf hwf id c u hf hu x y h1 hok.2.2.1 hok.2.2.2.1
    have hnf : ¬ MoveFeasible bf c u (x, y) := hnot
    refine ⟨_, hfail, ⟨?_, fun h => absurd h hnf⟩, fun h => absurd h hnf⟩
    rintro ⟨hreg, -⟩
    exfalso
    have hco : (if deadInsideCount u = 0
           then putUnit bf c (some ((u.set_coor (x, y)).add_effect (DeadInside 1)))
           else putUnit bf c (some (u.set_coor (x, y)))).coordinates = bf.coordinates := by
      split <;> rfl
    rw [hco, hf] at hreg
    simp only [Option.some.injEq] at hreg
    -- the target is the unit's own cell, which is always feasible
    apply hnf
    refine ⟨by rw [← hreg]; exact hcin, Or.inr (by rw [← hreg]; exact hu), ?_⟩
    rw [← hreg]
    exact BFS_self bf c _ _ _ hcin

theorem C2_move_relocates_iff_feasible_witness :
    Reachable exTwo ∧ map_find exTwo.coordinates "a" = some (0, 0) ∧
    unitAt exTwo (0, 0) = some (Footman "a" (0, 0)) ∧
    ∃ bf', move_unit exTwo "a" 0 1 = .ok bf' ∧
      ((map_find bf'.coordinates "a" = some (0, 1) ∧
          ∃ u', unitAt bf' (0, 1) = some u' ∧ u'.id = "a") ↔
        MoveFeasible exTwo (0, 0) (Footman "a" (0, 0)) (0, 1)) ∧
      (MoveFeasible exTwo (0, 0) (Footman "a" (0, 0)) (0, 1) →
        map_find bf'.coordinates "a" = some (0, 1) ∧
        unitAt bf' (0, 1) = some ((Footman "a" (0, 0)).set_coor (0, 1)) ∧
        ((Footman "a" (0, 0)).set_coor (0, 1)).hp = (Footman "a" (0, 0)).hp ∧
        ((Footman "a" (0, 0)).set_coor (0, 1)).active_effects =
          (Footman "a" (0, 0)).active_effects ∧
        (((0 : Int), (1 : Int)) ≠ (0, 0) → unitAt bf' (0, 0) = none)) :=
  ⟨exTwo_reachable, by decide, by decide,
    C2_move_relocates_iff_feasible exTwo exTwo_reachable "a" (0, 0) (Footman "a" (0, 0))
      (by decide) (by decide) 0 1⟩

/-- C3: in every reachable battle field, for a registered unit `id` (registered at `c`,
    unit `u`) and every infeasible target, `move_unit` returns and leaves the registry,
    the time and every other tile unchanged; the unit stays on its tile with unchanged
    hp, and its effect list gains one `dead_inside` effect when it had none and is
    unchanged when it already holds one (only its stored coordinate is overwritten
    with the target). -/
theorem C3_failed_move_frame (bf : BattleField) (hreach : Reachable bf)
    (id : String) (c : Vec2i) (u : Unit)
    (hf : map_find bf.coordinates id = some c) (hu : unitAt bf c = some u) (x y : Int)
    (hinf : ¬ MoveFeasible bf c u (x, y)) :
    ∃ bf', move_unit bf id x y = .ok bf' ∧
      bf'.coordinates = bf.coordinates ∧ bf'.time = bf.time ∧
      (∀ c', c' ≠ c → unitAt bf' c' = unitAt bf c') ∧
      (∀ c', (tileD bf' c').height = (tileD bf c').height) ∧
      ∃ u', unitAt bf' c = some u' ∧ u'.hp = u.hp ∧ u'.id = u.id ∧
        u' = { u with coor := (x, y), active_effects := u'.active_effects } ∧
        (deadInsideCount u = 0 → u'.active_effects = u.active_effects ++ [DeadInside 1]) ∧
        (deadInsideCount u = 1 → u'.active_effects = u.active_effects) ∧
        (deadInsideCount u = 0 ∨ deadInsideCount u = 1) := by
  have hinv := Reachable_Inv bf hreach
  have hwf := hinv.wf
  have hcin := inside_of_unitAt bf hwf c u hu
  have hok := hinv.unit c u hu
  rcases is_move_successful_cases bf hwf hinv.cons id c u hf hu (x, y) with
    ⟨h1, h2, h3, h4⟩ | ⟨h1, -⟩
  · exfalso
    apply hinf
    refine ⟨h2, ?_, h4⟩
    by_cases hxy : (x, y) = c
    · right; rw [hxy]; exact hu
    · left; exact h3 hxy
  · have hfail := move_unit_failure bf hwf id c u hf hu x y h1 hok.2.2.1 hok.2.2.2.1
    have hcases : deadInsideCount u = 0 ∨ deadInsideCount u = 1 := by
      have := hok.2.2.2.1
      omega
    by_cases h0 : deadInsideCount u = 0
    · rw [if_pos h0] at hfail
      refine ⟨_, hfail, rfl, rfl, ?_, fun c' => height_putUnit bf c c' _, ?_⟩
      · intro c' hc'
        rw [unitAt_putUnit bf hwf c c' _ hcin, if_neg hc']
      · refine ⟨(u.set_coor (x, y)).add_effect (DeadInside 1),
          by rw [unitAt_putUnit bf hwf c c _ hcin]; simp, rfl, rfl, rfl,
          fun _ => rfl, ?_, hcases⟩
        intro h1'
        omega
    · rw [if_neg h0] at hfail
      refine ⟨_, hfail, rfl, rfl, ?_, fun c' => height_putUnit bf c c' _, ?_⟩
      · intro c' hc'
        rw [unitAt_putUnit bf hwf c c' _ hcin, if_neg hc']
      · refine ⟨u.set_coor (x, y),
          by rw [unitAt_putUnit bf hwf c c _ hcin]; simp, rfl, rfl, rfl,
          fun h => absurd h h0, fun _ => rfl, hcases⟩

theorem C3_failed_move_frame_witness :
    Reachable exTwo ∧ map_find exTwo.coordinates "a" = some (0, 0) ∧
    unitAt exTwo (0, 0) = some (Footman "a" (0, 0)) ∧
    ¬ MoveFeasible exTwo (0, 0) (Footman "a" (0, 0)) (0, 2) ∧
    ∃ bf', move_unit exTwo "a" 0 2 = .ok bf' ∧
      bf'.coordinates = exTwo.coordinates ∧ bf'.time = exTwo.time ∧
      (∀ c', c' ≠ (0, 0) → unitAt bf' c' = unitAt exTwo c') ∧
      (∀ c', (tileD bf' c').height = (tileD exTwo c').height) ∧
      ∃ u', unitAt bf' (0, 0) = some u' ∧ u'.hp = (Footman "a" (0, 0)).hp ∧
        u'.id = (Footman "a" (0, 0)).id ∧
        u' = { Footman "a" (0, 0) with coor := (0, 2), active_effects := u'.active_effects } ∧
        (deadInsideCount (Footman "a" (0, 0)) = 0 →
          u'.active_effects = (Footman "a" (0, 0)).active_effects ++ [DeadInside 1]) ∧
        (deadInsideCount (Footman "a" (0, 0)) = 1 →
          u'.active_effects = (Footman "a" (0, 0)).active_effects) ∧
        (deadInsideCount (Footman "a" (0, 0)) = 0 ∨
          deadInsideCount (Footman "a" (0, 0)) = 1) :=
  ⟨exTwo_reachable, by decide, by decide, by decide,
    C3_failed_move_frame exTwo exTwo_reachable "a" (0, 0) (Footman "a" (0, 0))
      (by decide) (by decide) 0 2 (by decide)⟩

/-- C4 (the code does not do this): `move_unit` with an id that belongs to no living
    unit is not a silent no-op; `is_move_successful` evaluates `_coordinates.at(id)`
    first, which throws `std::out_of_range`. -/
theorem C4_move_unknown_id_throws (bf : BattleField) (id : String) (x y : Int)
    (h : map_contains bf.coordinates id = false) :
    move_unit bf id x y = .error .out_of_range :=
  move_unit_unknown bf id x y ((map_contains_eq_false _ _).mp h)

theorem C4_move_unknown_id_throws_witness :
    map_contains exField.coordinates "x" = false ∧
    move_unit exField "x" 0 0 = .error .out_of_range :=
  ⟨by decide, C4_move_unknown_id_throws exField "x" 0 0 (by decide)⟩

theorem unitAt_damaged (bf : BattleField) (hwf : WF bf) (c c' : Vec2i) (w : Unit) (dmg : Int)
    (hc : is_inside_field bf c = true) :
    unitAt (damaged bf c w dmg) c' =
      if c' = c then (if w.hp - dmg ≤ 0 then none else some (w.set_hp (w.hp - dmg)))
      else unitAt bf c' := by
  unfold damaged
  by_cases hdead : w.hp - dmg ≤ 0
  · simp only [hdead, if_true]
    exact unitAt_putUnit bf hwf c c' none hc
  · simp only [hdead, if_false]
    exact unitAt_putUnit bf hwf c c' _ hc

/-- The probes `1, ..., k - 1` are inside the field and empty, and `k` is within the
    attack distance: the attack arrives at probe `k` with the field unchanged. -/
theorem attack_unit_reaches (bf : BattleField) (hwf : WF bf) (id dir : String) (c : Vec2i)
    (a : Unit) (v : Vec2i) (hf : map_find bf.coordinates id = some c)
    (ha : unitAt bf c = some a) (hdir : map_find a.attack_directions dir = some v)
    (k : Nat) (hk1 : 1 ≤ k) (hkd : (k : Int) ≤ a.attack_distance)
    (hfree : ∀ i : Nat, 1 ≤ i → i < k →
      is_inside_field bf (probe c v i) = true ∧ unitAt bf (probe c v i) = none) :
    attack_unit bf id dir =
      attack_loop id dir a (a.attack_distance.toNat - k + 1) k bf := by
  rw [attack_unit_eq bf hwf id dir c a hf ha]
  have hsplit : a.attack_distance.toNat = (a.attack_distance.toNat - k + 1) + (k - 1) := by
    omega
  have := attack_loop_skip bf hwf id dir c a v hf ha hdir (k - 1)
    (a.attack_distance.toNat - k + 1) 1 (by
      intro j hj
      have := hfree (1 + j) (by omega) (by omega)
      have he : ((1 + j : Nat) : Int) = 1 + (j : Int) := by push_cast; ring
      rw [he] at this
      exact ⟨this.1, Or.inl this.2⟩)
  have he2 : (1 : Int) + ((k - 1 : Nat) : Int) = (k : Int) := by omega
  rw [he2] at this
  rw [← this, ← hsplit]

theorem purge_none (time nt : Int) (u : Unit) (h : UnitOk time u) (hlt : nt < INT_MAX) :
    (u.active_effects.map (fun e => e.decrement_timer (nt - time))).filter
      (fun e => !e.is_done) =
    u.active_effects.map (fun e => e.decrement_timer (nt - time)) := by
  rw [List.filter_eq_self]
  intro e he
  rw [List.mem_map] at he
  obtain ⟨e0, he0, hee⟩ := he
  have := (h.2.2.2.2 e0 he0).2.2
  subst hee
  simp only [Effect.is_done, Effect.decrement_timer, Bool.not_eq_true', decide_eq_false_iff_not]
  omega

/-- Two successive ticks act on a unit like the single tick over the whole interval. -/
theorem tick_result_comp (t0 t1 t2 : Int) (u : Unit) (hok : UnitOk t0 u)
    (h12 : t1 < t2) (hmax : t2 ≤ INT_MAX) :
    (tick_result u (t1 - t0)).bind (fun u1 => tick_result u1 (t2 - t1)) =
      tick_result u (t2 - t0) := by
  have hdmg := fun d => effects_damage_eq u d (fun e he => (hok.2.2.2.2 e he).2.1)
  have hn : (0 : Int) ≤ (u.active_effects.length : Int) := Int.natCast_nonneg _
  have hp1 := purge_none t0 t1 u hok (by omega)
  have hsplit : (u.active_effects.length : Int) * (t2 - t0) =
      (u.active_effects.length : Int) * (t1 - t0) +
      (u.active_effects.length : Int) * (t2 - t1) := by ring
  have hpos2 : 0 ≤ (u.active_effects.length : Int) * (t2 - t1) :=
    mul_nonneg hn (by omega)
  by_cases h1 : u.hp - effects_damage u (t1 - t0) ≤ 0
  · have h2 : u.hp - effects_damage u (t2 - t0) ≤ 0 := by
      rw [hdmg] at h1 ⊢
      omega
    simp [tick_result, h1, h2]
  · obtain ⟨u1, hu1⟩ : ∃ u1 : Unit, u1 = { u with
        hp := u.hp - effects_damage u (t1 - t0)
        active_effects := u.active_effects.map (fun e => e.decrement_timer (t1 - t0)) } :=
      ⟨_, rfl⟩
    have hfirst : tick_result u (t1 - t0) = some u1 := by
      unfold tick_result
      rw [if_neg h1, hp1, hu1]
    have hdmg1 : effects_damage u1 (t2 - t1) = (u.active_effects.length : Int) * (t2 - t1) := by
      have := effects_damage_eq u1 (t2 - t1) (by
        intro e he
        rw [hu1] at he
        simp only [List.mem_map] at he
        obtain ⟨e0, he0, hee⟩ := he
        rw [← hee]
        exact (hok.2.2.2.2 e0 he0).2.1)
      rw [this, hu1]
      simp
    have hhp1 : u1.hp = u.hp - effects_damage u (t1 - t0) := by rw [hu1]
    rw [hfirst, Option.some_bind]
    unfold tick_result
    have hcond : (u1.hp - effects_damage u1 (t2 - t1) ≤ 0) ↔
        (u.hp - effects_damage u (t2 - t0) ≤ 0) := by
      rw [hhp1, hdmg1, hdmg, hdmg]
      omega
    have hhp : u1.hp - effects_damage u1 (t2 - t1) = u.hp - effects_damage u (t2 - t0) := by
      rw [hhp1, hdmg1, hdmg, hdmg]
      omega
    by_cases h2 : u.hp - effects_damage u (t2 - t0) ≤ 0
    · rw [if_pos (hcond.mpr h2), if_pos h2]
    · rw [if_neg (fun h => h2 (hcond.mp h)), if_neg h2, hhp]
      congr 1
      rw [hu1]
      simp only [List.map_map]
      have hfun : ((fun e : Effect => e.decrement_timer (t2 - t1)) ∘
          fun e : Effect => e.decrement_timer (t1 - t0)) =
          fun e : Effect => e.decrement_timer (t2 - t0) := by
        funext e
        simp only [Function.comp, Effect.decrement_timer]
        congr 1
        ring
      rw [hfun]

/-- Two successive ticks of a battle field satisfying the invariant yield the same
    battle field as the single tick to the later time. -/
theorem update_tick_comp (bf : BattleField) (hinv : Inv bf) (t1 t2 : Int)
    (h01 : bf.time < t1) (h12 : t1 < t2) (hmax : t2 ≤ INT_MAX) :
    ∃ bf1 bf2, update_tick bf t1 = .ok bf1 ∧ update_tick bf1 t2 = .ok bf2 ∧
      update_tick bf t2 = .ok bf2 ∧ Inv bf1 ∧ Inv bf2 := by
  obtain ⟨bf1, a1, a2, a3, a4, a5, a6, a7, a8⟩ := update_tick_spec bf hinv.wf hinv.cons t1
  have hinv1 : Inv bf1 := Inv_tick bf bf1 t1 hinv h01 a1
  obtain ⟨bf2, b1, b2, b3, b4, b5, b6, b7, b8⟩ := update_tick_spec bf1 a2 hinv1.cons t2
  have hinv2 : Inv bf2 := Inv_tick bf1 bf2 t2 hinv1 (by rw [a5]; exact h12) b1
  obtain ⟨bfB, c1, c2, c3, c4, c5, c6, c7, c8⟩ := update_tick_spec bf hinv.wf hinv.cons t2
  have hunit : ∀ c, (unitAt bf1 c).bind (fun u => tick_result u (t2 - bf1.time)) =
      (unitAt bf c).bind (fun u => tick_result u (t2 - bf.time)) := by
    intro c
    rw [a8, a5]
    cases hu : unitAt bf c with
    | none => rfl
    | some u =>
      simp only [Option.some_bind]
      exact tick_result_comp bf.time t1 t2 u (hinv.unit c u hu) h12 hmax
  have heq : bf2 = bfB := by
    apply battlefield_ext bf2 bfB b2 c2
    · rw [b3, a3, c3]
    · rw [b4, a4, c4]
    · rw [b5, c5]
    · rw [b7, c7, a7, List.filter_filter]
      apply List.filter_congr
      intro e he
      rw [hunit e.2]
      cases hb : ((unitAt bf e.2).bind (fun u => tick_result u (t2 - bf.time))).isSome with
      | false => simp
      | true =>
        simp only [Bool.true_and]
        cases hu : unitAt bf e.2 with
        | none => rw [hu] at hb; simp at hb
        | some u =>
          rw [hu] at hb
          simp only [Option.some_bind] at hb ⊢
          have hcomp := tick_result_comp bf.time t1 t2 u (hinv.unit e.2 u hu) h12 hmax
          cases h1 : tick_result u (t1 - bf.time) with
          | none => rw [h1] at hcomp; rw [← hcomp] at hb; simp at hb
          | some u1 => rfl
    · intro c; rw [b6, a6, c6]
    · intro c; rw [b8, c8, hunit]
  exact ⟨bf1, bf2, a1, b1, by rw [heq]; exact c1, hinv1, hinv2⟩

/-- C8: effect application is linear in elapsed time.  For every reachable battle
    field at time `t0` and times `t0 < t1 < t2` (that fit a C++ `int`), the tick to
    `t1` followed by the tick to `t2` returns the same battle field as the single tick
    to `t2`; in particular five successive ticks of one time unit return the same
    battle field (hence the same hp) as one tick of five time units. -/
theorem C8_tick_linear_in_elapsed_time (bf : BattleField) (hreach : Reachable bf)
    (t1 t2 : Int) (h01 : bf.time < t1) (h12 : t1 < t2) (hmax : t2 ≤ INT_MAX) :
    (∃ bf1 bf2, update_tick bf t1 = .ok bf1 ∧ update_tick bf1 t2 = .ok bf2 ∧
      update_tick bf t2 = .ok bf2) ∧
    (bf.time + 5 ≤ INT_MAX →
      ∃ b1 b2 b3 b4 b5, update_tick bf (bf.time + 1) = .ok b1 ∧
        update_tick b1 (bf.time + 2) = .ok b2 ∧ update_tick b2 (bf.time + 3) = .ok b3 ∧
        update_tick b3 (bf.time + 4) = .ok b4 ∧ update_tick b4 (bf.time + 5) = .ok b5 ∧
        update_tick bf (bf.time + 5) = .ok b5) := by
  have hinv := Reachable_Inv bf hreach
  constructor
  · obtain ⟨bf1, bf2, h1, h2, h3, -, -⟩ := update_tick_comp bf hinv t1 t2 h01 h12 hmax
    exact ⟨bf1, bf2, h1, h2, h3⟩
  · intro h5
    obtain ⟨b1, b2, p1, p2, p3, -, -⟩ :=
      update_tick_comp bf hinv (bf.time + 1) (bf.time + 2) (by omega) (by omega) (by omega)
    obtain ⟨b2', b3, q1, q2, q3, -, -⟩ :=
      update_tick_comp bf hinv (bf.time + 2) (bf.time + 3) (by omega) (by omega) (by omega)
    obtain ⟨b3', b4, r1, r2, r3, -, -⟩ :=
      update_tick_comp bf hinv (bf.time + 3) (bf.time + 4) (by omega) (by omega) (by omega)
    obtain ⟨b4', b5, s1, s2, s3, -, -⟩ :=
      update_tick_comp bf hinv (bf.time + 4) (bf.time + 5) (by omega) (by omega) (by omega)
    have e2 : b2' = b2 := by
      rw [p3] at q1; simp only [Except.ok.injEq] at q1; exact q1.symm
    have e3 : b3' = b3 := by
      rw [q3] at r1; simp only [Except.ok.injEq] at r1; exact r1.symm
    have e4 : b4' = b4 := by
      rw [r3] at s1; simp only [Except.ok.injEq] at s1; exact s1.symm
    subst e2; subst e3; subst e4
    exact ⟨b1, b2', b3', b4', b5, p1, p2, q2, r2, s2, s3⟩

theorem C8_tick_linear_in_elapsed_time_witness :
    Reachable exPenalty ∧ exPenalty.time < 1 ∧ (1 : Int) < 6 ∧ (6 : Int) ≤ INT_MAX ∧
    ((∃ bf1 bf2, update_tick exPenalty 1 = .ok bf1 ∧ update_tick bf1 6 = .ok bf2 ∧
      update_tick exPenalty 6 = .ok bf2) ∧
    (exPenalty.time + 5 ≤ INT_MAX →
      ∃ b1 b2 b3 b4 b5, update_tick exPenalty (exPenalty.time + 1) = .ok b1 ∧
        update_tick b1 (exPenalty.time + 2) = .ok b2 ∧
        update_tick b2 (exPenalty.time + 3) = .ok b3 ∧
        update_tick b3 (exPenalty.time + 4) = .ok b4 ∧
        update_tick b4 (exPenalty.time + 5) = .ok b5 ∧
        update_tick exPenalty (exPenalty.time + 5) = .ok b5)) :=
  ⟨exPenalty_reachable, by decide, by decide, by decide,
    C8_tick_linear_in_elapsed_time exPenalty exPenalty_reachable 1 6
      (by decide) (by decide) (by decide)⟩

/-- C9: in every reachable battle field `update_tick(new_time)` returns; the registry
    afterwards is the registry at its start without the units that died, every unit is
    replaced by its `tick_result` for the elapsed time `new_time - current_time`
    (applied once): a registered unit loses `magnitude * elapsed` hp for each of its
    effects, is removed from registry and tile when its hp is then `≤ 0`, and otherwise
    stays registered on its tile with the effects whose timer is `≤ 0` purged; a unit
    without effects is unchanged; tile heights are unchanged and the current time is
    `new_time`. -/
theorem C9_update_tick_closed_form (bf : BattleField) (hreach : Reachable bf) (nt : Int) :
    ∃ bf', update_tick bf nt = .ok bf' ∧ bf'.time = nt ∧
      (∀ c, (tileD bf' c).height = (tileD bf c).height) ∧
      bf'.coordinates = bf.coordinates.filter (fun e =>
        ((unitAt bf e.2).bind (fun u => tick_result u (nt - bf.time))).isSome) ∧
      (∀ c, unitAt bf' c = (unitAt bf c).bind (fun u => tick_result u (nt - bf.time))) ∧
      (∀ id c u, map_find bf.coordinates id = some c → unitAt bf c = some u →
        (u.hp - effects_damage u (nt - bf.time) ≤ 0 →
          map_find bf'.coordinates id = none ∧ unitAt bf' c = none) ∧
        (0 < u.hp - effects_damage u (nt - bf.time) →
          map_find bf'.coordinates id = some c ∧
          unitAt bf' c = some { u with
            hp := u.hp - effects_damage u (nt - bf.time)
            active_effects :=
              (u.active_effects.map (fun e => e.decrement_timer (nt - bf.time))).filter
                (fun e => !e.is_done) }) ∧
        (u.active_effects = [] →
          map_find bf'.coordinates id = some c ∧ unitAt bf' c = some u)) := by
  have hinv := Reachable_Inv bf hreach
  have hnd := keys_nodup_of_sorted _ hinv.sorted
  obtain ⟨bf', h1, h2, h3, h4, h5, h6, h7, h8⟩ := update_tick_spec bf hinv.wf hinv.cons nt
  refine ⟨bf', h1, h5, h6, h7, h8, ?_⟩
  intro id c u hf hu
  have hmem := map_find_mem _ _ _ hf
  have hfilter_nd : ((bf.coordinates.filter (fun e =>
        ((unitAt bf e.2).bind (fun u => tick_result u (nt - bf.time))).isSome)).map
        Prod.fst).Nodup :=
    List.Nodup.sublist (List.Sublist.map _ (List.filter_sublist _)) hnd
  have hdead : u.hp - effects_damage u (nt - bf.time) ≤ 0 →
      map_find bf'.coordinates id = none ∧ unitAt bf' c = none := by
    intro hd
    have htr : tick_result u (nt - bf.time) = none := by simp [tick_result, hd]
    refine ⟨?_, by rw [h8, hu]; simpa using htr⟩
    cases hfind : map_find bf'.coordinates id with
    | none => rfl
    | some c' =>
      exfalso
      have hm := map_find_mem _ _ _ hfind
      rw [h7, List.mem_filter] at hm
      have hc' : c' = c := by
        have := map_find_of_mem_nodup _ _ _ hnd hm.1
        rw [hf] at this
        simp only [Option.some.injEq] at this
        exact this.symm
      rw [hc'] at hm
      simp [hu, htr] at hm
  have halive : ∀ u', tick_result u (nt - bf.time) = some u' →
      map_find bf'.coordinates id = some c ∧ unitAt bf' c = some u' := by
    intro u' htr
    refine ⟨?_, by rw [h8, hu]; simpa using htr⟩
    rw [h7]
    apply map_find_of_mem_nodup _ _ _ hfilter_nd
    rw [List.mem_filter]
    exact ⟨hmem, by simp [hu, htr]⟩
  refine ⟨hdead, ?_, ?_⟩
  · intro ha
    apply halive
    have : ¬ (u.hp - effects_damage u (nt - bf.time) ≤ 0) := by omega
    simp [tick_result, this]
  · intro he
    apply halive
    have hok := hinv.unit c u hu
    have hz : effects_damage u (nt - bf.time) = 0 := by
      simp [effects_damage, he]
    have : ¬ (u.hp - effects_damage u (nt - bf.time) ≤ 0) := by
      rw [hz]
      have := hok.1
      omega
    unfold tick_result
    rw [if_neg this, hz, he]
    simp only [sub_zero, List.map_nil, List.filter_nil, Option.some.injEq]
    cases u
    simp only at he
    subst he
    rfl

theorem C9_update_tick_closed_form_witness :
    Reachable exPenalty ∧
    ∃ bf', update_tick exPenalty 3 = .ok bf' ∧ bf'.time = 3 ∧
      (∀ c, (tileD bf' c).height = (tileD exPenalty c).height) ∧
      bf'.coordinates = exPenalty.coordinates.filter (fun e =>
        ((unitAt exPenalty e.2).bind
          (fun u => tick_result u (3 - exPenalty.time))).isSome) ∧
      (∀ c, unitAt bf' c =
        (unitAt exPenalty c).bind (fun u => tick_result u (3 - exPenalty.time))) ∧
      (∀ id c u, map_find exPenalty.coordinates id = some c →
        unitAt exPenalty c = some u →
        (u.hp - effects_damage u (3 - exPenalty.time) ≤ 0 →
          map_find bf'.coordinates id = none ∧ unitAt bf' c = none) ∧
        (0 < u.hp - effects_damage u (3 - exPenalty.time) →
          map_find bf'.coordinates id = some c ∧
          unitAt bf' c = some { u with
            hp := u.hp - effects_damage u (3 - exPenalty.time)
            active_effects :=
              (u.active_effects.map
                (fun e => e.decrement_timer (3 - exPenalty.time))).filter
                (fun e => !e.is_done) }) ∧
        (u.active_effects = [] →
          map_find bf'.coordinates id = some c ∧ unitAt bf' c = some u)) :=
  ⟨exPenalty_reachable, C9_update_tick_closed_form exPenalty exPenalty_reachable 3⟩

theorem check_lowercase_false (id : String)
    (h : ∃ ch ∈ id.toList, ¬ ('a' ≤ ch ∧ ch ≤ 'z')) : check_lowercase id = false := by
  obtain ⟨ch, hmem, hch⟩ := h
  unfold check_lowercase
  rw [List.all_eq_false]
  refine ⟨ch, hmem, ?_⟩
  simp only [Bool.and_eq_true, not_and, Bool.not_eq_true]
  intro _
  unfold Char.isLower
  simp only [ge_iff_le, Bool.and_eq_false_imp, decide_eq_true_eq, decide_eq_false_iff_not]
  intro h1 h2
  apply hch
  exact ⟨h1, h2⟩

/-- C10: a spawn command (1-based coordinates `x`, `y`) returns the battle field
    unchanged, without raising an error and whatever the kind name, whenever the
    coordinate is out of bounds, or the tile is occupied, or the id already belongs to
    a registered unit, or the id contains a character that is not a lowercase
    letter. -/
theorem C10_spawn_is_noop (bf : BattleField) (hwf : WF bf) (type id : String) (x y : Int)
    (h : is_inside_field bf (x - 1, y - 1) = false ∨
      (unitAt bf (x - 1, y - 1)).isSome = true ∨
      map_contains bf.coordinates id = true ∨
      (∃ ch ∈ id.toList, ¬ ('a' ≤ ch ∧ ch ≤ 'z'))) :
    execute_spawn bf type id x y = .ok bf := by
  unfold execute_spawn
  by_cases hl : check_lowercase id = true
  · rw [if_pos hl]
    rcases h with h | h | h | h
    · exact spawn_unit_noop bf hwf type id _ _ (Or.inl h)
    · exact spawn_unit_noop bf hwf type id _ _ (Or.inr (Or.inl h))
    · exact spawn_unit_noop bf hwf type id _ _ (Or.inr (Or.inr h))
    · rw [check_lowercase_false id h] at hl
      simp at hl
  · rw [if_neg hl]

theorem C10_spawn_is_noop_witness :
    WF exTwo ∧
    (is_inside_field exTwo (1 - 1, 3 - 1) = false ∨
      (unitAt exTwo (1 - 1, 3 - 1)).isSome = true ∨
      map_contains exTwo.coordinates "c" = true ∨
      (∃ ch ∈ "c".toList, ¬ ('a' ≤ ch ∧ ch ≤ 'z'))) ∧
    execute_spawn exTwo "dragon" "c" 1 3 = .ok exTwo :=
  ⟨by decide, Or.inr (Or.inl (by decide)),
    C10_spawn_is_noop exTwo (by decide) "dragon" "c" 1 3 (Or.inr (Or.inl (by decide)))⟩

/-! ## `flip_map`: the registry ordered by coordinate -/

theorem takeWhile_length_mono {α : Type} (p q : α → Bool) (hpq : ∀ a, p a = true → q a = true)
    (l : List α) : (l.takeWhile p).length ≤ (l.takeWhile q).length := by
  induction l with
  | nil => simp
  | cons x xs ih =>
    by_cases hp : p x = true
    · have hq := hpq x hp
      simp [List.takeWhile_cons, hp, hq, ih]
    · simp [List.takeWhile_cons, hp]

theorem take_le_takeWhile {α : Type} (p : α → Bool) (l : List α) :
    ∀ n, n ≤ (l.takeWhile p).length → ∀ a ∈ l.take n, p a = true := by
  induction l with
  | nil => intro n _ a ha; simp at ha
  | cons x xs ih =>
    intro n hn a ha
    cases n with
    | zero => simp at ha
    | succ m =>
      by_cases hp : p x = true
      · simp only [List.takeWhile_cons, hp, if_true, List.length_cons] at hn
        simp only [List.take_succ_cons, List.mem_cons] at ha
        rcases ha with rfl | ha
        · exact hp
        · exact ih m (by omega) a ha
      · simp [List.takeWhile_cons, hp] at hn

theorem drop_ge_takeWhile (v : Vec2i) (l : List (Vec2i × String))
    (hs : l.Pairwise (fun a b => ¬ vec_lt b.1 a.1)) :
    ∀ n, (l.takeWhile (fun q => decide (vec_lt q.1 v))).length ≤ n →
      ∀ b ∈ l.drop n, ¬ vec_lt b.1 v := by
  induction l with
  | nil => intro n _ b hb; simp at hb
  | cons x xs ih =>
    intro n hn b hb
    rw [List.pairwise_cons] at hs
    by_cases hp : vec_lt x.1 v
    · simp only [List.takeWhile_cons, hp, decide_True, if_true, List.length_cons] at hn
      cases n with
      | zero => omega
      | succ m =>
        simp only [List.drop_succ_cons] at hb
        exact ih hs.2 m (by omega) b hb
    · have hbl : b ∈ x :: xs := List.mem_of_mem_drop hb
      rcases List.mem_cons.1 hbl with rfl | hbx
      · exact hp
      · have h1 := hs.1 b hbx
        unfold vec_lt at h1 hp ⊢
        omega

theorem multimap_insert_perm (dst : List (Vec2i × String)) (hint : Nat) (v : Vec2i × String) :
    (multimap_insert dst hint v).1.Perm (v :: dst) := by
  unfold multimap_insert
  simp only
  refine List.perm_middle.trans ?_
  rw [List.take_append_drop]

theorem multimap_insert_sorted (dst : List (Vec2i × String)) (hint : Nat) (v : Vec2i × String)
    (hs : dst.Pairwise (fun a b => ¬ vec_lt b.1 a.1)) :
    (multimap_insert dst hint v).1.Pairwise (fun a b => ¬ vec_lt b.1 a.1) := by
  unfold multimap_insert
  simp only
  generalize hlo : (dst.takeWhile (fun q => decide (vec_lt q.1 v.1))).length = lower
  generalize hup : (dst.takeWhile (fun q => !decide (vec_lt v.1 q.1))).length = upper
  have hle : lower ≤ upper := by
    rw [← hlo, ← hup]
    apply takeWhile_length_mono
    intro a ha
    have ha1 : vec_lt a.1 v.1 := by simpa using ha
    have : ¬ vec_lt v.1 a.1 := by unfold vec_lt at ha1 ⊢; omega
    simpa using this
  generalize hpos : max lower (min hint upper) = pos
  have hp1 : lower ≤ pos := by omega
  have hp2 : pos ≤ upper := by omega
  have hsplit : dst.take pos ++ dst.drop pos = dst := List.take_append_drop _ _
  have hs2 := hs
  rw [← hsplit, List.pairwise_append] at hs2
  rw [List.pairwise_append, List.pairwise_cons]
  refine ⟨hs2.1, ⟨?_, hs2.2.1⟩, ?_⟩
  · intro b hb
    exact drop_ge_takeWhile v.1 dst hs pos (by omega) b hb
  · intro a ha b hb
    rcases List.mem_cons.1 hb with rfl | hb
    · have := take_le_takeWhile (fun q => !decide (vec_lt b.1 q.1)) dst pos (by omega) a ha
      simpa using this
    · exact hs2.2.2 a ha b hb

theorem flip_fold_spec (src : List (String × Vec2i)) :
    ∀ (dst : List (Vec2i × String)) (hint : Nat),
      dst.Pairwise (fun a b => ¬ vec_lt b.1 a.1) →
      (src.foldl (fun st p => multimap_insert st.1 st.2 (flip_pair p)) (dst, hint)).1.Perm
          (src.map flip_pair ++ dst) ∧
      (src.foldl (fun st p => multimap_insert st.1 st.2 (flip_pair p)) (dst, hint)).1.Pairwise
          (fun a b => ¬ vec_lt b.1 a.1) := by
  induction src with
  | nil => intro dst hint hs; exact ⟨by simp, hs⟩
  | cons p ps ih =>
    intro dst hint hs
    simp only [List.foldl_cons, List.map_cons]
    have h1 := multimap_insert_perm dst hint (flip_pair p)
    have h2 := multimap_insert_sorted dst hint (flip_pair p) hs
    obtain ⟨hp, hso⟩ := ih (multimap_insert dst hint (flip_pair p)).1
      (multimap_insert dst hint (flip_pair p)).2 h2
    refine ⟨?_, hso⟩
    refine hp.trans ?_
    refine (List.Perm.append_left _ h1).trans ?_
    exact List.perm_middle

theorem flip_map_perm (src : List (String × Vec2i)) :
    (flip_map src).Perm (src.map flip_pair) := by
  have := (flip_fold_spec src [] 0 List.Pairwise.nil).1
  simpa [flip_map] using this

theorem flip_map_sorted (src : List (String × Vec2i)) :
    (flip_map src).Pairwise (fun a b => ¬ vec_lt b.1 a.1) :=
  (flip_fold_spec src [] 0 List.Pairwise.nil).2

theorem mem_flip_map (src : List (String × Vec2i)) (e : Vec2i × String) :
    e ∈ flip_map src ↔ (e.2, e.1) ∈ src := by
  rw [(flip_map_perm src).mem_iff, List.mem_map]
  constructor
  · rintro ⟨p, hp, rfl⟩; exact hp
  · intro h; exact ⟨(e.2, e.1), h, rfl⟩

/-- When no two registry entries share a coordinate, the flipped registry is strictly
    increasing in the coordinate. -/
theorem flip_map_strict (src : List (String × Vec2i)) (hnd : (src.map Prod.snd).Nodup) :
    (flip_map src).Pairwise (fun a b => vec_lt a.1 b.1) := by
  have hnd2 : ((flip_map src).map Prod.fst).Nodup := by
    have hperm : ((flip_map src).map Prod.fst).Perm (src.map Prod.snd) := by
      have := (flip_map_perm src).map Prod.fst
      simpa [List.map_map, Function.comp_def, flip_pair] using this
    exact hperm.nodup_iff.2 hnd
  have hne : (flip_map src).Pairwise (fun a b => a.1 ≠ b.1) := by
    rw [List.Nodup, List.pairwise_map] at hnd2
    exact hnd2
  refine (List.Pairwise.and (flip_map_sorted src) hne).imp ?_
  intro a b hab
  obtain ⟨h1, h2⟩ := hab
  have h3 : a.1.1 ≠ b.1.1 ∨ a.1.2 ≠ b.1.2 := by
    by_contra hcon
    push_neg at hcon
    exact h2 (Prod.ext hcon.1 hcon.2)
  unfold vec_lt at h1 ⊢
  omega

/-- Among equal coordinates the multimap keeps the order given by the insertion hints,
    which is not the order of the ids; equal coordinates do not occur in a consistent
    registry (`coords_nodup`). -/
theorem flip_map_equal_keys :
    flip_map [("a", (5, 0)), ("b", (1, 0)), ("c", (5, 0))] =
      [((1, 0), "b"), ((5, 0), "c"), ((5, 0), "a")] := by
  decide

/-! ## The snapshot `state` -/

theorem state_lines_eq (bf : BattleField) (hwf : WF bf) (l : List (Vec2i × String))
    (h : ∀ e ∈ l, ∃ u, unitAt bf e.1 = some u) :
    state_lines bf l = .ok (l.map (entry_line bf)) := by
  induction l with
  | nil => rfl
  | cons e rest ih =>
    obtain ⟨coor, id⟩ := e
    obtain ⟨u, hu⟩ := h (coor, id) (List.mem_cons_self _ _)
    have hrest := ih (fun e he => h e (List.mem_cons_of_mem _ he))
    obtain ⟨hft, htu, -⟩ := find_tile_unit bf hwf coor u hu
    have hfu : (tileD bf coor).find_unit = .ok u := by
      unfold Tile.find_unit; rw [htu]
    have hu' : unitAt bf coor = some u := hu
    simp only [state_lines, hft, hrest, List.map_cons, entry_line, hu', snapshot_line]
    show (do
      let p_unit ← (tileD bf coor).find_unit
      let lines ← Except.ok (List.map (entry_line bf) rest)
      pure ((id ++ " " ++ p_unit.type ++ " (" ++ toString (coor.1 + 1) ++ ", " ++
        toString (coor.2 + 1) ++ ") " ++ toString p_unit.hp) :: lines)) = _
    rw [hfu]
    rfl

theorem flip_map_unit (bf : BattleField) (hcons : Consistent bf) (e : Vec2i × String)
    (he : e ∈ flip_map bf.coordinates) : ∃ u, unitAt bf e.1 = some u ∧ u.id = e.2 := by
  have hm := (mem_flip_map bf.coordinates e).1 he
  exact (holds_iff bf e.1 e.2).1 (hcons.2.1 (e.2, e.1) hm)

/-- Closed form of `state` on a consistent battle field. -/
theorem state_spec (bf : BattleField) (hwf : WF bf) (hcons : Consistent bf) :
    state bf = .ok ((flip_map bf.coordinates).map (entry_line bf) ++ ["---"]) := by
  have h := state_lines_eq bf hwf (flip_map bf.coordinates) (fun e he => by
    obtain ⟨u, hu, -⟩ := flip_map_unit bf hcons e he
    exact ⟨u, hu⟩)
  simp only [state, h]
  rfl

/-- The snapshot of a consistent battle field contains the line of every registered unit. -/
theorem state_contains (bf : BattleField) (hwf : WF bf) (hcons : Consistent bf)
    (id : String) (c : Vec2i) (u : Unit) (hf : map_find bf.coordinates id = some c)
    (hu : unitAt bf c = some u) :
    ∃ lines, state bf = .ok lines ∧ snapshot_line id u.type c.1 c.2 u.hp ∈ lines := by
  refine ⟨_, state_spec bf hwf hcons, ?_⟩
  apply List.mem_append_left
  rw [List.mem_map]
  refine ⟨(c, id), (mem_flip_map _ _).2 (map_find_mem _ _ _ hf), ?_⟩
  simp only [entry_line, hu]

/-! ## Which errors the operations can raise -/

theorem create_unit_error (type id : String) (coor : Vec2i) (e : Err)
    (h : create_unit type id coor = .error e) :
    e = .runtime_error "Unsupported unit!" ∧
      type ≠ "footman" ∧ type ≠ "knight" ∧ type ≠ "rifleman" := by
  unfold create_unit at h
  split_ifs at h with h1 h2 h3
  simp only [Except.error.injEq] at h
  exact ⟨h.symm, h1, h2, h3⟩

theorem create_unit_unknown (type id : String) (coor : Vec2i)
    (h : type ≠ "footman" ∧ type ≠ "knight" ∧ type ≠ "rifleman") :
    create_unit type id coor = .error (.runtime_error "Unsupported unit!") := by
  unfold create_unit
  simp [h.1, h.2.1, h.2.2]

/-- Guard analysis of `spawn_unit`: either it returns the battle field unchanged, or all
    guards pass and the outcome is that of `create_unit`. -/
theorem spawn_unit_cases (bf : BattleField) (hwf : WF bf) (type id : String) (x y : Int) :
    ((is_inside_field bf (x, y) = false ∨ (unitAt bf (x, y)).isSome = true ∨
        map_contains bf.coordinates id = true) ∧ spawn_unit bf type id x y = .ok bf) ∨
    (is_inside_field bf (x, y) = true ∧ unitAt bf (x, y) = none ∧
        map_contains bf.coordinates id = false ∧
        spawn_unit bf type id x y =
          match create_unit type id (x, y) with
          | .ok u => .ok { putUnit bf (x, y) (some u) with
                           coordinates := map_emplace bf.coordinates id u.coor }
          | .error e => .error e) := by
  by_cases hin : is_inside_field bf (x, y) = true
  · obtain ⟨ou, hu⟩ : ∃ ou, unitAt bf (x, y) = ou := ⟨_, rfl⟩
    cases ou with
    | some u =>
      have hg : is_inside_field bf (x, y) = false ∨ (unitAt bf (x, y)).isSome = true ∨
          map_contains bf.coordinates id = true := Or.inr (Or.inl (by rw [hu]; rfl))
      exact Or.inl ⟨hg, spawn_unit_noop bf hwf type id x y hg⟩
    | none =>
      by_cases hc : map_contains bf.coordinates id = true
      · have hg : is_inside_field bf (x, y) = false ∨ (unitAt bf (x, y)).isSome = true ∨
            map_contains bf.coordinates id = true := Or.inr (Or.inr hc)
        exact Or.inl ⟨hg, spawn_unit_noop bf hwf type id x y hg⟩
      · have hc' : map_contains bf.coordinates id = false := by simpa using hc
        exact Or.inr ⟨hin, hu, hc', spawn_unit_eq bf hwf type id x y hin hu hc'⟩
  · have hin' : is_inside_field bf (x, y) = false := by simpa using hin
    exact Or.inl ⟨Or.inl hin', spawn_unit_noop bf hwf type id x y (Or.inl hin')⟩

theorem spawn_unit_error (bf : BattleField) (hwf : WF bf) (type id : String) (x y : Int)
    (e : Err) (h : spawn_unit bf type id x y = .error e) :
    e = .runtime_error "Unsupported unit!" := by
  rcases spawn_unit_cases bf hwf type id x y with ⟨-, hok⟩ | ⟨-, -, -, heq⟩
  · rw [hok] at h; cases h
  · rw [heq] at h
    cases hc : create_unit type id (x, y) with
    | ok u => rw [hc] at h; cases h
    | error e' =>
      rw [hc] at h
      simp only [Except.error.injEq] at h
      subst h
      exact (create_unit_error type id (x, y) e' hc).1

theorem move_unit_total (bf : BattleField) (h : Inv bf) (id : String) (x y : Int) :
    (∃ bf', move_unit bf id x y = .ok bf') ∨ move_unit bf id x y = .error .out_of_range := by
  cases hf : map_find bf.coordinates id with
  | none => exact Or.inr (move_unit_unknown bf id x y hf)
  | some c =>
    obtain ⟨u, hu, -⟩ := h.entry id c hf
    have hok := h.unit c u hu
    rcases is_move_successful_cases bf h.wf h.cons id c u hf hu (x, y) with
      ⟨hs, hin, hfree, -⟩ | ⟨hs, -⟩
    · exact Or.inl ⟨_, move_unit_success bf h.wf id c u hf hu x y hs hin hfree⟩
    · exact Or.inl ⟨_, move_unit_failure bf h.wf id c u hf hu x y hs hok.2.2.1 hok.2.2.2.1⟩

theorem attack_loop_total (bf : BattleField) (hwf : WF bf) (hcons : Consistent bf)
    (id dir : String) (c : Vec2i) (a : Unit) (hf : map_find bf.coordinates id = some c)
    (ha : unitAt bf c = some a) :
    ∀ (n : Nat) (i : Int), (∃ bf', attack_loop id dir a n i bf = .ok bf') ∨
      attack_loop id dir a n i bf = .error .out_of_range := by
  cases hdir : map_find a.attack_directions dir with
  | none =>
    intro n i
    cases n with
    | zero => exact Or.inl ⟨bf, by rw [attack_loop]⟩
    | succ n =>
      right
      rw [attack_loop]
      simp [map_at, hf, hdir, bind, Except.bind]
  | some v =>
    intro n
    induction n with
    | zero => intro i; exact Or.inl ⟨bf, by rw [attack_loop]⟩
    | succ n ih =>
      intro i
      by_cases hin : is_inside_field bf (probe c v i) = true
      · cases hw : unitAt bf (probe c v i) with
        | none =>
          rw [attack_loop_pass bf hwf id dir c a v hf ha hdir n i hin (Or.inl hw)]
          exact ih (i + 1)
        | some w =>
          by_cases hr : |(tileD bf c).height - (tileD bf (probe c v i)).height| ≤ a.attack_range
          · exact Or.inl ⟨_, attack_loop_hit bf hwf hcons id dir c a v hf ha hdir n i w hw hr⟩
          · rw [attack_loop_pass bf hwf id dir c a v hf ha hdir n i hin
              (Or.inr (lt_of_not_ge hr))]
            exact ih (i + 1)
      · have hout : is_inside_field bf (probe c v i) = false := by simpa using hin
        exact Or.inl ⟨bf, attack_loop_outside bf id dir c a v hf hdir n i hout⟩

theorem attack_unit_total (bf : BattleField) (h : Inv bf) (id dir : String) :
    (∃ bf', attack_unit bf id dir = .ok bf') ∨ attack_unit bf id dir = .error .out_of_range := by
  cases hf : map_find bf.coordinates id with
  | none =>
    exact Or.inl ⟨bf, attack_unit_unknown bf id dir ((map_contains_eq_false _ _).2 hf)⟩
  | some c =>
    obtain ⟨a, ha, -⟩ := h.entry id c hf
    rw [attack_unit_eq bf h.wf id dir c a hf ha]
    exact attack_loop_total bf h.wf h.cons id dir c a hf ha _ _

theorem update_tick_total (bf : BattleField) (h : Inv bf) (new_time : Int) :
    ∃ bf', update_tick bf new_time = .ok bf' ∧ bf'.time = new_time := by
  obtain ⟨bf', h1, -, -, -, h2, -⟩ := update_tick_spec bf h.wf h.cons new_time
  exact ⟨bf', h1, h2⟩

theorem state_total (bf : BattleField) (h : Inv bf) : ∃ lines, state bf = .ok lines :=
  ⟨_, state_spec bf h.wf h.cons⟩

/-! ## Running commands from a reachable state -/

theorem command_error_not_internal (e : Err) (h : command_error e) : ¬ internal_error e := by
  have hov : ∀ (s type : String), s.data.head? ≠ some 'O' →
      s ≠ "Overflow of active effects of type " ++ type := by
    intro s type hs heq
    apply hs
    have h1 := congrArg (fun s => s.data.head?) heq
    simp only [String.data_append] at h1
    revert h1
    generalize type.data = l
    intro h1
    rw [h1]
    rfl
  rintro (hi | hi | ⟨type, hi⟩) <;> rcases h with h | h | h <;> rw [h] at hi
  · cases hi
  · exact absurd hi (by decide)
  · exact absurd hi (by decide)
  · cases hi
  · exact absurd hi (by decide)
  · exact absurd hi (by decide)
  · cases hi
  · simp only [Err.runtime_error.injEq] at hi
    exact hov _ type (by decide) hi
  · simp only [Err.runtime_error.injEq] at hi
    exact hov _ type (by decide) hi

theorem execute_spawn_reachable (bf : BattleField) (h : Reachable bf) (type id : String)
    (x y : Int) :
    (∃ bf', execute_spawn bf type id x y = .ok bf' ∧ Reachable bf' ∧ bf'.time = bf.time) ∨
    execute_spawn bf type id x y = .error (.runtime_error "Unsupported unit!") := by
  unfold execute_spawn
  split_ifs with hl
  · cases hs : spawn_unit bf type id (x - 1) (y - 1) with
    | ok bf' =>
      refine Or.inl ⟨bf', rfl, Reachable.spawn type id (x - 1) (y - 1) h hs, ?_⟩
      rcases spawn_unit_cases bf (Reachable_Inv bf h).wf type id (x - 1) (y - 1) with
        ⟨-, hok⟩ | ⟨-, -, -, heq⟩
      · rw [hok] at hs; cases hs; rfl
      · rw [heq] at hs
        cases hc : create_unit type id (x - 1, y - 1) with
        | ok u => rw [hc] at hs; cases hs; rfl
        | error e => rw [hc] at hs; cases hs
    | error e =>
      right
      rw [spawn_unit_error bf (Reachable_Inv bf h).wf type id (x - 1) (y - 1) e hs]
  · exact Or.inl ⟨bf, rfl, h, rfl⟩

theorem execute_command_reachable (bf : BattleField) (h : Reachable bf) (out : List String)
    (cmd : Command) :
    (∃ bf' out', execute_command bf out cmd = .ok (bf', out') ∧ Reachable bf') ∨
    (∃ e, execute_command bf out cmd = .error e ∧ command_error e) := by
  have hinv := Reachable_Inv bf h
  cases cmd with
  | spawn type id x y =>
    rcases execute_spawn_reachable bf h type id x y with ⟨bf', hs, hr, -⟩ | he
    · exact Or.inl ⟨bf', out, by simp only [execute_command, hs]; rfl, hr⟩
    · exact Or.inr ⟨_, by simp only [execute_command, he]; rfl, Or.inr (Or.inl rfl)⟩
  | move id x y =>
    rcases move_unit_total bf hinv id (x - 1) (y - 1) with ⟨bf', hs⟩ | he
    · exact Or.inl ⟨bf', out, by simp only [execute_command, hs]; rfl,
        Reachable.move id (x - 1) (y - 1) h hs⟩
    · exact Or.inr ⟨_, by simp only [execute_command, he]; rfl, Or.inl rfl⟩
  | attack id dir =>
    rcases attack_unit_total bf hinv id dir with ⟨bf', hs⟩ | he
    · exact Or.inl ⟨bf', out, by simp only [execute_command, hs]; rfl,
        Reachable.attack id dir h hs⟩
    · exact Or.inr ⟨_, by simp only [execute_command, he]; rfl, Or.inl rfl⟩
  | state =>
    obtain ⟨lines, hs⟩ := state_total bf hinv
    exact Or.inl ⟨bf, out ++ lines, by simp only [execute_command, hs]; rfl, h⟩
  | new_command => exact Or.inl ⟨bf, out, rfl, h⟩
  | unsupported cmd => exact Or.inr ⟨_, rfl, Or.inr (Or.inr rfl)⟩

theorem execute_commands_reachable (cmds : List Command) :
    ∀ (bf : BattleField) (out : List String), Reachable bf →
      (∃ bf' out', execute_commands cmds (bf, out) = .ok (bf', out') ∧ Reachable bf') ∨
      (∃ e, execute_commands cmds (bf, out) = .error e ∧ command_error e) := by
  induction cmds with
  | nil => intro bf out h; exact Or.inl ⟨bf, out, rfl, h⟩
  | cons cmd rest ih =>
    intro bf out h
    rcases execute_command_reachable bf h out cmd with ⟨bf1, out1, h1, hr1⟩ | ⟨e, he, hce⟩
    · have heq : execute_commands (cmd :: rest) (bf, out) = execute_commands rest (bf1, out1) := by
        simp only [execute_commands, h1]; rfl
      rw [heq]
      exact ih bf1 out1 hr1
    · exact Or.inr ⟨e, by simp only [execute_commands, he]; rfl, hce⟩

theorem main_loop_reachable (lines : List Line) :
    ∀ (bf : BattleField) (out : List String), Reachable bf →
      (∀ line ∈ lines, line.time ≤ INT_MAX) →
      (∃ status bf' out', main_loop lines bf out = .exit status bf' out' ∧ Reachable bf') ∨
      (∃ e, main_loop lines bf out = .terminate e ∧ command_error e) := by
  induction lines with
  | nil => intro bf out h _; exact Or.inl ⟨0, bf, out, rfl, h⟩
  | cons line rest ih =>
    intro bf out h hb
    by_cases ht : bf.time ≥ line.time
    · exact Or.inl ⟨1, bf, out, by simp only [main_loop, ht, if_true], h⟩
    · obtain ⟨bf1, h1, -⟩ := update_tick_total bf (Reachable_Inv bf h) line.time
      have hr1 : Reachable bf1 :=
        Reachable.tick line.time h (lt_of_not_ge ht) (hb line (List.mem_cons_self _ _)) h1
      rcases execute_commands_reachable line.commands bf1 out hr1 with
        ⟨bf2, out2, h2, hr2⟩ | ⟨e, he, hce⟩
      · have heq : main_loop (line :: rest) bf out = main_loop rest bf2 out2 := by
          simp only [main_loop, ht, if_false, h1, h2]
        rw [heq]
        exact ih bf2 out2 hr2 (fun l hl => hb l (List.mem_cons_of_mem _ hl))
      · exact Or.inr ⟨e, by simp only [main_loop, ht, if_false, h1, he], hce⟩

/-! ## Spawn -/

theorem check_lowercase_true (id : String)
    (h : ∀ ch ∈ id.toList, 'a' ≤ ch ∧ ch ≤ 'z') : check_lowercase id = true := by
  unfold check_lowercase
  rw [List.all_eq_true]
  intro ch hmem
  obtain ⟨h1, h2⟩ := h ch hmem
  have hl : ch.isLower = true := by
    unfold Char.isLower
    simp only [ge_iff_le, Bool.and_eq_true, decide_eq_true_eq]
    exact ⟨h1, h2⟩
  simp [Char.isAlpha, hl]

theorem create_unit_known (kind id : String) (coor : Vec2i)
    (hkind : kind = "footman" ∨ kind = "knight" ∨ kind = "rifleman") :
    ∃ u, create_unit kind id coor = .ok u ∧ u.id = id ∧ u.type = kind ∧ u.coor = coor ∧
      u.hp = base_hp kind ∧ u.max_hp = base_hp kind ∧ u.active_effects = [] := by
  rcases hkind with rfl | rfl | rfl
  · exact ⟨Footman id coor, rfl, rfl, rfl, rfl, rfl, rfl, rfl⟩
  · exact ⟨Knight id coor, rfl, rfl, rfl, rfl, rfl, rfl, rfl⟩
  · exact ⟨Rifleman id coor, rfl, rfl, rfl, rfl, rfl, rfl, rfl⟩

theorem length_map_emplace {V : Type} (m : List (String × V)) (k : String) (v : V)
    (h : map_find m k = none) : (map_emplace m k v).length = m.length + 1 := by
  induction m with
  | nil => rfl
  | cons e m ih =>
    obtain ⟨k', v'⟩ := e
    have hne : k ≠ k' := by
      intro he
      subst he
      simp [map_find] at h
    have h' : map_find m k = none := by
      simpa only [map_find, hne, if_false] using h
    simp only [map_emplace, hne, if_false]
    split_ifs
    · rfl
    · simp only [List.length_cons, ih h']

/-- C11: on a well-formed, consistent battle field, spawning a known kind (footman,
    knight, rifleman) at an in-bounds empty coordinate `(r, c)` (given 1-based in the
    command) under an all-lowercase id that no registered unit uses registers exactly
    one new unit: the registry grows by the one entry `id ↦ (r, c)` and keeps every
    other entry, the tile holds a unit of that id and kind with hp and maximal hp equal
    to the base hp of the archetype and no effects, every other tile holds what it held
    before, the time is unchanged, and the snapshot of the new state succeeds and
    contains the line `<id> <kind> (<r+1>, <c+1>) <base hp>`. -/
theorem C11_spawn_registers_new_unit (bf : BattleField) (hwf : WF bf) (hcons : Consistent bf)
    (kind id : String) (r c : Int)
    (hkind : kind = "footman" ∨ kind = "knight" ∨ kind = "rifleman")
    (hin : is_inside_field bf (r, c) = true) (hemp : unitAt bf (r, c) = none)
    (hlow : ∀ ch ∈ id.toList, 'a' ≤ ch ∧ ch ≤ 'z')
    (hnew : map_contains bf.coordinates id = false) :
    ∃ bf' u, execute_spawn bf kind id (r + 1) (c + 1) = .ok bf' ∧
      map_find bf'.coordinates id = some (r, c) ∧
      bf'.coordinates.length = bf.coordinates.length + 1 ∧
      (∀ id', id' ≠ id → map_find bf'.coordinates id' = map_find bf.coordinates id') ∧
      unitAt bf' (r, c) = some u ∧ u.id = id ∧ u.type = kind ∧
      u.hp = base_hp kind ∧ u.max_hp = base_hp kind ∧ u.active_effects = [] ∧
      (∀ c', c' ≠ (r, c) → unitAt bf' c' = unitAt bf c') ∧
      bf'.time = bf.time ∧
      ∃ lines, state bf' = .ok lines ∧
        snapshot_line id kind r c (base_hp kind) ∈ lines := by
  obtain ⟨u, hcu, huid, hutype, hucoor, huhp, humax, hueff⟩ :=
    create_unit_known kind id (r, c) hkind
  have hnone : map_find bf.coordinates id = none := (map_contains_eq_false _ _).1 hnew
  have hsp : execute_spawn bf kind id (r + 1) (c + 1) =
      .ok { putUnit bf (r, c) (some u) with
            coordinates := map_emplace bf.coordinates id (r, c) } := by
    unfold execute_spawn
    rw [if_pos (check_lowercase_true id hlow), add_sub_cancel_right, add_sub_cancel_right,
      spawn_unit_eq bf hwf kind id r c hin hemp hnew, hcu]
    simp only [hucoor]
  have hwf' : WF ({ putUnit bf (r, c) (some u) with
      coordinates := map_emplace bf.coordinates id (r, c) } : BattleField) :=
    WF_putUnit bf (r, c) _ hwf
  have hcons' : Consistent ({ putUnit bf (r, c) (some u) with
      coordinates := map_emplace bf.coordinates id (r, c) } : BattleField) := by
    have := Consistent_add bf hwf hcons (r, c) u hin hemp (by rw [huid]; exact hnone)
    rw [huid] at this
    exact this
  have hunit : ∀ c', unitAt ({ putUnit bf (r, c) (some u) with
      coordinates := map_emplace bf.coordinates id (r, c) } : BattleField) c' =
      if c' = (r, c) then some u else unitAt bf c' :=
    fun c' => unitAt_putUnit bf hwf (r, c) c' _ hin
  have hreg : map_find (map_emplace bf.coordinates id (r, c)) id = some (r, c) := by
    rw [map_find_emplace _ _ _ hnone, if_pos rfl]
  have hat : unitAt ({ putUnit bf (r, c) (some u) with
      coordinates := map_emplace bf.coordinates id (r, c) } : BattleField) (r, c) = some u := by
    rw [hunit, if_pos rfl]
  refine ⟨_, u, hsp, hreg, length_map_emplace _ _ _ hnone, ?_, hat, huid, hutype, huhp,
    humax, hueff, ?_, rfl, ?_⟩
  · intro id' hne
    show map_find (map_emplace bf.coordinates id (r, c)) id' = _
    rw [map_find_emplace _ _ _ hnone, if_neg hne]
  · intro c' hne
    rw [hunit, if_neg hne]
  · have := state_contains _ hwf' hcons' id (r, c) u hreg hat
    rw [hutype, huhp] at this
    exact this

theorem C11_spawn_registers_new_unit_witness :
    WF exTwo ∧ Consistent exTwo ∧
    ("knight" = "footman" ∨ "knight" = "knight" ∨ "knight" = "rifleman") ∧
    is_inside_field exTwo (0, 1) = true ∧ unitAt exTwo (0, 1) = none ∧
    (∀ ch ∈ "c".toList, 'a' ≤ ch ∧ ch ≤ 'z') ∧
    map_contains exTwo.coordinates "c" = false ∧
    ∃ bf' u, execute_spawn exTwo "knight" "c" (0 + 1) (1 + 1) = .ok bf' ∧
      map_find bf'.coordinates "c" = some (0, 1) ∧
      bf'.coordinates.length = exTwo.coordinates.length + 1 ∧
      (∀ id', id' ≠ "c" → map_find bf'.coordinates id' = map_find exTwo.coordinates id') ∧
      unitAt bf' (0, 1) = some u ∧ u.id = "c" ∧ u.type = "knight" ∧
      u.hp = base_hp "knight" ∧ u.max_hp = base_hp "knight" ∧ u.active_effects = [] ∧
      (∀ c', c' ≠ (0, 1) → unitAt bf' c' = unitAt exTwo c') ∧
      bf'.time = exTwo.time ∧
      ∃ lines, state bf' = .ok lines ∧
        snapshot_line "c" "knight" 0 1 (base_hp "knight") ∈ lines :=
  ⟨by decide, by decide, by decide, by decide, by decide, by decide, by decide,
    C11_spawn_registers_new_unit exTwo (by decide) (by decide) "knight" "c" 0 1
      (by decide) (by decide) (by decide) (by decide) (by decide)⟩

/-- C12 (as stated, refuted): on `exTwo` the id `a` is already registered, and the spawn
    of the unrecognized kind `dragon` under that id at the empty in-bounds cell
    `(1, 2)` returns the battle field unchanged instead of raising an error. -/
theorem C12_counterexample :
    "dragon" ≠ "footman" ∧ "dragon" ≠ "knight" ∧ "dragon" ≠ "rifleman" ∧
    is_inside_field exTwo (0, 1) = true ∧ unitAt exTwo (0, 1) = none ∧
    spawn_unit exTwo "dragon" "a" 0 1 = .ok exTwo ∧
    execute_spawn exTwo "dragon" "a" 1 2 = .ok exTwo := by
  decide

/-- C12 (amended): a spawn command (1-based coordinates `x`, `y`) whose kind name is
    not one of footman, knight, rifleman raises the error `Unsupported unit!` exactly
    when the spawn would otherwise take place, that is when the coordinate is in
    bounds, the tile is empty, the id is not registered and the id consists of
    lowercase letters only; in every other case it returns the battle field
    unchanged. -/
theorem C12_unknown_kind_raises_iff_spawn_would_happen (bf : BattleField) (hwf : WF bf)
    (type id : String) (x y : Int)
    (hkind : type ≠ "footman" ∧ type ≠ "knight" ∧ type ≠ "rifleman") :
    ((is_inside_field bf (x - 1, y - 1) = true ∧ unitAt bf (x - 1, y - 1) = none ∧
        map_contains bf.coordinates id = false ∧
        (∀ ch ∈ id.toList, 'a' ≤ ch ∧ ch ≤ 'z')) →
      execute_spawn bf type id x y = .error (.runtime_error "Unsupported unit!")) ∧
    (¬ (is_inside_field bf (x - 1, y - 1) = true ∧ unitAt bf (x - 1, y - 1) = none ∧
        map_contains bf.coordinates id = false ∧
        (∀ ch ∈ id.toList, 'a' ≤ ch ∧ ch ≤ 'z')) →
      execute_spawn bf type id x y = .ok bf) := by
  constructor
  · rintro ⟨hin, hemp, hnew, hlow⟩
    unfold execute_spawn
    rw [if_pos (check_lowercase_true id hlow),
      spawn_unit_eq bf hwf type id _ _ hin hemp hnew, create_unit_unknown type id _ hkind]
  · intro hng
    unfold execute_spawn
    by_cases hl : check_lowercase id = true
    · rw [if_pos hl]
      rcases spawn_unit_cases bf hwf type id (x - 1) (y - 1) with ⟨-, hok⟩ | ⟨hin, hemp, hnew, -⟩
      · exact hok
      · exfalso
        apply hng
        refine ⟨hin, hemp, hnew, ?_⟩
        by_contra hcon
        push_neg at hcon
        obtain ⟨ch, hmem, hch⟩ := hcon
        have := check_lowercase_false id ⟨ch, hmem, fun hh => absurd hh.2 (not_le.2 (hch hh.1))⟩
        rw [this] at hl
        cases hl
    · rw [if_neg hl]

theorem C12_unknown_kind_raises_iff_spawn_would_happen_witness :
    WF exTwo ∧ ("dragon" ≠ "footman" ∧ "dragon" ≠ "knight" ∧ "dragon" ≠ "rifleman") ∧
    ((is_inside_field exTwo (1 - 1, 2 - 1) = true ∧ unitAt exTwo (1 - 1, 2 - 1) = none ∧
        map_contains exTwo.coordinates "c" = false ∧
        (∀ ch ∈ "c".toList, 'a' ≤ ch ∧ ch ≤ 'z')) ∧
      execute_spawn exTwo "dragon" "c" 1 2 = .error (.runtime_error "Unsupported unit!")) :=
  ⟨by decide, by decide, by decide,
    (C12_unknown_kind_raises_iff_spawn_would_happen exTwo (by decide) "dragon" "c" 1 2
      (by decide)).1 (by decide)⟩

/-! ## Attack by an unknown id -/

/-- C13: `attack_unit` with an id that is not in the registry (never spawned, or dead
    and removed) returns the battle field unchanged for every direction string, and so
    does the `attack` command, which leaves the output unchanged as well. -/
theorem C13_attack_unknown_id_is_noop (bf : BattleField) (id dir : String)
    (out : List String) (h : map_contains bf.coordinates id = false) :
    attack_unit bf id dir = .ok bf ∧
      execute_command bf out (.attack id dir) = .ok (bf, out) := by
  have h1 : attack_unit bf id dir = .ok bf := by
    unfold attack_unit
    simp [h]
  refine ⟨h1, ?_⟩
  simp only [execute_command, h1]
  rfl

theorem C13_attack_unknown_id_is_noop_witness :
    map_contains exTwo.coordinates "zed" = false ∧
    attack_unit exTwo "zed" "sideways" = .ok exTwo ∧
      execute_command exTwo [] (.attack "zed" "sideways") = .ok (exTwo, []) :=
  ⟨by decide, C13_attack_unknown_id_is_noop exTwo "zed" "sideways" [] (by decide)⟩

/-! ## The driver's time check -/

theorem main_loop_append (pre rest : List Line) :
    ∀ (bf : BattleField) (out : List String) (bf1 : BattleField) (out1 : List String),
      main_loop pre bf out = .exit 0 bf1 out1 →
      main_loop (pre ++ rest) bf out = main_loop rest bf1 out1 := by
  induction pre with
  | nil =>
    intro bf out bf1 out1 h
    simp only [main_loop, Outcome.exit.injEq, true_and] at h
    rw [h.1, h.2]
    rfl
  | cons line pre ih =>
    intro bf out bf1 out1 h
    simp only [List.cons_append, main_loop] at h ⊢
    split_ifs at h ⊢ with ht
    · simp at h
    · cases h1 : update_tick bf line.time with
      | error e => rw [h1] at h; simp at h
      | ok bf2 =>
        rw [h1] at h
        simp only at h ⊢
        cases h2 : execute_commands line.commands (bf2, out) with
        | error e => rw [h2] at h; simp at h
        | ok st =>
          rw [h2] at h
          simp only at h ⊢
          exact ih st.1 st.2 bf1 out1 h

/-- C14: let the sizes and the heights be read without a failure and the constructor
    not throw (`InputFits`: in particular `0 ≤ M`, and the input holds all the `M * N`
    heights), and let `std::stoi` return the leading time of every line that is read
    (the times of the lines `pre` and of `line` fit a C++ `int`).  When the lines `pre`
    have been processed completely, leaving the battle field `bf` and the output `out`,
    a next line whose leading time is not greater than `bf.time` makes the driver
    return exit status `1` with exactly that battle field and that output, whatever
    that line and the later lines contain; in particular a first line with a time of
    `0` or less exits at once with the freshly built battle field (whose time is `0`,
    and which holds `M` rows of heights of the input). -/
theorem C14_stale_tick_exits_with_status_one (M N : Int) (input : List Int)
    (pre : List Line) (line : Line) (rest : List Line) (bf : BattleField)
    (out : List String) (hinput : InputFits M N input)
    (hfits : ∀ l ∈ pre ++ [line], TimeFits l)
    (hpre : main M N input pre = .exit 0 bf out) (ht : line.time ≤ bf.time) :
    main M N input (pre ++ line :: rest) = .exit 1 bf out ∧
    (BattleField.new M N input).time = 0 ∧
    ((BattleField.new M N input).field.length : Int) = M ∧
    (∀ row ∈ (BattleField.new M N input).field, ∀ t ∈ row,
      t.height ∈ input ∧ -INT_MAX - 1 ≤ t.height ∧ t.height ≤ INT_MAX) ∧
    TimeFits line ∧
    (line.time ≤ 0 →
      main M N input (line :: rest) = .exit 1 (BattleField.new M N input) []) ∧
    (∀ (bf0 : BattleField) (out0 : List String),
      main_loop pre bf0 out0 = .exit 0 bf out →
      main_loop (pre ++ line :: rest) bf0 out0 = .exit 1 bf out) := by
  obtain ⟨hM, -, -, -, hlen, hrange⟩ := hinput
  have hgen : ∀ (bf0 : BattleField) (out0 : List String),
      main_loop pre bf0 out0 = .exit 0 bf out →
      main_loop (pre ++ line :: rest) bf0 out0 = .exit 1 bf out := by
    intro bf0 out0 h
    rw [main_loop_append pre (line :: rest) bf0 out0 bf out h]
    simp only [main_loop]
    rw [if_pos ht]
  refine ⟨hgen _ _ hpre, rfl, ?_, ?_, hfits line (by simp), ?_, hgen⟩
  · show (((List.range M.toNat).map _).length : Int) = M
    rw [List.length_map, List.length_range]
    omega
  · intro row hrow t ht'
    have hrow' : row ∈ (List.range M.toNat).map (fun i =>
        (List.range N.toNat).map (fun j =>
          ({ height := input.getD (i * N.toNat + j) 0, unit := none } : Tile))) := hrow
    obtain ⟨i, hi, rfl⟩ := List.mem_map.mp hrow'
    obtain ⟨j, hj, rfl⟩ := List.mem_map.mp ht'
    rw [List.mem_range] at hi hj
    have hlt : i * N.toNat + j < input.length := by
      have h1 : (i + 1) * N.toNat ≤ M.toNat * N.toNat := Nat.mul_le_mul_right _ hi
      have h2 : (i + 1) * N.toNat = i * N.toNat + N.toNat := by ring
      omega
    have hmem : input.getD (i * N.toNat + j) 0 ∈ input := by
      rw [List.getD_eq_getElem _ _ hlt]
      exact List.getElem_mem _
    exact ⟨hmem, hrange _ hmem⟩
  · intro h0
    have : (BattleField.new M N input).time ≥ line.time := h0
    simp only [main, main_loop]
    rw [if_pos this]

theorem C14_stale_tick_exits_with_status_one_witness :
    InputFits 1 3 [0, 0, 0] ∧
    (∀ l ∈ [(⟨1, [.spawn "footman" "a" 1 1, .spawn "footman" "b" 1 3]⟩ : Line)] ++
      [(⟨1, [.attack "a" "right", .state]⟩ : Line)], TimeFits l) ∧
    main 1 3 [0, 0, 0] [⟨1, [.spawn "footman" "a" 1 1, .spawn "footman" "b" 1 3]⟩] =
      .exit 0 (exTwo.set_time 1) [] ∧
    (⟨1, [.attack "a" "right", .state]⟩ : Line).time ≤ (exTwo.set_time 1).time ∧
    main 1 3 [0, 0, 0] ([⟨1, [.spawn "footman" "a" 1 1, .spawn "footman" "b" 1 3]⟩] ++
      (⟨1, [.attack "a" "right", .state]⟩ : Line) :: [⟨2, [.state]⟩]) =
        .exit 1 (exTwo.set_time 1) [] :=
  ⟨by decide, by decide, by decide, by decide,
    (C14_stale_tick_exits_with_status_one 1 3 [0, 0, 0]
      [⟨1, [.spawn "footman" "a" 1 1, .spawn "footman" "b" 1 3]⟩]
      ⟨1, [.attack "a" "right", .state]⟩ [⟨2, [.state]⟩] (exTwo.set_time 1) []
      (by decide) (by decide) (by decide) (by decide)).1⟩

/-! ## Invariants of reachable states -/

/-- C15: in every reachable state the registry and the grid agree: every registry entry
    `id ↦ c` points to an in-bounds tile holding a unit of that id, every unit on a
    tile is registered under its id at that tile; hence no id stands on two tiles, no
    two registered ids share a coordinate, and no id is registered twice. -/
theorem C15_registry_and_grid_agree (bf : BattleField) (h : Reachable bf) :
    (∀ id c, map_find bf.coordinates id = some c →
      is_inside_field bf c = true ∧ ∃ u, unitAt bf c = some u ∧ u.id = id) ∧
    (∀ c u, unitAt bf c = some u → map_find bf.coordinates u.id = some c) ∧
    (∀ c1 c2 u1 u2, unitAt bf c1 = some u1 → unitAt bf c2 = some u2 → u1.id = u2.id →
      c1 = c2) ∧
    (∀ id1 id2 c, map_find bf.coordinates id1 = some c →
      map_find bf.coordinates id2 = some c → id1 = id2) ∧
    (bf.coordinates.map Prod.fst).Nodup ∧ (bf.coordinates.map Prod.snd).Nodup := by
  have hinv := Reachable_Inv bf h
  refine ⟨?_, fun c u hu => hinv.reg c u hu, ?_, ?_, keys_nodup_of_sorted _ hinv.sorted,
    coords_nodup bf hinv.cons⟩
  · intro id c hf
    obtain ⟨u, hu, hid⟩ := hinv.entry id c hf
    exact ⟨inside_of_unitAt bf hinv.wf c u hu, u, hu, hid⟩
  · intro c1 c2 u1 u2 h1 h2 hid
    have e1 := hinv.reg c1 u1 h1
    have e2 := hinv.reg c2 u2 h2
    rw [hid, e2] at e1
    exact (Option.some.inj e1).symm
  · intro id1 id2 c h1 h2
    obtain ⟨u1, hu1, hid1⟩ := hinv.entry id1 c h1
    obtain ⟨u2, hu2, hid2⟩ := hinv.entry id2 c h2
    rw [hu1] at hu2
    cases hu2
    rw [← hid1, ← hid2]

theorem C15_registry_and_grid_agree_witness :
    Reachable exPenalty ∧
    ((∀ id c, map_find exPenalty.coordinates id = some c →
      is_inside_field exPenalty c = true ∧ ∃ u, unitAt exPenalty c = some u ∧ u.id = id) ∧
    (∀ c u, unitAt exPenalty c = some u → map_find exPenalty.coordinates u.id = some c) ∧
    (∀ c1 c2 u1 u2, unitAt exPenalty c1 = some u1 → unitAt exPenalty c2 = some u2 →
      u1.id = u2.id → c1 = c2) ∧
    (∀ id1 id2 c, map_find exPenalty.coordinates id1 = some c →
      map_find exPenalty.coordinates id2 = some c → id1 = id2) ∧
    (exPenalty.coordinates.map Prod.fst).Nodup ∧
    (exPenalty.coordinates.map Prod.snd).Nodup) :=
  ⟨exPenalty_reachable, C15_registry_and_grid_agree exPenalty exPenalty_reachable⟩

/-- C16: in every state reached from a fresh battle field by spawns, moves, attacks and
    ticks with strictly increasing times, every registered unit stands on its tile
    with `0 < hp ≤ max_hp`, and so does every unit found on any tile: no unit with
    `hp ≤ 0` survives the operation that brought its hp there. -/
theorem C16_living_units_have_positive_bounded_hp (bf : BattleField) (h : Reachable bf) :
    (∀ id c, map_find bf.coordinates id = some c →
      ∃ u, unitAt bf c = some u ∧ u.id = id ∧ 0 < u.hp ∧ u.hp ≤ u.max_hp) ∧
    (∀ c u, unitAt bf c = some u → 0 < u.hp ∧ u.hp ≤ u.max_hp) := by
  have hinv := Reachable_Inv bf h
  constructor
  · intro id c hf
    obtain ⟨u, hu, hid⟩ := hinv.entry id c hf
    have hok := hinv.unit c u hu
    exact ⟨u, hu, hid, hok.1, hok.2.1⟩
  · intro c u hu
    have hok := hinv.unit c u hu
    exact ⟨hok.1, hok.2.1⟩

theorem C16_living_units_have_positive_bounded_hp_witness :
    Reachable exTwo ∧
    ((∀ id c, map_find exTwo.coordinates id = some c →
      ∃ u, unitAt exTwo c = some u ∧ u.id = id ∧ 0 < u.hp ∧ u.hp ≤ u.max_hp) ∧
    (∀ c u, unitAt exTwo c = some u → 0 < u.hp ∧ u.hp ≤ u.max_hp)) :=
  ⟨exTwo_reachable, C16_living_units_have_positive_bounded_hp exTwo exTwo_reachable⟩

/-! ## The snapshot -/

/-- C17: on a well-formed, consistent battle field `state` succeeds and prints one line
    per registry entry followed by the line `---`: the printed entries are a
    rearrangement of the registry, strictly increasing in the lexicographic order of
    the registered `(row, column)` (so no two lines share a coordinate and no tie
    arises), and the line of an entry is `<id> <kind> (<row+1>, <col+1>) <hp>` with
    kind and hp of the unit standing on the registered tile. -/
theorem C17_state_lines_sorted_by_coordinate (bf : BattleField) (hwf : WF bf)
    (hcons : Consistent bf) :
    ∃ entries : List (Vec2i × String),
      entries.Perm (bf.coordinates.map flip_pair) ∧
      entries.length = bf.coordinates.length ∧
      entries.Pairwise (fun a b => vec_lt a.1 b.1) ∧
      (∀ e ∈ entries, ∃ u, map_find bf.coordinates e.2 = some e.1 ∧
        unitAt bf e.1 = some u ∧ u.id = e.2 ∧
        entry_line bf e = snapshot_line e.2 u.type e.1.1 e.1.2 u.hp) ∧
      state bf = .ok (entries.map (entry_line bf) ++ ["---"]) := by
  refine ⟨flip_map bf.coordinates, flip_map_perm _, ?_,
    flip_map_strict _ (coords_nodup bf hcons), ?_, state_spec bf hwf hcons⟩
  · rw [(flip_map_perm bf.coordinates).length_eq, List.length_map]
  · intro e he
    obtain ⟨u, hu, hid⟩ := flip_map_unit bf hcons e he
    refine ⟨u, ?_, hu, hid, by simp only [entry_line, hu]⟩
    exact map_find_of_mem_nodup _ _ _ (keys_nodup_of_sorted _ hcons.1)
      ((mem_flip_map _ _).1 he)

theorem C17_state_lines_sorted_by_coordinate_witness :
    WF exCross ∧ Consistent exCross ∧
    state exCross = .ok ["b footman (1, 1) 20", "a knight (1, 3) 50", "---"] ∧
    ∃ entries : List (Vec2i × String),
      entries.Perm (exCross.coordinates.map flip_pair) ∧
      entries.length = exCross.coordinates.length ∧
      entries.Pairwise (fun a b => vec_lt a.1 b.1) ∧
      (∀ e ∈ entries, ∃ u, map_find exCross.coordinates e.2 = some e.1 ∧
        unitAt exCross e.1 = some u ∧ u.id = e.2 ∧
        entry_line exCross e = snapshot_line e.2 u.type e.1.1 e.1.2 u.hp) ∧
      state exCross = .ok (entries.map (entry_line exCross) ++ ["---"]) :=
  ⟨by decide, by decide, by decide,
    C17_state_lines_sorted_by_coordinate exCross (by decide) (by decide)⟩

/-- C18: the end-to-end scenario on the `1 x 3` field of heights `0, 0, 0` at time `0`:
    the two spawns give `exTwo`; after the tick to `1` the attack of `a` towards
    `right` changes nothing and `move a 1 2` relocates `a` to `(0, 1)` without a
    penalty; after the tick to `2` the attack of `a` towards `right` takes one hp from
    `b`; the snapshot then reads `a footman (1, 2) 20`, `b footman (1, 3) 19`, `---`.
    The same commands given to the driver on two lines produce the same output. -/
theorem C18_end_to_end_scenario :
    execute_commands [.spawn "footman" "a" 1 1, .spawn "footman" "b" 1 3]
      (BattleField.new 1 3 [0, 0, 0], []) = .ok (exTwo, []) ∧
    update_tick exTwo 1 = .ok (exTwo.set_time 1) ∧
    attack_unit (exTwo.set_time 1) "a" "right" = .ok (exTwo.set_time 1) ∧
    execute_commands [.attack "a" "right", .move "a" 1 2] (exTwo.set_time 1, []) =
      .ok (exMoved, []) ∧
    update_tick exMoved 2 = .ok (exMoved.set_time 2) ∧
    execute_commands [.attack "a" "right"] (exMoved.set_time 2, []) = .ok (exFinal, []) ∧
    unitAt exFinal (0, 1) = some ((Footman "a" (0, 0)).set_coor (0, 1)) ∧
    unitAt exFinal (0, 2) = some ((Footman "b" (0, 2)).set_hp 19) ∧
    execute_commands [.state] (exFinal, []) =
      .ok (exFinal, ["a footman (1, 2) 20", "b footman (1, 3) 19", "---"]) ∧
    main 1 3 [0, 0, 0]
      [⟨1, [.spawn "footman" "a" 1 1, .spawn "footman" "b" 1 3, .attack "a" "right",
            .move "a" 1 2]⟩,
       ⟨2, [.attack "a" "right", .state]⟩] =
      .exit 0 exFinal ["a footman (1, 2) 20", "b footman (1, 3) 19", "---"] := by
  decide

/-! ## Effects and internal errors -/

/-- C19: in every reachable state every unit on the field holds at most one
    `dead_inside` effect and no effect of another type, so it holds at most one effect
    in all; its cap for `dead_inside` is `1`, and `active_effect_count` returns the
    number of its `dead_inside` effects without raising the overflow error. -/
theorem C19_at_most_one_dead_inside_effect (bf : BattleField) (h : Reachable bf) :
    ∀ c u, unitAt bf c = some u →
      deadInsideCount u ≤ 1 ∧ u.active_effects.length ≤ 1 ∧
      (∀ e ∈ u.active_effects, e.type = "dead_inside") ∧
      u.max_effect_count "dead_inside" = .ok 1 ∧
      u.active_effect_count "dead_inside" = .ok (deadInsideCount u : Int) := by
  intro c u hu
  obtain ⟨-, -, hcap, hcount, heff⟩ := (Reachable_Inv bf h).unit c u hu
  have hall : ∀ e ∈ u.active_effects, e.type = "dead_inside" := fun e he => (heff e he).1
  have hmax : u.max_effect_count "dead_inside" = .ok 1 := by
    unfold Unit.max_effect_count
    rw [hcap]
    rfl
  refine ⟨hcount, ?_, hall, hmax, ?_⟩
  · have hfil : u.active_effects.filter (fun e => e.type = "dead_inside") =
        u.active_effects := by
      rw [List.filter_eq_self]
      intro e he
      simpa using hall e he
    unfold deadInsideCount at hcount
    rw [hfil] at hcount
    exact hcount
  · unfold Unit.active_effect_count
    rw [foldl_count_effects, hmax]
    unfold deadInsideCount at hcount ⊢
    have hlt : ¬ ((1 : Int) < ((u.active_effects.filter
        (fun e => e.type = "dead_inside")).length : Int)) := by omega
    simp only [bind, Except.bind, hlt, if_false, pure, Except.pure, zero_add]

theorem C19_at_most_one_dead_inside_effect_witness :
    Reachable exPenalty ∧
    (unitAt exPenalty (0, 0)).map deadInsideCount = some 1 ∧
    ((move_unit exPenalty "a" 0 2).toOption.bind
      (fun bf => (unitAt bf (0, 0)).map deadInsideCount)) = some 1 ∧
    ∀ c u, unitAt exPenalty c = some u →
      deadInsideCount u ≤ 1 ∧ u.active_effects.length ≤ 1 ∧
      (∀ e ∈ u.active_effects, e.type = "dead_inside") ∧
      u.max_effect_count "dead_inside" = .ok 1 ∧
      u.active_effect_count "dead_inside" = .ok (deadInsideCount u : Int) :=
  ⟨exPenalty_reachable, by decide, by decide,
    C19_at_most_one_dead_inside_effect exPenalty exPenalty_reachable⟩

/-- C20: in every state reached from a freshly built battle field by spawns, moves,
    attacks and ticks (with strictly increasing times, as the driver enforces), the
    internal errors `Replacing unit!`, `Trying to access empty tile!` and
    `Overflow of active effects ...` cannot be raised by the next operation: a spawn
    can only raise `Unsupported unit!`, a move or an attack only `out_of_range`
    (unknown id of a move, unknown direction of an attack), a tick and a snapshot
    always return; consequently no run of commands and no run of the driver's loop
    from such a state ends with one of the internal errors. -/
theorem C20_internal_errors_unreachable (bf : BattleField) (h : Reachable bf) :
    (∀ type id x y e, spawn_unit bf type id x y = .error e →
      e = .runtime_error "Unsupported unit!") ∧
    (∀ id x y e, move_unit bf id x y = .error e → e = .out_of_range) ∧
    (∀ id dir e, attack_unit bf id dir = .error e → e = .out_of_range) ∧
    (∀ new_time, ∃ bf', update_tick bf new_time = .ok bf') ∧
    (∃ lines, state bf = .ok lines) ∧
    (∀ cmds out e, execute_commands cmds (bf, out) = .error e → ¬ internal_error e) ∧
    (∀ lines out e, (∀ line ∈ lines, line.time ≤ INT_MAX) →
      main_loop lines bf out = .terminate e → ¬ internal_error e) := by
  have hinv := Reachable_Inv bf h
  refine ⟨?_, ?_, ?_, ?_, state_total bf hinv, ?_, ?_⟩
  · intro type id x y e he
    exact spawn_unit_error bf hinv.wf type id x y e he
  · intro id x y e he
    rcases move_unit_total bf hinv id x y with ⟨bf', hok⟩ | herr
    · rw [hok] at he; cases he
    · rw [herr] at he; cases he; rfl
  · intro id dir e he
    rcases attack_unit_total bf hinv id dir with ⟨bf', hok⟩ | herr
    · rw [hok] at he; cases he
    · rw [herr] at he; cases he; rfl
  · intro new_time
    obtain ⟨bf', hok, -⟩ := update_tick_total bf hinv new_time
    exact ⟨bf', hok⟩
  · intro cmds out e he
    rcases execute_commands_reachable cmds bf out h with ⟨bf', out', hok, -⟩ | ⟨e', herr, hce⟩
    · rw [hok] at he; cases he
    · rw [herr] at he; cases he; exact command_error_not_internal _ hce
  · intro lines out e hb he
    rcases main_loop_reachable lines bf out h hb with ⟨s, bf', out', hok, -⟩ | ⟨e', herr, hce⟩
    · rw [hok] at he; cases he
    · rw [herr] at he; cases he; exact command_error_not_internal _ hce

theorem C20_internal_errors_unreachable_witness :
    Reachable (BattleField.new 1 3 [0, 0, 0]) ∧
    ((∀ type id x y e, spawn_unit (BattleField.new 1 3 [0, 0, 0]) type id x y = .error e →
      e = .runtime_error "Unsupported unit!") ∧
    (∀ id x y e, move_unit (BattleField.new 1 3 [0, 0, 0]) id x y = .error e →
      e = .out_of_range) ∧
    (∀ id dir e, attack_unit (BattleField.new 1 3 [0, 0, 0]) id dir = .error e →
      e = .out_of_range) ∧
    (∀ new_time, ∃ bf', update_tick (BattleField.new 1 3 [0, 0, 0]) new_time = .ok bf') ∧
    (∃ lines, state (BattleField.new 1 3 [0, 0, 0]) = .ok lines) ∧
    (∀ cmds out e, execute_commands cmds (BattleField.new 1 3 [0, 0, 0], out) = .error e →
      ¬ internal_error e) ∧
    (∀ lines out e, (∀ line ∈ lines, line.time ≤ INT_MAX) →
      main_loop lines (BattleField.new 1 3 [0, 0, 0]) out = .terminate e →
      ¬ internal_error e)) :=
  ⟨Reachable.init 1 3 [0, 0, 0],
    C20_internal_errors_unreachable (BattleField.new 1 3 [0, 0, 0]) (Reachable.init 1 3 [0, 0, 0])⟩

/-! ## Outcomes of the operations on a state that satisfies the invariant -/

theorem entry_unit {bf : BattleField} (h : Inv bf) (id : String) (c : Vec2i) (u : Unit)
    (hf : map_find bf.coordinates id = some c) (hu : unitAt bf c = some u) : u.id = id := by
  obtain ⟨w, hw, hwid⟩ := h.entry id c hf
  rw [hu] at hw
  cases hw
  exact hwid

theorem entry_inj {bf : BattleField} (h : Inv bf) (id1 id2 : String) (c : Vec2i)
    (h1 : map_find bf.coordinates id1 = some c) (h2 : map_find bf.coordinates id2 = some c) :
    id1 = id2 := by
  obtain ⟨u1, hu1, hid1⟩ := h.entry id1 c h1
  obtain ⟨u2, hu2, hid2⟩ := h.entry id2 c h2
  rw [hu1] at hu2
  cases hu2
  rw [← hid1, ← hid2]

/-- The two outcomes of `move_unit` for a registered unit. -/
theorem move_unit_cases (bf : BattleField) (h : Inv bf) (id : String) (c : Vec2i) (u : Unit)
    (hf : map_find bf.coordinates id = some c) (hu : unitAt bf c = some u) (x y : Int) :
    (MoveFeasible bf c u (x, y) ∧ is_inside_field bf (x, y) = true ∧
      ((x, y) ≠ c → unitAt bf (x, y) = none) ∧
      move_unit bf id x y =
        .ok { putUnit (putUnit bf c none) (x, y) (some (u.set_coor (x, y))) with
              coordinates := map_emplace (map_erase bf.coordinates id) id (x, y) }) ∨
    (¬ MoveFeasible bf c u (x, y) ∧ (x, y) ≠ c ∧
      move_unit bf id x y =
        .ok (if deadInsideCount u = 0
             then putUnit bf c (some ((u.set_coor (x, y)).add_effect (DeadInside 1)))
             else putUnit bf c (some (u.set_coor (x, y))))) := by
  have hcin := inside_of_unitAt bf h.wf c u hu
  have hok := h.unit c u hu
  rcases is_move_successful_cases bf h.wf h.cons id c u hf hu (x, y) with
    ⟨h1, h2, h3, h4⟩ | ⟨h1, hnot⟩
  · left
    refine ⟨⟨h2, ?_, h4⟩, h2, h3, move_unit_success bf h.wf id c u hf hu x y h1 h2 h3⟩
    by_cases hxy : (x, y) = c
    · right; rw [hxy]; exact hu
    · left; exact h3 hxy
  · right
    refine ⟨hnot, ?_, move_unit_failure bf h.wf id c u hf hu x y h1 hok.2.2.1 hok.2.2.2.1⟩
    intro hxy
    apply hnot
    rw [hxy]
    exact ⟨hcin, Or.inr hu, BFS_self bf c _ _ _ hcin⟩

/-- The two outcomes of `attack_unit` when it returns. -/
theorem attack_unit_cases (bf bf' : BattleField) (h : Inv bf) (id dir : String)
    (hs : attack_unit bf id dir = .ok bf') :
    bf' = bf ∨ ∃ p w dmg, unitAt bf p = some w ∧ 0 ≤ dmg ∧ bf' = damaged bf p w dmg := by
  cases hf : map_find bf.coordinates id with
  | none =>
    rw [attack_unit_unknown bf id dir ((map_contains_eq_false _ _).mpr hf)] at hs
    cases hs
    exact Or.inl rfl
  | some c =>
    obtain ⟨a, ha, -⟩ := h.entry id c hf
    rw [attack_unit_eq bf h.wf id dir c a hf ha] at hs
    rcases attack_loop_result id dir c a _ _ bf bf' h.wf h.cons hf ha hs with
      h1 | ⟨v, k, w, -, -, -, hw, -, h1⟩
    · exact Or.inl h1
    · exact Or.inr ⟨_, w, _, hw, attack_damage_nonneg _ _ _, h1⟩

/-- What a tick makes of one registered unit. -/
theorem update_tick_unit (bf : BattleField) (h : Inv bf) (nt : Int) :
    ∃ bf', update_tick bf nt = .ok bf' ∧ bf'.M = bf.M ∧ bf'.N = bf.N ∧ bf'.time = nt ∧
      (∀ id c', map_find bf'.coordinates id = some c' →
        map_find bf.coordinates id = some c') ∧
      ∀ id c u, map_find bf.coordinates id = some c → unitAt bf c = some u →
        (tick_result u (nt - bf.time) = none →
          map_find bf'.coordinates id = none ∧ unitAt bf' c = none) ∧
        (∀ u', tick_result u (nt - bf.time) = some u' →
          map_find bf'.coordinates id = some c ∧ unitAt bf' c = some u') := by
  obtain ⟨bf', h1, -, h3, h4, h5, -, h7, h8⟩ := update_tick_spec bf h.wf h.cons nt
  have hnd := keys_nodup_of_sorted _ h.sorted
  have hsub : ∀ e, e ∈ bf'.coordinates → e ∈ bf.coordinates := by
    intro e he
    rw [h7] at he
    exact (List.mem_filter.mp he).1
  have hnd' : (bf'.coordinates.map Prod.fst).Nodup := by
    rw [h7]
    exact (List.Sublist.map _ (List.filter_sublist _)).nodup hnd
  have hback : ∀ id c', map_find bf'.coordinates id = some c' →
      map_find bf.coordinates id = some c' := by
    intro id c' hf'
    exact map_find_of_mem_nodup _ _ _ hnd (hsub _ (map_find_mem _ _ _ hf'))
  refine ⟨bf', h1, h3, h4, h5, hback, ?_⟩
  intro id c u hf hu
  constructor
  · intro hr
    refine ⟨?_, by rw [h8, hu]; exact hr⟩
    cases hf' : map_find bf'.coordinates id with
    | none => rfl
    | some c' =>
      exfalso
      have hc := hback id c' hf'
      rw [hf] at hc
      cases hc
      have hmem := map_find_mem _ _ _ hf'
      rw [h7] at hmem
      have := (List.mem_filter.mp hmem).2
      rw [hu] at this
      simp [hr] at this
  · intro u' hr
    refine ⟨?_, by rw [h8, hu]; exact hr⟩
    apply map_find_of_mem_nodup _ _ _ hnd'
    rw [h7]
    refine List.mem_filter.mpr ⟨map_find_mem _ _ _ hf, ?_⟩
    rw [hu]
    simp [hr]

/-! ## What one operation does to the units -/

theorem StepFacts_refl (bf : BattleField) : StepFacts bf bf := by
  refine ⟨rfl, rfl, ?_, ?_⟩
  · intro id c u hf hu
    exact Or.inr ⟨c, u, hf, hu, UnitStep.same u⟩
  · intro id c' u' h1 h2
    rw [h1] at h2
    cases h2

theorem StepFacts_add (bf : BattleField) (h : Inv bf) (type id0 : String) (c0 : Vec2i)
    (u0 : Unit) (hin : is_inside_field bf c0 = true) (hemp : unitAt bf c0 = none)
    (hnew : map_find bf.coordinates id0 = none) (hcu : create_unit type id0 c0 = .ok u0) :
    StepFacts bf ({ putUnit bf c0 (some u0) with
      coordinates := map_emplace bf.coordinates id0 c0 } : BattleField) := by
  have hunit : ∀ c', unitAt ({ putUnit bf c0 (some u0) with
      coordinates := map_emplace bf.coordinates id0 c0 } : BattleField) c' =
      if c' = c0 then some u0 else unitAt bf c' :=
    fun c' => unitAt_putUnit bf h.wf c0 c' _ hin
  have hreg : ∀ id, map_find (map_emplace bf.coordinates id0 c0) id =
      if id = id0 then some c0 else map_find bf.coordinates id :=
    fun id => map_find_emplace _ _ _ hnew id
  refine ⟨rfl, rfl, ?_, ?_⟩
  · intro id c u hf hu
    have hid : id ≠ id0 := by
      intro he
      rw [he, hnew] at hf
      cases hf
    have hc : c ≠ c0 := by
      intro he
      rw [he, hemp] at hu
      cases hu
    refine Or.inr ⟨c, u, ?_, ?_, UnitStep.same u⟩
    · show map_find (map_emplace bf.coordinates id0 c0) id = _
      rw [hreg, if_neg hid]
      exact hf
    · rw [hunit, if_neg hc]
      exact hu
  · intro id c' u' h1 h2 h3
    have h2' : map_find (map_emplace bf.coordinates id0 c0) id = some c' := h2
    rw [hreg] at h2'
    by_cases hid : id = id0
    · rw [if_pos hid] at h2'
      cases h2'
      rw [hunit, if_pos rfl] at h3
      cases h3
      exact ⟨type, by rw [hid]; exact hcu⟩
    · rw [if_neg hid, h1] at h2'
      cases h2'

/-- Replacing a registered unit on its tile by a `UnitStep` of it. -/
theorem StepFacts_replace (bf : BattleField) (h : Inv bf) (id0 : String) (c0 : Vec2i)
    (u0 u1 : Unit) (hf0 : map_find bf.coordinates id0 = some c0)
    (hu0 : unitAt bf c0 = some u0) (hstep : UnitStep 0 u0 u1 ∨
      ∃ dmg, 0 ≤ dmg ∧ 0 < u0.hp - dmg ∧ u1 = u0.take_damage dmg) :
    StepFacts bf (putUnit bf c0 (some u1)) := by
  have hin := inside_of_unitAt bf h.wf c0 u0 hu0
  have hunit : ∀ c', unitAt (putUnit bf c0 (some u1)) c' =
      if c' = c0 then some u1 else unitAt bf c' :=
    fun c' => unitAt_putUnit bf h.wf c0 c' _ hin
  refine ⟨rfl, rfl, ?_, ?_⟩
  · intro id c u hf hu
    by_cases hc : c = c0
    · subst hc
      rw [hu0] at hu
      cases hu
      refine Or.inr ⟨c, u1, hf, by rw [hunit, if_pos rfl], ?_⟩
      rcases hstep with hs | ⟨dmg, h1, h2, h3⟩
      · cases hs with
        | same => exact UnitStep.same _
        | moved t => exact UnitStep.moved _ t
        | penalty t hz => exact UnitStep.penalty _ t hz
        | hit dmg h1 h2 => exact UnitStep.hit _ dmg h1 h2
        | tick _ hlt _ => exact absurd hlt (lt_irrefl 0)
      · rw [h3]
        exact UnitStep.hit _ dmg h1 h2
    · refine Or.inr ⟨c, u, hf, by rw [hunit, if_neg hc]; exact hu, UnitStep.same u⟩
  · intro id c' u' h1 h2
    have h2' : map_find bf.coordinates id = some c' := h2
    rw [h1] at h2'
    cases h2'

/-- Removing a unit from its tile and from the registry. -/
theorem StepFacts_remove (bf : BattleField) (h : Inv bf) (p : Vec2i) (w : Unit)
    (hw : unitAt bf p = some w) :
    StepFacts bf ({ putUnit bf p none with
      coordinates := map_erase bf.coordinates w.id } : BattleField) := by
  have hin := inside_of_unitAt bf h.wf p w hw
  have hunit : ∀ c', unitAt ({ putUnit bf p none with
      coordinates := map_erase bf.coordinates w.id } : BattleField) c' =
      if c' = p then none else unitAt bf c' :=
    fun c' => unitAt_putUnit bf h.wf p c' _ hin
  have hreg := h.reg p w hw
  refine ⟨rfl, rfl, ?_, ?_⟩
  · intro id c u hf hu
    by_cases hc : c = p
    · subst hc
      rw [hw] at hu
      cases hu
      have hid := entry_unit h id c w hf hw
      refine Or.inl ⟨?_, by rw [hunit, if_pos rfl]⟩
      show map_find (map_erase bf.coordinates w.id) id = none
      rw [map_find_erase, if_pos hid.symm]
    · have hid : id ≠ w.id := by
        intro he
        rw [he, hreg] at hf
        cases hf
        exact hc rfl
      refine Or.inr ⟨c, u, ?_, by rw [hunit, if_neg hc]; exact hu, UnitStep.same u⟩
      show map_find (map_erase bf.coordinates w.id) id = _
      rw [map_find_erase, if_neg hid]
      exact hf
  · intro id c' u' h1 h2
    have h2' : map_find (map_erase bf.coordinates w.id) id = some c' := h2
    rw [map_find_erase] at h2'
    split_ifs at h2'
    rw [h1] at h2'
    cases h2'

theorem StepFacts_damaged (bf : BattleField) (h : Inv bf) (p : Vec2i) (w : Unit) (dmg : Int)
    (hw : unitAt bf p = some w) (hd : 0 ≤ dmg) : StepFacts bf (damaged bf p w dmg) := by
  unfold damaged
  by_cases hdead : w.hp - dmg ≤ 0
  · rw [if_pos hdead]
    exact StepFacts_remove bf h p w hw
  · rw [if_neg hdead]
    exact StepFacts_replace bf h w.id p w _ (h.reg p w hw) hw
      (Or.inr ⟨dmg, hd, lt_of_not_ge hdead, rfl⟩)

theorem StepFacts_move_ok (bf : BattleField) (h : Inv bf) (id0 : String) (c0 : Vec2i)
    (u0 : Unit) (hf0 : map_find bf.coordinates id0 = some c0)
    (hu0 : unitAt bf c0 = some u0) (t : Vec2i) (hin : is_inside_field bf t = true)
    (hfree : t ≠ c0 → unitAt bf t = none) :
    StepFacts bf ({ putUnit (putUnit bf c0 none) t (some (u0.set_coor t)) with
      coordinates := map_emplace (map_erase bf.coordinates id0) id0 t } : BattleField) := by
  have hcin := inside_of_unitAt bf h.wf c0 u0 hu0
  have hwf1 : WF (putUnit bf c0 none) := WF_putUnit bf c0 _ h.wf
  have hunit : ∀ c', unitAt ({ putUnit (putUnit bf c0 none) t (some (u0.set_coor t)) with
      coordinates := map_emplace (map_erase bf.coordinates id0) id0 t } : BattleField) c' =
      if c' = t then some (u0.set_coor t) else if c' = c0 then none else unitAt bf c' := by
    intro c'
    show unitAt (putUnit (putUnit bf c0 none) t (some (u0.set_coor t))) c' = _
    rw [unitAt_putUnit _ hwf1 t c' _ hin, unitAt_putUnit bf h.wf c0 c' _ hcin]
  have hreg : ∀ id, map_find (map_emplace (map_erase bf.coordinates id0) id0 t) id =
      if id = id0 then some t else map_find bf.coordinates id := by
    intro id
    rw [map_find_emplace _ _ _ (by rw [map_find_erase]; simp), map_find_erase]
    by_cases hid : id = id0 <;> simp [hid]
  refine ⟨rfl, rfl, ?_, ?_⟩
  · intro id c u hf hu
    by_cases hid : id = id0
    · subst hid
      rw [hf0] at hf
      cases hf
      rw [hu0] at hu
      cases hu
      refine Or.inr ⟨t, u0.set_coor t, ?_, by rw [hunit, if_pos rfl], UnitStep.moved u0 t⟩
      show map_find (map_emplace (map_erase bf.coordinates id) id t) id = _
      rw [hreg, if_pos rfl]
    · have hc : c ≠ c0 := by
        intro he
        subst he
        exact hid (entry_inj h id id0 c hf hf0)
      have hct : c ≠ t := by
        intro he
        subst he
        have := hfree hc
        rw [this] at hu
        cases hu
      refine Or.inr ⟨c, u, ?_, by rw [hunit, if_neg hct, if_neg hc]; exact hu,
        UnitStep.same u⟩
      show map_find (map_emplace (map_erase bf.coordinates id0) id0 t) id = _
      rw [hreg, if_neg hid]
      exact hf
  · intro id c' u' h1 h2
    have h2' : map_find (map_emplace (map_erase bf.coordinates id0) id0 t) id = some c' := h2
    rw [hreg] at h2'
    by_cases hid : id = id0
    · rw [hid, hf0] at h1
      cases h1
    · rw [if_neg hid, h1] at h2'
      cases h2'

theorem StepFacts_tick (bf bf' : BattleField) (h : Inv bf) (nt : Int) (hlt : bf.time < nt)
    (hs : update_tick bf nt = .ok bf') : StepFacts bf bf' := by
  obtain ⟨b, h1, hM, hN, ht, hback, hall⟩ := update_tick_unit bf h nt
  rw [hs] at h1
  cases h1
  refine ⟨hM, hN, ?_, ?_⟩
  · intro id c u hf hu
    obtain ⟨hnone, hsome⟩ := hall id c u hf hu
    cases hr : tick_result u (nt - bf.time) with
    | none => exact Or.inl (hnone hr)
    | some u' =>
      obtain ⟨a1, a2⟩ := hsome u' hr
      refine Or.inr ⟨c, u', a1, a2, ?_⟩
      rw [ht]
      exact UnitStep.tick u u' (by omega) hr
  · intro id c' u' h1 h2
    rw [hback id c' h2] at h1
    cases h1

/-- Every operation that returns on a state satisfying the invariant obeys `StepFacts`. -/
theorem Transition_facts (bf bf' : BattleField) (h : Inv bf) (ht : Transition bf bf') :
    StepFacts bf bf' := by
  cases ht with
  | spawn type id x y hs =>
    rcases spawn_unit_cases bf h.wf type id x y with ⟨-, hok⟩ | ⟨hin, hemp, hnew, heq⟩
    · rw [hok] at hs
      cases hs
      exact StepFacts_refl bf
    · rw [heq] at hs
      cases hc : create_unit type id (x, y) with
      | error e => rw [hc] at hs; cases hs
      | ok u =>
        rw [hc] at hs
        cases hs
        have hco := (create_unit_ok type id (x, y) u hc).2.1
        rw [hco]
        exact StepFacts_add bf h type id (x, y) u hin hemp
          ((map_contains_eq_false _ _).mp hnew) hc
  | move id x y hs =>
    cases hf : map_find bf.coordinates id with
    | none => rw [move_unit_unknown bf id x y hf] at hs; cases hs
    | some c =>
      obtain ⟨u, hu, -⟩ := h.entry id c hf
      rcases move_unit_cases bf h id c u hf hu x y with ⟨-, hin, hfree, heq⟩ | ⟨-, -, heq⟩
      · rw [heq] at hs
        cases hs
        exact StepFacts_move_ok bf h id c u hf hu (x, y) hin hfree
      · rw [heq] at hs
        cases hs
        by_cases h0 : deadInsideCount u = 0
        · rw [if_pos h0]
          exact StepFacts_replace bf h id c u _ hf hu (Or.inl (UnitStep.penalty u (x, y) h0))
        · rw [if_neg h0]
          exact StepFacts_replace bf h id c u _ hf hu (Or.inl (UnitStep.moved u (x, y)))
  | attack id dir hs =>
    rcases attack_unit_cases bf bf' h id dir hs with h1 | ⟨p, w, dmg, hw, hd, h1⟩
    · rw [h1]; exact StepFacts_refl bf
    · rw [h1]; exact StepFacts_damaged bf h p w dmg hw hd
  | tick nt hlt _ hs => exact StepFacts_tick bf bf' h nt hlt hs

theorem Transition_reachable (bf bf' : BattleField) (h : Reachable bf)
    (ht : Transition bf bf') : Reachable bf' := by
  cases ht with
  | spawn type id x y hs => exact Reachable.spawn type id x y h hs
  | move id x y hs => exact Reachable.move id x y h hs
  | attack id dir hs => exact Reachable.attack id dir h hs
  | tick nt hlt hle hs => exact Reachable.tick nt h hlt hle hs

/-! ## The age of an effect and the hp of its unit -/

theorem tick_result_some (u u' : Unit) (dt : Int) (h : tick_result u dt = some u') :
    0 < u.hp - effects_damage u dt ∧
    u' = { u with
      hp := u.hp - effects_damage u dt
      active_effects :=
        (u.active_effects.map (fun e => e.decrement_timer dt)).filter (fun e => !e.is_done) } := by
  unfold tick_result at h
  split_ifs at h with hdead
  simp only [Option.some.injEq] at h
  exact ⟨lt_of_not_ge hdead, h.symm⟩

theorem create_unit_aged (type id : String) (coor : Vec2i) (u : Unit)
    (h : create_unit type id coor = .ok u) : UnitAged u := by
  unfold create_unit at h
  split_ifs at h <;> cases h <;>
    exact ⟨by simp [Footman, Knight, Rifleman, Unit.new], fun e he => by cases he⟩

theorem deadInside_length (time : Int) (u : Unit) (hok : UnitOk time u) :
    u.active_effects.length = deadInsideCount u := by
  unfold deadInsideCount
  rw [List.filter_eq_self.mpr]
  intro e he
  simpa using (hok.2.2.2.2 e he).1

theorem UnitStep_aged (time dt : Int) (u u' : Unit) (hok : UnitOk time u) (ha : UnitAged u)
    (hs : UnitStep dt u u') : UnitAged u' := by
  obtain ⟨hmax, hage⟩ := ha
  cases hs with
  | same => exact ⟨hmax, hage⟩
  | moved t => exact ⟨hmax, hage⟩
  | penalty t hz =>
    refine ⟨hmax, ?_⟩
    intro e he
    have he' : e ∈ u.active_effects ++ [DeadInside 1] := he
    rcases List.mem_append.mp he' with he' | he'
    · exact hage e he'
    · simp only [List.mem_singleton] at he'
      subst he'
      have := hok.2.1
      show u.hp + (INT_MAX - INT_MAX) ≤ u.max_hp
      omega
  | hit dmg hd hpos =>
    refine ⟨hmax, ?_⟩
    intro e he
    have := hage e he
    show u.hp - dmg + (INT_MAX - e.timer) ≤ u.max_hp
    omega
  | tick _ hdt hr =>
    obtain ⟨-, hu'⟩ := tick_result_some u u' dt hr
    subst hu'
    refine ⟨hmax, ?_⟩
    intro e he
    have he' : e ∈ (u.active_effects.map (fun e => e.decrement_timer dt)).filter
        (fun e => !e.is_done) := he
    obtain ⟨e0, he0, rfl⟩ := List.mem_map.mp (List.mem_filter.mp he').1
    have hdmg := effects_damage_eq u dt (fun e he => (hok.2.2.2.2 e he).2.1)
    have hlen : 1 ≤ u.active_effects.length := List.length_pos_of_mem he0
    have hge : dt ≤ effects_damage u dt := by
      rw [hdmg]
      have : (1 : Int) ≤ (u.active_effects.length : Int) := by exact_mod_cast hlen
      nlinarith
    have := hage e0 he0
    show u.hp - effects_damage u dt + (INT_MAX - (e0.timer - dt)) ≤ u.max_hp
    omega

theorem UnitStep_penalised (time dt : Int) (u u' : Unit) (hok : UnitOk time u)
    (ha : UnitAged u) (hpen : deadInsideCount u = 1) (hs : UnitStep dt u u') :
    deadInsideCount u' = 1 := by
  cases hs with
  | same => exact hpen
  | moved t => exact hpen
  | penalty t hz => omega
  | hit dmg hd hpos => exact hpen
  | tick _ hdt hr =>
    obtain ⟨halive, hu'⟩ := tick_result_some u u' dt hr
    subst hu'
    have hdmg := effects_damage_eq u dt (fun e he => (hok.2.2.2.2 e he).2.1)
    rw [deadInside_length time u hok, hpen] at hdmg
    have hkeep : (u.active_effects.map (fun e => e.decrement_timer dt)).filter
        (fun e => !e.is_done) = u.active_effects.map (fun e => e.decrement_timer dt) := by
      rw [List.filter_eq_self]
      intro e he
      obtain ⟨e0, he0, rfl⟩ := List.mem_map.mp he
      have h1 := ha.2 e0 he0
      have h2 := ha.1
      have h3 : (0 : Int) < e0.timer - dt := by
        have : INT_MAX = 2147483647 := rfl
        omega
      simp only [Effect.is_done, Effect.decrement_timer, Bool.not_eq_true',
        decide_eq_false_iff_not, not_le]
      exact h3
    show ((((u.active_effects.map (fun e => e.decrement_timer dt)).filter
        (fun e => !e.is_done))).filter (fun e => e.type = "dead_inside")).length = 1
    rw [hkeep, List.filter_map, List.length_map]
    exact hpen

/-- In every reachable state every unit satisfies `UnitAged`. -/
theorem Reachable_aged (bf : BattleField) (h : Reachable bf) :
    ∀ c u, unitAt bf c = some u → UnitAged u := by
  have hstep : ∀ b b', Reachable b → (∀ c u, unitAt b c = some u → UnitAged u) →
      Transition b b' → ∀ c u, unitAt b' c = some u → UnitAged u := by
    intro b b' hr hall ht c' u' hu'
    have hinv := Reachable_Inv b hr
    have hinv' := Reachable_Inv b' (Transition_reachable b b' hr ht)
    have hfacts := Transition_facts b b' hinv ht
    have hreg' := hinv'.reg c' u' hu'
    cases hf : map_find b.coordinates u'.id with
    | none =>
      obtain ⟨type, hc⟩ := hfacts.fresh u'.id c' u' hf hreg' hu'
      exact create_unit_aged _ _ _ _ hc
    | some c =>
      obtain ⟨u, hu, -⟩ := hinv.entry u'.id c hf
      rcases hfacts.forward u'.id c u hf hu with ⟨hnone, -⟩ | ⟨c'', u'', h1, h2, h3⟩
      · rw [hnone] at hreg'
        cases hreg'
      · rw [hreg'] at h1
        cases h1
        rw [hu'] at h2
        cases h2
        exact UnitStep_aged b.time _ u u' (hinv.unit c u hu) (hall c u hu) h3
  induction h with
  | init M N input =>
    intro c u hu
    rw [unitAt_new] at hu
    cases hu
  | spawn type id x y hr hs ih => exact hstep _ _ hr ih (Transition.spawn type id x y hs)
  | move id x y hr hs ih => exact hstep _ _ hr ih (Transition.move id x y hs)
  | attack id dir hr hs ih => exact hstep _ _ hr ih (Transition.attack id dir hs)
  | tick nt hr hlt hle hs ih => exact hstep _ _ hr ih (Transition.tick nt hlt hle hs)

/-! ## Moves -/

theorem map_erase_absent {V : Type} (m : List (String × V)) (k : String)
    (h : ∀ e ∈ m, e.1 ≠ k) : map_erase m k = m := by
  unfold map_erase
  rw [List.filter_eq_self]
  intro e he
  simpa using h e he

/-- Erasing a key of a `std::map` and emplacing it again with its value gives the map
    back. -/
theorem map_emplace_erase_self {V : Type} (m : List (String × V)) (k : String) (v : V)
    (hs : (m.map Prod.fst).Pairwise key_lt) (hf : map_find m k = some v) :
    map_emplace (map_erase m k) k v = m := by
  induction m with
  | nil => simp [map_find] at hf
  | cons p m ih =>
    obtain ⟨k0, v0⟩ := p
    simp only [List.map_cons, List.pairwise_cons] at hs
    obtain ⟨hlt, hs'⟩ := hs
    have hgt : ∀ e ∈ m, key_lt k0 e.1 := fun e he => hlt e.1 (List.mem_map_of_mem _ he)
    by_cases hk : k = k0
    · subst hk
      simp only [map_find, if_true, Option.some.injEq] at hf
      subst hf
      have herase : map_erase ((k, v0) :: m) k = m := by
        have h1 : map_erase ((k, v0) :: m) k = map_erase m k := by
          simp [map_erase]
        rw [h1]
        apply map_erase_absent
        intro e he hek
        have := hgt e he
        rw [hek, key_lt_iff] at this
        exact lt_irrefl _ this
      rw [herase]
      cases m with
      | nil => rfl
      | cons q m' =>
        obtain ⟨k1, v1⟩ := q
        have h1 := hgt (k1, v1) (List.mem_cons_self _ _)
        have hne : k ≠ k1 := by
          intro he
          rw [he, key_lt_iff] at h1
          exact lt_irrefl _ h1
        simp only [map_emplace, hne, if_false]
        rw [if_pos h1]
    · simp only [map_find, hk, if_false] at hf
      have herase : map_erase ((k0, v0) :: m) k = (k0, v0) :: map_erase m k := by
        have : ¬ k0 = k := fun he => hk he.symm
        simp [map_erase, this]
      have hlt' : ¬ key_lt k k0 := by
        have := hgt (k, v) (map_find_mem _ _ _ hf)
        rw [key_lt_iff] at this ⊢
        exact lt_asymm this
      rw [herase]
      simp only [map_emplace, hk, hlt', if_false]
      rw [ih hs' hf]

/-- C21: in every reachable battle field, for a registered unit `id` (registered at
    `c`, unit `u`) and every target, `move_unit` returns and afterwards the unit
    registered as `id` stores the target as its own coordinate; when the move is
    feasible the registry coordinate is the target as well, and when it is not the
    registry keeps the true position `c`, from which the stored coordinate differs. -/
theorem C21_move_stores_target (bf : BattleField) (hreach : Reachable bf)
    (id : String) (c : Vec2i) (u : Unit)
    (hf : map_find bf.coordinates id = some c) (hu : unitAt bf c = some u) (x y : Int) :
    ∃ bf' c' u', move_unit bf id x y = .ok bf' ∧
      map_find bf'.coordinates id = some c' ∧ unitAt bf' c' = some u' ∧
      u'.id = id ∧ u'.coor = (x, y) ∧
      (MoveFeasible bf c u (x, y) → c' = (x, y)) ∧
      (¬ MoveFeasible bf c u (x, y) → c' = c ∧ u'.coor ≠ c') := by
  have hinv := Reachable_Inv bf hreach
  have hcin := inside_of_unitAt bf hinv.wf c u hu
  have huid := entry_unit hinv id c u hf hu
  rcases move_unit_cases bf hinv id c u hf hu x y with
    ⟨hfeas, hin, hfree, heq⟩ | ⟨hnot, hne, heq⟩
  · have hwf1 : WF (putUnit bf c none) := WF_putUnit bf c _ hinv.wf
    refine ⟨_, (x, y), u.set_coor (x, y), heq, ?_, ?_, huid, rfl, fun _ => rfl,
      fun h => absurd hfeas h⟩
    · show map_find (map_emplace (map_erase bf.coordinates id) id (x, y)) id = _
      rw [map_find_emplace _ _ _ (by rw [map_find_erase]; simp)]
      simp
    · show unitAt (putUnit (putUnit bf c none) (x, y) (some (u.set_coor (x, y)))) (x, y) = _
      rw [unitAt_putUnit _ hwf1 (x, y) (x, y) _ hin, if_pos rfl]
  · by_cases h0 : deadInsideCount u = 0
    · rw [if_pos h0] at heq
      refine ⟨_, c, (u.set_coor (x, y)).add_effect (DeadInside 1), heq, hf, ?_, huid, rfl,
        fun h => absurd h hnot, fun _ => ⟨rfl, hne⟩⟩
      rw [unitAt_putUnit bf hinv.wf c c _ hcin, if_pos rfl]
    · rw [if_neg h0] at heq
      refine ⟨_, c, u.set_coor (x, y), heq, hf, ?_, huid, rfl,
        fun h => absurd h hnot, fun _ => ⟨rfl, hne⟩⟩
      rw [unitAt_putUnit bf hinv.wf c c _ hcin, if_pos rfl]

theorem C21_move_stores_target_witness :
    Reachable exTwo ∧ map_find exTwo.coordinates "a" = some (0, 0) ∧
    unitAt exTwo (0, 0) = some (Footman "a" (0, 0)) ∧
    ¬ MoveFeasible exTwo (0, 0) (Footman "a" (0, 0)) (0, 2) ∧
    move_unit exTwo "a" 0 2 = .ok exPenalty ∧
    ∃ bf' c' u', move_unit exTwo "a" 0 2 = .ok bf' ∧
      map_find bf'.coordinates "a" = some c' ∧ unitAt bf' c' = some u' ∧
      u'.id = "a" ∧ u'.coor = (0, 2) ∧
      (MoveFeasible exTwo (0, 0) (Footman "a" (0, 0)) (0, 2) → c' = (0, 2)) ∧
      (¬ MoveFeasible exTwo (0, 0) (Footman "a" (0, 0)) (0, 2) →
        c' = (0, 0) ∧ u'.coor ≠ c') :=
  ⟨exTwo_reachable, by decide, by decide, by decide, by decide,
    C21_move_stores_target exTwo exTwo_reachable "a" (0, 0) (Footman "a" (0, 0))
      (by decide) (by decide) 0 2⟩

/-- C22: on a well-formed, consistent battle field, moving a registered unit (any move
    budget, step limit and direction set) to the coordinate `c` it occupies is
    feasible and succeeds: `move_unit` returns the battle field in which the unit
    stands on its tile with nothing changed but its stored coordinate, now `c`; the
    registry, the time, every other tile, and the unit's hp and effects are
    unchanged (no `dead_inside` is added), and the whole battle field is unchanged
    when the unit already stores `c`. -/
theorem C22_own_cell_never_blocks (bf : BattleField) (hwf : WF bf) (hcons : Consistent bf)
    (id : String) (c : Vec2i) (u : Unit)
    (hf : map_find bf.coordinates id = some c) (hu : unitAt bf c = some u) :
    is_move_successful bf id c = .ok true ∧ MoveFeasible bf c u c ∧
    ∃ bf', move_unit bf id c.1 c.2 = .ok bf' ∧
      bf'.coordinates = bf.coordinates ∧ bf'.time = bf.time ∧
      unitAt bf' c = some (u.set_coor c) ∧
      (u.set_coor c).hp = u.hp ∧ (u.set_coor c).active_effects = u.active_effects ∧
      (∀ c', c' ≠ c → unitAt bf' c' = unitAt bf c') ∧
      (∀ c', (tileD bf' c').height = (tileD bf c').height) ∧
      (u.coor = c → bf' = bf) := by
  have hcin := inside_of_unitAt bf hwf c u hu
  have hfeas : MoveFeasible bf c u c := ⟨hcin, Or.inr hu, BFS_self bf c _ _ _ hcin⟩
  have hsucc : is_move_successful bf id c = .ok true := by
    rcases is_move_successful_cases bf hwf hcons id c u hf hu c with ⟨h1, -⟩ | ⟨-, hnot⟩
    · exact h1
    · exact absurd hfeas hnot
  have hmove := move_unit_success bf hwf id c u hf hu c.1 c.2 hsucc hcin
    (fun hne => absurd rfl hne)
  have hval : ({ putUnit (putUnit bf c none) (c.1, c.2) (some (u.set_coor (c.1, c.2))) with
      coordinates := map_emplace (map_erase bf.coordinates id) id (c.1, c.2) } : BattleField)
      = putUnit bf c (some (u.set_coor c)) := by
    show ({ putUnit (putUnit bf c none) c (some (u.set_coor c)) with
      coordinates := map_emplace (map_erase bf.coordinates id) id c } : BattleField) = _
    rw [putUnit_putUnit, map_emplace_erase_self _ _ _ hcons.1 hf]
    rfl
  rw [hval] at hmove
  refine ⟨hsucc, hfeas, _, hmove, rfl, rfl, ?_, rfl, rfl, ?_,
    fun c' => height_putUnit bf c c' _, ?_⟩
  · rw [unitAt_putUnit bf hwf c c _ hcin, if_pos rfl]
  · intro c' hne
    rw [unitAt_putUnit bf hwf c c' _ hcin, if_neg hne]
  · intro hco
    have hsame : u.set_coor c = u := by
      cases u
      simp only [Unit.set_coor] at hco ⊢
      rw [← hco]
    rw [hsame, ← hu]
    exact putUnit_self bf c

theorem C22_own_cell_never_blocks_witness :
    WF exSkip ∧ Consistent exSkip ∧ map_find exSkip.coordinates "b" = some (0, 1) ∧
    unitAt exSkip (0, 1) = some (Footman "b" (0, 1)) ∧
    is_move_successful exSkip "b" (0, 1) = .ok true ∧
    MoveFeasible exSkip (0, 1) (Footman "b" (0, 1)) (0, 1) ∧
    ∃ bf', move_unit exSkip "b" ((0 : Int), (1 : Int)).1 ((0 : Int), (1 : Int)).2 = .ok bf' ∧
      bf'.coordinates = exSkip.coordinates ∧ bf'.time = exSkip.time ∧
      unitAt bf' (0, 1) = some ((Footman "b" (0, 1)).set_coor (0, 1)) ∧
      ((Footman "b" (0, 1)).set_coor (0, 1)).hp = (Footman "b" (0, 1)).hp ∧
      ((Footman "b" (0, 1)).set_coor (0, 1)).active_effects =
        (Footman "b" (0, 1)).active_effects ∧
      (∀ c', c' ≠ (0, 1) → unitAt bf' c' = unitAt exSkip c') ∧
      (∀ c', (tileD bf' c').height = (tileD exSkip c').height) ∧
      ((Footman "b" (0, 1)).coor = (0, 1) → bf' = exSkip) :=
  ⟨by decide, by decide, by decide, by decide,
    C22_own_cell_never_blocks exSkip (by decide) (by decide) "b" (0, 1) (Footman "b" (0, 1))
      (by decide) (by decide)⟩

/-! ## The catalog and the id check -/

/-- C25: the unit catalog is a fixed table: `create_unit` builds for `footman` the stats
    (hp 20, move 1, step 1, damage 1, attack distance 1, attack height-range 0), for
    `knight` (50, 5, 1, 5, 1, 1) and for `rifleman` (10, 2, 2, 3, INT_MAX, INT_MAX),
    where `INT_MAX = 2147483647`; every created unit has the given id and coordinate,
    `max_hp` equal to its hp, no effects, the cap `1` for `dead_inside`, and as move
    and attack directions exactly up `(-1, 0)`, down `(1, 0)`, left `(0, -1)` and
    right `(0, 1)`. -/
theorem C25_unit_catalog (id : String) (coor : Vec2i) :
    create_unit "footman" id coor = .ok
      { id := id, type := "footman", coor := coor, hp := 20, max_hp := 20, max_move := 1,
        max_step := 1, attack_dmg := 1, attack_distance := 1, attack_range := 0,
        move_directions := [("down", (1, 0)), ("left", (0, -1)), ("right", (0, 1)),
          ("up", (-1, 0))],
        attack_directions := [("down", (1, 0)), ("left", (0, -1)), ("right", (0, 1)),
          ("up", (-1, 0))],
        active_effects := [], max_active := [("dead_inside", 1)] } ∧
    create_unit "knight" id coor = .ok
      { id := id, type := "knight", coor := coor, hp := 50, max_hp := 50, max_move := 5,
        max_step := 1, attack_dmg := 5, attack_distance := 1, attack_range := 1,
        move_directions := [("down", (1, 0)), ("left", (0, -1)), ("right", (0, 1)),
          ("up", (-1, 0))],
        attack_directions := [("down", (1, 0)), ("left", (0, -1)), ("right", (0, 1)),
          ("up", (-1, 0))],
        active_effects := [], max_active := [("dead_inside", 1)] } ∧
    create_unit "rifleman" id coor = .ok
      { id := id, type := "rifleman", coor := coor, hp := 10, max_hp := 10, max_move := 2,
        max_step := 2, attack_dmg := 3, attack_distance := 2147483647,
        attack_range := 2147483647,
        move_directions := [("down", (1, 0)), ("left", (0, -1)), ("right", (0, 1)),
          ("up", (-1, 0))],
        attack_directions := [("down", (1, 0)), ("left", (0, -1)), ("right", (0, 1)),
          ("up", (-1, 0))],
        active_effects := [], max_active := [("dead_inside", 1)] } ∧
    INT_MAX = 2147483647 ∧
    map_find default_directions "up" = some (-1, 0) ∧
    map_find default_directions "down" = some (1, 0) ∧
    map_find default_directions "left" = some (0, -1) ∧
    map_find default_directions "right" = some (0, 1) ∧
    default_directions.length = 4 ∧
    (Footman id coor).max_effect_count "dead_inside" = .ok 1 ∧
    (Knight id coor).max_effect_count "dead_inside" = .ok 1 ∧
    (Rifleman id coor).max_effect_count "dead_inside" = .ok 1 := by
  refine ⟨rfl, rfl, rfl, rfl, by decide, by decide, by decide, by decide, rfl, rfl, rfl, rfl⟩

/-- C28: `check_lowercase` returns `true` exactly when every character of the id is one
    of the lowercase letters `a` to `z`; so it rejects an id that contains an uppercase
    letter, a digit or any other character, and it accepts the empty string. -/
theorem C28_check_lowercase_iff (id : String) :
    (check_lowercase id = true ↔ ∀ ch ∈ id.toList, 'a' ≤ ch ∧ ch ≤ 'z') ∧
    (check_lowercase id = false ↔ ∃ ch ∈ id.toList, ¬ ('a' ≤ ch ∧ ch ≤ 'z')) ∧
    check_lowercase "" = true ∧ check_lowercase "abc" = true ∧
    check_lowercase "aBc" = false ∧ check_lowercase "a1" = false ∧
    check_lowercase "a_b" = false := by
  have h1 : check_lowercase id = true ↔ ∀ ch ∈ id.toList, 'a' ≤ ch ∧ ch ≤ 'z' := by
    constructor
    · intro h
      by_contra hcon
      push_neg at hcon
      obtain ⟨ch, hmem, hch⟩ := hcon
      have := check_lowercase_false id
        ⟨ch, hmem, fun hh => absurd hh.2 (not_le.2 (hch hh.1))⟩
      rw [this] at h
      cases h
    · exact check_lowercase_true id
  refine ⟨h1, ?_, by decide, by decide, by decide, by decide, by decide⟩
  constructor
  · intro h
    by_contra hcon
    push_neg at hcon
    have := h1.mpr (fun ch hmem => hcon ch hmem)
    rw [h] at this
    cases this
  · exact check_lowercase_false id

/-! ## The penalty stays -/

theorem penalised_step (bf bf' : BattleField) (id : String) (hr : Reachable bf)
    (ht : Transition bf bf') (hpen : penalised bf id)
    (halive : map_contains bf'.coordinates id = true) : penalised bf' id := by
  obtain ⟨c, u, hf, hu, hcount⟩ := hpen
  have hinv := Reachable_Inv bf hr
  rcases (Transition_facts bf bf' hinv ht).forward id c u hf hu with
    ⟨hnone, -⟩ | ⟨c', u', h1, h2, h3⟩
  · obtain ⟨v, hv⟩ := (map_contains_eq_true _ _).mp halive
    rw [hnone] at hv
    cases hv
  · exact ⟨c', u', h1, h2, UnitStep_penalised bf.time _ u u' (hinv.unit c u hu)
      (Reachable_aged bf hr c u hu) hcount h3⟩

theorem AliveChain_penalised (id : String) (bf bf' : BattleField)
    (hc : AliveChain id bf bf') (hr : Reachable bf) (hpen : penalised bf id) :
    Reachable bf' ∧ penalised bf' id := by
  induction hc with
  | refl => exact ⟨hr, hpen⟩
  | step _ ht halive ih =>
    obtain ⟨hr1, hp1⟩ := ih
    exact ⟨Transition_reachable _ _ hr1 ht, penalised_step _ _ id hr1 ht hp1 halive⟩

/-- C23: the `dead_inside` penalty has no end: if the unit registered as `id` holds it
    in a reachable state, it holds it in every state reached by operations after each
    of which `id` is still registered (no tick purges it from the surviving unit, no
    move and no attack removes it); and from such a state a tick of elapsed time `d`
    removes the unit from tile and registry when its hp is at most `d`, and otherwise
    leaves it registered on its tile with its hp reduced by exactly `d`, still
    holding the effect. -/
theorem C23_dead_inside_is_permanent (bf bf' : BattleField) (id : String)
    (hreach : Reachable bf) (hpen : penalised bf id) (hchain : AliveChain id bf bf') :
    penalised bf' id ∧
    ∀ nt, bf'.time < nt → nt ≤ INT_MAX →
      ∀ c u, map_find bf'.coordinates id = some c → unitAt bf' c = some u →
        ∃ bf'', update_tick bf' nt = .ok bf'' ∧
          (u.hp ≤ nt - bf'.time →
            map_find bf''.coordinates id = none ∧ unitAt bf'' c = none) ∧
          (nt - bf'.time < u.hp →
            map_find bf''.coordinates id = some c ∧ AliveChain id bf bf'' ∧
            ∃ u'', unitAt bf'' c = some u'' ∧ u''.hp = u.hp - (nt - bf'.time) ∧
              deadInsideCount u'' = 1) := by
  obtain ⟨hr', hp'⟩ := AliveChain_penalised id bf bf' hchain hreach hpen
  refine ⟨hp', ?_⟩
  intro nt hlt hle c u hf hu
  have hinv := Reachable_Inv bf' hr'
  have hok := hinv.unit c u hu
  have hcount : deadInsideCount u = 1 := by
    obtain ⟨c1, u1, hf1, hu1, hc1⟩ := hp'
    rw [hf] at hf1
    cases hf1
    rw [hu] at hu1
    cases hu1
    exact hc1
  have hdmg : effects_damage u (nt - bf'.time) = nt - bf'.time := by
    rw [effects_damage_eq u _ (fun e he => (hok.2.2.2.2 e he).2.1),
      deadInside_length bf'.time u hok, hcount]
    simp
  obtain ⟨bf'', h1, -, -, -, -, hall⟩ := update_tick_unit bf' hinv nt
  obtain ⟨hnone, hsome⟩ := hall id c u hf hu
  refine ⟨bf'', h1, ?_, ?_⟩
  · intro hdead
    apply hnone
    unfold tick_result
    rw [hdmg, if_pos (by omega)]
  · intro halive
    have hr : tick_result u (nt - bf'.time) = some { u with
        hp := u.hp - effects_damage u (nt - bf'.time)
        active_effects :=
          (u.active_effects.map (fun e => e.decrement_timer (nt - bf'.time))).filter
            (fun e => !e.is_done) } := by
      unfold tick_result
      rw [if_neg (by rw [hdmg]; omega)]
    obtain ⟨a1, a2⟩ := hsome _ hr
    refine ⟨a1, ?_, _, a2, by rw [hdmg], ?_⟩
    · exact AliveChain.step hchain (Transition.tick nt hlt hle h1)
        ((map_contains_eq_true _ _).mpr ⟨c, a1⟩)
    · exact UnitStep_penalised bf'.time (nt - bf'.time) u _ hok
        (Reachable_aged bf' hr' c u hu) hcount (UnitStep.tick u _ (by omega) hr)

theorem C23_dead_inside_is_permanent_witness :
    Reachable exPenalty ∧ penalised exPenalty "a" ∧ AliveChain "a" exPenalty exPenalty3 ∧
    (penalised exPenalty3 "a" ∧
    ∀ nt, exPenalty3.time < nt → nt ≤ INT_MAX →
      ∀ c u, map_find exPenalty3.coordinates "a" = some c → unitAt exPenalty3 c = some u →
        ∃ bf'', update_tick exPenalty3 nt = .ok bf'' ∧
          (u.hp ≤ nt - exPenalty3.time →
            map_find bf''.coordinates "a" = none ∧ unitAt bf'' c = none) ∧
          (nt - exPenalty3.time < u.hp →
            map_find bf''.coordinates "a" = some c ∧ AliveChain "a" exPenalty bf'' ∧
            ∃ u'', unitAt bf'' c = some u'' ∧ u''.hp = u.hp - (nt - exPenalty3.time) ∧
              deadInsideCount u'' = 1)) :=
  ⟨exPenalty_reachable,
    ⟨(0, 0), ((Footman "a" (0, 0)).set_coor (0, 2)).add_effect (DeadInside 1),
      by decide, by decide, by decide⟩,
    AliveChain.step (AliveChain.refl exPenalty)
      (Transition.tick 3 (by decide) (by decide) (by decide)) (by decide),
    C23_dead_inside_is_permanent exPenalty exPenalty3 "a" exPenalty_reachable
      ⟨(0, 0), ((Footman "a" (0, 0)).set_coor (0, 2)).add_effect (DeadInside 1),
        by decide, by decide, by decide⟩
      (AliveChain.step (AliveChain.refl exPenalty)
        (Transition.tick 3 (by decide) (by decide) (by decide)) (by decide))⟩

/-! ## An id is free again after the removal -/

/-- Closed form of a spawn of a known kind that passes the guards. -/
theorem spawn_unit_known (bf : BattleField) (hwf : WF bf) (kind id : String) (r k : Int)
    (hkind : kind = "footman" ∨ kind = "knight" ∨ kind = "rifleman")
    (hin : is_inside_field bf (r, k) = true) (hemp : unitAt bf (r, k) = none)
    (hnew : map_contains bf.coordinates id = false) :
    ∃ bf' u, spawn_unit bf kind id r k = .ok bf' ∧
      map_find bf'.coordinates id = some (r, k) ∧ unitAt bf' (r, k) = some u ∧
      u.id = id ∧ u.type = kind ∧ u.hp = base_hp kind ∧ u.max_hp = base_hp kind ∧
      u.active_effects = [] := by
  obtain ⟨u, hcu, huid, hutype, hucoor, huhp, humax, hueff⟩ :=
    create_unit_known kind id (r, k) hkind
  have hnone : map_find bf.coordinates id = none := (map_contains_eq_false _ _).1 hnew
  have hsp : spawn_unit bf kind id r k =
      .ok { putUnit bf (r, k) (some u) with
            coordinates := map_emplace bf.coordinates id (r, k) } := by
    rw [spawn_unit_eq bf hwf kind id r k hin hemp hnew, hcu]
    simp only [hucoor]
  refine ⟨_, u, hsp, ?_, ?_, huid, hutype, huhp, humax, hueff⟩
  · show map_find (map_emplace bf.coordinates id (r, k)) id = _
    rw [map_find_emplace _ _ _ hnone, if_pos rfl]
  · show unitAt (putUnit bf (r, k) (some u)) (r, k) = _
    rw [unitAt_putUnit bf hwf (r, k) (r, k) _ hin, if_pos rfl]

/-- C24: an id is reserved only while its unit is alive: when an operation on a
    reachable battle field removes the unit registered as `id` at `c` (afterwards `id`
    is not registered), the tile at `c` is empty, and a spawn of any known kind under
    the same id at any in-bounds empty tile (the tile `c` is one) returns and creates
    a unit of that id and kind at full base hp with no effects, registered at that
    tile; the `spawn` command does the same when the id is all-lowercase. -/
theorem C24_id_is_free_after_removal (bf bf' : BattleField) (hreach : Reachable bf)
    (hstep : Transition bf bf') (id : String) (c : Vec2i)
    (hreg : map_find bf.coordinates id = some c)
    (hgone : map_contains bf'.coordinates id = false) :
    is_inside_field bf' c = true ∧ unitAt bf' c = none ∧
    ∀ kind r k, (kind = "footman" ∨ kind = "knight" ∨ kind = "rifleman") →
      is_inside_field bf' (r, k) = true → unitAt bf' (r, k) = none →
      ∃ bf'' u, spawn_unit bf' kind id r k = .ok bf'' ∧
        (check_lowercase id = true → execute_spawn bf' kind id (r + 1) (k + 1) = .ok bf'') ∧
        map_find bf''.coordinates id = some (r, k) ∧ unitAt bf'' (r, k) = some u ∧
        u.id = id ∧ u.type = kind ∧ u.hp = base_hp kind ∧ u.max_hp = base_hp kind ∧
        u.active_effects = [] := by
  have hinv := Reachable_Inv bf hreach
  have hinv' := Reachable_Inv bf' (Transition_reachable bf bf' hreach hstep)
  have hfacts := Transition_facts bf bf' hinv hstep
  obtain ⟨u, hu, -⟩ := hinv.entry id c hreg
  have hnone := (map_contains_eq_false _ _).mp hgone
  have hcin := inside_of_unitAt bf hinv.wf c u hu
  refine ⟨?_, ?_, ?_⟩
  · unfold is_inside_field at hcin ⊢
    rw [hfacts.M_eq, hfacts.N_eq]
    exact hcin
  · rcases hfacts.forward id c u hreg hu with ⟨-, h2⟩ | ⟨c', u', h1, -, -⟩
    · exact h2
    · rw [hnone] at h1
      cases h1
  · intro kind r k hkind hin hemp
    obtain ⟨bf'', w, h1, h2, h3, h4, h5, h6, h7, h8⟩ :=
      spawn_unit_known bf' hinv'.wf kind id r k hkind hin hemp hgone
    refine ⟨bf'', w, h1, ?_, h2, h3, h4, h5, h6, h7, h8⟩
    intro hl
    unfold execute_spawn
    rw [if_pos hl, add_sub_cancel_right, add_sub_cancel_right]
    exact h1

theorem C24_id_is_free_after_removal_witness :
    Reachable exPenalty ∧ Transition exPenalty exGone ∧
    map_find exPenalty.coordinates "a" = some (0, 0) ∧
    map_contains exGone.coordinates "a" = false ∧
    (is_inside_field exGone (0, 0) = true ∧ unitAt exGone (0, 0) = none ∧
    ∀ kind r k, (kind = "footman" ∨ kind = "knight" ∨ kind = "rifleman") →
      is_inside_field exGone (r, k) = true → unitAt exGone (r, k) = none →
      ∃ bf'' u, spawn_unit exGone kind "a" r k = .ok bf'' ∧
        (check_lowercase "a" = true →
          execute_spawn exGone kind "a" (r + 1) (k + 1) = .ok bf'') ∧
        map_find bf''.coordinates "a" = some (r, k) ∧ unitAt bf'' (r, k) = some u ∧
        u.id = "a" ∧ u.type = kind ∧ u.hp = base_hp kind ∧ u.max_hp = base_hp kind ∧
        u.active_effects = []) :=
  ⟨exPenalty_reachable, Transition.tick 25 (by decide) (by decide) (by decide), by decide,
    by decide,
    C24_id_is_free_after_removal exPenalty exGone exPenalty_reachable
      (Transition.tick 25 (by decide) (by decide) (by decide)) "a" (0, 0) (by decide)
      (by decide)⟩

/-! ## A tick in any order -/

theorem mem_unique_key {V : Type} (m : List (String × V)) (hnd : (m.map Prod.fst).Nodup)
    (e1 e2 : String × V) (h1 : e1 ∈ m) (h2 : e2 ∈ m) (hk : e1.1 = e2.1) : e1 = e2 :=
  List.inj_on_of_nodup_map hnd h1 h2 hk

theorem mem_unique_val {V : Type} (m : List (String × V)) (hnd : (m.map Prod.snd).Nodup)
    (e1 e2 : String × V) (h1 : e1 ∈ m) (h2 : e2 ∈ m) (hk : e1.2 = e2.2) : e1 = e2 :=
  List.inj_on_of_nodup_map hnd h1 h2 hk

/-- Loop invariant of `tick_in_order`: `D` holds the ids visited so far, `b` is the
    state reached from `b0`. -/
theorem tick_in_order_spec (b0 : BattleField) (hcons0 : Consistent b0)
    (nt : Int) :
    ∀ (ids D : List String) (b : BattleField),
      WF b → b.M = b0.M → b.N = b0.N → b.time = b0.time →
      (∀ c, (tileD b c).height = (tileD b0 c).height) →
      b.coordinates = b0.coordinates.filter (fun e => !decide (e.1 ∈ D) ||
        ((unitAt b0 e.2).bind (fun u => tick_result u (nt - b0.time))).isSome) →
      (∀ c, (∃ id ∈ D, map_find b0.coordinates id = some c) →
        unitAt b c = (unitAt b0 c).bind (fun u => tick_result u (nt - b0.time))) →
      (∀ c, (¬ ∃ id ∈ D, map_find b0.coordinates id = some c) → unitAt b c = unitAt b0 c) →
      (∀ id ∈ ids, id ∉ D ∧ ∃ c, map_find b0.coordinates id = some c) → ids.Nodup →
      ∃ b', tick_in_order nt ids b = .ok b' ∧ WF b' ∧ b'.M = b0.M ∧ b'.N = b0.N ∧
        b'.time = b0.time ∧ (∀ c, (tileD b' c).height = (tileD b0 c).height) ∧
        b'.coordinates = b0.coordinates.filter (fun e => !decide (e.1 ∈ D ++ ids) ||
          ((unitAt b0 e.2).bind (fun u => tick_result u (nt - b0.time))).isSome) ∧
        (∀ c, (∃ id ∈ D ++ ids, map_find b0.coordinates id = some c) →
          unitAt b' c = (unitAt b0 c).bind (fun u => tick_result u (nt - b0.time))) ∧
        (∀ c, (¬ ∃ id ∈ D ++ ids, map_find b0.coordinates id = some c) →
          unitAt b' c = unitAt b0 c) := by
  have hkeys := keys_nodup_of_sorted _ hcons0.1
  have hvals := coords_nodup b0 hcons0
  intro ids
  induction ids with
  | nil =>
    intro D b hwf hM hN ht hh hco hA hB _ _
    refine ⟨b, rfl, hwf, hM, hN, ht, hh, ?_, ?_, ?_⟩
    · simpa using hco
    · simpa using hA
    · simpa using hB
  | cons id rest ih =>
    intro D b hwf hM hN ht hh hco hA hB hids hnd
    obtain ⟨hidD, c, hf0⟩ := hids id (List.mem_cons_self _ _)
    obtain ⟨u, hu0, huid⟩ := (holds_iff b0 c id).mp (hcons0.2.1 (id, c) (map_find_mem _ _ _ hf0))
    have hmem0 := map_find_mem _ _ _ hf0
    -- the entry is still registered in `b` and its tile is untouched
    have hkeysb : (b.coordinates.map Prod.fst).Nodup := by
      rw [hco]
      exact (List.Sublist.map _ (List.filter_sublist _)).nodup hkeys
    have hf : map_find b.coordinates id = some c := by
      apply map_find_of_mem_nodup _ _ _ hkeysb
      rw [hco]
      refine List.mem_filter.mpr ⟨hmem0, ?_⟩
      simp [hidD]
    have hcD : ¬ ∃ id' ∈ D, map_find b0.coordinates id' = some c := by
      rintro ⟨id', hid', hf'⟩
      have := mem_unique_val _ hvals (id', c) (id, c) (map_find_mem _ _ _ hf') hmem0 rfl
      simp only [Prod.mk.injEq, and_true] at this
      rw [this] at hid'
      exact hidD hid'
    have hu : unitAt b c = some u := by rw [hB c hcD]; exact hu0
    have hcin := inside_of_unitAt b hwf c u hu
    have htick := tick_unit_eq b hwf id c u hf hu nt
    rw [ht] at htick
    have hrun : tick_in_order nt (id :: rest) b =
        tick_in_order nt rest (ticked b id c (tick_result u (nt - b0.time))) := by
      simp only [tick_in_order, hf, htick]
      rfl
    rw [hrun]
    have hnd' := List.nodup_cons.mp hnd
    have hnew := ih (D ++ [id]) (ticked b id c (tick_result u (nt - b0.time)))
      (WF_ticked b hwf id c _) (by rw [ticked_M]; exact hM) (by rw [ticked_N]; exact hN)
      (by rw [ticked_time]; exact ht) (fun c' => by rw [height_ticked]; exact hh c') ?_ ?_ ?_
      ?_ hnd'.2
    · simpa only [List.append_assoc, List.singleton_append] using hnew
    · -- the registry
      have hpred : ∀ e ∈ b0.coordinates, e.1 = id → e = (id, c) := fun e he hk =>
        mem_unique_key _ hkeys e (id, c) he hmem0 hk
      cases hr : tick_result u (nt - b0.time) with
      | none =>
        show map_erase b.coordinates id = _
        rw [hco]
        unfold map_erase
        rw [List.filter_filter]
        apply List.filter_congr
        intro e he
        by_cases hk : e.1 = id
        · have := hpred e he hk
          subst this
          simp [hu0, hr]
        · simp [hk]
      | some u' =>
        show b.coordinates = _
        rw [hco]
        apply List.filter_congr
        intro e he
        by_cases hk : e.1 = id
        · have := hpred e he hk
          subst this
          simp [hu0, hr, hidD]
        · simp [hk]
    · -- visited tiles
      intro c' hex
      rw [unitAt_ticked b hwf id c c' _ hcin]
      by_cases hc : c' = c
      · rw [if_pos hc, hc, hu0]
        rfl
      · rw [if_neg hc]
        apply hA
        obtain ⟨id', hid', hf'⟩ := hex
        rcases List.mem_append.mp hid' with hin | hin
        · exact ⟨id', hin, hf'⟩
        · simp only [List.mem_singleton] at hin
          rw [hin, hf0] at hf'
          cases hf'
          exact absurd rfl hc
    · -- tiles not visited
      intro c' hnex
      rw [unitAt_ticked b hwf id c c' _ hcin]
      have hc : c' ≠ c := by
        intro he
        apply hnex
        exact ⟨id, by simp, by rw [he]; exact hf0⟩
      rw [if_neg hc]
      apply hB
      rintro ⟨id', hid', hf'⟩
      exact hnex ⟨id', List.mem_append_left _ hid', hf'⟩
    · intro id' hid'
      obtain ⟨h1, h2⟩ := hids id' (List.mem_cons_of_mem _ hid')
      refine ⟨?_, h2⟩
      intro hin
      rcases List.mem_append.mp hin with hin | hin
      · exact h1 hin
      · simp only [List.mem_singleton] at hin
        rw [hin] at hid'
        exact hnd'.1 hid'

/-- C27: the order in which a tick visits the units is not observable: on a
    well-formed, consistent battle field (every reachable one is), for every new time
    and every order of the registered ids (the spawn order is one), visiting the units
    in that order yields exactly the battle field that the code yields by visiting
    them in the id order of the registry; and the code's tick returns. -/
theorem C27_tick_order_is_not_observable (bf : BattleField) (hwf : WF bf)
    (hcons : Consistent bf) (new_time : Int) (order : List String)
    (hperm : order.Perm (bf.coordinates.map Prod.fst)) :
    update_tick_in_order bf new_time order = update_tick bf new_time ∧
    ∃ bf', update_tick bf new_time = .ok bf' := by
  have hkeys := keys_nodup_of_sorted _ hcons.1
  have hreg : ∀ id ∈ order, ∃ c, map_find bf.coordinates id = some c := by
    intro id hid
    obtain ⟨e, he, hk⟩ := List.mem_map.mp (hperm.mem_iff.mp hid)
    exact ⟨e.2, by rw [← hk]; exact map_find_of_mem_nodup _ _ _ hkeys he⟩
  obtain ⟨b', h1, h2, h3, h4, h5, h6, h7, h8, h9⟩ :=
    tick_in_order_spec bf hcons new_time order [] bf hwf rfl rfl rfl (fun _ => rfl)
      (by simp) (by simp) (by simp) (fun id hid => ⟨by simp, hreg id hid⟩)
      (hperm.nodup_iff.mpr hkeys)
  obtain ⟨bT, t1, t2, t3, t4, t5, t6, t7, t8⟩ := update_tick_spec bf hwf hcons new_time
  have hrun : update_tick_in_order bf new_time order = .ok (b'.set_time new_time) := by
    simp only [update_tick_in_order, h1]
    rfl
  refine ⟨?_, bT, t1⟩
  rw [hrun, t1]
  congr 1
  apply battlefield_ext _ _ (show WF (b'.set_time new_time) from h2) t2
  · show b'.M = bT.M
    rw [h3, t3]
  · show b'.N = bT.N
    rw [h4, t4]
  · show new_time = bT.time
    rw [t5]
  · show b'.coordinates = bT.coordinates
    rw [h7, t7]
    apply List.filter_congr
    intro e he
    have : e.1 ∈ order := hperm.mem_iff.mpr (List.mem_map_of_mem _ he)
    simp [this]
  · intro c
    show (tileD b' c).height = _
    rw [h6, t6]
  · intro c
    show unitAt b' c = _
    rw [t8]
    by_cases hex : ∃ id ∈ [] ++ order, map_find bf.coordinates id = some c
    · exact h8 c hex
    · rw [h9 c hex]
      cases hu : unitAt bf c with
      | none => rfl
      | some u =>
        exfalso
        apply hex
        have hr := ((Consistent_iff bf hwf).mp hcons).2.2 c u hu
        refine ⟨u.id, ?_, hr⟩
        simp only [List.nil_append]
        exact hperm.mem_iff.mpr (List.mem_map_of_mem _ (map_find_mem _ _ _ hr))

theorem C27_tick_order_is_not_observable_witness :
    WF exPenalty ∧ Consistent exPenalty ∧
    ["b", "a"].Perm (exPenalty.coordinates.map Prod.fst) ∧
    update_tick_in_order exPenalty 3 ["b", "a"] = .ok exPenalty3 ∧
    update_tick_in_order exPenalty 3 ["b", "a"] = update_tick exPenalty 3 ∧
    ∃ bf', update_tick exPenalty 3 = .ok bf' :=
  ⟨by decide, by decide, List.Perm.swap "a" "b" [], by decide,
    C27_tick_order_is_not_observable exPenalty (by decide) (by decide) 3 ["b", "a"]
      (List.Perm.swap "a" "b" [])⟩

/-! ## The log of the search -/

theorem Effect_clone_eq (e : Effect) : e.clone = e := by
  cases e
  rfl

theorem clone_effects_fold (es : List Effect) (p : Unit) :
    es.foldl (fun p p_e => p.add_effect p_e.clone) p =
      { p with active_effects := p.active_effects ++ es } := by
  induction es generalizing p with
  | nil => simp
  | cons e es ih =>
    rw [List.foldl_cons, ih, Effect_clone_eq]
    simp [Unit.add_effect]

theorem Unit_clone_eq (u : Unit)
    (h : u.type = "footman" ∨ u.type = "knight" ∨ u.type = "rifleman") :
    u.clone = .ok u := by
  unfold Unit.clone
  rcases h with h | h | h
  · rw [if_pos h]
    congr 1
    unfold Footman.clone
    simp only [clone_effects_fold]
    cases u
    simp only at h
    subst h
    simp [Footman, Unit.new]
  · rw [if_neg (by rw [h]; decide), if_pos h]
    congr 1
    unfold Knight.clone
    simp only [clone_effects_fold]
    cases u
    simp only at h
    subst h
    simp [Knight, Unit.new]
  · rw [if_neg (by rw [h]; decide), if_neg (by rw [h]; decide), if_pos h]
    congr 1
    unfold Rifleman.clone
    simp only [clone_effects_fold]
    cases u
    simp only at h
    subst h
    simp [Rifleman, Unit.new]

theorem clone_units_eq (us : List Unit) :
    ∀ dst : List Unit,
      (∀ u ∈ us, u.type = "footman" ∨ u.type = "knight" ∨ u.type = "rifleman") →
      VectorCopy.clone_units us dst = .ok (dst ++ us) := by
  induction us with
  | nil => intro dst _; simp [VectorCopy.clone_units]
  | cons u us ih =>
    intro dst h
    have hu := Unit_clone_eq u (h u (List.mem_cons_self _ _))
    simp only [VectorCopy.clone_units, hu, bind, Except.bind]
    rw [ih _ (fun w hw => h w (List.mem_cons_of_mem _ hw))]
    simp

theorem Tile_copy_eq (t : VectorCopy.Tile)
    (h : ∀ u ∈ t.units, u.type = "footman" ∨ u.type = "knight" ∨ u.type = "rifleman") :
    t.copy = .ok t := by
  unfold VectorCopy.Tile.copy
  rw [clone_units_eq t.units [] h]
  cases t
  simp [bind, Except.bind, pure, Except.pure]

theorem copy_row_eq (row : List VectorCopy.Tile)
    (h : ∀ t ∈ row, ∀ u ∈ t.units,
      u.type = "footman" ∨ u.type = "knight" ∨ u.type = "rifleman") :
    VectorCopy.copy_row row = .ok row := by
  induction row with
  | nil => rfl
  | cons t row ih =>
    simp only [VectorCopy.copy_row, Tile_copy_eq t (h t (List.mem_cons_self _ _)),
      ih (fun t' ht' => h t' (List.mem_cons_of_mem _ ht')), bind, Except.bind]
    rfl

theorem copy_field_eq (field : List (List VectorCopy.Tile))
    (h : ∀ row ∈ field, ∀ t ∈ row, ∀ u ∈ t.units,
      u.type = "footman" ∨ u.type = "knight" ∨ u.type = "rifleman") :
    VectorCopy.copy_field field = .ok field := by
  induction field with
  | nil => rfl
  | cons row field ih =>
    simp only [VectorCopy.copy_field, copy_row_eq row (h row (List.mem_cons_self _ _)),
      ih (fun r hr => h r (List.mem_cons_of_mem _ hr)), bind, Except.bind]
    rfl

/-- C29: a deep copy preserves everything: for every unit of class `Footman`, `Knight`
    or `Rifleman`, `clone()` returns a unit equal to the original in every field (kind,
    id, coordinate, hp, max_hp, movement budget, step limit, attack stats, direction
    sets, effect caps, and the effects one by one with their kind, timer and damage);
    and the copy constructor of a battle field all of whose units are of these
    classes returns a battle field with the same dimensions, time, registry and
    tiles (heights and occupants), which therefore prints the same snapshot. -/
theorem C29_deep_copy_preserves (u : Unit) (bf : VectorCopy.BattleField)
    (hu : u.type = "footman" ∨ u.type = "knight" ∨ u.type = "rifleman")
    (hbf : VectorCopy.Concrete bf) :
    u.clone = .ok u ∧ (∀ e ∈ u.active_effects, e.clone = e) ∧
    (∀ u', u.clone = .ok u' →
      u'.type = u.type ∧ u'.id = u.id ∧ u'.coor = u.coor ∧ u'.hp = u.hp ∧
      u'.max_hp = u.max_hp ∧ u'.max_move = u.max_move ∧ u'.max_step = u.max_step ∧
      u'.attack_dmg = u.attack_dmg ∧ u'.attack_distance = u.attack_distance ∧
      u'.attack_range = u.attack_range ∧ u'.move_directions = u.move_directions ∧
      u'.attack_directions = u.attack_directions ∧ u'.max_active = u.max_active ∧
      u'.active_effects.length = u.active_effects.length ∧
      u'.active_effects = u.active_effects) ∧
    bf.copy = .ok bf ∧
    (∀ bf', bf.copy = .ok bf' →
      bf'.M = bf.M ∧ bf'.N = bf.N ∧ bf'.time = bf.time ∧
      bf'.coordinates = bf.coordinates ∧ bf'.field = bf.field ∧
      VectorCopy.state bf' = VectorCopy.state bf) := by
  have h1 := Unit_clone_eq u hu
  have h2 : bf.copy = .ok bf := by
    unfold VectorCopy.BattleField.copy
    rw [copy_field_eq bf.field hbf]
    cases bf
    rfl
  refine ⟨h1, fun e _ => Effect_clone_eq e, ?_, h2, ?_⟩
  · intro u' hu'
    rw [h1] at hu'
    cases hu'
    exact ⟨rfl, rfl, rfl, rfl, rfl, rfl, rfl, rfl, rfl, rfl, rfl, rfl, rfl, rfl, rfl⟩
  · intro bf' hbf'
    rw [h2] at hbf'
    cases hbf'
    exact ⟨rfl, rfl, rfl, rfl, rfl, rfl⟩

theorem C29_deep_copy_preserves_witness :
    ((((Footman "a" (0, 0)).set_coor (0, 2)).add_effect (DeadInside 1)).type = "footman" ∨
      (((Footman "a" (0, 0)).set_coor (0, 2)).add_effect (DeadInside 1)).type = "knight" ∨
      (((Footman "a" (0, 0)).set_coor (0, 2)).add_effect (DeadInside 1)).type = "rifleman") ∧
    VectorCopy.Concrete VectorCopy.exCopy ∧
    VectorCopy.state VectorCopy.exCopy =
      .ok ["a footman (1, 1) 20", "b knight (1, 3) 31", "---"] ∧
    (((Footman "a" (0, 0)).set_coor (0, 2)).add_effect (DeadInside 1)).clone =
      .ok (((Footman "a" (0, 0)).set_coor (0, 2)).add_effect (DeadInside 1)) ∧
    VectorCopy.exCopy.copy = .ok VectorCopy.exCopy :=
  ⟨by decide, by decide, by decide,
    (C29_deep_copy_preserves (((Footman "a" (0, 0)).set_coor (0, 2)).add_effect (DeadInside 1))
      VectorCopy.exCopy (by decide) (by decide)).1,
    (C29_deep_copy_preserves (((Footman "a" (0, 0)).set_coor (0, 2)).add_effect (DeadInside 1))
      VectorCopy.exCopy (by decide) (by decide)).2.2.2.1⟩

namespace VectorCopy

/-! ## Single occupancy in the variant `VectorCopy.cpp` -/

theorem VC_find_one_spec (us : List Unit) (id : String) :
    ∀ (i : Nat) (u : Unit), find_one us id = some (i, u) → us[i]? = some u ∧ u.id = id := by
  induction us with
  | nil => intro i u h; simp [find_one] at h
  | cons w us ih =>
    intro i u h
    unfold find_one at h
    by_cases hw : w.id = id
    · rw [if_pos hw] at h
      simp only [Option.some.injEq, Prod.mk.injEq] at h
      obtain ⟨h1, h2⟩ := h
      subst h1; subst h2
      exact ⟨by simp, hw⟩
    · rw [if_neg hw] at h
      cases hr : find_one us id with
      | none => rw [hr] at h; simp at h
      | some r =>
        rw [hr] at h
        simp only [Option.map_some', Option.some.injEq, Prod.mk.injEq] at h
        obtain ⟨h1, h2⟩ := h
        subst h1; subst h2
        obtain ⟨a1, a2⟩ := ih r.1 r.2 hr
        exact ⟨by simpa using a1, a2⟩

theorem VC_single_list (us : List Unit) (i : Nat) (u : Unit) (hlen : us.length ≤ 1)
    (hi : us[i]? = some u) : us = [u] ∧ i = 0 := by
  cases us with
  | nil => simp at hi
  | cons w us =>
    cases us with
    | nil =>
      cases i with
      | zero => simp at hi; subst hi; exact ⟨rfl, rfl⟩
      | succ j => simp at hi
    | cons w' us' => simp at hlen

theorem VC_find_tile_ok (bf : BattleField) (c : Vec2i) (t : Tile)
    (h : find_tile bf c = .ok t) : gridGet bf.field c = some t := by
  unfold find_tile at h
  cases hg : gridGet bf.field c with
  | none => rw [hg] at h; cases h
  | some t' => rw [hg] at h; cases h; rfl

theorem VC_find_tile_of (bf : BattleField) (c : Vec2i) (t : Tile)
    (h : gridGet bf.field c = some t) : find_tile bf c = .ok t := by
  unfold find_tile
  rw [h]

theorem VC_map_at_ok {V : Type} (m : List (String × V)) (k : String) (v : V)
    (h : map_at m k = .ok v) : map_find m k = some v := by
  unfold map_at at h
  cases hf : map_find m k with
  | none => rw [hf] at h; cases h
  | some v' => rw [hf] at h; cases h; rfl

theorem VC_find_one_unit_ok (t : Tile) (id : String) (i : Nat) (u : Unit)
    (h : t.find_one_unit id = .ok (i, u)) : t.units[i]? = some u ∧ u.id = id := by
  unfold Tile.find_one_unit at h
  cases hf : find_one t.units id with
  | none => rw [hf] at h; cases h
  | some r =>
    rw [hf] at h
    cases h
    exact VC_find_one_spec t.units id _ _ hf

/-- Replacing the tile at `c` and the registry keeps `Single` when the new tile holds at
    most one unit, registered at `c`, and the units of the other tiles stay
    registered. -/
theorem VC_Single_update (bf : BattleField) (h : Single bf) (c : Vec2i) (t' : Tile)
    (coords' : List (String × Vec2i)) (hlen : t'.units.length ≤ 1)
    (hreg : ∀ u ∈ t'.units, map_find coords' u.id = some c)
    (hother : ∀ c' t'', c' ≠ c → gridGet bf.field c' = some t'' →
      ∀ u ∈ t''.units, map_find coords' u.id = some c') :
    Single { bf with field := gridSet bf.field c t', coordinates := coords' } := by
  intro c' t1 hg
  have hg' : gridGet (gridSet bf.field c t') c' = some t1 := hg
  rw [gridGet_gridSet] at hg'
  by_cases hc : c' = c ∧ (gridGet bf.field c).isSome = true
  · rw [if_pos hc] at hg'
    cases hg'
    rw [hc.1]
    exact ⟨hlen, hreg⟩
  · rw [if_neg hc] at hg'
    have hne : c' ≠ c := by
      intro he
      apply hc
      refine ⟨he, ?_⟩
      rw [← he, hg']
      rfl
    exact ⟨(h c' t1 hg').1, hother c' t1 hne hg'⟩

/-- Writing a unit of the same id through a reference into a tile keeps `Single`. -/
theorem VC_Single_modify (bf : BattleField) (h : Single bf) (c : Vec2i) (t : Tile)
    (hg : gridGet bf.field c = some t) (i : Nat) (u u' : Unit)
    (hi : t.units[i]? = some u) (hid : u'.id = u.id) :
    Single (set_tile bf c (t.set_unit i u')) ∧
    gridGet (set_tile bf c (t.set_unit i u')).field c = some { t with units := [u'] } ∧
    t.units = [u] ∧ i = 0 := by
  obtain ⟨hlen, hreg⟩ := h c t hg
  obtain ⟨hus, hi0⟩ := VC_single_list t.units i u hlen hi
  have hnew : t.set_unit i u' = { t with units := [u'] } := by
    unfold Tile.set_unit
    rw [hus, hi0]
    rfl
  refine ⟨?_, ?_, hus, hi0⟩
  · rw [hnew]
    apply VC_Single_update bf h c _ bf.coordinates
    · simp
    · intro w hw
      simp only [List.mem_singleton] at hw
      rw [hw, hid]
      exact hreg u (by rw [hus]; simp)
    · intro c' t'' _ hg' w hw
      exact (h c' t'' hg').2 w hw
  · rw [hnew]
    show gridGet (gridSet bf.field c _) c = _
    exact gridGet_gridSet_same _ _ _ (by rw [hg]; rfl)

/-- What `remove_unit` does on a state with single occupancy. -/
theorem VC_remove_unit_spec (bf : BattleField) (h : Single bf) (id : String) (u : Unit)
    (bf' : BattleField) (hr : remove_unit bf id = .ok (u, bf')) :
    ∃ c t, map_find bf.coordinates id = some c ∧ gridGet bf.field c = some t ∧
      t.units = [u] ∧ u.id = id ∧ Single bf' ∧
      gridGet bf'.field c = some { t with units := [] } ∧
      map_find bf'.coordinates id = none ∧
      (∀ c', c' ≠ c → gridGet bf'.field c' = gridGet bf.field c') ∧
      bf'.coordinates = map_erase bf.coordinates id := by
  unfold remove_unit at hr
  cases hc : map_at bf.coordinates id with
  | error e => rw [hc] at hr; cases hr
  | ok c =>
    cases ht : find_tile bf c with
    | error e => rw [hc] at hr; simp only [bind, Except.bind, ht] at hr; cases hr
    | ok t =>
      cases hrm : t.remove_one_unit id with
      | error e =>
        rw [hc] at hr
        simp only [bind, Except.bind, ht, hrm] at hr
        cases hr
      | ok r =>
        rw [hc] at hr
        simp only [bind, Except.bind, ht, hrm, pure, Except.pure, Except.ok.injEq,
          Prod.mk.injEq] at hr
        obtain ⟨hr1, hr2⟩ := hr
        have hf := VC_map_at_ok _ _ _ hc
        have hg := VC_find_tile_ok _ _ _ ht
        unfold Tile.remove_one_unit at hrm
        cases hfo : find_one t.units id with
        | none => rw [hfo] at hrm; cases hrm
        | some q =>
          rw [hfo] at hrm
          cases hrm
          obtain ⟨hi, hid⟩ := VC_find_one_spec t.units id q.1 q.2 hfo
          obtain ⟨hlen, hreg⟩ := h c t hg
          obtain ⟨hus, hi0⟩ := VC_single_list t.units q.1 q.2 hlen hi
          simp only at hr1 hr2
          subst hr1
          have herase : t.units.eraseIdx q.1 = [] := by rw [hus, hi0]; rfl
          rw [herase] at hr2
          subst hr2
          refine ⟨c, t, hf, hg, hus, hid, ?_, ?_, ?_, ?_, rfl⟩
          · apply VC_Single_update bf h c _ _
            · simp
            · intro w hw; simp at hw
            · intro c' t'' hne hg' w hw
              have hw' := (h c' t'' hg').2 w hw
              rw [map_find_erase]
              have hwid : w.id ≠ id := by
                intro he
                rw [he, hf] at hw'
                cases hw'
                exact hne rfl
              rw [if_neg hwid]
              exact hw'
          · exact gridGet_gridSet_same _ _ _ (by rw [hg]; rfl)
          · show map_find (map_erase bf.coordinates id) id = none
            rw [map_find_erase, if_pos rfl]
          · intro c' hne
            exact gridGet_gridSet_ne _ _ _ _ hne

/-- Adding a unit under an unregistered id to an empty tile keeps `Single`. -/
theorem VC_Single_add (bf : BattleField) (h : Single bf) (c : Vec2i) (t : Tile)
    (hemp : t.units = []) (u : Unit)
    (hnew : map_find bf.coordinates u.id = none) :
    Single { bf with coordinates := map_emplace bf.coordinates u.id c,
                     field := gridSet bf.field c (t.add_unit u) } := by
  apply VC_Single_update bf h c _ _
  · simp [Tile.add_unit, hemp]
  · intro w hw
    simp only [Tile.add_unit, hemp, List.nil_append, List.mem_singleton] at hw
    rw [hw, map_find_emplace _ _ _ hnew, if_pos rfl]
  · intro c' t'' _ hg' w hw
    have hw' := (h c' t'' hg').2 w hw
    have hne : w.id ≠ u.id := by
      intro he
      rw [he, hnew] at hw'
      cases hw'
    rw [map_find_emplace _ _ _ hnew, if_neg hne]
    exact hw'

/-! ## The operations keep single occupancy -/

theorem VC_apply_effects_id (u : Unit) (dt : Int) : (u.apply_effects dt).id = u.id := by
  rw [apply_effects_eq]

theorem VC_Single_spawn (bf bf' : BattleField) (type id : String) (x y : Int)
    (h : Single bf) (hs : spawn_unit bf type id x y = .ok bf') : Single bf' := by
  unfold spawn_unit at hs
  by_cases hin : is_inside_field bf (x, y) = true
  · simp only [hin, Bool.not_true, Bool.false_eq_true, if_false] at hs
    cases ht : find_tile bf (x, y) with
    | error e => simp only [ht, bind, Except.bind] at hs; cases hs
    | ok t =>
      simp only [ht, bind, Except.bind] at hs
      by_cases hg : (!t.is_tile_empty || map_contains bf.coordinates id) = true
      · rw [if_pos hg] at hs
        cases hs
        exact h
      · rw [if_neg hg] at hs
        simp only [Bool.or_eq_true, Bool.not_eq_true', not_or, Bool.not_eq_false,
          Bool.not_eq_true] at hg
        obtain ⟨hemp, hnew⟩ := hg
        cases hc : create_unit type id (x, y) with
        | error e => simp only [hc] at hs; cases hs
        | ok u =>
          simp only [hc, pure, Except.pure, Except.ok.injEq] at hs
          obtain ⟨huid, hucoor, -⟩ := create_unit_ok type id (x, y) u hc
          have hunits : t.units = [] := by
            simpa [Tile.is_tile_empty] using hemp
          have hnone : map_find bf.coordinates u.id = none := by
            rw [huid]
            exact (map_contains_eq_false _ _).mp hnew
          have := VC_Single_add bf h (x, y) t hunits u hnone
          rw [← hs, hucoor]
          rw [huid] at this
          exact this
  · simp only [hin, Bool.not_false, if_true] at hs
    cases hs
    exact h

theorem VC_Single_tick_unit (nt : Int) (bf bf' : BattleField) (entry : String × Vec2i)
    (h : Single bf) (hs : tick_unit nt bf entry = .ok bf') : Single bf' := by
  unfold tick_unit at hs
  cases ht : find_tile bf entry.2 with
  | error e => simp only [ht, bind, Except.bind] at hs; cases hs
  | ok t =>
    cases hfo : t.find_one_unit entry.1 with
    | error e => simp only [ht, hfo, bind, Except.bind] at hs; cases hs
    | ok r =>
      obtain ⟨i, u⟩ := r
      simp only [ht, hfo, bind, Except.bind] at hs
      have hg := VC_find_tile_ok _ _ _ ht
      obtain ⟨hi, -⟩ := VC_find_one_unit_ok t entry.1 i u hfo
      obtain ⟨hS1, hg1, hus, hi0⟩ := VC_Single_modify bf h entry.2 t hg i u
        (u.apply_effects (nt - bf.time)) hi (VC_apply_effects_id u _)
      by_cases hdead : (u.apply_effects (nt - bf.time)).hp ≤ 0
      · rw [if_pos hdead] at hs
        cases hrm : remove_unit (set_tile bf entry.2
            (t.set_unit i (u.apply_effects (nt - bf.time)))) entry.1 with
        | error e => simp only [hrm] at hs; cases hs
        | ok r =>
          simp only [hrm, pure, Except.pure, Except.ok.injEq] at hs
          obtain ⟨ru, rbf⟩ := r
          obtain ⟨_, _, -, -, -, -, hS2, -⟩ := VC_remove_unit_spec _ hS1 entry.1 ru rbf hrm
          rw [← hs]
          exact hS2
      · rw [if_neg hdead] at hs
        simp only [pure, Except.pure, Except.ok.injEq] at hs
        rw [← hs]
        have hnew : t.set_unit i (u.apply_effects (nt - bf.time)).remove_overdue_effects =
            { t with units := [(u.apply_effects (nt - bf.time)).remove_overdue_effects] } := by
          unfold Tile.set_unit
          rw [hus, hi0]
          rfl
        rw [hnew]
        apply VC_Single_update _ hS1 entry.2 _ _
        · simp
        · intro w hw
          simp only [List.mem_singleton] at hw
          rw [hw]
          have hid : (u.apply_effects (nt - bf.time)).remove_overdue_effects.id = u.id :=
            VC_apply_effects_id u _
          rw [hid]
          exact (h entry.2 t hg).2 u (by rw [hus]; simp)
        · intro c' t'' _ hg' w hw
          exact (hS1 c' t'' hg').2 w hw

theorem VC_Single_tick_loop (nt : Int) :
    ∀ (fuel : Nat) (bf : BattleField) (it : Option (String × Vec2i)) (bf' : BattleField),
      Single bf → update_tick_loop nt fuel bf it = .ok bf' → Single bf' := by
  intro fuel
  induction fuel with
  | zero =>
    intro bf it bf' h hs
    cases it with
    | none => simp only [update_tick_loop, Except.ok.injEq] at hs; rw [← hs]; exact h
    | some e => simp [update_tick_loop] at hs
  | succ f ih =>
    intro bf it bf' h hs
    cases it with
    | none => simp only [update_tick_loop, Except.ok.injEq] at hs; rw [← hs]; exact h
    | some e =>
      simp only [update_tick_loop] at hs
      cases ht : tick_unit nt bf e with
      | error err => simp only [ht, bind, Except.bind] at hs; cases hs
      | ok bf1 =>
        simp only [ht, bind, Except.bind] at hs
        exact ih bf1 _ bf' (VC_Single_tick_unit nt bf bf1 e h ht) hs

theorem VC_Single_tick (bf bf' : BattleField) (nt : Int) (h : Single bf)
    (hs : update_tick bf nt = .ok bf') : Single bf' := by
  unfold update_tick at hs
  cases hl : update_tick_loop nt bf.coordinates.length bf bf.coordinates.head? with
  | error e => simp only [hl, bind, Except.bind] at hs; cases hs
  | ok bf1 =>
    simp only [hl, bind, Except.bind, pure, Except.pure, Except.ok.injEq] at hs
    rw [← hs]
    exact VC_Single_tick_loop nt _ bf _ bf1 h hl

theorem VC_Single_attack_victims (target : Vec2i) (damage : Int) :
    ∀ (n i : Nat) (bf bf' : BattleField), Single bf →
      attack_victims target damage n i bf = .ok bf' → Single bf' := by
  intro n
  induction n with
  | zero =>
    intro i bf bf' h hs
    simp only [attack_victims, Except.ok.injEq] at hs
    rw [← hs]; exact h
  | succ n ih =>
    intro i bf bf' h hs
    simp only [attack_victims] at hs
    cases ht : find_tile bf target with
    | error e => simp only [ht, bind, Except.bind] at hs; cases hs
    | ok t =>
      simp only [ht, bind, Except.bind] at hs
      have hg := VC_find_tile_ok _ _ _ ht
      cases hv : t.units[i]? with
      | none => simp only [hv] at hs; cases hs
      | some v =>
        simp only [hv] at hs
        obtain ⟨hS1, -, -, -⟩ := VC_Single_modify bf h target t hg i v
          (v.take_damage damage) hv rfl
        by_cases hdead : (v.take_damage damage).hp ≤ 0
        · rw [if_pos hdead] at hs
          cases hrm : remove_unit (set_tile bf target (t.set_unit i (v.take_damage damage)))
              (v.take_damage damage).id with
          | error e => simp only [hrm] at hs; cases hs
          | ok r =>
            simp only [hrm] at hs
            obtain ⟨ru, rbf⟩ := r
            obtain ⟨_, _, -, -, -, -, hS2, -⟩ := VC_remove_unit_spec _ hS1 _ ru rbf hrm
            exact ih _ rbf bf' hS2 hs
        · rw [if_neg hdead] at hs
          exact ih _ _ bf' hS1 hs

theorem VC_Single_initialize_attack (bf : BattleField) (id : String) (dir : Vec2i)
    (b : Bool) (bf' : BattleField) (h : Single bf)
    (hs : initialize_attack bf id dir = .ok (b, bf')) : Single bf' := by
  unfold initialize_attack at hs
  cases hc : map_at bf.coordinates id with
  | error e => simp only [hc, bind, Except.bind] at hs; cases hs
  | ok c =>
    simp only [hc, bind, Except.bind] at hs
    cases htv : find_tile bf (c.add dir) with
    | error e => simp only [htv] at hs; cases hs
    | ok tv =>
      simp only [htv] at hs
      by_cases hemp : tv.is_tile_empty = true
      · simp only [hemp, if_true, pure, Except.pure, Except.ok.injEq, Prod.mk.injEq] at hs
        rw [← hs.2]; exact h
      · simp only [hemp, Bool.false_eq_true, if_false] at hs
        cases hta : find_tile bf c with
        | error e => simp only [hta] at hs; cases hs
        | ok ta =>
          simp only [hta] at hs
          cases hfo : ta.find_one_unit id with
          | error e => simp only [hfo] at hs; cases hs
          | ok a =>
            simp only [hfo] at hs
            by_cases hr : |calculate_height_diff ta tv| > a.2.attack_range
            · simp only [hr, if_true, pure, Except.pure, Except.ok.injEq,
                Prod.mk.injEq] at hs
              rw [← hs.2]; exact h
            · simp only [hr, if_false] at hs
              cases hav : attack_victims (c.add dir)
                  (if a.2.attack_dmg + calculate_height_diff ta tv < 0 then 0
                   else a.2.attack_dmg + calculate_height_diff ta tv)
                  tv.find_all_units.length 0 bf with
              | error e => simp only [hav] at hs; cases hs
              | ok bf1 =>
                simp only [hav, pure, Except.pure, Except.ok.injEq, Prod.mk.injEq] at hs
                rw [← hs.2]
                exact VC_Single_attack_victims _ _ _ _ bf bf1 h hav

theorem VC_Single_attack_loop (id dir : String) (a : Unit) :
    ∀ (n : Nat) (i : Int) (bf bf' : BattleField), Single bf →
      attack_loop id dir a n i bf = .ok bf' → Single bf' := by
  intro n
  induction n with
  | zero =>
    intro i bf bf' h hs
    simp only [attack_loop, Except.ok.injEq] at hs
    rw [← hs]; exact h
  | succ n ih =>
    intro i bf bf' h hs
    simp only [attack_loop] at hs
    cases hc : map_at bf.coordinates id with
    | error e => simp only [hc, bind, Except.bind] at hs; cases hs
    | ok c =>
      simp only [hc, bind, Except.bind] at hs
      cases hv : map_at a.attack_directions dir with
      | error e => simp only [hv] at hs; cases hs
      | ok v =>
        simp only [hv] at hs
        by_cases hin : is_inside_field bf (c.add (v.mul i)) = true
        · simp only [hin, Bool.not_true, Bool.false_eq_true, if_false] at hs
          cases hia : initialize_attack bf id (v.mul i) with
          | error e => simp only [hia] at hs; cases hs
          | ok r =>
            obtain ⟨b, bf1⟩ := r
            simp only [hia] at hs
            have hS1 := VC_Single_initialize_attack bf id _ b bf1 h hia
            cases b with
            | true =>
              simp only [if_true, pure, Except.pure, Except.ok.injEq] at hs
              rw [← hs]; exact hS1
            | false =>
              simp only [Bool.false_eq_true, if_false] at hs
              exact ih _ bf1 bf' hS1 hs
        · simp only [hin, Bool.not_false, if_true, pure, Except.pure,
            Except.ok.injEq] at hs
          rw [← hs]; exact h

theorem VC_Single_attack (bf bf' : BattleField) (id dir : String) (h : Single bf)
    (hs : attack_unit bf id dir = .ok bf') : Single bf' := by
  unfold attack_unit at hs
  by_cases hcon : map_contains bf.coordinates id = true
  · simp only [hcon, Bool.not_true, Bool.false_eq_true, if_false] at hs
    cases hc : map_at bf.coordinates id with
    | error e => simp only [hc, bind, Except.bind] at hs; cases hs
    | ok c =>
      simp only [hc, bind, Except.bind] at hs
      cases ht : find_tile bf c with
      | error e => simp only [ht] at hs; cases hs
      | ok t =>
        simp only [ht] at hs
        cases hfo : t.find_one_unit id with
        | error e => simp only [hfo] at hs; cases hs
        | ok a =>
          simp only [hfo] at hs
          exact VC_Single_attack_loop id dir a.2 _ _ bf bf' h hs
  · simp only [hcon, Bool.not_false, if_true, Except.ok.injEq] at hs
    rw [← hs]; exact h

/-- A feasible move: the destination tile exists and is empty or holds the mover. -/
theorem VC_move_ok_target (bf : BattleField) (id : String) (target : Vec2i)
    (hs : is_move_successful bf id target = .ok true) :
    ∃ tt, gridGet bf.field target = some tt ∧
      (tt.units = [] ∨ ∃ u ∈ tt.units, u.id = id) := by
  unfold is_move_successful at hs
  cases hc : map_at bf.coordinates id with
  | error e => simp only [hc, bind, Except.bind] at hs; cases hs
  | ok c =>
    simp only [hc, bind, Except.bind] at hs
    cases ht : find_tile bf c with
    | error e => simp only [ht] at hs; cases hs
    | ok t =>
      simp only [ht] at hs
      cases hfo : t.find_one_unit id with
      | error e => simp only [hfo] at hs; cases hs
      | ok p =>
        simp only [hfo] at hs
        by_cases hin : is_inside_field bf target = true
        · simp only [hin, Bool.not_true, Bool.false_eq_true, if_false] at hs
          cases htt : find_tile bf target with
          | error e => simp only [htt] at hs; cases hs
          | ok tt =>
            simp only [htt] at hs
            refine ⟨tt, VC_find_tile_ok _ _ _ htt, ?_⟩
            by_cases hemp : tt.is_tile_empty = true
            · left
              simpa [Tile.is_tile_empty] using hemp
            · right
              simp only [hemp, Bool.not_false, if_true, tile_contains_id, htt, bind,
                Except.bind, pure, Except.pure] at hs
              by_cases hown : (tt.find_all_units.any (fun u => decide (u.id = id))) = true
              · simp only [List.any_eq_true, decide_eq_true_eq] at hown
                exact hown
              · simp only [hown, Bool.not_false, if_true] at hs
                cases hs
        · simp only [hin, Bool.not_false, if_true, pure, Except.pure] at hs
          cases hs

theorem VC_Single_move (bf bf' : BattleField) (id : String) (x y : Int)
    (h : Single bf) (hs : move_unit bf id x y = .ok bf') : Single bf' := by
  unfold move_unit at hs
  cases hres : is_move_successful bf id (x, y) with
  | error e => simp only [hres, bind, Except.bind] at hs; cases hs
  | ok result =>
    simp only [hres, bind, Except.bind] at hs
    cases hc : map_at bf.coordinates id with
    | error e => simp only [hc] at hs; cases hs
    | ok c =>
      simp only [hc] at hs
      cases ht : find_tile bf c with
      | error e => simp only [ht] at hs; cases hs
      | ok t =>
        simp only [ht] at hs
        cases hfo : t.find_one_unit id with
        | error e => simp only [hfo] at hs; cases hs
        | ok p =>
          obtain ⟨i, u⟩ := p
          simp only [hfo] at hs
          have hg := VC_find_tile_ok _ _ _ ht
          have hreg := VC_map_at_ok _ _ _ hc
          obtain ⟨hi, huid⟩ := VC_find_one_unit_ok t id i u hfo
          obtain ⟨hS1, hg1, hus, hi0⟩ := VC_Single_modify bf h c t hg i u
            (u.set_coor (x, y)) hi rfl
          cases result with
          | true =>
            simp only [if_true] at hs
            cases hrm : remove_unit (set_tile bf c (t.set_unit i (u.set_coor (x, y)))) id with
            | error e => simp only [hrm] at hs; cases hs
            | ok r =>
              obtain ⟨ru, rbf⟩ := r
              simp only [hrm] at hs
              obtain ⟨c1, t1, hreg1, hgt1, hu1, hruid, hS2, hg2, hnone2, hoth2, -⟩ :=
                VC_remove_unit_spec _ hS1 id ru rbf hrm
              have hc1 : c1 = c := by
                have : map_find bf.coordinates id = some c1 := hreg1
                rw [hreg] at this
                exact (Option.some.inj this).symm
              subst hc1
              rw [hg1] at hgt1
              have ht1 : t1 = { t with units := [u.set_coor (x, y)] } :=
                (Option.some.inj hgt1).symm
              have hru : ru = u.set_coor (x, y) := by
                rw [ht1] at hu1
                simp only [List.cons.injEq, and_true] at hu1
                exact hu1.symm
              cases htt : find_tile rbf (x, y) with
              | error e => simp only [htt] at hs; cases hs
              | ok tt =>
                simp only [htt, pure, Except.pure, Except.ok.injEq] at hs
                have hgtt := VC_find_tile_ok _ _ _ htt
                have hemp : tt.units = [] := by
                  by_cases hxy : (x, y) = c1
                  · rw [hxy, hg2] at hgtt
                    rw [← Option.some.inj hgtt]
                  · rw [hoth2 (x, y) hxy] at hgtt
                    have hgbf : gridGet bf.field (x, y) = some tt := by
                      have := gridGet_gridSet_ne bf.field c1 (x, y)
                        (t.set_unit i (u.set_coor (x, y))) (fun e => hxy e)
                      rw [← this]
                      exact hgtt
                    obtain ⟨tt0, hg0, hcase⟩ := VC_move_ok_target bf id (x, y) hres
                    rw [hgbf] at hg0
                    have htt0 : tt = tt0 := Option.some.inj hg0
                    subst htt0
                    rcases hcase with he | ⟨w, hw, hwid⟩
                    · exact he
                    · exfalso
                      have := (h (x, y) tt hgbf).2 w hw
                      rw [hwid, hreg] at this
                      exact hxy (Option.some.inj this).symm
                have hnew : map_find rbf.coordinates ru.id = none := by
                  rw [hruid]; exact hnone2
                have hadd := VC_Single_add rbf hS2 (x, y) tt hemp ru hnew
                rw [← hs]
                have hcoor : ru.coor = (x, y) := by rw [hru]; rfl
                rw [hcoor]
                rw [hruid] at hadd
                exact hadd
          | false =>
            simp only [Bool.false_eq_true, if_false] at hs
            cases hc1 : map_at (set_tile bf c (t.set_unit i (u.set_coor (x, y)))).coordinates
                id with
            | error e => simp only [hc1] at hs; cases hs
            | ok c1 =>
              simp only [hc1] at hs
              cases ht1 : find_tile (set_tile bf c (t.set_unit i (u.set_coor (x, y)))) c1 with
              | error e => simp only [ht1] at hs; cases hs
              | ok t1 =>
                simp only [ht1] at hs
                cases hfo1 : t1.find_one_unit id with
                | error e => simp only [hfo1] at hs; cases hs
                | ok q =>
                  obtain ⟨j, w⟩ := q
                  simp only [hfo1] at hs
                  cases hfull : w.is_effect_full "dead_inside" with
                  | error e => simp only [hfull] at hs; cases hs
                  | ok full =>
                    simp only [hfull] at hs
                    cases full with
                    | true =>
                      simp only [Bool.not_true, Bool.false_eq_true, if_false, pure,
                        Except.pure, Except.ok.injEq] at hs
                      rw [← hs]; exact hS1
                    | false =>
                      simp only [Bool.not_false, if_true, pure, Except.pure,
                        Except.ok.injEq] at hs
                      rw [← hs]
                      have hgt1 := VC_find_tile_ok _ _ _ ht1
                      obtain ⟨hj, -⟩ := VC_find_one_unit_ok t1 id j w hfo1
                      exact (VC_Single_modify _ hS1 c1 t1 hgt1 j w
                        (w.add_effect (DeadInside 1)) hj rfl).1

theorem VC_Single_new (M N : Int) (input : List Int) : Single (BattleField.new M N input) := by
  intro c t hg
  have hunits : t.units = [] := by
    unfold gridGet at hg
    by_cases hc : 0 ≤ c.1 ∧ 0 ≤ c.2
    · rw [if_pos hc] at hg
      cases hrow : (BattleField.new M N input).field[c.1.toNat]? with
      | none => rw [hrow] at hg; cases hg
      | some row =>
        rw [hrow] at hg
        have hmem := List.getElem?_mem hrow
        have hmt := List.getElem?_mem hg
        simp only [BattleField.new, List.mem_map, List.mem_range] at hmem
        obtain ⟨a, -, ha⟩ := hmem
        rw [← ha] at hmt
        simp only [List.mem_map, List.mem_range] at hmt
        obtain ⟨b, -, hb⟩ := hmt
        rw [← hb]
    · rw [if_neg hc] at hg; cases hg
  rw [hunits]
  exact ⟨by simp, fun u hu => by cases hu⟩

theorem VC_Reachable_Single (bf : BattleField) (h : Reachable bf) : Single bf := by
  induction h with
  | init M N input => exact VC_Single_new M N input
  | spawn type id x y _ hs ih => exact VC_Single_spawn _ _ type id x y ih hs
  | move id x y _ hs ih => exact VC_Single_move _ _ id x y ih hs
  | attack id dir _ hs ih => exact VC_Single_attack _ _ id dir ih hs
  | tick nt _ hs ih => exact VC_Single_tick _ _ nt ih hs

theorem VC_gridGet_of_mem {α : Type} (g : List (List α)) (row : List α) (a : α)
    (hrow : row ∈ g) (ha : a ∈ row) : ∃ c, gridGet g c = some a := by
  obtain ⟨i, hi⟩ := List.getElem?_of_mem hrow
  obtain ⟨j, hj⟩ := List.getElem?_of_mem ha
  refine ⟨((i : Int), (j : Int)), ?_⟩
  unfold gridGet
  simp [hi, hj]

end VectorCopy

/-- C30: in the variant whose tiles hold a vector of units no tile ever holds more than
    one unit: in every battle field obtained from a freshly built one by spawn, move,
    attack and tick operations, the unit list of every tile has length at most `1`;
    and in such a field `spawn_unit` on a tile that holds a unit changes nothing, and
    a move to a tile that holds a unit with another id is never found feasible. -/
theorem C30_shared_tile_holds_at_most_one_unit (bf : VectorCopy.BattleField)
    (hreach : VectorCopy.Reachable bf) :
    (∀ row ∈ bf.field, ∀ t ∈ row, t.units.length ≤ 1) ∧
    (∀ (type id : String) (x y : Int) (t : VectorCopy.Tile),
      gridGet bf.field (x, y) = some t → t.units ≠ [] →
      VectorCopy.spawn_unit bf type id x y = .ok bf) ∧
    (∀ (id : String) (target : Vec2i) (tt : VectorCopy.Tile),
      gridGet bf.field target = some tt → (∃ w ∈ tt.units, w.id ≠ id) →
      VectorCopy.is_move_successful bf id target ≠ .ok true) := by
  have hS := VectorCopy.VC_Reachable_Single bf hreach
  refine ⟨?_, ?_, ?_⟩
  · intro row hrow t ht
    obtain ⟨c, hc⟩ := VectorCopy.VC_gridGet_of_mem bf.field row t hrow ht
    exact (hS c t hc).1
  · intro type id x y t hg hne
    unfold VectorCopy.spawn_unit
    by_cases hin : VectorCopy.is_inside_field bf (x, y) = true
    · have hemp : t.is_tile_empty = false := by
        cases hu : t.units with
        | nil => exact absurd hu hne
        | cons w us => simp [VectorCopy.Tile.is_tile_empty, hu]
      simp [hin, VectorCopy.VC_find_tile_of bf (x, y) t hg, hemp, bind, Except.bind]
      rfl
    · simp [hin]
  · intro id target tt hg hw hok
    obtain ⟨w, hwm, hwid⟩ := hw
    obtain ⟨tt0, hg0, hcase⟩ := VectorCopy.VC_move_ok_target bf id target hok
    rw [hg] at hg0
    have htt : tt = tt0 := Option.some.inj hg0
    subst htt
    rcases hcase with he | ⟨u, hu, huid⟩
    · rw [he] at hwm; cases hwm
    · have hlen := (hS target tt hg).1
      cases hl : tt.units with
      | nil => rw [hl] at hwm; cases hwm
      | cons a rest =>
        rw [hl] at hwm hu hlen
        cases rest with
        | nil =>
          simp only [List.mem_singleton] at hwm hu
          rw [hwm] at hwid
          rw [hu] at huid
          exact hwid huid
        | cons b rest => simp at hlen

theorem C30_shared_tile_holds_at_most_one_unit_witness :
    VectorCopy.Reachable VectorCopy.exShared3 ∧
    (∀ row ∈ VectorCopy.exShared3.field, ∀ t ∈ row, t.units.length ≤ 1) ∧
    VectorCopy.spawn_unit VectorCopy.exShared3 "footman" "c" 0 2 = .ok VectorCopy.exShared3 ∧
    VectorCopy.is_move_successful VectorCopy.exShared3 "a" (0, 2) ≠ .ok true :=
  have h1 : VectorCopy.Reachable VectorCopy.exShared1 :=
    VectorCopy.Reachable.spawn "footman" "a" 0 0 (VectorCopy.Reachable.init 1 3 [])
      (by decide)
  have h2 : VectorCopy.Reachable VectorCopy.exShared2 :=
    VectorCopy.Reachable.spawn "knight" "b" 0 2 h1 (by decide)
  have h3 : VectorCopy.Reachable VectorCopy.exShared3 :=
    VectorCopy.Reachable.move "a" 0 2 h2 (by decide)
  ⟨h3, (C30_shared_tile_holds_at_most_one_unit VectorCopy.exShared3 h3).1,
    (C30_shared_tile_holds_at_most_one_unit VectorCopy.exShared3 h3).2.1 "footman" "c" 0 2
      { height := 0, units := [Knight "b" (0, 2)] } (by decide) (by decide),
    (C30_shared_tile_holds_at_most_one_unit VectorCopy.exShared3 h3).2.2 "a" (0, 2)
      { height := 0, units := [Knight "b" (0, 2)] } (by decide)
      ⟨Knight "b" (0, 2), by decide, by decide⟩⟩

/-! ## The battle field at the exit of a call -/

theorem check_lowercase_spec (id : String) :
    check_lowercase id = true ↔ ∀ ch ∈ id.toList, 'a' ≤ ch ∧ ch ≤ 'z' := by
  constructor
  · intro h
    by_contra hcon
    push_neg at hcon
    obtain ⟨ch, hmem, hch⟩ := hcon
    have := check_lowercase_false id
      ⟨ch, hmem, fun hh => absurd hh.2 (not_le.2 (hch hh.1))⟩
    rw [this] at h
    cases h
  · exact check_lowercase_true id

theorem spawn_unit_exit_result (bf : BattleField) (type id : String) (x y : Int) :
    exit_result (spawn_unit_exit bf type id x y).bf (spawn_unit_exit bf type id x y).thrown =
      spawn_unit bf type id x y := by
  unfold spawn_unit_exit spawn_unit
  by_cases hin : is_inside_field bf (x, y) = true
  · simp only [hin, Bool.not_true, Bool.false_eq_true, if_false]
    cases ht : find_tile bf (x, y) with
    | error e => rfl
    | ok t =>
      simp only [bind, Except.bind]
      by_cases hg : (!t.is_tile_empty || map_contains bf.coordinates id) = true
      · simp only [hg, if_true]; rfl
      · simp only [hg, if_false]
        cases hc : create_unit type id (x, y) with
        | error e => rfl
        | ok u =>
          simp only []
          cases ha : t.add_unit u with
          | error e => rfl
          | ok t' => rfl
  · simp only [hin, Bool.not_false, if_true]; rfl

theorem spawn_unit_exit_thrown (bf : BattleField) (type id : String) (x y : Int) (e : Err)
    (h : (spawn_unit_exit bf type id x y).thrown = some e) :
    (spawn_unit_exit bf type id x y).bf = bf := by
  unfold spawn_unit_exit at h ⊢
  by_cases hin : is_inside_field bf (x, y) = true
  · simp only [hin, Bool.not_true, Bool.false_eq_true, if_false] at h ⊢
    cases ht : find_tile bf (x, y) with
    | error e' => rfl
    | ok t =>
      simp only [ht] at h ⊢
      by_cases hg : (!t.is_tile_empty || map_contains bf.coordinates id) = true
      · simp only [hg, if_true]
      · simp only [hg, if_false] at h ⊢
        cases hc : create_unit type id (x, y) with
        | error e' => rfl
        | ok u =>
          simp only [hc] at h ⊢
          have hemp : t.unit.isSome = false := by
            simp only [Bool.or_eq_true, Bool.not_eq_true', not_or, Bool.not_eq_false,
              Tile.is_tile_empty] at hg
            cases hu : t.unit with
            | none => rfl
            | some w => rw [hu] at hg; simp at hg
          simp only [Tile.add_unit, hemp, Bool.false_eq_true, if_false] at h
          cases h
  · simp only [hin, Bool.not_false, if_true]

/-- C32: on a well-formed battle field the `spawn` command (1-based coordinates `x`,
    `y`) raises `Unsupported unit!` if and only if the id consists of lowercase letters
    only, the coordinate is in bounds, the tile is empty, the id is not registered and
    the kind is none of footman, knight, rifleman; it raises no other error; when it
    raises, the battle field at the exit of the call is the battle field at its
    entry; and with an unknown kind and one of the other guards failing it returns the
    battle field unchanged. -/
theorem C32_spawn_raises_iff_guards_pass_and_kind_unknown (bf : BattleField) (hwf : WF bf)
    (type id : String) (x y : Int) :
    (execute_spawn bf type id x y = .error (.runtime_error "Unsupported unit!") ↔
      ((∀ ch ∈ id.toList, 'a' ≤ ch ∧ ch ≤ 'z') ∧
        is_inside_field bf (x - 1, y - 1) = true ∧ unitAt bf (x - 1, y - 1) = none ∧
        map_contains bf.coordinates id = false ∧
        type ≠ "footman" ∧ type ≠ "knight" ∧ type ≠ "rifleman")) ∧
    (∀ e, execute_spawn bf type id x y = .error e → e = .runtime_error "Unsupported unit!") ∧
    exit_result (execute_spawn_exit bf type id x y).bf
        (execute_spawn_exit bf type id x y).thrown = execute_spawn bf type id x y ∧
    (∀ e, (execute_spawn_exit bf type id x y).thrown = some e →
      (execute_spawn_exit bf type id x y).bf = bf) ∧
    ((type ≠ "footman" ∧ type ≠ "knight" ∧ type ≠ "rifleman") →
      ¬ ((∀ ch ∈ id.toList, 'a' ≤ ch ∧ ch ≤ 'z') ∧
        is_inside_field bf (x - 1, y - 1) = true ∧ unitAt bf (x - 1, y - 1) = none ∧
        map_contains bf.coordinates id = false) →
      execute_spawn bf type id x y = .ok bf ∧
        execute_spawn_exit bf type id x y = { bf := bf, thrown := none }) := by
  have hlow := check_lowercase_spec id
  have hcases := spawn_unit_cases bf hwf type id (x - 1) (y - 1)
  have hres := spawn_unit_exit_result bf type id (x - 1) (y - 1)
  have hexit : exit_result (execute_spawn_exit bf type id x y).bf
      (execute_spawn_exit bf type id x y).thrown = execute_spawn bf type id x y := by
    unfold execute_spawn_exit execute_spawn
    by_cases hl : check_lowercase id = true
    · simp only [hl, if_true]; exact hres
    · simp only [hl, Bool.false_eq_true, if_false]; rfl
  have hnoop : ∀ bf', execute_spawn bf type id x y = .ok bf' →
      (execute_spawn_exit bf type id x y).thrown = none ∧
        (execute_spawn_exit bf type id x y).bf = bf' := by
    intro bf' hok
    rw [← hexit] at hok
    cases hth : (execute_spawn_exit bf type id x y).thrown with
    | none => rw [hth] at hok; exact ⟨rfl, by simpa [exit_result] using hok⟩
    | some e => rw [hth] at hok; simp [exit_result] at hok
  refine ⟨?_, ?_, hexit, ?_, ?_⟩
  · constructor
    · intro herr
      unfold execute_spawn at herr
      by_cases hl : check_lowercase id = true
      · simp only [hl, if_true] at herr
        rcases hcases with ⟨-, hok⟩ | ⟨hin, hemp, hid, heq⟩
        · rw [hok] at herr; cases herr
        · refine ⟨hlow.mp hl, hin, hemp, hid, ?_⟩
          rw [heq] at herr
          cases hc : create_unit type id (x - 1, y - 1) with
          | ok u => rw [hc] at herr; cases herr
          | error e => exact (create_unit_error type id _ e hc).2
      · simp only [hl, Bool.false_eq_true, if_false] at herr
        cases herr
    · rintro ⟨hl, hin, hemp, hid, hkind⟩
      unfold execute_spawn
      rw [if_pos (hlow.mpr hl)]
      rcases hcases with ⟨hg, -⟩ | ⟨-, -, -, heq⟩
      · rcases hg with hg | hg | hg
        · rw [hin] at hg; cases hg
        · rw [hemp] at hg; cases hg
        · rw [hid] at hg; cases hg
      · rw [heq, create_unit_unknown type id _ hkind]
  · intro e herr
    unfold execute_spawn at herr
    by_cases hl : check_lowercase id = true
    · simp only [hl, if_true] at herr
      exact spawn_unit_error bf hwf type id _ _ e herr
    · simp only [hl, Bool.false_eq_true, if_false] at herr
      cases herr
  · intro e hth
    unfold execute_spawn_exit at hth ⊢
    by_cases hl : check_lowercase id = true
    · simp only [hl, if_true] at hth ⊢
      exact spawn_unit_exit_thrown bf type id _ _ e hth
    · simp only [hl, Bool.false_eq_true, if_false]
  · intro hkind hng
    have hok : execute_spawn bf type id x y = .ok bf := by
      unfold execute_spawn
      by_cases hl : check_lowercase id = true
      · rw [if_pos hl]
        rcases hcases with ⟨-, hok⟩ | ⟨hin, hemp, hid, -⟩
        · exact hok
        · exact absurd ⟨hlow.mp hl, hin, hemp, hid⟩ hng
      · simp only [hl, Bool.false_eq_true, if_false]
    refine ⟨hok, ?_⟩
    obtain ⟨h1, h2⟩ := hnoop bf hok
    cases hx : execute_spawn_exit bf type id x y with
    | mk b t =>
      rw [hx] at h1 h2
      simp only at h1 h2
      rw [h1, h2]

theorem C32_spawn_raises_iff_guards_pass_and_kind_unknown_witness :
    WF exTwo ∧
    execute_spawn exTwo "dragon" "c" 1 2 = .error (.runtime_error "Unsupported unit!") ∧
    execute_spawn_exit exTwo "dragon" "c" 1 2 =
      { bf := exTwo, thrown := some (.runtime_error "Unsupported unit!") } ∧
    execute_spawn exTwo "dragon" "a" 1 2 = .ok exTwo :=
  ⟨by decide,
    (C32_spawn_raises_iff_guards_pass_and_kind_unknown exTwo (by decide) "dragon" "c" 1 2).1.mpr
      ⟨by decide, by decide, by decide, by decide, by decide, by decide, by decide⟩,
    by decide,
    ((C32_spawn_raises_iff_guards_pass_and_kind_unknown exTwo (by decide) "dragon" "a" 1 2).2.2.2.2
      ⟨by decide, by decide, by decide⟩ (by decide)).1⟩

/-! ## Units on a reachable battle field are units of the catalog -/

theorem create_unit_catalog (type id : String) (coor : Vec2i) (u : Unit)
    (h : create_unit type id coor = .ok u) : Catalog u := by
  unfold create_unit at h
  split_ifs at h <;> cases h
  · exact ⟨rfl, rfl, Or.inl ⟨rfl, rfl, rfl, rfl, rfl, rfl, rfl⟩⟩
  · exact ⟨rfl, rfl, Or.inr (Or.inl ⟨rfl, rfl, rfl, rfl, rfl, rfl, rfl⟩)⟩
  · exact ⟨rfl, rfl, Or.inr (Or.inr ⟨rfl, rfl, rfl, rfl, rfl, rfl, rfl⟩)⟩

theorem UnitStep_catalog (dt : Int) (u u' : Unit) (h : Catalog u) (hs : UnitStep dt u u') :
    Catalog u' := by
  cases hs with
  | same => exact h
  | moved t => exact h
  | penalty t hz => exact h
  | hit dmg hd hpos => exact h
  | tick _ hdt hr =>
    obtain ⟨-, hu'⟩ := tick_result_some u u' dt hr
    subst hu'
    exact h

/-- In every reachable state every unit is a unit of the catalog. -/
theorem Reachable_catalog (bf : BattleField) (h : Reachable bf) :
    ∀ c u, unitAt bf c = some u → Catalog u := by
  have hstep : ∀ b b', Reachable b → (∀ c u, unitAt b c = some u → Catalog u) →
      Transition b b' → ∀ c u, unitAt b' c = some u → Catalog u := by
    intro b b' hr hall ht c' u' hu'
    have hinv := Reachable_Inv b hr
    have hinv' := Reachable_Inv b' (Transition_reachable b b' hr ht)
    have hfacts := Transition_facts b b' hinv ht
    have hreg' := hinv'.reg c' u' hu'
    cases hf : map_find b.coordinates u'.id with
    | none =>
      obtain ⟨type, hc⟩ := hfacts.fresh u'.id c' u' hf hreg' hu'
      exact create_unit_catalog _ _ _ _ hc
    | some c =>
      obtain ⟨u, hu, -⟩ := hinv.entry u'.id c hf
      rcases hfacts.forward u'.id c u hf hu with ⟨hnone, -⟩ | ⟨c'', u'', h1, h2, h3⟩
      · rw [hnone] at hreg'
        cases hreg'
      · rw [hreg'] at h1
        cases h1
        rw [hu'] at h2
        cases h2
        exact UnitStep_catalog _ u u' (hall c u hu) h3
  induction h with
  | init M N input =>
    intro c u hu
    rw [unitAt_new] at hu
    cases hu
  | spawn type id x y hr hs ih => exact hstep _ _ hr ih (Transition.spawn type id x y hs)
  | move id x y hr hs ih => exact hstep _ _ hr ih (Transition.move id x y hs)
  | attack id dir hr hs ih => exact hstep _ _ hr ih (Transition.attack id dir hs)
  | tick nt hr hlt hle hs ih => exact hstep _ _ hr ih (Transition.tick nt hlt hle hs)

theorem Catalog_distance_pos (u : Unit) (h : Catalog u) : 1 ≤ u.attack_distance := by
  rcases h.2.2 with h | h | h
  · rw [h.2.2.2.2.2.1]
  · rw [h.2.2.2.2.2.1]
  · rw [h.2.2.2.2.2.1]; decide

/-- The direction vectors of the default direction map: the four cardinal vectors. -/
theorem default_directions_cases (dir : String) (v : Vec2i)
    (h : map_find default_directions dir = some v) :
    v = (1, 0) ∨ v = (0, -1) ∨ v = (0, 1) ∨ v = (-1, 0) := by
  have hm := map_find_mem _ _ _ h
  simp only [default_directions, List.mem_cons, Prod.mk.injEq, List.mem_singleton,
    List.not_mem_nil, or_false] at hm
  rcases hm with ⟨-, h⟩ | ⟨-, h⟩ | ⟨-, h⟩ | ⟨-, h⟩
  · exact Or.inl h
  · exact Or.inr (Or.inl h)
  · exact Or.inr (Or.inr (Or.inl h))
  · exact Or.inr (Or.inr (Or.inr h))

/-! ## The exit embedding agrees with the state-passing embedding -/

theorem remove_unit_exit_result (bf : BattleField) (id : String) :
    remove_unit bf id =
      match remove_unit_exit bf id with
      | (bf', .ok u) => .ok (u, bf')
      | (_, .error e) => .error e := by
  unfold remove_unit remove_unit_exit
  cases hc : map_at bf.coordinates id with
  | error e => rfl
  | ok c =>
    simp only [bind, Except.bind]
    cases ht : find_tile bf c with
    | error e => rfl
    | ok t =>
      simp only []
      cases hr : t.remove_unit with
      | error e => rfl
      | ok r => rfl

theorem initialize_attack_exit_result (bf : BattleField) (id : String) (dir : Vec2i) :
    initialize_attack bf id dir =
      match initialize_attack_exit bf id dir with
      | (bf', .ok b) => .ok (b, bf')
      | (_, .error e) => .error e := by
  unfold initialize_attack initialize_attack_exit
  cases hc : map_at bf.coordinates id with
  | error e => rfl
  | ok c =>
    simp only [bind, Except.bind]
    cases htv : find_tile bf (c.add dir) with
    | error e => rfl
    | ok tv =>
      simp only []
      by_cases hemp : tv.is_tile_empty = true
      · simp only [hemp, if_true]; rfl
      · simp only [hemp, Bool.false_eq_true, if_false]
        cases hv : tv.find_unit with
        | error e => rfl
        | ok p_victim =>
          simp only []
          cases hta : find_tile bf c with
          | error e => rfl
          | ok ta =>
            simp only []
            cases ha : ta.find_unit with
            | error e => rfl
            | ok p_attacker =>
              simp only []
              by_cases hr : |calculate_height_diff ta tv| > p_attacker.attack_range
              · simp only [hr, if_true]; rfl
              · simp only [hr, if_false]
                by_cases hd : (p_victim.take_damage
                    (if p_attacker.attack_dmg + calculate_height_diff ta tv < 0 then 0
                     else p_attacker.attack_dmg + calculate_height_diff ta tv)).hp ≤ 0
                · simp only [hd, if_true]
                  rw [remove_unit_exit_result]
                  rcases remove_unit_exit _ _ with ⟨b2, r⟩
                  cases r with
                  | error e => rfl
                  | ok u => rfl
                · simp only [hd, if_false]; rfl

theorem initialize_attack_exit_of_ok (bf : BattleField) (id : String) (dir : Vec2i)
    (b : Bool) (bf' : BattleField) (h : initialize_attack bf id dir = .ok (b, bf')) :
    initialize_attack_exit bf id dir = (bf', .ok b) := by
  rw [initialize_attack_exit_result] at h
  rcases hx : initialize_attack_exit bf id dir with ⟨b2, r⟩
  rw [hx] at h
  cases r with
  | error e => cases h
  | ok b' =>
    simp only [Except.ok.injEq, Prod.mk.injEq] at h
    rw [h.1, h.2]

theorem attack_loop_trace_result (id dir : String) (a : Unit) :
    ∀ (n : Nat) (i : Int) (k : Nat) (bf : BattleField),
      exit_result (attack_loop_trace id dir a n i k bf).bf
        (attack_loop_trace id dir a n i k bf).thrown = attack_loop id dir a n i bf := by
  intro n
  induction n with
  | zero => intro i k bf; rfl
  | succ n ih =>
    intro i k bf
    unfold attack_loop_trace attack_loop
    cases hc : map_at bf.coordinates id with
    | error e => rfl
    | ok c =>
      simp only [bind, Except.bind]
      cases hv : map_at a.attack_directions dir with
      | error e => rfl
      | ok v =>
        simp only []
        by_cases hin : is_inside_field bf (c.add (v.mul i)) = true
        · simp only [hin, Bool.not_true, Bool.false_eq_true, if_false]
          rw [initialize_attack_exit_result]
          rcases initialize_attack_exit bf id (v.mul i) with ⟨b1, r⟩
          cases r with
          | error e => rfl
          | ok b =>
            cases b with
            | true => rfl
            | false => exact ih (i + 1) (k + 1) b1
        · simp only [hin, Bool.not_false, if_true]; rfl

theorem attack_unit_trace_result (bf : BattleField) (id dir : String) :
    exit_result (attack_unit_trace bf id dir).bf (attack_unit_trace bf id dir).thrown =
      attack_unit bf id dir := by
  unfold attack_unit_trace attack_unit
  by_cases hcon : map_contains bf.coordinates id = true
  · simp only [hcon, Bool.not_true, Bool.false_eq_true, if_false]
    cases hc : map_at bf.coordinates id with
    | error e => rfl
    | ok c =>
      simp only [bind, Except.bind]
      cases ht : find_tile bf c with
      | error e => rfl
      | ok t =>
        simp only []
        cases ha : t.find_unit with
        | error e => rfl
        | ok a => exact attack_loop_trace_result id dir a _ 1 0 bf
  · simp only [hcon, Bool.not_false, if_true]; rfl

/-- The trace of `attack_unit` for a registered attacker. -/
theorem attack_unit_trace_eq (bf : BattleField) (hwf : WF bf) (id dir : String) (c : Vec2i)
    (a : Unit) (hf : map_find bf.coordinates id = some c) (ha : unitAt bf c = some a) :
    attack_unit_trace bf id dir =
      attack_loop_trace id dir a a.attack_distance.toNat 1 0 bf := by
  obtain ⟨h1, h2, -⟩ := find_tile_unit bf hwf c a ha
  have hcon : map_contains bf.coordinates id = true := by
    rw [map_contains_eq_true]; exact ⟨c, hf⟩
  unfold attack_unit_trace
  simp [hcon, map_at_of_find _ _ _ hf, h1, Tile.find_unit, h2]

theorem initialize_attack_false (bf : BattleField) (id : String) (dir : Vec2i)
    (bf' : BattleField) (h : initialize_attack bf id dir = .ok (false, bf')) : bf' = bf := by
  unfold initialize_attack at h
  cases hc : map_at bf.coordinates id with
  | error e => simp only [hc, bind, Except.bind] at h; cases h
  | ok c =>
    simp only [hc, bind, Except.bind] at h
    cases htv : find_tile bf (c.add dir) with
    | error e => simp only [htv] at h; cases h
    | ok tv =>
      simp only [htv] at h
      by_cases hemp : tv.is_tile_empty = true
      · simp only [hemp, if_true, pure, Except.pure, Except.ok.injEq, Prod.mk.injEq,
          true_and] at h
        exact h.symm
      · simp only [hemp, Bool.false_eq_true, if_false] at h
        cases hv : tv.find_unit with
        | error e => simp only [hv] at h; cases h
        | ok p_victim =>
          simp only [hv] at h
          cases hta : find_tile bf c with
          | error e => simp only [hta] at h; cases h
          | ok ta =>
            simp only [hta] at h
            cases ha : ta.find_unit with
            | error e => simp only [ha] at h; cases h
            | ok p_attacker =>
              simp only [ha] at h
              by_cases hr : |calculate_height_diff ta tv| > p_attacker.attack_range
              · simp only [hr, if_true, pure, Except.pure, Except.ok.injEq, Prod.mk.injEq,
                  true_and] at h
                exact h.symm
              · simp only [hr, if_false] at h
                split_ifs at h <;>
                  first
                  | (split at h
                     · cases h
                     · simp only [pure, Except.pure, Except.ok.injEq, Prod.mk.injEq] at h
                       exact absurd h.1 (by simp))
                  | (simp only [pure, Except.pure, Except.ok.injEq, Prod.mk.injEq] at h
                     exact absurd h.1 (by simp))

/-! ## The attack loop: the first cell that stops it, and the number of probes -/

/-- The loop of `attack_unit` returns, and it either leaves the battle field as it is or
    resolves on the first probed cell that is occupied and within height range, every
    probe before it lying inside the field and being passed over. -/
theorem attack_loop_first (bf : BattleField) (hwf : WF bf) (hcons : Consistent bf)
    (id dir : String) (c : Vec2i) (a : Unit) (v : Vec2i)
    (hf : map_find bf.coordinates id = some c) (ha : unitAt bf c = some a)
    (hdir : map_find a.attack_directions dir = some v) :
    ∀ (n : Nat) (i : Int), ∃ bf', attack_loop id dir a n i bf = .ok bf' ∧
      (bf' = bf ∨ ∃ (k : Int) (w : Unit), i ≤ k ∧ k < i + n ∧
        (∀ j : Int, i ≤ j → j < k → is_inside_field bf (probe c v j) = true ∧
          (unitAt bf (probe c v j) = none ∨
            |(tileD bf c).height - (tileD bf (probe c v j)).height| > a.attack_range)) ∧
        unitAt bf (probe c v k) = some w ∧
        |(tileD bf c).height - (tileD bf (probe c v k)).height| ≤ a.attack_range ∧
        bf' = damaged bf (probe c v k) w
          (attack_damage a.attack_dmg (tileD bf c).height (tileD bf (probe c v k)).height)) := by
  intro n
  induction n with
  | zero => intro i; exact ⟨bf, by rw [attack_loop], Or.inl rfl⟩
  | succ n ih =>
    intro i
    have hpass : is_inside_field bf (probe c v i) = true →
        (unitAt bf (probe c v i) = none ∨
          |(tileD bf c).height - (tileD bf (probe c v i)).height| > a.attack_range) →
        ∃ bf', attack_loop id dir a (n + 1) i bf = .ok bf' ∧
          (bf' = bf ∨ ∃ (k : Int) (w : Unit), i ≤ k ∧ k < i + ((n + 1 : Nat) : Int) ∧
            (∀ j : Int, i ≤ j → j < k → is_inside_field bf (probe c v j) = true ∧
              (unitAt bf (probe c v j) = none ∨
                |(tileD bf c).height - (tileD bf (probe c v j)).height| > a.attack_range)) ∧
            unitAt bf (probe c v k) = some w ∧
            |(tileD bf c).height - (tileD bf (probe c v k)).height| ≤ a.attack_range ∧
            bf' = damaged bf (probe c v k) w
              (attack_damage a.attack_dmg (tileD bf c).height
                (tileD bf (probe c v k)).height)) := by
      intro hin hp
      rw [attack_loop_pass bf hwf id dir c a v hf ha hdir n i hin hp]
      obtain ⟨bf', hok, hres⟩ := ih (i + 1)
      refine ⟨bf', hok, ?_⟩
      rcases hres with h | ⟨k, w, hk1, hk2, hbefore, hw, hr, hbf⟩
      · exact Or.inl h
      · refine Or.inr ⟨k, w, by omega, by push_cast; omega, ?_, hw, hr, hbf⟩
        intro j hj1 hj2
        by_cases hji : j = i
        · rw [hji]; exact ⟨hin, hp⟩
        · exact hbefore j (by omega) hj2
    by_cases hin : is_inside_field bf (probe c v i) = true
    · cases hw : unitAt bf (probe c v i) with
      | none => exact hpass hin (Or.inl hw)
      | some w =>
        by_cases hr : |(tileD bf c).height - (tileD bf (probe c v i)).height| ≤ a.attack_range
        · refine ⟨_, attack_loop_hit bf hwf hcons id dir c a v hf ha hdir n i w hw hr,
            Or.inr ⟨i, w, le_refl _, by push_cast; omega, ?_, hw, hr, rfl⟩⟩
          intro j hj1 hj2
          omega
        · exact hpass hin (Or.inr (lt_of_not_ge hr))
    · have hout : is_inside_field bf (probe c v i) = false := by simpa using hin
      exact ⟨bf, attack_loop_outside bf id dir c a v hf hdir n i hout, Or.inl rfl⟩

theorem attack_loop_trace_pass (bf : BattleField) (hwf : WF bf) (id dir : String) (c : Vec2i)
    (a : Unit) (v : Vec2i) (hf : map_find bf.coordinates id = some c)
    (ha : unitAt bf c = some a) (hdir : map_find a.attack_directions dir = some v)
    (n : Nat) (i : Int) (k : Nat) (hin : is_inside_field bf (probe c v i) = true)
    (hpass : unitAt bf (probe c v i) = none ∨
      |(tileD bf c).height - (tileD bf (probe c v i)).height| > a.attack_range) :
    attack_loop_trace id dir a (n + 1) i k bf =
      attack_loop_trace id dir a n (i + 1) (k + 1) bf := by
  have hinit : initialize_attack bf id (v.mul i) = .ok (false, bf) := by
    cases hu : unitAt bf (probe c v i) with
    | none => exact initialize_attack_empty bf hwf id c hf _ hin hu
    | some w =>
      rcases hpass with hp | hp
      · rw [hu] at hp; simp at hp
      · exact initialize_attack_out_of_range bf hwf id c a hf ha _ w hu hp
  have hexit := initialize_attack_exit_of_ok bf id _ _ _ hinit
  unfold probe at hin
  rw [attack_loop_trace]
  simp [map_at, hf, hdir, hin, hexit]

theorem attack_loop_trace_outside (bf : BattleField) (id dir : String) (c : Vec2i)
    (a : Unit) (v : Vec2i) (hf : map_find bf.coordinates id = some c)
    (hdir : map_find a.attack_directions dir = some v)
    (n : Nat) (i : Int) (k : Nat) (hout : is_inside_field bf (probe c v i) = false) :
    attack_loop_trace id dir a (n + 1) i k bf = { bf := bf, thrown := none, probes := k + 1 } := by
  unfold probe at hout
  rw [attack_loop_trace]
  simp [map_at, hf, hdir, hout]

theorem attack_loop_trace_hit (bf : BattleField) (hwf : WF bf) (hcons : Consistent bf)
    (id dir : String) (c : Vec2i)
    (a : Unit) (v : Vec2i) (hf : map_find bf.coordinates id = some c)
    (ha : unitAt bf c = some a) (hdir : map_find a.attack_directions dir = some v)
    (n : Nat) (i : Int) (k : Nat) (w : Unit) (hw : unitAt bf (probe c v i) = some w)
    (hr : |(tileD bf c).height - (tileD bf (probe c v i)).height| ≤ a.attack_range) :
    attack_loop_trace id dir a (n + 1) i k bf =
      { bf := damaged bf (probe c v i) w
          (attack_damage a.attack_dmg (tileD bf c).height (tileD bf (probe c v i)).height),
        thrown := none, probes := k + 1 } := by
  have hin := inside_of_unitAt bf hwf _ w hw
  have hinit := initialize_attack_hit bf hwf hcons id c a hf ha (v.mul i) w hw hr
  have hexit := initialize_attack_exit_of_ok bf id _ _ _ hinit
  unfold probe at hin
  rw [attack_loop_trace]
  simp only [map_at, hf, hdir, hin, hexit, Bool.not_true, Bool.false_eq_true, if_false]
  rfl

/-- A probe at a multiple `i ≥ max(M, N)` of a non-zero direction vector lies outside
    the field. -/
theorem probe_outside (bf : BattleField) (c v : Vec2i) (hc : is_inside_field bf c = true)
    (hv : v ≠ (0, 0)) (i : Int) (hi : max bf.M bf.N ≤ i) :
    is_inside_field bf (probe c v i) = false := by
  by_contra hcon
  have hin : is_inside_field bf (probe c v i) = true := by simpa using hcon
  rw [is_inside_field_iff] at hc hin
  obtain ⟨h1, h2, h3, h4⟩ := hc
  obtain ⟨p1, p2, p3, p4⟩ := hin
  have hM : bf.M ≤ i := le_trans (le_max_left _ _) hi
  have hN : bf.N ≤ i := le_trans (le_max_right _ _) hi
  simp only [probe, Vec2i.add, Vec2i.mul] at p1 p2 p3 p4
  by_cases hv1 : v.1 = 0
  · have hv2 : v.2 ≠ 0 := by
      intro h0
      apply hv
      exact Prod.ext hv1 h0
    rcases lt_or_gt_of_ne hv2 with hneg | hpos
    · have : v.2 * i ≤ -1 * i := by
        apply mul_le_mul_of_nonneg_right _ (by omega)
        omega
      omega
    · have : 1 * i ≤ v.2 * i := by
        apply mul_le_mul_of_nonneg_right _ (by omega)
        omega
      omega
  · rcases lt_or_gt_of_ne hv1 with hneg | hpos
    · have : v.1 * i ≤ -1 * i := by
        apply mul_le_mul_of_nonneg_right _ (by omega)
        omega
      omega
    · have : 1 * i ≤ v.1 * i := by
        apply mul_le_mul_of_nonneg_right _ (by omega)
        omega
      omega

/-- The loop of `attack_unit` raises no exception and makes at most `max(M, N) - i + 1`
    further probes when it stands at the multiple `i`. -/
theorem attack_loop_trace_bound (bf : BattleField) (hwf : WF bf) (hcons : Consistent bf)
    (id dir : String) (c : Vec2i) (a : Unit) (v : Vec2i)
    (hf : map_find bf.coordinates id = some c) (ha : unitAt bf c = some a)
    (hdir : map_find a.attack_directions dir = some v) (hv : v ≠ (0, 0)) :
    ∀ (n : Nat) (i : Int) (k : Nat), 1 ≤ i → i ≤ max bf.M bf.N →
      (attack_loop_trace id dir a n i k bf).thrown = none ∧
      (attack_loop_trace id dir a n i k bf).probes ≤ k + (max bf.M bf.N - i + 1).toNat := by
  have hcin := inside_of_unitAt bf hwf c a ha
  intro n
  induction n with
  | zero =>
    intro i k _ _
    exact ⟨rfl, Nat.le_add_right _ _⟩
  | succ n ih =>
    intro i k hi1 hi2
    have hone : 1 ≤ (max bf.M bf.N - i + 1).toNat := by omega
    by_cases hin : is_inside_field bf (probe c v i) = true
    · have hlt : i < max bf.M bf.N := by
        by_contra hge
        have := probe_outside bf c v hcin hv i (not_lt.mp hge)
        rw [this] at hin
        cases hin
      have hnext : ∀ hp : (unitAt bf (probe c v i) = none ∨
          |(tileD bf c).height - (tileD bf (probe c v i)).height| > a.attack_range),
          (attack_loop_trace id dir a (n + 1) i k bf).thrown = none ∧
          (attack_loop_trace id dir a (n + 1) i k bf).probes ≤
            k + (max bf.M bf.N - i + 1).toNat := by
        intro hp
        rw [attack_loop_trace_pass bf hwf id dir c a v hf ha hdir n i k hin hp]
        obtain ⟨h1, h2⟩ := ih (i + 1) (k + 1) (by omega) (by omega)
        refine ⟨h1, le_trans h2 ?_⟩
        omega
      cases hw : unitAt bf (probe c v i) with
      | none => exact hnext (Or.inl hw)
      | some w =>
        by_cases hr : |(tileD bf c).height - (tileD bf (probe c v i)).height| ≤ a.attack_range
        · rw [attack_loop_trace_hit bf hwf hcons id dir c a v hf ha hdir n i k w hw hr]
          exact ⟨rfl, by simp only; omega⟩
        · exact hnext (Or.inr (lt_of_not_ge hr))
    · have hout : is_inside_field bf (probe c v i) = false := by simpa using hin
      rw [attack_loop_trace_outside bf id dir c a v hf hdir n i k hout]
      exact ⟨rfl, by simp only; omega⟩

/-- What `damaged` leaves as it is. -/
theorem damaged_frame (bf : BattleField) (p : Vec2i) (w : Unit) (dmg : Int) :
    (damaged bf p w dmg).time = bf.time ∧ (damaged bf p w dmg).M = bf.M ∧
    (damaged bf p w dmg).N = bf.N ∧
    (∀ c', (tileD (damaged bf p w dmg) c').height = (tileD bf c').height) ∧
    (∀ id', id' ≠ w.id →
      map_find (damaged bf p w dmg).coordinates id' = map_find bf.coordinates id') := by
  unfold damaged
  split_ifs with hd
  · refine ⟨rfl, rfl, rfl, fun c' => height_putUnit bf p c' none, ?_⟩
    intro id' hne
    show map_find (map_erase bf.coordinates w.id) id' = _
    rw [map_find_erase, if_neg hne]
  · exact ⟨rfl, rfl, rfl, fun c' => height_putUnit bf p c' _, fun _ _ => rfl⟩

theorem probe_ne_self (c v : Vec2i) (k : Int) (hk : 1 ≤ k)
    (hv : v = (1, 0) ∨ v = (0, -1) ∨ v = (0, 1) ∨ v = (-1, 0)) : probe c v k ≠ c := by
  intro h
  have h1 := congrArg Prod.fst h
  have h2 := congrArg Prod.snd h
  simp only [probe, Vec2i.add, Vec2i.mul] at h1 h2
  rcases hv with rfl | rfl | rfl | rfl <;> simp only at h1 h2 <;> omega

theorem exRifle_reachable : Reachable exRifle :=
  Reachable.spawn "footman" "b" 0 2
    (Reachable.spawn "rifleman" "a" 0 0 (Reachable.init 1 3 [0, 0, 0])
      (show spawn_unit (BattleField.new 1 3 [0, 0, 0]) "rifleman" "a" 0 0 = .ok
        { M := 1, N := 3, time := 0,
          field := [[{ height := 0, unit := some (Rifleman "a" (0, 0)) },
                     { height := 0, unit := none }, { height := 0, unit := none }]],
          coordinates := [("a", (0, 0))] } by decide))
    (by decide)

/-- An attack in a direction that the attacker's direction map does not hold raises
    `std::out_of_range` in the first iteration, before any probe and any assignment. -/
theorem attack_unit_unknown_direction (bf : BattleField) (hwf : WF bf) (id dir : String)
    (c : Vec2i) (a : Unit) (hf : map_find bf.coordinates id = some c)
    (ha : unitAt bf c = some a) (hdist : 1 ≤ a.attack_distance)
    (hdir : map_find a.attack_directions dir = none) :
    attack_unit bf id dir = .error .out_of_range ∧
    attack_unit_trace bf id dir = { bf := bf, thrown := some .out_of_range, probes := 0 } := by
  obtain ⟨n, hn⟩ : ∃ n, a.attack_distance.toNat = n + 1 :=
    ⟨a.attack_distance.toNat - 1, by omega⟩
  constructor
  · rw [attack_unit_eq bf hwf id dir c a hf ha, hn, attack_loop]
    simp [map_at, hf, hdir, bind, Except.bind]
  · rw [attack_unit_trace_eq bf hwf id dir c a hf ha, hn, attack_loop_trace]
    simp [map_at, hf, hdir]

/-- C33: on a reachable battle field whose height differences fit a C++ `int`, the
    attacker is a unit of the catalog: a footman or a knight has attack distance `1`,
    so that only the adjacent cell is probed, and for a rifleman the height-range
    check fails at no cell of the field; hence an attack of a registered unit in a
    direction of its set returns, and it either changes nothing or resolves on the
    first occupied cell along the direction (every probe before it is inside the field
    and empty), changing the occupant of that cell only. -/
theorem C33_catalog_attack_stops_at_first_occupied_cell (bf : BattleField)
    (hreach : Reachable bf) (hfit : HeightsFit bf) (id dir : String) (c : Vec2i) (a : Unit)
    (hf : map_find bf.coordinates id = some c) (ha : unitAt bf c = some a) :
    Catalog a ∧
    (((a.type = "footman" ∨ a.type = "knight") ∧ a.attack_distance = 1 ∧
        attack_unit bf id dir = attack_loop id dir a 1 1 bf) ∨
      (a.type = "rifleman" ∧ a.attack_range = INT_MAX ∧
        ∀ c', is_inside_field bf c' = true →
          ¬ (|calculate_height_diff (tileD bf c) (tileD bf c')| > a.attack_range))) ∧
    ((map_find a.attack_directions dir = none ∧ attack_unit bf id dir = .error .out_of_range) ∨
      ∃ v bf', map_find a.attack_directions dir = some v ∧ attack_unit bf id dir = .ok bf' ∧
        (bf' = bf ∨ ∃ (k : Int) (w : Unit), 1 ≤ k ∧ k ≤ a.attack_distance ∧
          (∀ j : Int, 1 ≤ j → j < k →
            is_inside_field bf (probe c v j) = true ∧ unitAt bf (probe c v j) = none) ∧
          unitAt bf (probe c v k) = some w ∧
          bf' = damaged bf (probe c v k) w
            (attack_damage a.attack_dmg (tileD bf c).height (tileD bf (probe c v k)).height) ∧
          ∀ c', c' ≠ probe c v k → unitAt bf' c' = unitAt bf c')) := by
  have hinv := Reachable_Inv bf hreach
  have hcat := Reachable_catalog bf hreach c a ha
  have hcin := inside_of_unitAt bf hinv.wf c a ha
  have hdist := Catalog_distance_pos a hcat
  have heq := attack_unit_eq bf hinv.wf id dir c a hf ha
  have hkind : ((a.type = "footman" ∨ a.type = "knight") ∧ a.attack_distance = 1) ∨
      (a.type = "rifleman" ∧ a.attack_range = INT_MAX) := by
    rcases hcat.2.2 with h | h | h
    · exact Or.inl ⟨Or.inl h.1, h.2.2.2.2.2.1⟩
    · exact Or.inl ⟨Or.inr h.1, h.2.2.2.2.2.1⟩
    · exact Or.inr ⟨h.1, h.2.2.2.2.2.2⟩
  refine ⟨hcat, ?_, ?_⟩
  · rcases hkind with ⟨hk, hd⟩ | ⟨hk, hr⟩
    · left
      refine ⟨hk, hd, ?_⟩
      rw [heq, hd]
      rfl
    · right
      refine ⟨hk, hr, ?_⟩
      intro c' hc'
      rw [hr]
      exact not_lt.mpr (HeightsFit_inside bf hinv.wf hfit c c' hcin hc')
  · cases hdir : map_find a.attack_directions dir with
    | none =>
      left
      exact ⟨rfl, (attack_unit_unknown_direction bf hinv.wf id dir c a hf ha hdist hdir).1⟩
    | some v =>
      right
      obtain ⟨bf', hok, hres⟩ := attack_loop_first bf hinv.wf hinv.cons id dir c a v hf ha hdir
        a.attack_distance.toNat 1
      refine ⟨v, bf', rfl, by rw [heq]; exact hok, ?_⟩
      rcases hres with h | ⟨k, w, hk1, hk2, hbefore, hw, -, hbf⟩
      · exact Or.inl h
      · right
        have hpin := inside_of_unitAt bf hinv.wf _ w hw
        refine ⟨k, w, hk1, by omega, ?_, hw, hbf, ?_⟩
        · intro j hj1 hj2
          obtain ⟨hjin, hj⟩ := hbefore j hj1 hj2
          refine ⟨hjin, ?_⟩
          rcases hj with hj | hj
          · exact hj
          · exfalso
            rcases hkind with ⟨-, hd⟩ | ⟨-, hr⟩
            · omega
            · have := HeightsFit_inside bf hinv.wf hfit c (probe c v j) hcin hjin
              rw [hr] at hj
              exact absurd hj (not_lt.mpr this)
        · intro c' hne
          rw [hbf, unitAt_damaged bf hinv.wf _ c' w _ hpin, if_neg hne]

theorem C33_catalog_attack_stops_at_first_occupied_cell_witness :
    Reachable exRifle ∧ HeightsFit exRifle ∧
    map_find exRifle.coordinates "a" = some (0, 0) ∧
    unitAt exRifle (0, 0) = some (Rifleman "a" (0, 0)) ∧
    attack_unit exRifle "a" "right" = .ok (damaged exRifle (0, 2) (Footman "b" (0, 2)) 3) ∧
    Catalog (Rifleman "a" (0, 0)) :=
  ⟨exRifle_reachable, by decide, by decide, by decide, by decide,
    (C33_catalog_attack_stops_at_first_occupied_cell exRifle exRifle_reachable (by decide)
      "a" "right" (0, 0) (Rifleman "a" (0, 0)) (by decide) (by decide)).1⟩

/-- C34: for a registered attacker and a direction of its set with a non-zero vector, on
    an `M x N` field the probe at every multiple `i ≥ max(M, N)` lies outside the field;
    so `attack_unit` returns without an exception after at most `max(M, N)` probes,
    whatever the attack distance (`INT_MAX` for a rifleman). -/
theorem C34_attack_ends_within_max_dimension_probes (bf : BattleField) (hwf : WF bf)
    (hcons : Consistent bf) (id dir : String) (c : Vec2i) (a : Unit) (v : Vec2i)
    (hf : map_find bf.coordinates id = some c) (ha : unitAt bf c = some a)
    (hdir : map_find a.attack_directions dir = some v) (hv : v ≠ (0, 0)) :
    (∀ i : Int, max bf.M bf.N ≤ i → is_inside_field bf (probe c v i) = false) ∧
    (attack_unit_trace bf id dir).thrown = none ∧
    attack_unit bf id dir = .ok (attack_unit_trace bf id dir).bf ∧
    (attack_unit_trace bf id dir).probes ≤ (max bf.M bf.N).toNat := by
  have hcin := inside_of_unitAt bf hwf c a ha
  have hM : 1 ≤ max bf.M bf.N := by
    rw [is_inside_field_iff] at hcin
    have := le_max_left bf.M bf.N
    omega
  have htr := attack_unit_trace_eq bf hwf id dir c a hf ha
  obtain ⟨h1, h2⟩ := attack_loop_trace_bound bf hwf hcons id dir c a v hf ha hdir hv
    a.attack_distance.toNat 1 0 (le_refl _) hM
  have hres := attack_unit_trace_result bf id dir
  rw [htr] at hres ⊢
  refine ⟨probe_outside bf c v hcin hv, h1, ?_, ?_⟩
  · rw [← hres, h1]
    rfl
  · have : (max bf.M bf.N - 1 + 1).toNat = (max bf.M bf.N).toNat := by
      congr 1
      omega
    rw [this] at h2
    omega

theorem C34_attack_ends_within_max_dimension_probes_witness :
    WF exRifle ∧ Consistent exRifle ∧ (Rifleman "a" (0, 0)).attack_distance = INT_MAX ∧
    (attack_unit_trace exRifle "a" "right").probes = 2 ∧
    (attack_unit_trace exRifle "a" "right").thrown = none ∧
    attack_unit exRifle "a" "right" = .ok (attack_unit_trace exRifle "a" "right").bf ∧
    (attack_unit_trace exRifle "a" "right").probes ≤ (max exRifle.M exRifle.N).toNat :=
  ⟨by decide, by decide, by decide, by decide,
    (C34_attack_ends_within_max_dimension_probes exRifle (by decide) (by decide) "a" "right"
      (0, 0) (Rifleman "a" (0, 0)) (0, 1) (by decide) (by decide) (by decide)
      (by decide)).2⟩

/-- C35: on a reachable battle field an attack of a registered unit changes nothing but
    its victim.  With a direction of the attacker's set the call returns, with any other
    direction it raises `std::out_of_range`; in the battle field that the call leaves,
    the time, the sizes and all tile heights are unchanged, the attacker stays
    registered at its cell with the same hp, stored coordinate and effects, and either
    the battle field is unchanged or there is a resolved cell, different from the
    attacker's, such that the unit of every other cell and the registry entry of every
    id but the victim's are unchanged. -/
theorem C35_attack_changes_only_its_victim (bf : BattleField) (hreach : Reachable bf)
    (id dir : String) (c : Vec2i) (a : Unit)
    (hf : map_find bf.coordinates id = some c) (ha : unitAt bf c = some a) :
    ∃ bf', (attack_unit_trace bf id dir).bf = bf' ∧
      ((∃ v, map_find a.attack_directions dir = some v ∧ attack_unit bf id dir = .ok bf') ∨
        (map_find a.attack_directions dir = none ∧
          attack_unit bf id dir = .error .out_of_range ∧ bf' = bf)) ∧
      bf'.time = bf.time ∧ bf'.M = bf.M ∧ bf'.N = bf.N ∧
      (∀ c', (tileD bf' c').height = (tileD bf c').height) ∧
      map_find bf'.coordinates id = some c ∧ unitAt bf' c = some a ∧
      (bf' = bf ∨ ∃ (p : Vec2i) (w : Unit), p ≠ c ∧ unitAt bf p = some w ∧ w.id ≠ id ∧
        (∀ c', c' ≠ p → unitAt bf' c' = unitAt bf c') ∧
        (∀ id', id' ≠ w.id → map_find bf'.coordinates id' = map_find bf.coordinates id')) := by
  have hinv := Reachable_Inv bf hreach
  have hcat := Reachable_catalog bf hreach c a ha
  have heq := attack_unit_eq bf hinv.wf id dir c a hf ha
  cases hdir : map_find a.attack_directions dir with
  | none =>
    obtain ⟨h1, h2⟩ := attack_unit_unknown_direction bf hinv.wf id dir c a hf ha
      (Catalog_distance_pos a hcat) hdir
    refine ⟨bf, by rw [h2], Or.inr ⟨rfl, h1, rfl⟩, rfl, rfl, rfl, fun _ => rfl, hf, ha,
      Or.inl rfl⟩
  | some v =>
    have hv : v = (1, 0) ∨ v = (0, -1) ∨ v = (0, 1) ∨ v = (-1, 0) := by
      apply default_directions_cases dir
      rw [← hcat.2.1]
      exact hdir
    obtain ⟨bf', hok, hres⟩ := attack_loop_first bf hinv.wf hinv.cons id dir c a v hf ha hdir
      a.attack_distance.toNat 1
    have hok' : attack_unit bf id dir = .ok bf' := by rw [heq]; exact hok
    have htr : (attack_unit_trace bf id dir).bf = bf' := by
      have hres := attack_unit_trace_result bf id dir
      rw [hok'] at hres
      cases hth : (attack_unit_trace bf id dir).thrown with
      | none => rw [hth] at hres; simpa [exit_result] using hres
      | some e => rw [hth] at hres; simp [exit_result] at hres
    refine ⟨bf', htr, Or.inl ⟨v, rfl, hok'⟩, ?_⟩
    rcases hres with h | ⟨k, w, hk1, -, -, hw, -, hbf⟩
    · subst h
      exact ⟨rfl, rfl, rfl, fun _ => rfl, hf, ha, Or.inl rfl⟩
    · have hpin := inside_of_unitAt bf hinv.wf _ w hw
      have hne := probe_ne_self c v k hk1 hv
      obtain ⟨f1, f2, f3, f4, f5⟩ := damaged_frame bf (probe c v k) w
        (attack_damage a.attack_dmg (tileD bf c).height (tileD bf (probe c v k)).height)
      have hwid : w.id ≠ id := by
        intro hid
        have hreg := hinv.reg _ w hw
        rw [hid, hf] at hreg
        exact hne (Option.some.inj hreg).symm
      have hunit : ∀ c', c' ≠ probe c v k → unitAt bf' c' = unitAt bf c' := by
        intro c' hc'
        rw [hbf, unitAt_damaged bf hinv.wf _ c' w _ hpin, if_neg hc']
      rw [← hbf] at f1 f2 f3 f4 f5
      refine ⟨f1, f2, f3, f4, ?_, ?_, Or.inr ⟨probe c v k, w, hne, hw, hwid, hunit, f5⟩⟩
      · rw [f5 id (Ne.symm hwid)]
        exact hf
      · rw [hunit c (Ne.symm hne)]
        exact ha

theorem C35_attack_changes_only_its_victim_witness :
    Reachable exRifle ∧
    attack_unit exRifle "a" "right" = .ok (damaged exRifle (0, 2) (Footman "b" (0, 2)) 3) ∧
    unitAt (damaged exRifle (0, 2) (Footman "b" (0, 2)) 3) (0, 2) =
      some ((Footman "b" (0, 2)).set_hp 17) ∧
    ∃ bf', (attack_unit_trace exRifle "a" "right").bf = bf' ∧
      ((∃ v, map_find (Rifleman "a" (0, 0)).attack_directions "right" = some v ∧
          attack_unit exRifle "a" "right" = .ok bf') ∨
        (map_find (Rifleman "a" (0, 0)).attack_directions "right" = none ∧
          attack_unit exRifle "a" "right" = .error .out_of_range ∧ bf' = exRifle)) ∧
      bf'.time = exRifle.time ∧ bf'.M = exRifle.M ∧ bf'.N = exRifle.N ∧
      (∀ c', (tileD bf' c').height = (tileD exRifle c').height) ∧
      map_find bf'.coordinates "a" = some (0, 0) ∧
      unitAt bf' (0, 0) = some (Rifleman "a" (0, 0)) ∧
      (bf' = exRifle ∨ ∃ (p : Vec2i) (w : Unit), p ≠ (0, 0) ∧ unitAt exRifle p = some w ∧
        w.id ≠ "a" ∧
        (∀ c', c' ≠ p → unitAt bf' c' = unitAt exRifle c') ∧
        (∀ id', id' ≠ w.id →
          map_find bf'.coordinates id' = map_find exRifle.coordinates id')) :=
  ⟨exRifle_reachable, by decide, by decide,
    C35_attack_changes_only_its_victim exRifle exRifle_reachable "a" "right" (0, 0)
      (Rifleman "a" (0, 0)) (by decide) (by decide)⟩

/-- C36: on a reachable battle field `attack_unit` with a registered attacker and a
    direction name that is not in the attacker's attack-direction set (`diagonal` is
    none of them) raises `std::out_of_range` instead of returning, before the first
    probe, and the battle field at the exit of the call is the battle field at its
    entry. -/
theorem C36_unknown_direction_raises (bf : BattleField) (hreach : Reachable bf)
    (id dir : String) (c : Vec2i) (a : Unit)
    (hf : map_find bf.coordinates id = some c) (ha : unitAt bf c = some a)
    (hdir : map_find a.attack_directions dir = none) :
    attack_unit bf id dir = .error .out_of_range ∧
    attack_unit_trace bf id dir = { bf := bf, thrown := some .out_of_range, probes := 0 } ∧
    map_find a.attack_directions "diagonal" = none ∧
    attack_unit bf id "diagonal" = .error .out_of_range := by
  have hinv := Reachable_Inv bf hreach
  have hcat := Reachable_catalog bf hreach c a ha
  have hdist := Catalog_distance_pos a hcat
  have hdiag : map_find a.attack_directions "diagonal" = none := by
    rw [hcat.2.1]
    decide
  obtain ⟨h1, h2⟩ := attack_unit_unknown_direction bf hinv.wf id dir c a hf ha hdist hdir
  exact ⟨h1, h2, hdiag,
    (attack_unit_unknown_direction bf hinv.wf id "diagonal" c a hf ha hdist hdiag).1⟩

theorem C36_unknown_direction_raises_witness :
    Reachable exRifle ∧
    attack_unit exRifle "a" "north" = .error .out_of_range ∧
    attack_unit_trace exRifle "a" "north" =
      { bf := exRifle, thrown := some .out_of_range, probes := 0 } :=
  ⟨exRifle_reachable,
    (C36_unknown_direction_raises exRifle exRifle_reachable "a" "north" (0, 0)
      (Rifleman "a" (0, 0)) (by decide) (by decide) (by decide)).1,
    (C36_unknown_direction_raises exRifle exRifle_reachable "a" "north" (0, 0)
      (Rifleman "a" (0, 0)) (by decide) (by decide) (by decide)).2.1⟩

/-- The loop of `attack_unit` passes over `m` probes that are inside the field and
    empty or out of height range, counting them. -/
theorem attack_loop_trace_skip (bf : BattleField) (hwf : WF bf) (id dir : String)
    (c : Vec2i) (a : Unit) (v : Vec2i) (hf : map_find bf.coordinates id = some c)
    (ha : unitAt bf c = some a) (hdir : map_find a.attack_directions dir = some v) :
    ∀ (m n : Nat) (i : Int) (p : Nat),
      (∀ j : Nat, j < m → is_inside_field bf (probe c v (i + j)) = true ∧
        (unitAt bf (probe c v (i + j)) = none ∨
          |(tileD bf c).height - (tileD bf (probe c v (i + j))).height| > a.attack_range)) →
      attack_loop_trace id dir a (n + m) i p bf =
        attack_loop_trace id dir a n (i + m) (p + m) bf := by
  intro m
  induction m with
  | zero => intro n i p _; simp
  | succ m ih =>
    intro n i p h
    have h0 := h 0 (Nat.succ_pos m)
    simp only [Nat.cast_zero, add_zero] at h0
    have hstep : attack_loop_trace id dir a (n + m + 1) i p bf =
        attack_loop_trace id dir a (n + m) (i + 1) (p + 1) bf :=
      attack_loop_trace_pass bf hwf id dir c a v hf ha hdir (n + m) i p h0.1 h0.2
    have hrest := ih n (i + 1) (p + 1) (by
      intro j hj
      have := h (j + 1) (Nat.succ_lt_succ hj)
      have he : i + ((j + 1 : Nat) : Int) = i + 1 + (j : Int) := by push_cast; ring
      rw [he] at this
      exact this)
    have he2 : i + 1 + (m : Int) = i + ((m + 1 : Nat) : Int) := by push_cast; ring
    have he3 : p + 1 + m = p + (m + 1) := by omega
    rw [show n + (m + 1) = n + m + 1 from rfl, hstep, hrest, he2, he3]

/-- The probes `1, ..., k - 1` are inside the field and empty, and `k` is within the
    attack distance: the attack arrives at probe `k` with the field unchanged, after
    `k - 1` probes. -/
theorem attack_unit_trace_reaches (bf : BattleField) (hwf : WF bf) (id dir : String)
    (c : Vec2i) (a : Unit) (v : Vec2i) (hf : map_find bf.coordinates id = some c)
    (ha : unitAt bf c = some a) (hdir : map_find a.attack_directions dir = some v)
    (k : Nat) (hk1 : 1 ≤ k) (hkd : (k : Int) ≤ a.attack_distance)
    (hfree : ∀ i : Nat, 1 ≤ i → i < k →
      is_inside_field bf (probe c v i) = true ∧ unitAt bf (probe c v i) = none) :
    attack_unit_trace bf id dir =
      attack_loop_trace id dir a (a.attack_distance.toNat - k + 1) k (k - 1) bf := by
  rw [attack_unit_trace_eq bf hwf id dir c a hf ha]
  have hsplit : a.attack_distance.toNat = (a.attack_distance.toNat - k + 1) + (k - 1) := by
    omega
  have := attack_loop_trace_skip bf hwf id dir c a v hf ha hdir (k - 1)
    (a.attack_distance.toNat - k + 1) 1 0 (by
      intro j hj
      have := hfree (1 + j) (by omega) (by omega)
      have he : ((1 + j : Nat) : Int) = 1 + (j : Int) := by push_cast; ring
      rw [he] at this
      exact ⟨this.1, Or.inl this.2⟩)
  have he2 : (1 : Int) + ((k - 1 : Nat) : Int) = (k : Int) := by omega
  rw [he2, Nat.zero_add] at this
  rw [← this, ← hsplit]

/-- On a reachable battle field whose height differences fit a C++ `int`, a unit that
    fails the height-range check at a cell of the field is a footman or a knight: its
    attack distance is `1`. -/
theorem out_of_range_distance (bf : BattleField) (hreach : Reachable bf)
    (hfit : HeightsFit bf) (c : Vec2i) (a : Unit) (ha : unitAt bf c = some a) (c' : Vec2i)
    (hc' : is_inside_field bf c' = true)
    (hrange : |(tileD bf c).height - (tileD bf c').height| > a.attack_range) :
    a.attack_distance = 1 ∧ (a.type = "footman" ∨ a.type = "knight") := by
  have hinv := Reachable_Inv bf hreach
  have hcat := Reachable_catalog bf hreach c a ha
  have hcin := inside_of_unitAt bf hinv.wf c a ha
  rcases hcat.2.2 with h | h | h
  · exact ⟨h.2.2.2.2.2.1, Or.inl h.1⟩
  · exact ⟨h.2.2.2.2.2.1, Or.inr h.1⟩
  · exfalso
    have := HeightsFit_inside bf hinv.wf hfit c c' hcin hc'
    rw [h.2.2.2.2.2.2] at hrange
    exact absurd hrange (not_lt.mpr this)

/-- C6: on a reachable battle field on which the `int` operations of the attack do not
    overflow (the height differences of the field and the sums `attack_dmg + h_diff` of
    the attacker fit a C++ `int`), for a registered attacker and a direction of its
    attack-direction set, `attack_unit` probes the cells `position + i * direction` for
    `i = 1, 2, ...` in increasing order.  Let the probes `1 .. k-1` be inside the field
    and empty, `k` within the attack distance.  When probe `k` is out of bounds, the
    battle field is left unchanged after `k` probes.  When probe `k` is occupied, the
    attack resolves on that cell and ends after `k` probes: within the height-range
    the occupant takes the attack damage, out of it (only a footman or a knight can
    be, and their attack distance is `1`) nothing changes; in either case the unit of
    every other cell, in particular of the cells farther along the direction, is
    unaffected.  When probe `k` is inside and empty and `k` is the attack distance, the
    battle field is left unchanged after `k` probes. -/
theorem C6_attack_resolves_on_first_occupied_probe (bf : BattleField)
    (hreach : Reachable bf) (hfit : HeightsFit bf) (id dir : String) (c : Vec2i) (a : Unit)
    (v : Vec2i) (hf : map_find bf.coordinates id = some c) (ha : unitAt bf c = some a)
    (hsum : DamageFits bf a.attack_dmg (tileD bf c))
    (hdir : map_find a.attack_directions dir = some v)
    (k : Nat) (hk1 : 1 ≤ k) (hkd : (k : Int) ≤ a.attack_distance)
    (hfree : ∀ i : Nat, 1 ≤ i → i < k →
      is_inside_field bf (probe c v i) = true ∧ unitAt bf (probe c v i) = none) :
    (is_inside_field bf (probe c v k) = false →
      attack_unit bf id dir = .ok bf ∧
      attack_unit_trace bf id dir = { bf := bf, thrown := none, probes := k }) ∧
    (∀ w, unitAt bf (probe c v k) = some w →
      ∃ bf', attack_unit bf id dir = .ok bf' ∧
        attack_unit_trace bf id dir = { bf := bf', thrown := none, probes := k } ∧
        (|(tileD bf c).height - (tileD bf (probe c v k)).height| ≤ a.attack_range →
          bf' = damaged bf (probe c v k) w
            (attack_damage a.attack_dmg (tileD bf c).height
              (tileD bf (probe c v k)).height) ∧
          attack_damage a.attack_dmg (tileD bf c).height
            (tileD bf (probe c v k)).height ≤ INT_MAX) ∧
        (|(tileD bf c).height - (tileD bf (probe c v k)).height| > a.attack_range →
          bf' = bf ∧ a.attack_distance = 1) ∧
        ∀ c', c' ≠ probe c v k → unitAt bf' c' = unitAt bf c') ∧
    (is_inside_field bf (probe c v k) = true → unitAt bf (probe c v k) = none →
      (k : Int) = a.attack_distance →
      attack_unit bf id dir = .ok bf ∧
      attack_unit_trace bf id dir = { bf := bf, thrown := none, probes := k }) := by
  have hinv := Reachable_Inv bf hreach
  have hwf := hinv.wf
  have hcons := hinv.cons
  have hreach1 := attack_unit_reaches bf hwf id dir c a v hf ha hdir k hk1 hkd hfree
  have hreach2 := attack_unit_trace_reaches bf hwf id dir c a v hf ha hdir k hk1 hkd hfree
  have hk : k - 1 + 1 = k := by omega
  refine ⟨?_, ?_, ?_⟩
  · intro hout
    refine ⟨?_, ?_⟩
    · rw [hreach1]
      exact attack_loop_outside bf id dir c a v hf hdir _ _ hout
    · rw [hreach2, attack_loop_trace_outside bf id dir c a v hf hdir _ _ _ hout, hk]
  · intro w hw
    have hpin := inside_of_unitAt bf hwf _ w hw
    by_cases hr : |(tileD bf c).height - (tileD bf (probe c v k)).height| ≤ a.attack_range
    · refine ⟨_, ?_, ?_, fun _ => ⟨rfl, ?_⟩, fun h => absurd hr (not_le.mpr h), ?_⟩
      · rw [hreach1]
        exact attack_loop_hit bf hwf hcons id dir c a v hf ha hdir _ _ w hw hr
      · rw [hreach2, attack_loop_trace_hit bf hwf hcons id dir c a v hf ha hdir _ _ _ w hw hr,
          hk]
      · have hs := DamageFits_inside bf hwf a.attack_dmg (tileD bf c) hsum _ hpin
        exact max_le (by decide) (le_trans (le_abs_self _) hs)
      · intro c' hc'
        rw [unitAt_damaged bf hwf _ c' w _ hpin, if_neg hc']
    · have hgt : |(tileD bf c).height - (tileD bf (probe c v k)).height| > a.attack_range :=
        not_le.mp hr
      have hd := (out_of_range_distance bf hreach hfit c a ha _ hpin hgt).1
      have hn : a.attack_distance.toNat - k = 0 := by omega
      refine ⟨bf, ?_, ?_, fun h => absurd h hr, fun _ => ⟨rfl, hd⟩, fun _ _ => rfl⟩
      · rw [hreach1, attack_loop_pass bf hwf id dir c a v hf ha hdir _ _ hpin (Or.inr hgt), hn]
        rfl
      · rw [hreach2,
          attack_loop_trace_pass bf hwf id dir c a v hf ha hdir _ _ _ hpin (Or.inr hgt), hn, hk]
        rfl
  · intro hin hnone hkeq
    have hn : a.attack_distance.toNat - k = 0 := by omega
    refine ⟨?_, ?_⟩
    · rw [hreach1, attack_loop_pass bf hwf id dir c a v hf ha hdir _ _ hin (Or.inl hnone), hn]
      rfl
    · rw [hreach2,
        attack_loop_trace_pass bf hwf id dir c a v hf ha hdir _ _ _ hin (Or.inl hnone), hn, hk]
      rfl

theorem C6_attack_resolves_on_first_occupied_probe_witness :
    Reachable exRifle ∧ HeightsFit exRifle ∧
    map_find exRifle.coordinates "a" = some (0, 0) ∧
    unitAt exRifle (0, 0) = some (Rifleman "a" (0, 0)) ∧
    DamageFits exRifle (Rifleman "a" (0, 0)).attack_dmg (tileD exRifle (0, 0)) ∧
    map_find (Rifleman "a" (0, 0)).attack_directions "right" = some (0, 1) ∧
    (1 ≤ 2) ∧ (((2 : Nat) : Int) ≤ (Rifleman "a" (0, 0)).attack_distance) ∧
    (∀ i : Nat, 1 ≤ i → i < 2 →
      is_inside_field exRifle (probe (0, 0) (0, 1) i) = true ∧
      unitAt exRifle (probe (0, 0) (0, 1) i) = none) ∧
    unitAt exRifle (probe (0, 0) (0, 1) (2 : Nat)) = some (Footman "b" (0, 2)) ∧
    attack_unit exRifle "a" "right" =
      .ok (damaged exRifle (0, 2) (Footman "b" (0, 2)) 3) ∧
    attack_unit_trace exRifle "a" "right" =
      { bf := damaged exRifle (0, 2) (Footman "b" (0, 2)) 3, thrown := none, probes := 2 } ∧
    ∃ bf', attack_unit exRifle "a" "right" = .ok bf' ∧
      attack_unit_trace exRifle "a" "right" = { bf := bf', thrown := none, probes := 2 } ∧
      (|(tileD exRifle (0, 0)).height - (tileD exRifle (probe (0, 0) (0, 1) (2 : Nat))).height|
          ≤ (Rifleman "a" (0, 0)).attack_range →
        bf' = damaged exRifle (probe (0, 0) (0, 1) (2 : Nat)) (Footman "b" (0, 2))
          (attack_damage (Rifleman "a" (0, 0)).attack_dmg (tileD exRifle (0, 0)).height
            (tileD exRifle (probe (0, 0) (0, 1) (2 : Nat))).height) ∧
        attack_damage (Rifleman "a" (0, 0)).attack_dmg (tileD exRifle (0, 0)).height
          (tileD exRifle (probe (0, 0) (0, 1) (2 : Nat))).height ≤ INT_MAX) ∧
      (|(tileD exRifle (0, 0)).height - (tileD exRifle (probe (0, 0) (0, 1) (2 : Nat))).height|
          > (Rifleman "a" (0, 0)).attack_range →
        bf' = exRifle ∧ (Rifleman "a" (0, 0)).attack_distance = 1) ∧
      ∀ c', c' ≠ probe (0, 0) (0, 1) (2 : Nat) → unitAt bf' c' = unitAt exRifle c' :=
  have hfree : ∀ i : Nat, 1 ≤ i → i < 2 →
      is_inside_field exRifle (probe (0, 0) (0, 1) i) = true ∧
      unitAt exRifle (probe (0, 0) (0, 1) i) = none := by
    intro i h1 h2
    have : i = 1 := by omega
    subst this
    decide
  ⟨exRifle_reachable, by decide, by decide, by decide, by decide, by decide, by decide,
    by decide, hfree, by decide, by decide, by decide,
    (C6_attack_resolves_on_first_occupied_probe exRifle exRifle_reachable (by decide) "a"
      "right" (0, 0) (Rifleman "a" (0, 0)) (0, 1) (by decide) (by decide) (by decide)
      (by decide) 2 (by decide) (by decide) hfree).2.1 (Footman "b" (0, 2)) (by decide)⟩

theorem BFS_inside_of_ok (bf : BattleField) (origin target : Vec2i) (B S : Int)
    (dirs : List (String × Vec2i)) (b : Bool) (h : BFS bf origin target B S dirs = .ok b) :
    is_inside_field bf origin = true := by
  unfold BFS at h
  by_cases hin : is_inside_field bf origin = true
  · exact hin
  · rw [if_neg hin] at h
    cases h

/-- With a budget `B ≤ 0` no neighbour is enqueued. -/
theorem BFS_fold_no_budget (bf : BattleField) (B S : Int) (u : Vec2i) (hB : B ≤ 0) :
    ∀ (ds : List (String × Vec2i)) (V : List (List Bool)) (Q : List (Vec2i × Int)),
      ds.foldl (BFS_visit bf B S (u, 0)) (V, Q) = (V, Q) := by
  intro ds
  induction ds with
  | nil => intro V Q; rfl
  | cons d ds ih =>
    intro V Q
    rw [List.foldl_cons, BFS_visit_eq, if_neg, ih]
    intro h
    have := h.2.2.1
    omega

/-- With a budget `B ≤ 0` the search succeeds exactly when the target is the origin. -/
theorem BFS_no_budget (bf : BattleField) (origin target : Vec2i) (B S : Int)
    (dirs : List (String × Vec2i)) (hin : is_inside_field bf origin = true) (hB : B ≤ 0) :
    BFS bf origin target B S dirs = .ok (decide (origin = target)) := by
  unfold BFS
  rw [if_pos hin]
  rw [is_inside_field_iff] at hin
  cases hm : bf.M.toNat * bf.N.toNat with
  | zero =>
    exfalso
    rcases Nat.mul_eq_zero.mp hm with h | h <;> omega
  | succ n =>
    by_cases he : origin = target
    · simp [BFS_loop, he]
    · rw [BFS_loop]
      simp only [he, if_false, BFS_fold_no_budget bf B S origin hB, decide_False]
      cases n <;> rfl

/-- The search succeeds exactly when a walk of admissible steps of length at most the
    budget leads from the origin to the target. -/
theorem BFS_true_iff (bf : BattleField) (origin target : Vec2i) (B S : Int)
    (dirs : List (String × Vec2i)) (hin : is_inside_field bf origin = true) :
    BFS bf origin target B S dirs = .ok true ↔
      ∃ k : Nat, (k : Int) ≤ max B 0 ∧ Reach bf S dirs origin k target := by
  by_cases hB : 0 ≤ B
  · rw [max_eq_left hB]
    have hV0 := VDims_replicate bf
    have hsome := hV0 origin hin
    have hV : VDims bf (gridSet (List.replicate bf.M.toNat (List.replicate bf.N.toNat false))
        origin true) := VDims_gridSet bf _ origin true hV0
    have hfalse : gridGet (List.replicate bf.M.toNat (List.replicate bf.N.toNat false)) origin
        = some false := by
      have hv := visitedAt_replicate bf.M.toNat bf.N.toNat origin
      unfold visitedAt at hv
      cases hg : gridGet (List.replicate bf.M.toNat (List.replicate bf.N.toNat false)) origin with
      | none => rw [hg] at hsome; simp at hsome
      | some b =>
        cases b with
        | false => rfl
        | true => rw [hg] at hv; simp at hv
    have hcount := countFalse_gridSet _ origin hfalse
    rw [countFalse_replicate] at hcount
    have heq : BFS bf origin target B S dirs =
        BFS_loop bf target B S dirs (bf.M.toNat * bf.N.toNat)
          (gridSet (List.replicate bf.M.toNat (List.replicate bf.N.toNat false)) origin true)
          [(origin, 0)] := by
      simp [BFS, hin]
    obtain ⟨b, hb⟩ := BFS_loop_terminates bf target B S dirs (bf.M.toNat * bf.N.toNat) _
      [(origin, 0)] hV (by simp only [List.length_singleton]; omega)
    rw [heq]
    constructor
    · intro h
      refine BFS_loop_sound bf target B S dirs origin _ _ _ hV ?_ h
      intro e he
      simp only [List.mem_singleton] at he
      subst he
      exact ⟨hB, 0, rfl, Reach.zero⟩
    · rintro ⟨k, hk, hreach⟩
      cases b with
      | true => exact hb
      | false =>
        exfalso
        refine BFS_loop_complete bf target B S dirs origin _ _ [(origin, 0)] [] ?_ hb k hk hreach
        refine ⟨hV, ?_, by simp, by simp, ?_, by simp, by simp, ⟨0, Or.inr (by simp), le_refl _⟩⟩
        · intro x hx
          rw [visitedAt_gridSet _ _ _ hsome, visitedAt_replicate] at hx
          rcases hx with hx | hx
          · exact ⟨0, Or.inr (by simp [hx])⟩
          · simp at hx
        · intro e he e' he'
          simp only [List.mem_singleton] at he he'
          subst he; subst he'
          simp
  · have hB' : B ≤ 0 := le_of_lt (not_le.mp hB)
    rw [max_eq_right hB', BFS_no_budget bf origin target B S dirs hin hB']
    constructor
    · intro h
      have he : origin = target := by simpa using h
      subst he
      exact ⟨0, le_refl _, Reach.zero⟩
    · rintro ⟨k, hk, hreach⟩
      have hk0 : k = 0 := by omega
      subst hk0
      cases hreach
      simp

theorem Reach_mono_step (bf : BattleField) (S S' : Int) (dirs : List (String × Vec2i))
    (origin : Vec2i) (hS : S ≤ S') (k : Nat) (x : Vec2i)
    (h : Reach bf S dirs origin k x) : Reach bf S' dirs origin k x := by
  induction h with
  | zero => exact Reach.zero
  | step _ hstep ih =>
    exact Reach.step ih ⟨hstep.1, hstep.2.1, hstep.2.2.1, le_trans hstep.2.2.2 hS⟩

/-- A walk of `k` steps along the four cardinal vectors covers a Manhattan distance of
    at most `k`. -/
theorem Reach_manhattan (bf : BattleField) (S : Int) (origin : Vec2i) (k : Nat) (x : Vec2i)
    (h : Reach bf S default_directions origin k x) : manhattan origin x ≤ k := by
  induction h with
  | zero => simp [manhattan]
  | @step k a b _ hstep ih =>
    obtain ⟨⟨d, hd, hb⟩, -⟩ := hstep
    have hv : d.2 = (1, 0) ∨ d.2 = (0, -1) ∨ d.2 = (0, 1) ∨ d.2 = (-1, 0) := by
      simp only [default_directions, List.mem_cons, List.mem_singleton,
        List.not_mem_nil, or_false] at hd
      rcases hd with rfl | rfl | rfl | rfl
      · exact Or.inl rfl
      · exact Or.inr (Or.inl rfl)
      · exact Or.inr (Or.inr (Or.inl rfl))
      · exact Or.inr (Or.inr (Or.inr rfl))
    unfold manhattan at ih ⊢
    have hb1 : origin.1 - b.1 = (origin.1 - a.1) - d.2.1 := by
      rw [hb]; simp only [Vec2i.add]; ring
    have hb2 : origin.2 - b.2 = (origin.2 - a.2) - d.2.2 := by
      rw [hb]; simp only [Vec2i.add]; ring
    have t1 := abs_sub (origin.1 - a.1) d.2.1
    have t2 := abs_sub (origin.2 - a.2) d.2.2
    have hd1 : |d.2.1| + |d.2.2| = 1 := by
      rcases hv with hv | hv | hv | hv <;> rw [hv] <;> decide
    rw [hb1, hb2]
    push_cast
    omega

/-- C37: reachability is monotone in its limits: for every battle field, origin, target
    and direction set, if `BFS` returns `true` with budget `B` and step limit `S`, then it
    returns `true` with every budget `B' ≥ B` and every step limit `S' ≥ S`. -/
theorem C37_BFS_monotone_in_limits (bf : BattleField) (origin target : Vec2i)
    (B S B' S' : Int) (dirs : List (String × Vec2i)) (hB : B ≤ B') (hS : S ≤ S')
    (h : BFS bf origin target B S dirs = .ok true) :
    BFS bf origin target B' S' dirs = .ok true := by
  have hin := BFS_inside_of_ok bf origin target B S dirs true h
  rw [BFS_true_iff bf origin target B S dirs hin] at h
  rw [BFS_true_iff bf origin target B' S' dirs hin]
  obtain ⟨k, hk, hreach⟩ := h
  exact ⟨k, le_trans hk (max_le_max hB (le_refl 0)),
    Reach_mono_step bf S S' dirs origin hS k target hreach⟩

theorem C37_BFS_monotone_in_limits_witness :
    BFS exField (0, 0) (0, 2) 2 0 default_directions = .ok true ∧
    BFS exField (0, 0) (0, 2) 5 3 default_directions = .ok true :=
  ⟨by decide,
    C37_BFS_monotone_in_limits exField (0, 0) (0, 2) 2 0 5 3 default_directions (by decide)
      (by decide) (by decide)⟩

/-- C38: with the four cardinal move directions, for every budget `B ≥ 0` (the search
    is called with the movement budget of the moving unit only, which is `1`, `5` or
    `2`), `BFS` returning `true` implies that the Manhattan distance of origin and target
    is at most `B`; hence on a reachable battle field every move of a registered unit
    that `is_move_successful` finds feasible covers a Manhattan distance of at most the
    unit's movement budget, which is `1` for a footman, `5` for a knight and `2` for a
    rifleman. -/
theorem C38_cardinal_search_within_manhattan_budget :
    (∀ (bf : BattleField) (origin target : Vec2i) (B S : Int), 0 ≤ B →
      BFS bf origin target B S default_directions = .ok true →
      manhattan origin target ≤ B) ∧
    (∀ (bf : BattleField), Reachable bf →
      ∀ (id : String) (c : Vec2i) (u : Unit) (target : Vec2i),
        map_find bf.coordinates id = some c → unitAt bf c = some u →
        is_move_successful bf id target = .ok true →
        BFS bf c target u.max_move u.max_step default_directions = .ok true ∧
        manhattan c target ≤ u.max_move ∧
        ((u.type = "footman" ∧ u.max_move = 1) ∨ (u.type = "knight" ∧ u.max_move = 5) ∨
          (u.type = "rifleman" ∧ u.max_move = 2))) := by
  have hgen : ∀ (bf : BattleField) (origin target : Vec2i) (B S : Int), 0 ≤ B →
      BFS bf origin target B S default_directions = .ok true →
      manhattan origin target ≤ B := by
    intro bf origin target B S hB h
    have hin := BFS_inside_of_ok bf origin target B S _ true h
    rw [BFS_true_iff bf origin target B S _ hin] at h
    obtain ⟨k, hk, hreach⟩ := h
    rw [max_eq_left hB] at hk
    exact le_trans (Reach_manhattan bf S origin k target hreach) hk
  refine ⟨hgen, ?_⟩
  intro bf hreach id c u target hf hu hs
  have hinv := Reachable_Inv bf hreach
  have hcat := Reachable_catalog bf hreach c u hu
  have hbfs : BFS bf c target u.max_move u.max_step u.move_directions = .ok true := by
    rcases is_move_successful_cases bf hinv.wf hinv.cons id c u hf hu target with h | h
    · exact h.2.2.2
    · rw [h.1] at hs
      cases hs
  rw [hcat.1] at hbfs
  refine ⟨hbfs, ?_⟩
  rcases hcat.2.2 with h | h | h
  · have hmv := h.2.2.1
    have hm := hgen bf c target _ _ (by rw [hmv]; decide) hbfs
    exact ⟨hm, Or.inl ⟨h.1, hmv⟩⟩
  · have hmv := h.2.2.1
    have hm := hgen bf c target _ _ (by rw [hmv]; decide) hbfs
    exact ⟨hm, Or.inr (Or.inl ⟨h.1, hmv⟩)⟩
  · have hmv := h.2.2.1
    have hm := hgen bf c target _ _ (by rw [hmv]; decide) hbfs
    exact ⟨hm, Or.inr (Or.inr ⟨h.1, hmv⟩)⟩

theorem C38_cardinal_search_within_manhattan_budget_witness :
    (0 : Int) ≤ 2 ∧ BFS exField (0, 0) (0, 2) 2 0 default_directions = .ok true ∧
    manhattan (0, 0) (0, 2) ≤ 2 ∧
    Reachable exOne ∧ map_find exOne.coordinates "a" = some (0, 0) ∧
    unitAt exOne (0, 0) = some (Footman "a" (0, 0)) ∧
    is_move_successful exOne "a" (0, 1) = .ok true ∧
    manhattan (0, 0) (0, 1) ≤ (Footman "a" (0, 0)).max_move :=
  ⟨by decide, by decide,
    C38_cardinal_search_within_manhattan_budget.1 exField (0, 0) (0, 2) 2 0 (by decide)
      (by decide),
    exOne_reachable, by decide, by decide, by decide,
    (C38_cardinal_search_within_manhattan_budget.2 exOne exOne_reachable "a" (0, 0)
      (Footman "a" (0, 0)) (0, 1) (by decide) (by decide) (by decide)).2.1⟩

end Battle

namespace Snake

/-! ## Properties of the snake board -/

theorem resize_of_le (v : List Int) (n : Nat) (h : n ≤ v.length) : resize v n = v.take n := by
  unfold resize
  rw [Nat.sub_eq_zero_of_le h]
  simp

theorem shift_keep (path snake : List Int) (consumed : Bool) (hp : path ≠ []) :
    shift path snake consumed false =
      some ((path.reverse ++ snake).take (snake.length + (if consumed then 1 else 0))) := by
  unfold shift
  simp only [Bool.false_and, Bool.false_eq_true, if_false, List.drop_zero]
  rw [resize_of_le]
  have hlen : 1 ≤ path.length := List.length_pos.mpr hp
  simp only [List.length_append, List.length_reverse]
  split_ifs <;> omega

/-- C39: for every snake, tile and flag, `shift(tile, snake, consumed)` returns the
    vector that starts with the tile, followed by the cells of the snake in order, cut
    to the length `|snake| + (1 if consumed else 0)` (so the whole of it when the item was
    consumed, and all but the last cell of the snake when it was not); and for every
    non-empty path `shift(path, snake, consumed, false)` returns the reversed path
    followed by the snake, cut to that length. -/
theorem C39_shift_prepends_and_truncates (path snake : List Int) (tile : Int)
    (consumed : Bool) :
    shift_tile tile snake consumed =
      some ((tile :: snake).take (snake.length + (if consumed then 1 else 0))) ∧
    shift_tile tile snake true = some (tile :: snake) ∧
    shift_tile tile snake false = some ((tile :: snake).dropLast) ∧
    (∀ r, shift_tile tile snake consumed = some r →
      r.length = snake.length + (if consumed then 1 else 0)) ∧
    (path ≠ [] →
      shift path snake consumed false =
        some ((path.reverse ++ snake).take (snake.length + (if consumed then 1 else 0))) ∧
      ∀ r, shift path snake consumed false = some r →
        r.length = snake.length + (if consumed then 1 else 0)) := by
  have h1 : ∀ c : Bool, shift_tile tile snake c =
      some ((tile :: snake).take (snake.length + (if c then 1 else 0))) := by
    intro c
    unfold shift_tile
    rw [shift_keep _ _ _ (by simp)]
    simp
  refine ⟨h1 consumed, ?_, ?_, ?_, ?_⟩
  · rw [h1 true]
    simp
  · rw [h1 false]
    simp [List.dropLast_eq_take]
  · intro r hr
    rw [h1 consumed] at hr
    cases hr
    rw [List.length_take, List.length_cons]
    split_ifs <;> omega
  · intro hp
    refine ⟨shift_keep path snake consumed hp, ?_⟩
    intro r hr
    rw [shift_keep path snake consumed hp] at hr
    cases hr
    have hlen : 1 ≤ path.length := List.length_pos.mpr hp
    rw [List.length_take, List.length_append, List.length_reverse]
    split_ifs <;> omega

theorem C39_shift_prepends_and_truncates_witness :
    shift_tile 7 [8, 9] false = some [7, 8] ∧
    shift_tile 7 [8, 9] true = some [7, 8, 9] ∧
    shift [5, 6, 7] [8, 9] true false = some [7, 6, 5] :=
  ⟨(C39_shift_prepends_and_truncates [5, 6, 7] [8, 9] 7 false).1,
    (C39_shift_prepends_and_truncates [5, 6, 7] [8, 9] 7 true).2.1,
    ((C39_shift_prepends_and_truncates [5, 6, 7] [8, 9] 7 true).2.2.2.2 (by decide)).1⟩

theorem is_inside_iff (size tile : Int) (snake : List Int) (hsize : 3 ≤ size) :
    ({ size := size, snake := snake } : Board).is_inside tile = true ↔
      ∃ row col : Int, 1 ≤ row ∧ row ≤ size - 2 ∧ 1 ≤ col ∧ col ≤ size - 2 ∧
        tile = row * size + col := by
  unfold Board.is_inside
  simp only [Bool.and_eq_true, decide_eq_true_eq]
  constructor
  · rintro ⟨⟨⟨h1, h2⟩, h3⟩, h4⟩
    have htile : 0 ≤ tile := by omega
    rw [Int.tmod_eq_emod htile (by omega)] at h3 h4
    have hmod1 := Int.emod_nonneg tile (show size ≠ 0 by omega)
    have hmod2 := Int.emod_lt_of_pos tile (show 0 < size by omega)
    have hdiv := Int.emod_add_ediv tile size
    refine ⟨tile / size, tile % size, ?_, ?_, by omega, by omega, by linarith [mul_comm size (tile / size)]⟩
    · by_contra hrow
      have hle : tile / size ≤ 0 := by omega
      have : size * (tile / size) ≤ 0 := by nlinarith
      omega
    · by_contra hrow
      have hge : size - 1 ≤ tile / size := by omega
      have : size * (size - 1) ≤ size * (tile / size) := by nlinarith
      omega
  · rintro ⟨row, col, hr1, hr2, hc1, hc2, rfl⟩
    have htile : 0 ≤ row * size + col := by nlinarith
    rw [Int.tmod_eq_emod htile (by omega)]
    have hmod : (row * size + col) % size = col := by
      rw [Int.add_comm, Int.add_mul_emod_self]
      exact Int.emod_eq_of_lt (by omega) (by omega)
    rw [hmod]
    refine ⟨⟨⟨?_, ?_⟩, by omega⟩, by omega⟩
    · nlinarith
    · nlinarith

/-- C40: for a board built with inner size `s ≥ 1` whose `_size * _size` fits an `int`
    (`_size = s + 2`, and then every product that `is_inside` and the win check
    compute fits as well), `is_inside(tile)` holds exactly for the tiles
    `row * _size + col` with `1 ≤ row ≤ s` and `1 ≤ col ≤ s`; these tiles lie between
    `0` and `_size * _size`, the range of the item generator, and there are exactly
    `s * s` of them;
    and `s * s` is the value `_size * _size - 4 * (_size - 1)` with which
    `autoPilotStep` compares the snake length plus one. -/
theorem C40_inside_tiles_are_the_inner_square (s : Int) (snake : List Int) (hs : 1 ≤ s)
    (hfit : (s + 2) * (s + 2) ≤ Battle.INT_MAX) :
    (Board.new s snake).size = s + 2 ∧
    (0 ≤ (Board.new s snake).size * ((Board.new s snake).size - 1) ∧
      (Board.new s snake).size * ((Board.new s snake).size - 1) ≤ Battle.INT_MAX ∧
      4 * ((Board.new s snake).size - 1) ≤ Battle.INT_MAX) ∧
    (∀ tile : Int, (Board.new s snake).is_inside tile = true ↔
      ∃ row col : Int, 1 ≤ row ∧ row ≤ s ∧ 1 ≤ col ∧ col ≤ s ∧
        tile = row * (Board.new s snake).size + col) ∧
    ((Finset.Icc 0 ((Board.new s snake).size * (Board.new s snake).size)).filter
      (fun tile => (Board.new s snake).is_inside tile = true)).card = (s * s).toNat ∧
    s * s = (Board.new s snake).size * (Board.new s snake).size -
      4 * ((Board.new s snake).size - 1) ∧
    ((Board.new s snake).is_last_item = true ↔ (snake.length : Int) + 1 = s * s) ∧
    (∀ tile : Int, (Board.new s snake).is_inside tile = true →
      0 < tile ∧ tile < (Board.new s snake).size * (Board.new s snake).size) := by
  have hiff : ∀ tile : Int, (Board.new s snake).is_inside tile = true ↔
      ∃ row col : Int, 1 ≤ row ∧ row ≤ s ∧ 1 ≤ col ∧ col ≤ s ∧
        tile = row * (s + 2) + col := by
    intro tile
    have := is_inside_iff (s + 2) tile snake (by omega)
    simp only [show s + 2 - 2 = s by ring] at this
    exact this
  have hsq : s * s = (s + 2) * (s + 2) - 4 * (s + 2 - 1) := by ring
  refine ⟨rfl, ⟨?_, ?_, ?_⟩, hiff, ?_, hsq, ?_, ?_⟩
  · show 0 ≤ (s + 2) * (s + 2 - 1)
    nlinarith
  · show (s + 2) * (s + 2 - 1) ≤ Battle.INT_MAX
    nlinarith
  · show 4 * (s + 2 - 1) ≤ Battle.INT_MAX
    nlinarith
  · have himg : (Finset.Icc 0 ((Board.new s snake).size * (Board.new s snake).size)).filter
        (fun tile => (Board.new s snake).is_inside tile = true) =
        Finset.image (fun p : Int × Int => p.1 * (s + 2) + p.2)
          (Finset.Icc 1 s ×ˢ Finset.Icc 1 s) := by
      ext tile
      simp only [Finset.mem_filter, Finset.mem_Icc, Finset.mem_image, Finset.mem_product,
        Prod.exists, hiff]
      constructor
      · rintro ⟨-, row, col, h1, h2, h3, h4, h5⟩
        exact ⟨row, col, ⟨⟨h1, h2⟩, ⟨h3, h4⟩⟩, h5.symm⟩
      · rintro ⟨row, col, ⟨⟨h1, h2⟩, ⟨h3, h4⟩⟩, h5⟩
        refine ⟨?_, row, col, h1, h2, h3, h4, h5.symm⟩
        show 0 ≤ tile ∧ tile ≤ (s + 2) * (s + 2)
        subst h5
        constructor <;> nlinarith
    rw [himg, Finset.card_image_of_injOn, Finset.card_product, Int.card_Icc]
    · have : (s + 1 - 1).toNat = s.toNat := by congr 1; ring
      rw [this]
      have h0 : 0 ≤ s := by omega
      zify
      rw [Int.toNat_of_nonneg h0, Int.toNat_of_nonneg (mul_nonneg h0 h0)]
    · intro p hp q hq hpq
      simp only [Finset.coe_product, Finset.coe_Icc, Set.mem_prod, Set.mem_Icc] at hp hq
      simp only at hpq
      obtain ⟨⟨p1, p2⟩, ⟨p3, p4⟩⟩ := hp
      obtain ⟨⟨q1, q2⟩, ⟨q3, q4⟩⟩ := hq
      have hfst : p.1 = q.1 := by
        by_contra hne
        rcases lt_or_gt_of_ne hne with hlt | hgt
        · have : (p.1 + 1) * (s + 2) ≤ q.1 * (s + 2) := by nlinarith
          nlinarith
        · have : (q.1 + 1) * (s + 2) ≤ p.1 * (s + 2) := by nlinarith
          nlinarith
      have hsnd : p.2 = q.2 := by
        rw [hfst] at hpq
        linarith
      exact Prod.ext hfst hsnd
  · unfold Board.is_last_item
    simp only [decide_eq_true_eq]
    show (snake.length : Int) + 1 = (s + 2) * (s + 2) - 4 * (s + 2 - 1) ↔ _
    rw [← hsq]
  · intro tile htile
    obtain ⟨row, col, h1, h2, h3, h4, h5⟩ := (hiff tile).mp htile
    show 0 < tile ∧ tile < (s + 2) * (s + 2)
    subst h5
    constructor <;> nlinarith

theorem C40_inside_tiles_are_the_inner_square_witness :
    (1 : Int) ≤ 2 ∧ ((2 : Int) + 2) * (2 + 2) ≤ Battle.INT_MAX ∧
    (Board.new 2 [5, 6]).is_inside 5 = true ∧ (Board.new 2 [5, 6]).is_inside 4 = false ∧
    ((Finset.Icc 0 ((Board.new 2 [5, 6]).size * (Board.new 2 [5, 6]).size)).filter
      (fun tile => (Board.new 2 [5, 6]).is_inside tile = true)).card = ((2 : Int) * 2).toNat :=
  ⟨by decide, by decide, by decide, by decide,
    (C40_inside_tiles_are_the_inner_square 2 [5, 6] (by decide) (by decide)).2.2.2.1⟩

end Snake

namespace Battle

/-! ## The battle field of the variant with the same content -/

theorem gridGet_map {α β : Type} (f : α → β) (g : List (List α)) (c : Vec2i) :
    gridGet (g.map (fun row => row.map f)) c = (gridGet g c).map f := by
  unfold gridGet
  by_cases hc : 0 ≤ c.1 ∧ 0 ≤ c.2
  · simp only [hc, and_self, if_true, List.getElem?_map]
    cases g[c.1.toNat]? with
    | none => rfl
    | some row => simp [List.getElem?_map]
  · simp only [hc, if_false, Option.map_none']

theorem gridSet_map {α β : Type} (f : α → β) (g : List (List α)) (c : Vec2i) (a : α) :
    gridSet (g.map (fun row => row.map f)) c (f a) =
      (gridSet g c a).map (fun row => row.map f) := by
  unfold gridSet
  by_cases hc : 0 ≤ c.1 ∧ 0 ≤ c.2
  · simp only [hc, and_self, if_true, List.getElem?_map]
    cases g[c.1.toNat]? with
    | none => rfl
    | some row => simp [List.map_set]
  · simp only [hc, if_false]

theorem toShared_is_inside (bf : BattleField) (c : Vec2i) :
    VectorCopy.is_inside_field bf.toShared c = is_inside_field bf c := rfl

theorem toShared_gridGet (bf : BattleField) (c : Vec2i) :
    gridGet bf.toShared.field c = (gridGet bf.field c).map Tile.toShared :=
  gridGet_map Tile.toShared bf.field c

theorem toShared_tileD (bf : BattleField) (c : Vec2i) :
    VectorCopy.tileD bf.toShared c = (tileD bf c).toShared := by
  unfold VectorCopy.tileD tileD
  rw [toShared_gridGet]
  cases gridGet bf.field c <;> rfl

theorem toShared_find_tile (bf : BattleField) (hwf : WF bf) (c : Vec2i)
    (hin : is_inside_field bf c = true) :
    VectorCopy.find_tile bf.toShared c = .ok (tileD bf c).toShared := by
  unfold VectorCopy.find_tile
  rw [toShared_gridGet, gridGet_tileD bf hwf c hin]
  rfl

theorem toShared_find_tile_error (bf : BattleField) (hwf : WF bf) (c : Vec2i)
    (hin : is_inside_field bf c = false) :
    VectorCopy.find_tile bf.toShared c = .error .undefined_behaviour ∧
    find_tile bf c = .error .undefined_behaviour := by
  have hnone : gridGet bf.field c = none := by
    have := is_inside_iff_gridGet bf hwf c
    cases hg : gridGet bf.field c with
    | none => rfl
    | some t =>
      rw [hg] at this
      have := this.mpr rfl
      rw [hin] at this
      cases this
  unfold VectorCopy.find_tile find_tile
  rw [toShared_gridGet, hnone]
  exact ⟨rfl, rfl⟩

theorem toShared_putUnit (bf : BattleField) (c : Vec2i) (ou : Option Unit) :
    (putUnit bf c ou).toShared =
      VectorCopy.set_tile bf.toShared c
        { height := (tileD bf c).height, units := ou.toList } := by
  unfold putUnit VectorCopy.set_tile BattleField.toShared
  simp only
  rw [← gridSet_map Tile.toShared]
  rfl

theorem toShared_BFS_visit (bf : BattleField) (B S : Int) (pair : Vec2i × Int)
    (st : List (List Bool) × List (Vec2i × Int)) (d : String × Vec2i) :
    VectorCopy.BFS_visit bf.toShared B S pair st d = BFS_visit bf B S pair st d := by
  unfold VectorCopy.BFS_visit BFS_visit
  simp only [toShared_is_inside, toShared_tileD]
  have hemp : ∀ t : Tile, VectorCopy.Tile.is_tile_empty t.toShared = t.is_tile_empty := by
    intro t
    unfold VectorCopy.Tile.is_tile_empty Tile.is_tile_empty Tile.toShared
    cases t.unit <;> rfl
  rw [hemp]
  rfl

theorem toShared_BFS_loop (bf : BattleField) (target : Vec2i) (B S : Int)
    (dirs : List (String × Vec2i)) :
    ∀ (fuel : Nat) (V : List (List Bool)) (Q : List (Vec2i × Int)),
      VectorCopy.BFS_loop bf.toShared target B S dirs fuel V Q =
        BFS_loop bf target B S dirs fuel V Q := by
  have hfold : ∀ pair V Q,
      dirs.foldl (VectorCopy.BFS_visit bf.toShared B S pair) (V, Q) =
        dirs.foldl (BFS_visit bf B S pair) (V, Q) := by
    intro pair V Q
    congr 1
    funext st d
    exact toShared_BFS_visit bf B S pair st d
  intro fuel
  induction fuel with
  | zero =>
    intro V Q
    cases Q <;> rfl
  | succ n ih =>
    intro V Q
    cases Q with
    | nil => rfl
    | cons pair Q =>
      unfold VectorCopy.BFS_loop BFS_loop
      by_cases ht : pair.1 = target
      · simp only [ht, if_true]
      · simp only [ht, if_false]
        rw [hfold, ih]

theorem toShared_BFS (bf : BattleField) (origin target : Vec2i) (B S : Int)
    (dirs : List (String × Vec2i)) :
    VectorCopy.BFS bf.toShared origin target B S dirs = BFS bf origin target B S dirs := by
  unfold VectorCopy.BFS BFS
  rw [toShared_is_inside, toShared_BFS_loop]
  rfl

/-- On the tile of a registered unit the lookup by id of the variant finds the unit. -/
theorem toShared_find_one (t : Tile) (u : Unit) (id : String) (hu : t.unit = some u)
    (hid : u.id = id) :
    VectorCopy.Tile.find_one_unit t.toShared id = .ok (0, u) ∧
    VectorCopy.Tile.remove_one_unit t.toShared id =
      .ok (u, { height := t.height, units := [] }) ∧
    ∀ u', VectorCopy.Tile.set_unit t.toShared 0 u' = { height := t.height, units := [u'] } := by
  unfold VectorCopy.Tile.find_one_unit VectorCopy.Tile.remove_one_unit
    VectorCopy.Tile.set_unit Tile.toShared
  simp [hu, VectorCopy.find_one, hid]

/-! ## Spawn and move on the two variants -/

theorem toShared_remove_unit (bf : BattleField) (hwf : WF bf) (id : String) (c : Vec2i)
    (u : Unit) (hf : map_find bf.coordinates id = some c) (hu : unitAt bf c = some u)
    (hid : u.id = id) :
    VectorCopy.remove_unit bf.toShared id =
      .ok (u, ({ putUnit bf c none with
        coordinates := map_erase bf.coordinates id } : BattleField).toShared) := by
  obtain ⟨-, h2, -⟩ := find_tile_unit bf hwf c u hu
  have hcin := inside_of_unitAt bf hwf c u hu
  obtain ⟨-, g2, -⟩ := toShared_find_one (tileD bf c) u id h2 hid
  have hmap : map_at bf.toShared.coordinates id = .ok c := map_at_of_find _ _ _ hf
  unfold VectorCopy.remove_unit
  simp only [hmap, toShared_find_tile bf hwf c hcin, g2, bind, Except.bind, pure, Except.pure]
  have := toShared_putUnit bf c none
  unfold VectorCopy.set_tile at this
  show Except.ok (u, ({ bf.toShared with
      field := gridSet bf.toShared.field c { height := (tileD bf c).height, units := [] },
      coordinates := map_erase bf.coordinates id } : VectorCopy.BattleField)) = _
  congr 2
  show _ = ({ (putUnit bf c none).toShared with
      coordinates := map_erase bf.coordinates id } : VectorCopy.BattleField)
  rw [this]
  rfl

theorem toShared_spawn (bf : BattleField) (hwf : WF bf) (type id : String) (x y : Int) :
    VectorCopy.spawn_unit bf.toShared type id x y =
      (spawn_unit bf type id x y).map BattleField.toShared := by
  have hemp : VectorCopy.Tile.is_tile_empty (tileD bf (x, y)).toShared =
      (unitAt bf (x, y)).isNone := by
    rw [unitAt_eq_tileD]
    unfold VectorCopy.Tile.is_tile_empty Tile.toShared
    cases (tileD bf (x, y)).unit <;> rfl
  rcases spawn_unit_cases bf hwf type id x y with ⟨hg, hok⟩ | ⟨hin, hnone, hid, heq⟩
  · rw [hok]
    unfold VectorCopy.spawn_unit
    by_cases hin : is_inside_field bf (x, y) = true
    · simp only [toShared_is_inside, hin, Bool.not_true, Bool.false_eq_true, if_false,
        toShared_find_tile bf hwf (x, y) hin, bind, Except.bind, hemp]
      rcases hg with hg | hg | hg
      · rw [hin] at hg; cases hg
      · have : (unitAt bf (x, y)).isNone = false := by
          cases hu : unitAt bf (x, y) with
          | none => rw [hu] at hg; cases hg
          | some w => rfl
        simp only [this, Bool.not_false, Bool.true_or, if_true]
        rfl
      · have hc : map_contains bf.toShared.coordinates id = true := hg
        simp only [hc, Bool.or_true, if_true]
        rfl
    · have hout : is_inside_field bf (x, y) = false := by simpa using hin
      simp only [toShared_is_inside, hout, Bool.not_false, if_true]
      rfl
  · rw [heq]
    unfold VectorCopy.spawn_unit
    have hc : map_contains bf.toShared.coordinates id = false := hid
    simp only [toShared_is_inside, hin, Bool.not_true, Bool.false_eq_true, if_false,
      toShared_find_tile bf hwf (x, y) hin, bind, Except.bind, hemp, hnone,
      Option.isNone_none, hc, Bool.or_false]
    cases hcu : create_unit type id (x, y) with
    | error e => rfl
    | ok u =>
      simp only [pure, Except.pure, Except.map]
      congr 1
      have hput := toShared_putUnit bf (x, y) (some u)
      unfold VectorCopy.set_tile at hput
      have htile : VectorCopy.Tile.add_unit (tileD bf (x, y)).toShared u =
          { height := (tileD bf (x, y)).height, units := [u] } := by
        have : (tileD bf (x, y)).unit = none := by rw [← unitAt_eq_tileD]; exact hnone
        unfold VectorCopy.Tile.add_unit Tile.toShared
        simp [this]
      rw [htile]
      show _ = ({ (putUnit bf (x, y) (some u)).toShared with
        coordinates := map_emplace bf.coordinates id u.coor } : VectorCopy.BattleField)
      rw [hput]
      rfl

theorem toShared_is_move_successful (bf : BattleField) (hwf : WF bf) (id : String)
    (c : Vec2i) (u : Unit) (hf : map_find bf.coordinates id = some c)
    (hu : unitAt bf c = some u) (hid : u.id = id) (target : Vec2i) :
    VectorCopy.is_move_successful bf.toShared id target = is_move_successful bf id target := by
  rw [is_move_successful_eq bf hwf id c u hf hu target]
  obtain ⟨-, h2, -⟩ := find_tile_unit bf hwf c u hu
  have hcin := inside_of_unitAt bf hwf c u hu
  obtain ⟨g1, -, -⟩ := toShared_find_one (tileD bf c) u id h2 hid
  have hmap : map_at bf.toShared.coordinates id = .ok c := map_at_of_find _ _ _ hf
  unfold VectorCopy.is_move_successful
  simp only [hmap, toShared_find_tile bf hwf c hcin, g1, bind, Except.bind,
    toShared_is_inside]
  by_cases hin : is_inside_field bf target = true
  · simp only [hin, Bool.not_true, Bool.false_eq_true, if_false, if_true,
      toShared_find_tile bf hwf target hin, VectorCopy.tile_contains_id, bind, Except.bind,
      pure, Except.pure, toShared_BFS]
    have ht := unitAt_eq_tileD bf target
    cases hv : unitAt bf target with
    | none =>
      rw [hv] at ht
      simp only [VectorCopy.Tile.is_tile_empty, Tile.toShared, ← ht, Option.toList_none,
        List.isEmpty_nil, Bool.not_true, Bool.false_eq_true, if_false]
      cases BFS bf c target u.max_move u.max_step u.move_directions <;> rfl
    | some w =>
      rw [hv] at ht
      simp only [VectorCopy.Tile.is_tile_empty, VectorCopy.Tile.find_all_units, Tile.toShared,
        ← ht, Option.toList_some, List.isEmpty_cons, Bool.not_false, if_true,
        List.any_cons, List.any_nil, Bool.or_false]
      by_cases hw : w.id = id
      · simp only [hw, decide_True, Bool.not_true, Bool.false_eq_true, if_false, if_true]
        cases BFS bf c target u.max_move u.max_step u.move_directions <;> rfl
      · simp only [hw, decide_False, Bool.not_false, if_true, if_false]
  · have hout : is_inside_field bf target = false := by simpa using hin
    simp only [hout, Bool.not_false, if_true, Bool.false_eq_true, if_false]
    rfl

theorem toShared_move_unknown (bf : BattleField) (id : String) (x y : Int)
    (h : map_find bf.coordinates id = none) :
    VectorCopy.move_unit bf.toShared id x y = .error .out_of_range := by
  have hmap : map_at bf.toShared.coordinates id = .error .out_of_range :=
    map_at_of_find_none _ _ h
  unfold VectorCopy.move_unit VectorCopy.is_move_successful
  simp [hmap, bind, Except.bind]

/-- The failed move in closed form, with the cap test of `is_effect_full` left as it
    is. -/
theorem move_unit_failure_general (bf : BattleField) (hwf : WF bf) (id : String) (c : Vec2i)
    (u : Unit) (hf : map_find bf.coordinates id = some c) (hu : unitAt bf c = some u)
    (x y : Int) (hs : is_move_successful bf id (x, y) = .ok false) :
    move_unit bf id x y =
      match (u.set_coor (x, y)).is_effect_full "dead_inside" with
      | .error e => .error e
      | .ok full =>
        .ok (if full = false
             then putUnit bf c (some ((u.set_coor (x, y)).add_effect (DeadInside 1)))
             else putUnit bf c (some (u.set_coor (x, y)))) := by
  obtain ⟨h1, h2, h3⟩ := find_tile_unit bf hwf c u hu
  have hcin := inside_of_unitAt bf hwf c u hu
  unfold move_unit
  simp only [hs, map_at, hf, h1, Tile.find_unit, h2, bind, Except.bind]
  have hset : set_tile bf c { tileD bf c with unit := some (u.set_coor (x, y)) } =
      putUnit bf c (some (u.set_coor (x, y))) := set_tile_eq_putUnit bf c _ _ h3
  rw [hset]
  have hwf1 : WF (putUnit bf c (some (u.set_coor (x, y)))) := WF_putUnit bf c _ hwf
  have hu1 : unitAt (putUnit bf c (some (u.set_coor (x, y)))) c = some (u.set_coor (x, y)) := by
    rw [unitAt_putUnit bf hwf c c _ hcin]; simp
  obtain ⟨g1, g2, g3⟩ := find_tile_unit _ hwf1 c _ hu1
  simp only [putUnit_coordinates, hf, g1, g2, Bool.false_eq_true, if_false]
  have hset2 : ∀ ou, set_tile (putUnit bf c (some (u.set_coor (x, y)))) c
      { tileD (putUnit bf c (some (u.set_coor (x, y)))) c with unit := ou } =
      putUnit bf c ou := by
    intro ou
    rw [set_tile_eq_putUnit _ c _ _ g3, putUnit_putUnit]
  cases hfull : (u.set_coor (x, y)).is_effect_full "dead_inside" with
  | error e => rfl
  | ok full =>
    cases full with
    | true => simp [pure, Except.pure]
    | false => simp [hset2, pure, Except.pure]

theorem toShared_set_unit (bf : BattleField) (hwf : WF bf) (c : Vec2i) (u u' : Unit)
    (hu : unitAt bf c = some u) :
    VectorCopy.set_tile bf.toShared c (VectorCopy.Tile.set_unit (tileD bf c).toShared 0 u') =
      (putUnit bf c (some u')).toShared := by
  obtain ⟨-, h2, -⟩ := find_tile_unit bf hwf c u hu
  obtain ⟨-, -, g3⟩ := toShared_find_one (tileD bf c) u u.id h2 rfl
  rw [g3, toShared_putUnit]
  rfl

/-- What the lookups of the variant return at the cell of a registered unit. -/
theorem toShared_lookup (bf : BattleField) (hwf : WF bf) (id : String) (c : Vec2i) (u : Unit)
    (hf : map_find bf.coordinates id = some c) (hu : unitAt bf c = some u) (hid : u.id = id) :
    map_at bf.toShared.coordinates id = .ok c ∧
    VectorCopy.find_tile bf.toShared c = .ok (tileD bf c).toShared ∧
    VectorCopy.Tile.find_one_unit (tileD bf c).toShared id = .ok (0, u) := by
  obtain ⟨-, h2, -⟩ := find_tile_unit bf hwf c u hu
  have hcin := inside_of_unitAt bf hwf c u hu
  exact ⟨map_at_of_find _ _ _ hf, toShared_find_tile bf hwf c hcin,
    (toShared_find_one (tileD bf c) u id h2 hid).1⟩

/-- A move on the variant is the move on the battle field of `Lab.cpp`. -/
theorem toShared_move (bf : BattleField) (hwf : WF bf) (hcons : Consistent bf)
    (id : String) (x y : Int) :
    VectorCopy.move_unit bf.toShared id x y =
      (move_unit bf id x y).map BattleField.toShared := by
  cases hf : map_find bf.coordinates id with
  | none =>
    rw [move_unit_unknown bf id x y hf, toShared_move_unknown bf id x y hf]
    rfl
  | some c =>
    obtain ⟨u, hu, hid⟩ := ((Consistent_iff bf hwf).mp hcons).2.1 id c hf
    have hcin := inside_of_unitAt bf hwf c u hu
    obtain ⟨l1, l2, l3⟩ := toShared_lookup bf hwf id c u hf hu hid
    have hsim := toShared_is_move_successful bf hwf id c u hf hu hid (x, y)
    have hwf1 : WF (putUnit bf c (some (u.set_coor (x, y)))) := WF_putUnit bf c _ hwf
    have hu1 : unitAt (putUnit bf c (some (u.set_coor (x, y)))) c =
        some (u.set_coor (x, y)) := by
      rw [unitAt_putUnit bf hwf c c _ hcin]; simp
    have hf1 : map_find (putUnit bf c (some (u.set_coor (x, y)))).coordinates id = some c := hf
    have hid1 : (u.set_coor (x, y)).id = id := hid
    have hset := toShared_set_unit bf hwf c u (u.set_coor (x, y)) hu
    rcases is_move_successful_cases bf hwf hcons id c u hf hu (x, y) with
      ⟨h1, h2, h3, -⟩ | ⟨h1, -⟩
    · rw [move_unit_success bf hwf id c u hf hu x y h1 h2 h3]
      rw [h1] at hsim
      have hrem := toShared_remove_unit _ hwf1 id c _ hf1 hu1 hid1
      rw [putUnit_putUnit] at hrem
      obtain ⟨bf2, hbf2⟩ : ∃ b : BattleField, b = { putUnit bf c none with
          coordinates := map_erase bf.coordinates id } := ⟨_, rfl⟩
      have hbf2' : ({ putUnit bf c none with
          coordinates := map_erase (putUnit bf c (some (u.set_coor (x, y)))).coordinates id }
          : BattleField) = bf2 := by rw [hbf2]; rfl
      rw [hbf2'] at hrem
      have hwf2 : WF bf2 := by rw [hbf2]; exact WF_putUnit bf c _ hwf
      have hin2 : is_inside_field bf2 (x, y) = true := by rw [hbf2]; exact h2
      have h4 := toShared_find_tile _ hwf2 (x, y) hin2
      have h5 : (tileD bf2 (x, y)).unit = none := by
        rw [← unitAt_eq_tileD, hbf2]
        show unitAt (putUnit bf c none) (x, y) = none
        rw [unitAt_putUnit bf hwf c (x, y) _ hcin]
        by_cases hxy : (x, y) = c
        · simp [hxy]
        · simp [hxy, h3 hxy]
      have htile : VectorCopy.Tile.add_unit (tileD bf2 (x, y)).toShared (u.set_coor (x, y)) =
          { height := (tileD bf2 (x, y)).height, units := [u.set_coor (x, y)] } := by
        unfold VectorCopy.Tile.add_unit Tile.toShared
        simp [h5]
      have hput := toShared_putUnit bf2 (x, y) (some (u.set_coor (x, y)))
      unfold VectorCopy.set_tile at hput
      have hfin : ({ putUnit bf2 (x, y) (some (u.set_coor (x, y))) with
          coordinates := map_emplace bf2.coordinates id (x, y) } : BattleField) =
          { putUnit (putUnit bf c none) (x, y) (some (u.set_coor (x, y))) with
            coordinates := map_emplace (map_erase bf.coordinates id) id (x, y) } := by
        rw [hbf2]; rfl
      unfold VectorCopy.move_unit
      simp only [hsim, l1, l2, l3, bind, Except.bind, if_true, hset, hrem, h4, htile,
        pure, Except.pure, Except.map]
      congr 1
      rw [← hfin]
      show _ = ({ (putUnit bf2 (x, y) (some (u.set_coor (x, y)))).toShared with
        coordinates := map_emplace bf2.coordinates id (x, y) } : VectorCopy.BattleField)
      rw [hput]
      rfl
    · rw [move_unit_failure_general bf hwf id c u hf hu x y h1]
      rw [h1] at hsim
      obtain ⟨m1, m2, m3⟩ := toShared_lookup _ hwf1 id c _ hf1 hu1 hid1
      have hset2 := toShared_set_unit _ hwf1 c _
        ((u.set_coor (x, y)).add_effect (DeadInside 1)) hu1
      rw [putUnit_putUnit] at hset2
      unfold VectorCopy.move_unit
      simp only [hsim, l1, l2, l3, bind, Except.bind, hset, m1, m2, m3,
        Bool.false_eq_true, if_false]
      cases hfull : (u.set_coor (x, y)).is_effect_full "dead_inside" with
      | error e => rfl
      | ok full =>
        cases full with
        | true => simp [pure, Except.pure, Except.map]
        | false => simp [hset2, pure, Except.pure, Except.map]

/-! ## Attack on the two variants -/

theorem toShared_initialize_attack_pass (bf : BattleField) (hwf : WF bf) (id : String)
    (c : Vec2i) (a : Unit) (hf : map_find bf.coordinates id = some c)
    (ha : unitAt bf c = some a) (hid : a.id = id) (dir : Vec2i)
    (hin : is_inside_field bf (c.add dir) = true)
    (hpass : unitAt bf (c.add dir) = none ∨
      |(tileD bf c).height - (tileD bf (c.add dir)).height| > a.attack_range) :
    VectorCopy.initialize_attack bf.toShared id dir = .ok (false, bf.toShared) := by
  obtain ⟨l1, l2, l3⟩ := toShared_lookup bf hwf id c a hf ha hid
  have hv := unitAt_eq_tileD bf (c.add dir)
  unfold VectorCopy.initialize_attack
  simp only [l1, l2, l3, toShared_find_tile bf hwf _ hin, bind, Except.bind, pure, Except.pure]
  cases hw : unitAt bf (c.add dir) with
  | none =>
    rw [hw] at hv
    simp [VectorCopy.Tile.is_tile_empty, Tile.toShared, ← hv]
  | some w =>
    rw [hw] at hv
    rcases hpass with hp | hp
    · rw [hw] at hp; cases hp
    · have hp' : |VectorCopy.calculate_height_diff (tileD bf c).toShared
          (tileD bf (c.add dir)).toShared| > a.attack_range := hp
      simp [VectorCopy.Tile.is_tile_empty, Tile.toShared, ← hv, hp']
      intro hcon
      exact absurd hp' (not_lt.mpr hcon)

theorem toShared_initialize_attack_hit (bf : BattleField) (hwf : WF bf) (hcons : Consistent bf)
    (id : String) (c : Vec2i) (a : Unit) (hf : map_find bf.coordinates id = some c)
    (ha : unitAt bf c = some a) (hid : a.id = id) (dir : Vec2i) (v : Unit)
    (hv : unitAt bf (c.add dir) = some v)
    (hr : |(tileD bf c).height - (tileD bf (c.add dir)).height| ≤ a.attack_range) :
    VectorCopy.initialize_attack bf.toShared id dir =
      .ok (true, (damaged bf (c.add dir) v
        (attack_damage a.attack_dmg (tileD bf c).height
          (tileD bf (c.add dir)).height)).toShared) := by
  obtain ⟨l1, l2, l3⟩ := toShared_lookup bf hwf id c a hf ha hid
  obtain ⟨-, g2, -⟩ := find_tile_unit bf hwf _ v hv
  have hin := inside_of_unitAt bf hwf _ v hv
  have hreg : map_find bf.coordinates v.id = some (c.add dir) :=
    ((Consistent_iff bf hwf).mp hcons).2.2 _ v hv
  have hnr : ¬ (|VectorCopy.calculate_height_diff (tileD bf c).toShared
      (tileD bf (c.add dir)).toShared| > a.attack_range) := by
    show ¬ (|(tileD bf c).height - (tileD bf (c.add dir)).height| > a.attack_range)
    omega
  obtain ⟨dmg, hdmg⟩ : ∃ d, d =
      attack_damage a.attack_dmg (tileD bf c).height (tileD bf (c.add dir)).height := ⟨_, rfl⟩
  have hdmg' : (if a.attack_dmg + VectorCopy.calculate_height_diff (tileD bf c).toShared
        (tileD bf (c.add dir)).toShared < 0
      then 0 else a.attack_dmg + VectorCopy.calculate_height_diff (tileD bf c).toShared
        (tileD bf (c.add dir)).toShared) = dmg := by
    rw [hdmg]; unfold attack_damage
    show (if a.attack_dmg + ((tileD bf c).height - (tileD bf (c.add dir)).height) < 0
      then 0 else a.attack_dmg + ((tileD bf c).height - (tileD bf (c.add dir)).height)) = _
    split
    · rw [max_eq_left]; omega
    · rw [max_eq_right]; omega
  obtain ⟨v1, hv1⟩ : ∃ v1, v1 = v.take_damage dmg := ⟨_, rfl⟩
  have hv1id : v1.id = v.id := by rw [hv1]; rfl
  have hv1hp : v1.hp = v.hp - dmg := by rw [hv1]; rfl
  have hset := toShared_set_unit bf hwf (c.add dir) v v1 hv
  have hwf1 : WF (putUnit bf (c.add dir) (some v1)) := WF_putUnit bf _ _ hwf
  have hu1 : unitAt (putUnit bf (c.add dir) (some v1)) (c.add dir) = some v1 := by
    rw [unitAt_putUnit bf hwf _ _ _ hin]; simp
  have hrem := toShared_remove_unit _ hwf1 v.id (c.add dir) v1 hreg hu1 hv1id
  rw [putUnit_putUnit] at hrem
  have hunits : (tileD bf (c.add dir)).toShared.units = [v] := by
    unfold Tile.toShared
    simp [g2]
  have hvict : VectorCopy.attack_victims (c.add dir) dmg 1 0 bf.toShared =
      .ok (damaged bf (c.add dir) v dmg).toShared := by
    unfold VectorCopy.attack_victims
    simp only [toShared_find_tile bf hwf _ hin, bind, Except.bind, hunits,
      List.getElem?_cons_zero, ← hv1, hset, hv1id, hv1hp]
    unfold damaged
    by_cases hdead : v.hp - dmg ≤ 0
    · simp only [hdead, if_true, hrem, VectorCopy.attack_victims]
      rfl
    · simp only [hdead, if_false, VectorCopy.attack_victims, hv1]
  unfold VectorCopy.initialize_attack
  simp only [l1, l2, l3, toShared_find_tile bf hwf _ hin, bind, Except.bind, pure,
    Except.pure, VectorCopy.Tile.is_tile_empty, VectorCopy.Tile.find_all_units, hunits,
    List.isEmpty_cons, Bool.false_eq_true, if_false, hnr, hdmg', List.length_singleton,
    hvict]
  rw [hdmg]

/-- One probe of the attack on the variant is the probe on the battle field of
    `Lab.cpp`. -/
theorem toShared_initialize_attack (bf : BattleField) (hwf : WF bf) (hcons : Consistent bf)
    (id : String) (c : Vec2i) (a : Unit) (hf : map_find bf.coordinates id = some c)
    (ha : unitAt bf c = some a) (hid : a.id = id) (dir : Vec2i)
    (hin : is_inside_field bf (c.add dir) = true) :
    ∃ (b : Bool) (bf1 : BattleField), initialize_attack bf id dir = .ok (b, bf1) ∧
      VectorCopy.initialize_attack bf.toShared id dir = .ok (b, bf1.toShared) ∧
      (b = false → bf1 = bf) := by
  cases hw : unitAt bf (c.add dir) with
  | none =>
    exact ⟨false, bf, initialize_attack_empty bf hwf id c hf dir hin hw,
      toShared_initialize_attack_pass bf hwf id c a hf ha hid dir hin (Or.inl hw),
      fun _ => rfl⟩
  | some w =>
    by_cases hr : |(tileD bf c).height - (tileD bf (c.add dir)).height| ≤ a.attack_range
    · exact ⟨true, _, initialize_attack_hit bf hwf hcons id c a hf ha dir w hw hr,
        toShared_initialize_attack_hit bf hwf hcons id c a hf ha hid dir w hw hr,
        fun h => by cases h⟩
    · exact ⟨false, bf,
        initialize_attack_out_of_range bf hwf id c a hf ha dir w hw (lt_of_not_ge hr),
        toShared_initialize_attack_pass bf hwf id c a hf ha hid dir hin
          (Or.inr (lt_of_not_ge hr)),
        fun _ => rfl⟩

theorem toShared_attack_loop (bf : BattleField) (hwf : WF bf) (hcons : Consistent bf)
    (id dir : String) (c : Vec2i) (a : Unit) (hf : map_find bf.coordinates id = some c)
    (ha : unitAt bf c = some a) (hid : a.id = id) :
    ∀ (n : Nat) (i : Int),
      VectorCopy.attack_loop id dir a n i bf.toShared =
        (attack_loop id dir a n i bf).map BattleField.toShared := by
  have hmap : map_at bf.toShared.coordinates id = .ok c := map_at_of_find _ _ _ hf
  have hmap' : map_at bf.coordinates id = .ok c := map_at_of_find _ _ _ hf
  intro n
  induction n with
  | zero => intro i; rfl
  | succ n ih =>
    intro i
    unfold VectorCopy.attack_loop attack_loop
    simp only [hmap, hmap', bind, Except.bind]
    cases hv : map_at a.attack_directions dir with
    | error e => rfl
    | ok v =>
      simp only [toShared_is_inside]
      by_cases hin : is_inside_field bf (c.add (v.mul i)) = true
      · simp only [hin, Bool.not_true, Bool.false_eq_true, if_false]
        obtain ⟨b, bf1, h1, h2, h3⟩ :=
          toShared_initialize_attack bf hwf hcons id c a hf ha hid (v.mul i) hin
        rw [h1, h2]
        cases b with
        | true => rfl
        | false =>
          simp only [Bool.false_eq_true, if_false]
          rw [h3 rfl]
          exact ih (i + 1)
      · simp only [hin, Bool.not_false, if_true]
        rfl

/-- An attack on the variant is the attack on the battle field of `Lab.cpp`. -/
theorem toShared_attack (bf : BattleField) (hwf : WF bf) (hcons : Consistent bf)
    (id dir : String) :
    VectorCopy.attack_unit bf.toShared id dir =
      (attack_unit bf id dir).map BattleField.toShared := by
  cases hf : map_find bf.coordinates id with
  | none =>
    have hc : map_contains bf.coordinates id = false := (map_contains_eq_false _ _).mpr hf
    rw [attack_unit_unknown bf id dir hc]
    unfold VectorCopy.attack_unit
    have hc' : map_contains bf.toShared.coordinates id = false := hc
    simp only [hc', Bool.not_false, if_true]
    rfl
  | some c =>
    obtain ⟨a, ha, hid⟩ := ((Consistent_iff bf hwf).mp hcons).2.1 id c hf
    obtain ⟨l1, l2, l3⟩ := toShared_lookup bf hwf id c a hf ha hid
    have hc' : map_contains bf.toShared.coordinates id = true := by
      rw [map_contains_eq_true]; exact ⟨c, hf⟩
    rw [attack_unit_eq bf hwf id dir c a hf ha]
    unfold VectorCopy.attack_unit
    simp only [hc', Bool.not_true, Bool.false_eq_true, if_false, l1, l2, l3, bind, Except.bind]
    exact toShared_attack_loop bf hwf hcons id dir c a hf ha hid _ 1

/-! ## Tick and snapshot on the two variants -/

theorem toShared_tick_unit (bf : BattleField) (hwf : WF bf) (id : String) (c : Vec2i)
    (u : Unit) (hf : map_find bf.coordinates id = some c) (hu : unitAt bf c = some u)
    (hid : u.id = id) (nt : Int) :
    VectorCopy.tick_unit nt bf.toShared (id, c) =
      .ok (ticked bf id c (tick_result u (nt - bf.time))).toShared := by
  obtain ⟨-, l2, l3⟩ := toShared_lookup bf hwf id c u hf hu hid
  have hcin := inside_of_unitAt bf hwf c u hu
  obtain ⟨u1, hu1⟩ : ∃ u1, u1 = u.apply_effects (nt - bf.time) := ⟨_, rfl⟩
  have hhp : u1.hp = u.hp - effects_damage u (nt - bf.time) := by
    rw [hu1, apply_effects_eq]
  have hu1id : u1.id = id := by rw [hu1, apply_effects_eq]; exact hid
  have hset := toShared_set_unit bf hwf c u u1 hu
  have hwf1 : WF (putUnit bf c (some u1)) := WF_putUnit bf c _ hwf
  have hu1' : unitAt (putUnit bf c (some u1)) c = some u1 := by
    rw [unitAt_putUnit bf hwf c c _ hcin]; simp
  have hf1 : map_find (putUnit bf c (some u1)).coordinates id = some c := hf
  have hrem := toShared_remove_unit _ hwf1 id c u1 hf1 hu1' hu1id
  rw [putUnit_putUnit] at hrem
  have hset2 : ∀ u2, VectorCopy.set_tile (putUnit bf c (some u1)).toShared c
      (VectorCopy.Tile.set_unit (tileD bf c).toShared 0 u2) =
      (putUnit bf c (some u2)).toShared := by
    intro u2
    obtain ⟨-, h2, -⟩ := find_tile_unit bf hwf c u hu
    obtain ⟨-, -, g3⟩ := toShared_find_one (tileD bf c) u u.id h2 rfl
    rw [g3]
    have := toShared_putUnit (putUnit bf c (some u1)) c (some u2)
    rw [putUnit_putUnit, height_putUnit] at this
    rw [this]
    rfl
  have htime : bf.toShared.time = bf.time := rfl
  unfold VectorCopy.tick_unit
  simp only [l2, l3, bind, Except.bind, htime, ← hu1, hset, hrem, hset2]
  unfold tick_result ticked
  by_cases hdead : u.hp - effects_damage u (nt - bf.time) ≤ 0
  · have : u1.hp ≤ 0 := by rw [hhp]; exact hdead
    simp only [this, hdead, if_true, pure, Except.pure]
    rfl
  · have : ¬ u1.hp ≤ 0 := by rw [hhp]; exact hdead
    simp only [this, hdead, if_false, pure, Except.pure]
    rw [hu1, apply_effects_eq]
    rfl

/-- The loop of `update_tick` on the variant is the loop on the battle field of
    `Lab.cpp`. -/
theorem toShared_tick_fold (nt : Int) :
    ∀ (R : List (String × Vec2i)) (b : BattleField) (Pre : List (String × Vec2i))
      (fuel : Nat), R.length ≤ fuel →
      WF b → b.coordinates = Pre ++ R → ((Pre ++ R).map Prod.fst).Nodup →
      (R.map Prod.snd).Nodup → (∀ e ∈ R, ∃ u, unitAt b e.2 = some u ∧ u.id = e.1) →
      VectorCopy.update_tick_loop nt fuel b.toShared R.head? =
        (update_tick_loop nt fuel b R.head?).map BattleField.toShared := by
  intro R
  induction R with
  | nil =>
    intro b Pre fuel _ _ _ _ _ _
    cases fuel <;> rfl
  | cons e R ih =>
    intro b Pre fuel hfuel hwf hco hnd hcd hocc
    obtain ⟨id, c⟩ := e
    obtain ⟨f, hf0⟩ : ∃ f, fuel = f + 1 := ⟨fuel - 1, by
      simp only [List.length_cons] at hfuel; omega⟩
    subst hf0
    have hfuel' : R.length ≤ f := by
      simp only [List.length_cons] at hfuel; omega
    have hnext : map_next b.coordinates id = R.head? := by
      rw [hco]
      exact map_next_middle Pre R id c hnd
    have hnext' : map_next b.toShared.coordinates id = R.head? := hnext
    obtain ⟨u, hu, hid⟩ := hocc (id, c) (List.mem_cons_self _ _)
    simp only at hu hid
    have hcin := inside_of_unitAt b hwf c u hu
    have hf : map_find b.coordinates id = some c := by
      rw [hco]
      exact map_find_of_mem_nodup _ _ _ hnd (by simp)
    have hstep := tick_unit_eq b hwf id c u hf hu nt
    have hstep' := toShared_tick_unit b hwf id c u hf hu hid nt
    obtain ⟨r, hr⟩ : ∃ r, r = tick_result u (nt - b.time) := ⟨_, rfl⟩
    rw [← hr] at hstep hstep'
    obtain ⟨b1, hb1⟩ : ∃ b1, b1 = ticked b id c r := ⟨_, rfl⟩
    rw [← hb1] at hstep hstep'
    have hwf1 : WF b1 := by rw [hb1]; exact WF_ticked b hwf id c r
    have hunit1 : ∀ c', unitAt b1 c' = if c' = c then r else unitAt b c' := by
      intro c'; rw [hb1]; exact unitAt_ticked b hwf id c c' r hcin
    simp only [List.map_cons, List.nodup_cons] at hcd
    have hne : ∀ e' ∈ R, e'.2 ≠ c := by
      intro e' he' heq
      exact hcd.1 (List.mem_map.mpr ⟨e', he', heq⟩)
    have hocc1 : ∀ e' ∈ R, ∃ u, unitAt b1 e'.2 = some u ∧ u.id = e'.1 := by
      intro e' he'
      rw [hunit1, if_neg (hne e' he')]
      exact hocc e' (List.mem_cons_of_mem _ he')
    have hfin : ∀ (Pre' : List (String × Vec2i)), b1.coordinates = Pre' ++ R →
        ((Pre' ++ R).map Prod.fst).Nodup →
        VectorCopy.update_tick_loop nt (f + 1) b.toShared ((id, c) :: R).head? =
          (update_tick_loop nt (f + 1) b ((id, c) :: R).head?).map BattleField.toShared := by
      intro Pre' hco1 hnd1
      have := ih b1 Pre' f hfuel' hwf1 hco1 hnd1 hcd.2 hocc1
      simp only [List.head?_cons, VectorCopy.update_tick_loop, update_tick_loop, hnext,
        hnext', hstep, hstep', bind, Except.bind]
      exact this
    cases hrc : r with
    | none =>
      have hco1 : b1.coordinates = Pre ++ R := by
        rw [hb1, hrc]
        show map_erase b.coordinates id = Pre ++ R
        rw [hco]
        exact map_erase_middle Pre R id c hnd
      have hnd1 : ((Pre ++ R).map Prod.fst).Nodup := by
        refine List.Nodup.sublist ?_ hnd
        apply List.Sublist.map
        exact List.Sublist.append_left (List.sublist_cons_self _ _) _
      exact hfin Pre hco1 hnd1
    | some u' =>
      have hco1 : b1.coordinates = (Pre ++ [(id, c)]) ++ R := by
        rw [hb1, hrc]
        show b.coordinates = (Pre ++ [(id, c)]) ++ R
        rw [hco]; simp
      have hnd1 : (((Pre ++ [(id, c)]) ++ R).map Prod.fst).Nodup := by
        simpa using hnd
      exact hfin (Pre ++ [(id, c)]) hco1 hnd1

/-- A tick on the variant is the tick on the battle field of `Lab.cpp`. -/
theorem toShared_tick (bf : BattleField) (hwf : WF bf) (hcons : Consistent bf) (nt : Int) :
    VectorCopy.update_tick bf.toShared nt =
      (update_tick bf nt).map BattleField.toShared := by
  have hnd := keys_nodup_of_sorted _ hcons.1
  have hloop := toShared_tick_fold nt bf.coordinates bf [] bf.coordinates.length (le_refl _)
    hwf rfl hnd (coords_nodup bf hcons) (by
      intro e he
      have hfind := map_find_of_mem_nodup bf.coordinates e.1 e.2 hnd he
      exact ((Consistent_iff bf hwf).mp hcons).2.1 e.1 e.2 hfind)
  unfold VectorCopy.update_tick update_tick
  have hlen : bf.toShared.coordinates = bf.coordinates := rfl
  rw [hlen, hloop]
  cases update_tick_loop nt bf.coordinates.length bf bf.coordinates.head? with
  | error e => rfl
  | ok b1 => rfl

theorem toShared_state_lines (bf : BattleField) (hwf : WF bf) :
    ∀ (l : List (Vec2i × String)),
      (∀ e ∈ l, ∃ u, unitAt bf e.1 = some u ∧ u.id = e.2) →
      VectorCopy.state_lines bf.toShared l = state_lines bf l := by
  intro l
  induction l with
  | nil => intro _; rfl
  | cons e l ih =>
    intro h
    obtain ⟨coor, id⟩ := e
    obtain ⟨u, hu, hid⟩ := h (coor, id) (List.mem_cons_self _ _)
    simp only at hu hid
    obtain ⟨h1, h2, -⟩ := find_tile_unit bf hwf coor u hu
    have hcin := inside_of_unitAt bf hwf coor u hu
    obtain ⟨g1, -, -⟩ := toShared_find_one (tileD bf coor) u id h2 hid
    unfold VectorCopy.state_lines state_lines
    simp only [toShared_find_tile bf hwf coor hcin, g1, h1, Tile.find_unit, h2, bind,
      Except.bind]
    rw [ih (fun e he => h e (List.mem_cons_of_mem _ he))]

/-- The snapshot of the variant is the snapshot of the battle field of `Lab.cpp`. -/
theorem toShared_state (bf : BattleField) (hwf : WF bf) (hcons : Consistent bf) :
    VectorCopy.state bf.toShared = state bf := by
  have hl := toShared_state_lines bf hwf (flip_map bf.coordinates)
    (fun e he => flip_map_unit bf hcons e he)
  show (do
    let lines ← VectorCopy.state_lines bf.toShared (flip_map bf.coordinates)
    pure (lines ++ ["---"])) = (do
    let lines ← state_lines bf (flip_map bf.coordinates)
    pure (lines ++ ["---"]))
  rw [hl]

/-! ## Registry and grid stay in agreement, whatever the tick times -/

theorem Linked_spawn (bf bf' : BattleField) (hwf : WF bf) (hcons : Consistent bf)
    (type id : String) (x y : Int) (hs : spawn_unit bf type id x y = .ok bf') :
    WF bf' ∧ Consistent bf' := by
  rcases spawn_unit_cases bf hwf type id x y with ⟨-, hok⟩ | ⟨hin, hemp, hid, heq⟩
  · rw [hok] at hs
    cases hs
    exact ⟨hwf, hcons⟩
  · rw [heq] at hs
    cases hc : create_unit type id (x, y) with
    | error e => rw [hc] at hs; cases hs
    | ok u =>
      rw [hc] at hs
      simp only [Except.ok.injEq] at hs
      obtain ⟨huid, hucoor, -⟩ := create_unit_ok type id (x, y) u hc
      subst hs
      refine ⟨WF_putUnit bf (x, y) _ hwf, ?_⟩
      rw [hucoor, ← huid]
      apply Consistent_add bf hwf hcons (x, y) u hin hemp
      rw [huid]
      exact (map_contains_eq_false _ _).mp hid

theorem Linked_move (bf bf' : BattleField) (hwf : WF bf) (hcons : Consistent bf)
    (id : String) (x y : Int) (hs : move_unit bf id x y = .ok bf') :
    WF bf' ∧ Consistent bf' := by
  cases hf : map_find bf.coordinates id with
  | none =>
    rw [move_unit_unknown bf id x y hf] at hs
    cases hs
  | some c =>
    obtain ⟨u, hu, huid⟩ := ((Consistent_iff bf hwf).mp hcons).2.1 id c hf
    have hcin := inside_of_unitAt bf hwf c u hu
    rcases is_move_successful_cases bf hwf hcons id c u hf hu (x, y) with
      ⟨h1, h2, h3, -⟩ | ⟨h1, -⟩
    · rw [move_unit_success bf hwf id c u hf hu x y h1 h2 h3] at hs
      simp only [Except.ok.injEq] at hs
      subst hs
      refine ⟨WF_putUnit _ (x, y) _ (WF_putUnit bf c _ hwf), ?_⟩
      have hA := Consistent_remove bf hwf hcons c u hu
      rw [huid] at hA
      have hwfA : WF ({ putUnit bf c none with
          coordinates := map_erase bf.coordinates id } : BattleField) :=
        WF_putUnit bf c _ hwf
      have := Consistent_add _ hwfA hA (x, y) (u.set_coor (x, y)) h2 (by
          show unitAt (putUnit bf c none) (x, y) = none
          rw [unitAt_putUnit bf hwf c (x, y) _ hcin]
          by_cases hxy : (x, y) = c
          · simp [hxy]
          · simp [hxy, h3 hxy])
        (by
          show map_find (map_erase bf.coordinates id) u.id = none
          rw [map_find_erase, huid]; simp)
      have hid2 : (u.set_coor (x, y)).id = id := huid
      rw [hid2] at this
      exact this
    · rw [move_unit_failure_general bf hwf id c u hf hu x y h1] at hs
      cases hfull : (u.set_coor (x, y)).is_effect_full "dead_inside" with
      | error e => rw [hfull] at hs; cases hs
      | ok full =>
        rw [hfull] at hs
        simp only [Except.ok.injEq] at hs
        subst hs
        split_ifs
        · exact ⟨WF_putUnit bf c _ hwf, Consistent_put_same_id bf hwf hcons c u _ hu rfl⟩
        · exact ⟨WF_putUnit bf c _ hwf, Consistent_put_same_id bf hwf hcons c u _ hu rfl⟩

theorem Linked_damaged (bf : BattleField) (hwf : WF bf) (hcons : Consistent bf)
    (c : Vec2i) (w : Unit) (dmg : Int) (hw : unitAt bf c = some w) :
    WF (damaged bf c w dmg) ∧ Consistent (damaged bf c w dmg) := by
  unfold damaged
  split_ifs
  · exact ⟨WF_putUnit bf c _ hwf, Consistent_remove bf hwf hcons c w hw⟩
  · exact ⟨WF_putUnit bf c _ hwf, Consistent_put_same_id bf hwf hcons c w _ hw rfl⟩

theorem Linked_attack (bf bf' : BattleField) (hwf : WF bf) (hcons : Consistent bf)
    (id dir : String) (hs : attack_unit bf id dir = .ok bf') :
    WF bf' ∧ Consistent bf' := by
  cases hf : map_find bf.coordinates id with
  | none =>
    rw [attack_unit_unknown bf id dir ((map_contains_eq_false _ _).mpr hf)] at hs
    cases hs
    exact ⟨hwf, hcons⟩
  | some c =>
    obtain ⟨a, ha, -⟩ := ((Consistent_iff bf hwf).mp hcons).2.1 id c hf
    rw [attack_unit_eq bf hwf id dir c a hf ha] at hs
    rcases attack_loop_result id dir c a _ 1 bf bf' hwf hcons hf ha hs with
      h | ⟨v, k, w, -, -, -, hw, -, hbf⟩
    · rw [h]; exact ⟨hwf, hcons⟩
    · rw [hbf]
      exact Linked_damaged bf hwf hcons _ w _ hw

theorem tick_result_id (u u' : Unit) (dt : Int) (h : tick_result u dt = some u') :
    u'.id = u.id := by
  unfold tick_result at h
  split at h
  · cases h
  · simp only [Option.some.injEq] at h
    rw [← h]

theorem Linked_tick (bf bf' : BattleField) (hwf : WF bf) (hcons : Consistent bf) (nt : Int)
    (hs : update_tick bf nt = .ok bf') : WF bf' ∧ Consistent bf' := by
  obtain ⟨b, h1, h2, -, -, -, -, h7, h8⟩ := update_tick_spec bf hwf hcons nt
  rw [h1] at hs
  simp only [Except.ok.injEq] at hs
  subst hs
  have hnd := keys_nodup_of_sorted _ hcons.1
  obtain ⟨hsorted, hentry, hreg⟩ := (Consistent_iff bf hwf).mp hcons
  refine ⟨h2, (Consistent_iff b h2).mpr ⟨?_, ?_, ?_⟩⟩
  · rw [h7, List.pairwise_map]
    rw [List.pairwise_map] at hsorted
    exact hsorted.filter _
  · intro id c hf
    have hmem := map_find_mem _ _ _ hf
    rw [h7, List.mem_filter] at hmem
    obtain ⟨hm1, hm2⟩ := hmem
    have hfind := map_find_of_mem_nodup _ _ _ hnd hm1
    obtain ⟨u, hu, huid⟩ := hentry id c hfind
    simp only [hu, Option.some_bind] at hm2
    obtain ⟨u', hu'⟩ := Option.isSome_iff_exists.mp hm2
    refine ⟨u', by rw [h8, hu]; simpa using hu', ?_⟩
    rw [tick_result_id u u' _ hu']
    exact huid
  · intro c u' hu'
    rw [h8] at hu'
    cases hu : unitAt bf c with
    | none => rw [hu] at hu'; simp at hu'
    | some u =>
      rw [hu] at hu'
      simp only [Option.some_bind] at hu'
      rw [tick_result_id u u' _ hu', h7]
      apply map_find_of_mem_nodup
      · refine List.Nodup.sublist ?_ hnd
        exact List.Sublist.map _ (List.filter_sublist _)
      · rw [List.mem_filter]
        refine ⟨map_find_mem _ _ _ (hreg c u hu), ?_⟩
        simp [hu, hu']

/-! ## Runs of the two variants -/

theorem toShared_new (M N : Int) (input : List Int) :
    (BattleField.new M N input).toShared = VectorCopy.BattleField.new M N input := by
  unfold BattleField.toShared BattleField.new VectorCopy.BattleField.new
  simp [List.map_map, Function.comp, Tile.toShared]

theorem toShared_apply_op (st : BattleField × List String) (hwf : WF st.1)
    (hcons : Consistent st.1) (op : Op) :
    VectorCopy.apply_op (st.1.toShared, st.2) op =
      (apply_op st op).map (fun r => (r.1.toShared, r.2)) ∧
    ∀ st', apply_op st op = .ok st' → WF st'.1 ∧ Consistent st'.1 := by
  cases op with
  | spawn type id x y =>
    constructor
    · unfold VectorCopy.apply_op apply_op
      simp only [toShared_spawn st.1 hwf type id x y, bind, Except.bind]
      cases spawn_unit st.1 type id x y <;> rfl
    · intro st' h
      unfold apply_op at h
      cases hs : spawn_unit st.1 type id x y with
      | error e => simp only [hs, bind, Except.bind] at h; cases h
      | ok b =>
        simp only [hs, bind, Except.bind, pure, Except.pure, Except.ok.injEq] at h
        rw [← h]
        exact Linked_spawn st.1 b hwf hcons type id x y hs
  | move id x y =>
    constructor
    · unfold VectorCopy.apply_op apply_op
      simp only [toShared_move st.1 hwf hcons id x y, bind, Except.bind]
      cases move_unit st.1 id x y <;> rfl
    · intro st' h
      unfold apply_op at h
      cases hs : move_unit st.1 id x y with
      | error e => simp only [hs, bind, Except.bind] at h; cases h
      | ok b =>
        simp only [hs, bind, Except.bind, pure, Except.pure, Except.ok.injEq] at h
        rw [← h]
        exact Linked_move st.1 b hwf hcons id x y hs
  | attack id dir =>
    constructor
    · unfold VectorCopy.apply_op apply_op
      simp only [toShared_attack st.1 hwf hcons id dir, bind, Except.bind]
      cases attack_unit st.1 id dir <;> rfl
    · intro st' h
      unfold apply_op at h
      cases hs : attack_unit st.1 id dir with
      | error e => simp only [hs, bind, Except.bind] at h; cases h
      | ok b =>
        simp only [hs, bind, Except.bind, pure, Except.pure, Except.ok.injEq] at h
        rw [← h]
        exact Linked_attack st.1 b hwf hcons id dir hs
  | tick new_time =>
    constructor
    · unfold VectorCopy.apply_op apply_op
      simp only [toShared_tick st.1 hwf hcons new_time, bind, Except.bind]
      cases update_tick st.1 new_time <;> rfl
    · intro st' h
      unfold apply_op at h
      cases hs : update_tick st.1 new_time with
      | error e => simp only [hs, bind, Except.bind] at h; cases h
      | ok b =>
        simp only [hs, bind, Except.bind, pure, Except.pure, Except.ok.injEq] at h
        rw [← h]
        exact Linked_tick st.1 b hwf hcons new_time hs
  | state =>
    constructor
    · unfold VectorCopy.apply_op apply_op
      simp only [toShared_state st.1 hwf hcons, bind, Except.bind]
      cases state st.1 <;> rfl
    · intro st' h
      unfold apply_op at h
      cases hs : state st.1 with
      | error e => simp only [hs, bind, Except.bind] at h; cases h
      | ok lines =>
        simp only [hs, bind, Except.bind, pure, Except.pure, Except.ok.injEq] at h
        rw [← h]
        exact ⟨hwf, hcons⟩

/-- A run on the variant is the run on the battle field of `Lab.cpp`: the same
    exception at the same call, or the same output and the same content. -/
theorem toShared_run_ops :
    ∀ (ops : List Op) (st : BattleField × List String), WF st.1 → Consistent st.1 →
      VectorCopy.run_ops ops (st.1.toShared, st.2) =
        (run_ops ops st).map (fun r => (r.1.toShared, r.2)) := by
  intro ops
  induction ops with
  | nil => intro st _ _; rfl
  | cons op ops ih =>
    intro st hwf hcons
    obtain ⟨h1, h2⟩ := toShared_apply_op st hwf hcons op
    unfold VectorCopy.run_ops run_ops
    rw [h1]
    cases hs : apply_op st op with
    | error e => rfl
    | ok st1 =>
      obtain ⟨hwf1, hcons1⟩ := h2 st1 hs
      simp only [Except.map, bind, Except.bind]
      exact ih st1 hwf1 hcons1

theorem run_ops_linked :
    ∀ (ops : List Op) (st st' : BattleField × List String), WF st.1 → Consistent st.1 →
      run_ops ops st = .ok st' → WF st'.1 ∧ Consistent st'.1 := by
  intro ops
  induction ops with
  | nil =>
    intro st st' hwf hcons h
    simp only [run_ops, Except.ok.injEq] at h
    rw [← h]
    exact ⟨hwf, hcons⟩
  | cons op ops ih =>
    intro st st' hwf hcons h
    unfold run_ops at h
    cases hs : apply_op st op with
    | error e => simp only [hs, bind, Except.bind] at h; cases h
    | ok st1 =>
      simp only [hs, bind, Except.bind] at h
      obtain ⟨hwf1, hcons1⟩ := (toShared_apply_op st hwf hcons op).2 st1 hs
      exact ih st1 st' hwf1 hcons1 h

/-- C31: the two occupancy variants are observationally equivalent: started from the
    same sizes and heights and given the same sequence of calls of `spawn_unit`,
    `move_unit`, `attack_unit`, `update_tick` and `state` (any arguments, any tick
    times), the battle field of `VectorCopy.cpp` raises the same exception at the same
    call as the battle field of `Lab.cpp`, and otherwise ends with the same output, the
    same sizes, time and registry, the same heights and, on every tile, exactly the
    unit (with its hp, stored coordinate and effects) that the tile of `Lab.cpp`
    holds, and prints the same snapshot.  (The loop of `VectorCopy.cpp` over the
    victims of an attack is taken slot by slot, as `attack_victims` states it.) -/
theorem C31_occupancy_variants_are_equivalent (M N : Int) (input : List Int)
    (ops : List Op) :
    VectorCopy.run_ops ops (VectorCopy.BattleField.new M N input, []) =
      (run_ops ops (BattleField.new M N input, [])).map (fun r => (r.1.toShared, r.2)) ∧
    (∀ (k : Nat) (e : Err),
      run_ops (ops.take k) (BattleField.new M N input, []) = .error e ↔
      VectorCopy.run_ops (ops.take k) (VectorCopy.BattleField.new M N input, []) =
        .error e) ∧
    (∀ bf out, run_ops ops (BattleField.new M N input, []) = .ok (bf, out) →
      ∃ vbf, VectorCopy.run_ops ops (VectorCopy.BattleField.new M N input, []) =
          .ok (vbf, out) ∧
        vbf.M = bf.M ∧ vbf.N = bf.N ∧ vbf.time = bf.time ∧
        vbf.coordinates = bf.coordinates ∧
        (∀ c, (VectorCopy.tileD vbf c).height = (tileD bf c).height ∧
          (VectorCopy.tileD vbf c).units = (unitAt bf c).toList) ∧
        VectorCopy.state vbf = state bf) := by
  have hinv := Inv_new M N input
  have hgen : ∀ ops' : List Op,
      VectorCopy.run_ops ops' (VectorCopy.BattleField.new M N input, []) =
        (run_ops ops' (BattleField.new M N input, [])).map
          (fun r => (r.1.toShared, r.2)) := by
    intro ops'
    have := toShared_run_ops ops' (BattleField.new M N input, []) hinv.wf hinv.cons
    rw [toShared_new] at this
    exact this
  refine ⟨hgen ops, ?_, ?_⟩
  · intro k e
    rw [hgen (ops.take k)]
    cases run_ops (ops.take k) (BattleField.new M N input, []) with
    | error e' =>
      constructor
      · intro h; cases h; rfl
      · intro h
        simp only [Except.map, Except.error.injEq] at h
        rw [h]
    | ok st =>
      constructor
      · intro h; cases h
      · intro h
        simp only [Except.map] at h
        cases h
  · intro bf out hok
    obtain ⟨hwf, hcons⟩ := run_ops_linked ops _ _ hinv.wf hinv.cons hok
    refine ⟨bf.toShared, ?_, rfl, rfl, rfl, rfl, ?_, toShared_state bf hwf hcons⟩
    · rw [hgen ops, hok]
      rfl
    · intro c
      rw [toShared_tileD, unitAt_eq_tileD]
      exact ⟨rfl, rfl⟩

theorem C31_occupancy_variants_are_equivalent_witness :
    run_ops [.spawn "footman" "a" 0 0, .spawn "knight" "b" 0 2, .move "a" 0 2,
        .attack "b" "left", .move "a" 0 1, .state]
      (BattleField.new 1 3 [0, 0, 0], []) =
      .ok ({ M := 1, N := 3, time := 0,
             field := [[{ height := 0, unit := none },
                        { height := 0,
                          unit := some (((Footman "a" (0, 0)).set_coor (0, 1)).add_effect
                            (DeadInside 1)) },
                        { height := 0, unit := some (Knight "b" (0, 2)) }]],
             coordinates := [("a", (0, 1)), ("b", (0, 2))] },
           ["a footman (1, 2) 20", "b knight (1, 3) 50", "---"]) ∧
    VectorCopy.run_ops [.spawn "footman" "a" 0 0, .spawn "knight" "b" 0 2, .move "a" 0 2,
        .attack "b" "left", .move "a" 0 1, .state]
      (VectorCopy.BattleField.new 1 3 [0, 0, 0], []) =
      (run_ops [.spawn "footman" "a" 0 0, .spawn "knight" "b" 0 2, .move "a" 0 2,
        .attack "b" "left", .move "a" 0 1, .state]
      (BattleField.new 1 3 [0, 0, 0], [])).map (fun r => (r.1.toShared, r.2)) :=
  ⟨by decide,
    (C31_occupancy_variants_are_equivalent 1 3 [0, 0, 0]
      [.spawn "footman" "a" 0 0, .spawn "knight" "b" 0 2, .move "a" 0 2,
        .attack "b" "left", .move "a" 0 1, .state]).1⟩

end Battle
